import Mathlib

/-!
# Vespucci spectral dataset engine

A shallow embedding of `VespucciDataset` (src/vespuccidataset.cpp): the data
model, the in-place preprocessing transforms and the mapping functions.

Conventions of the embedding.

* A C++ `double` is an element of `Dbl K`: either a finite number `fin v`,
  with `v` in a linearly ordered field `K` (exact arithmetic; `ℚ` evaluates,
  `ℝ` has square roots), or `nonfin`, a value that is not a finite number
  (NaN, +Inf, -Inf: what a division by zero leaves) or was computed from one.
  Rounding is not modelled. Arithmetic and the Armadillo reductions (`sum`,
  `min`, `max`, `mean`, `median`) are strict: a non-finite operand or entry
  gives a non-finite result, and a comparison with one is false.
* An Armadillo matrix is a column count together with the list of its rows.
  Reading outside a matrix or vector (undefined behaviour, or an Armadillo
  exception) makes the operation return `none`.
* `uword` is a natural number modulo `2 ^ 64` where a subtraction can wrap.
* The log stream, message boxes, progress dialogs and map windows are
  presentation collaborators and are left out of the state.
-/

set_option autoImplicit false

namespace Vespucci

/-! ## Numbers -/

/-- A `double`: a finite value of the field `K`, or a non-finite value. -/
inductive Dbl (K : Type) where
  | fin (v : K)
  | nonfin
  deriving DecidableEq

namespace Dbl

variable {K : Type} [LinearOrderedField K]

/-- Addition of doubles, `a + b`. -/
def add : Dbl K → Dbl K → Dbl K
  | fin a, fin b => fin (a + b)
  | _, _ => nonfin

/-- Subtraction of doubles, `a - b`. -/
def sub : Dbl K → Dbl K → Dbl K
  | fin a, fin b => fin (a - b)
  | _, _ => nonfin

/-- Multiplication of doubles, `a * b`. -/
def mul : Dbl K → Dbl K → Dbl K
  | fin a, fin b => fin (a * b)
  | _, _ => nonfin

/-- Division of doubles, `a / b`: dividing by zero leaves a non-finite value. -/
def div : Dbl K → Dbl K → Dbl K
  | fin a, fin b => if b = 0 then nonfin else fin (a / b)
  | _, _ => nonfin

/-- Absolute value, `fabs(a)`. -/
def fabs : Dbl K → Dbl K
  | fin a => fin |a|
  | nonfin => nonfin

/-- Comparison `a < b` of doubles; false as soon as a NaN is involved. -/
def lt : Dbl K → Dbl K → Bool
  | fin a, fin b => decide (a < b)
  | _, _ => false

/-- Comparison `a > b` of doubles. -/
def gt (a b : Dbl K) : Bool := lt b a

/-- Comparison `a == b` of doubles. -/
def eq : Dbl K → Dbl K → Bool
  | fin a, fin b => decide (a = b)
  | _, _ => false

/-- The larger of two doubles (Armadillo `max` accumulates with it). -/
def max : Dbl K → Dbl K → Dbl K
  | fin a, fin b => fin (Max.max a b)
  | _, _ => nonfin

/-- The smaller of two doubles (Armadillo `min` accumulates with it). -/
def min : Dbl K → Dbl K → Dbl K
  | fin a, fin b => fin (Min.min a b)
  | _, _ => nonfin

/-- Conversion of an unsigned integer to `double`. -/
def ofNat (n : Nat) : Dbl K := fin (n : K)

/-- Whether the double is a finite number. -/
def isFin : Dbl K → Bool
  | fin _ => true
  | nonfin => false

end Dbl

/-! ## Vectors and matrices -/

/-- A vector of doubles (`rowvec`, `colvec`). -/
abbrev Vec (K : Type) := List (Dbl K)

/-- An Armadillo `mat`: `n_cols` and the rows, top to bottom. -/
structure Mat (K : Type) where
  n_cols : Nat := 0
  rows : List (Vec K) := []
  deriving DecidableEq

section Basics

variable {K : Type} [LinearOrderedField K]

/-- Embedding of a vector of finite numbers. -/
def liftVec (v : List K) : Vec K := v.map Dbl.fin

/-- Embedding of a rectangular table of finite numbers with `m` columns. -/
def liftMat (m : Nat) (t : List (List K)) : Mat K := { n_cols := m, rows := t.map liftVec }

/-- Number of rows, `n_rows`. -/
def Mat.n_rows (m : Mat K) : Nat := m.rows.length

/-- Number of entries, `n_elem`. -/
def Mat.n_elem (m : Mat K) : Nat := m.n_rows * m.n_cols

/-- Rectangularity: every row has `n_cols` entries. -/
def Mat.wf (m : Mat K) : Prop := ∀ r ∈ m.rows, r.length = m.n_cols

instance (m : Mat K) : Decidable m.wf := by
  unfold Mat.wf; infer_instance

/-- All entries of the matrix. -/
def Mat.entries (m : Mat K) : Vec K := m.rows.flatten

/-- Checked element access `m(i, j)`. -/
def Mat.elem (m : Mat K) (i j : Nat) : Option (Dbl K) :=
  if j < m.n_cols then (m.rows[i]?).bind (fun r => r[j]?) else none

/-- Checked row access `m.row(i)`. -/
def Mat.row (m : Mat K) (i : Nat) : Option (Vec K) := m.rows[i]?

/-- Column `j` read off the rows, `m.col(j)`. -/
def Mat.col (m : Mat K) (j : Nat) : Option (Vec K) :=
  if j < m.n_cols then m.rows.mapM (fun r => r[j]?) else none

/-- Armadillo `shed_row(i)` on a matrix: fails outside the matrix. -/
def Mat.shed_row (m : Mat K) (i : Nat) : Option (Mat K) :=
  if i < m.n_rows then some { m with rows := m.rows.eraseIdx i } else none

/-- Armadillo `shed_row(i)` on a column vector: fails outside the vector. -/
def shed_row {α : Type} (v : List α) (i : Nat) : Option (List α) :=
  if i < v.length then some (v.eraseIdx i) else none

/-- Checked vector access `v(i)`. -/
def vget {α : Type} (v : List α) (i : Nat) : Option α := v[i]?

/-- Sub-vector `v(span(a, b))`, both ends included; fails when `b < a` or
`b` is outside the vector. -/
def span {α : Type} (v : List α) (a b : Nat) : Option (List α) :=
  if a ≤ b ∧ b < v.length then some ((v.drop a).take (b - a + 1)) else none

/-- Armadillo `sum` of a vector. -/
def vsum (v : Vec K) : Dbl K := v.foldl Dbl.add (Dbl.fin 0)

/-- Armadillo `max` of a vector; fails on an empty one. -/
def vmax : Vec K → Option (Dbl K)
  | [] => none
  | a :: v => some (v.foldl Dbl.max a)

/-- Armadillo `min` of a vector; fails on an empty one. -/
def vmin : Vec K → Option (Dbl K)
  | [] => none
  | a :: v => some (v.foldl Dbl.min a)

end Basics

/-! ## Data model -/

section Model

variable {K : Type} [LinearOrderedField K]

/-- Modelled from the spec: the `MapData` class is not among the sources. A
derived map has a name, a map type label, a result vector aligned with the
spatial coordinates it was created with, and optional diagnostics (baseline
curves with their abscissa, half-maximum mid lines, the crisp-clusters hint). -/
structure MapData (K : Type) where
  name : String := ""
  map_type : String := ""
  x : List K := []
  y : List K := []
  results : Vec K := []
  baseline : Option (List K × Mat K) := none
  baselines : Option (List K × List K × Mat K × Mat K) := none
  fwhm : Option (Mat K) := none
  crisp_clusters : Bool := false
  deriving DecidableEq

/-- Modelled from the spec: `PrincipalComponentsData` is not among the
sources; it keeps the score matrix and hands out one score column. -/
structure PrincipalComponentsData (K : Type) where
  tscore : Mat K := {}
  deriving DecidableEq

/-- Modelled from the spec: `VCAData` is not among the sources; it keeps the
per-pixel abundances, one column for each endmember. -/
structure VCAData (K : Type) where
  fractional_abundances : Mat K := {}
  deriving DecidableEq

/-- Modelled from the spec: `PLSData` is not among the sources; it keeps the
score columns of the regression. -/
structure PLSData (K : Type) where
  X_scores : Mat K := {}
  deriving DecidableEq

/-- The members of `VespucciDataset` that the engine reads and writes. The
three analysis pointers are `none` while they point to nothing. -/
structure VespucciDataset (K : Type) where
  spectra_ : Mat K := {}
  spectra_old_ : Mat K := {}
  wavelength_ : List K := []
  x_ : List K := []
  y_ : List K := []
  non_spatial_ : Bool := false
  z_scores_calculated_ : Bool := false
  last_operation_ : String := ""
  maps_ : List (MapData K) := []
  map_names_ : List String := []
  map_loading_count_ : Int := 0
  principal_components_calculated_ : Bool := false
  principal_components_data_ : Option (PrincipalComponentsData K) := none
  vertex_components_calculated_ : Bool := false
  vertex_components_data_ : Option (VCAData K) := none
  partial_least_squares_calculated_ : Bool := false
  partial_least_squares_data_ : Option (PLSData K) := none
  k_means_calculated_ : Bool := false
  k_means_data_ : Mat K := {}
  deriving DecidableEq

/-! ## Pre-processing -/

/-- `VespucciDataset::Undo`: swaps `spectra_` and `spectra_old_`. -/
def VespucciDataset.Undo (d : VespucciDataset K) : VespucciDataset K :=
  let buffer := d.spectra_
  { d with last_operation_ := "Undo", spectra_ := d.spectra_old_, spectra_old_ := buffer }

/-- The test of `CropSpectra` on one point: true when the point lies outside
the rectangle and its row is deleted. -/
def cropOutside (x_min x_max y_min y_max xi yi : K) : Bool :=
  decide (xi < x_min) || decide (xi > x_max) || decide (yi < y_min) || decide (yi > y_max)

/-- The loop of `CropSpectra`, `for (int i = ...; i < max; ++i)`, started at
`i` with the current `max`; each unit of `fuel` pays for one iteration, and
`none` is an access outside the data or fuel that ran out. -/
def cropLoop (x_min x_max y_min y_max : K) :
    Nat → Int → Int → Mat K × List K × List K → Option (Mat K × List K × List K)
  | fuel, i, max, (s, x, y) =>
    if i < max then
      match fuel with
      | 0 => none
      | fuel + 1 =>
        if i < 0 then none else
        match vget x i.toNat, vget y i.toNat with
        | some xi, some yi =>
          if cropOutside x_min x_max y_min y_max xi yi then
            match s.shed_row i.toNat, shed_row x i.toNat, shed_row y i.toNat with
            | some s1, some x1, some y1 =>
              cropLoop x_min x_max y_min y_max fuel ((i - 1) + 1) (max - 1) (s1, x1, y1)
            | _, _, _ => none
          else
            cropLoop x_min x_max y_min y_max fuel (i + 1) max (s, x, y)
        | _, _ => none
    else some (s, x, y)

/-- `VespucciDataset::CropSpectra`: `max` starts as `x_.n_rows`, which is
also enough fuel for the loop. -/
def VespucciDataset.CropSpectra (d : VespucciDataset K) (x_min x_max y_min y_max : K) :
    Option (VespucciDataset K) :=
  match cropLoop x_min x_max y_min y_max d.x_.length 0 d.x_.length (d.spectra_, d.x_, d.y_) with
  | some (s, x, y) => some { d with spectra_ := s, x_ := x, y_ := y, last_operation_ := "crop" }
  | none => none

/-! ### What the engine takes from its libraries -/

/-- The library routines and memory contents the sources rely on and do not
contain: `std::sqrt` (inside Armadillo `stddev`), the contents of memory that
`set_size` leaves uninitialised, and the decompositions behind
`PrincipalComponentsData::Apply`, `VCAData::Apply`, `PLSData::Apply` (with its
success flag) and `mlpack::kmeans::KMeans::Cluster` (0-based assignments). -/
structure Env (K : Type) where
  sqrt : K → K
  uninit : Nat → Nat → Dbl K
  princomp : Mat K → PrincipalComponentsData K
  vca : Mat K → Nat → VCAData K
  plsregress : Mat K → List K → Nat → Bool × PLSData K
  kmeans : Mat K → Nat → List Nat

/-- Number of values of a `uword`. -/
def UWORD : Nat := 2 ^ 64

/-- Subtraction of `uword`s, wrapping around below zero. -/
def usub (a b : Nat) : Nat := (a + UWORD - b % UWORD) % UWORD

/-- The loop `for (j = a; j < a + n; ++j) body`, threading the state and
stopping at the first failure. -/
def forLoop {σ : Type} (body : Nat → σ → Option σ) : Nat → Nat → σ → Option σ
  | 0, _, st => some st
  | n + 1, j, st => (body j st).bind (forLoop body n (j + 1))

/-- Checked write `v(j) = a`. -/
def vset {α : Type} (v : List α) (j : Nat) (a : α) : Option (List α) :=
  if j < v.length then some (v.set j a) else none

/-- Entrywise image of a matrix. -/
def Mat.map (f : Dbl K → Dbl K) (m : Mat K) : Mat K :=
  { m with rows := m.rows.map (fun r => r.map f) }

/-- Armadillo `m.min()`, over all entries; fails on a matrix with no entry. -/
def Mat.min (m : Mat K) : Option (Dbl K) := vmin m.entries

/-- Armadillo `m.max()`, over all entries; fails on a matrix with no entry. -/
def Mat.max (m : Mat K) : Option (Dbl K) := vmax m.entries

/-- Armadillo `mean` of a vector: the sum over the count; fails on an empty
vector. -/
def vmean (v : Vec K) : Option (Dbl K) :=
  if v.length = 0 then none else some (Dbl.div (vsum v) (Dbl.ofNat v.length))

/-- Armadillo `var` of a vector with the default normalisation `N - 1`: zero
for a single element, fails on an empty vector. -/
def vvar (v : Vec K) : Option (Dbl K) :=
  match vmean v with
  | none => none
  | some mu =>
    if v.length < 2 then some (Dbl.fin 0)
    else
      some (Dbl.div (vsum (v.map (fun a => Dbl.mul (Dbl.sub a mu) (Dbl.sub a mu))))
        (Dbl.ofNat (v.length - 1)))

/-- Armadillo `stddev` of a vector: the square root of `var`. -/
def vstddev (env : Env K) (v : Vec K) : Option (Dbl K) :=
  match vvar v with
  | some (Dbl.fin a) => some (Dbl.fin (env.sqrt a))
  | some Dbl.nonfin => some Dbl.nonfin
  | none => none

/-- The finite values of a vector, when all of them are finite. -/
def finiteValues : Vec K → Option (List K)
  | [] => some []
  | Dbl.fin a :: v => (finiteValues v).map (fun l => a :: l)
  | Dbl.nonfin :: _ => none

/-- Armadillo `median` of a vector: the middle element of the sorted values,
the mean of the two middle ones for an even count; fails on an empty vector.
A window holding a non-finite value has a non-finite median. -/
def vmedian (v : Vec K) : Option (Dbl K) :=
  if v.length = 0 then none else
  match finiteValues v with
  | none => some Dbl.nonfin
  | some l =>
    let sorted := l.insertionSort (fun a b => a ≤ b)
    if l.length % 2 = 1 then (sorted[l.length / 2]?).map Dbl.fin
    else
      match sorted[l.length / 2 - 1]?, sorted[l.length / 2]? with
      | some a, some b => some (Dbl.fin ((a + b) / 2))
      | _, _ => none

/-! ### Normalisation -/

/-- `VespucciDataset::MinMaxNormalize`. -/
def VespucciDataset.MinMaxNormalize (d : VespucciDataset K) : Option (VespucciDataset K) :=
  match d.spectra_.min with
  | none => none
  | some minimum =>
    let shifted :=
      if Dbl.lt minimum (Dbl.fin 0) then d.spectra_.map (fun a => Dbl.sub a minimum)
      else d.spectra_
    match shifted.max with
    | none => none
    | some maximum =>
      some { d with
        spectra_old_ := d.spectra_,
        spectra_ := shifted.map (fun a => Dbl.div a maximum),
        last_operation_ := "min/max normalize" }

/-- One row of `UnitAreaNormalize`: every entry over the sum of the row. -/
def unitAreaRow (row : Vec K) : Vec K :=
  let row_sum := vsum row
  row.map (fun a => Dbl.div a row_sum)

/-- `VespucciDataset::UnitAreaNormalize`. -/
def VespucciDataset.UnitAreaNormalize (d : VespucciDataset K) : VespucciDataset K :=
  { d with
    spectra_old_ := d.spectra_,
    spectra_ := { d.spectra_ with rows := d.spectra_.rows.map unitAreaRow },
    last_operation_ := "unit area normalize" }

/-- The inner loop of the z-score transforms on column `j`: every
`m(i, j)` becomes `(m(i, j) - mean) / standard_deviation`. -/
def Mat.rescaleCol (m : Mat K) (j : Nat) (mean standard_deviation : Dbl K) : Mat K :=
  let f : Dbl K → Dbl K := fun a => Dbl.div (Dbl.sub a mean) standard_deviation
  { m with rows := m.rows.map (fun r => r.modify f j) }

/-- The body of the column loop of `ZScoreNormalize`: mean and standard
deviation of the current column `j`, then the column is rewritten in place. -/
def zscoreStep (env : Env K) (j : Nat) (m : Mat K) : Option (Mat K) :=
  match m.col j with
  | none => none
  | some c =>
    match vmean c, vstddev env c with
    | some mean, some standard_deviation => some (m.rescaleCol j mean standard_deviation)
    | _, _ => none

/-- `VespucciDataset::ZScoreNormalize`. -/
def VespucciDataset.ZScoreNormalize (env : Env K) (d : VespucciDataset K) :
    Option (VespucciDataset K) :=
  match forLoop (zscoreStep env) d.spectra_.n_cols 0 d.spectra_ with
  | none => none
  | some s =>
    some { d with
      spectra_old_ := d.spectra_,
      spectra_ := s,
      z_scores_calculated_ := true,
      last_operation_ := "Z-score normalize" }

/-- The body of the column loop of `ZScoreNormCopy`: statistics of column `j`
of `spectra_`, written to column `j` of the copy. -/
def zscoreCopyStep (env : Env K) (src : Mat K) (j : Nat) (copy : Mat K) : Option (Mat K) :=
  match src.col j with
  | none => none
  | some c =>
    match vmean c, vstddev env c with
    | some mean, some standard_deviation =>
      let write : Vec K → Vec K → Vec K := fun rs rc =>
        match rs[j]? with
        | some a => rc.set j (Dbl.div (Dbl.sub a mean) standard_deviation)
        | none => rc
      some { copy with rows := List.zipWith write src.rows copy.rows }
    | _, _ => none

/-- `VespucciDataset::ZScoreNormCopy`: the dataset is not touched. -/
def VespucciDataset.ZScoreNormCopy (env : Env K) (d : VespucciDataset K) : Option (Mat K) :=
  let normalized_copy : Mat K :=
    { n_cols := d.spectra_.n_cols,
      rows := (List.range d.spectra_.n_rows).map
        (fun i => (List.range d.spectra_.n_cols).map (fun j => env.uninit i j)) }
  forLoop (zscoreCopyStep env d.spectra_) d.spectra_.n_cols 0 normalized_copy

/-! ### Background and baseline -/

/-- `VespucciDataset::SubtractBackground`: the snapshot is taken before the
dimensions are compared; `each_row() -= background.row(0)` fails when the
background has no row. -/
def VespucciDataset.SubtractBackground (d : VespucciDataset K) (background : Mat K) :
    Option (VespucciDataset K) :=
  let d1 := { d with spectra_old_ := d.spectra_ }
  if background.n_cols ≠ d1.spectra_.n_cols then some d1
  else
    match background.row 0 with
    | none => none
    | some b =>
      some { d1 with
        spectra_ := { d1.spectra_ with
          rows := d1.spectra_.rows.map (fun r => List.zipWith Dbl.sub r b) },
        last_operation_ := "background correction" }

/-- Checked read `spectra_(i, j)` inside row `i`, given as `row`. -/
def rowElem (columns : Nat) (row : Vec K) (j : Nat) : Option (Dbl K) :=
  if j < columns then row[j]? else none

/-- The body `processed(i, j) = spectra_(i, j)` of the two copying loops. -/
def copyStep (columns : Nat) (row : Vec K) (j : Nat) (processed : Vec K) : Option (Vec K) :=
  match rowElem columns row j with
  | none => none
  | some a => vset processed j a

/-- The body of the filtering loop: the window `span(j - starting_index,
j + starting_index)` is read from `spectra_` and its median is written to
`processed(i, j)`. -/
def medianStep (starting_index : Nat) (row : Vec K) (j : Nat) (processed : Vec K) :
    Option (Vec K) :=
  match span row (j - starting_index) (j + starting_index) with
  | none => none
  | some window =>
    match vmedian window with
    | none => none
    | some a => vset processed j a

/-- The three inner loops shared by `Baseline` and `MedianFilter` on row `i`:
copy below `starting_index`, copy from `ending_index` on, medians between. -/
def medianRow (env : Env K) (starting_index ending_index columns : Nat) (i : Nat)
    (row : Vec K) : Option (Vec K) :=
  let processed : Vec K := (List.range columns).map (env.uninit i)
  (forLoop (copyStep columns row) starting_index 0 processed).bind fun p1 =>
  (forLoop (copyStep columns row) (columns - ending_index) ending_index p1).bind fun p2 =>
  forLoop (medianStep starting_index row) (ending_index - starting_index) starting_index p2

/-- The loop over the rows `i, i + 1, ...` of a matrix. -/
def mapRowsM (f : Nat → Vec K → Option (Vec K)) : Nat → List (Vec K) → Option (List (Vec K))
  | _, [] => some []
  | i, r :: rs =>
    match f i r with
    | none => none
    | some r1 => (mapRowsM f (i + 1) rs).map (fun t => r1 :: t)

/-- The matrix `processed` that `Baseline` and `MedianFilter` build. -/
def medianProcessed (env : Env K) (d : VespucciDataset K) (starting_index : Nat) :
    Option (Mat K) :=
  let ending_index := usub d.wavelength_.length starting_index
  let columns := d.spectra_.n_cols
  (mapRowsM (medianRow env starting_index ending_index columns) 0 d.spectra_.rows).map
    fun rows => { n_cols := columns, rows := rows }

/-- Armadillo `A -= B`, entry by entry. -/
def Mat.sub (a b : Mat K) : Mat K :=
  { a with rows := List.zipWith (fun ra rb => List.zipWith Dbl.sub ra rb) a.rows b.rows }

/-- `VespucciDataset::Baseline`; `window_size` is an `int`, and a negative
size makes `window.set_size` fail. -/
def VespucciDataset.Baseline (env : Env K) (d : VespucciDataset K) (method : String)
    (window_size : Int) : Option (VespucciDataset K) :=
  let d1 := { d with spectra_old_ := d.spectra_ }
  if method = "Median Filter" then
    let starting_index := (Int.tdiv (window_size - 1) 2 % (UWORD : Int)).toNat
    if window_size < 0 then none
    else
      match medianProcessed env d1 starting_index with
      | none => none
      | some processed =>
        some { d1 with
          spectra_ := d1.spectra_.sub processed,
          last_operation_ := "baseline correction" }
  else some { d1 with last_operation_ := "baseline correction" }

/-- `VespucciDataset::MedianFilter`; `window_size` is an `unsigned int`, so
`window_size - 1` wraps modulo `2 ^ 32`. -/
def VespucciDataset.MedianFilter (env : Env K) (d : VespucciDataset K) (window_size : Nat) :
    Option (VespucciDataset K) :=
  let d1 := { d with spectra_old_ := d.spectra_ }
  let starting_index := ((window_size + 2 ^ 32 - 1) % 2 ^ 32) / 2
  match medianProcessed env d1 starting_index with
  | none => none
  | some processed =>
    some { d1 with spectra_ := processed, last_operation_ := "median filter" }

/-! ### Map registry -/

/-- `VespucciDataset::AddMap`. -/
def VespucciDataset.AddMap (d : VespucciDataset K) (map : MapData K) : VespucciDataset K :=
  let name := map.name
  { d with
    maps_ := d.maps_ ++ [map],
    map_names_ := d.map_names_ ++ [name],
    map_loading_count_ := d.map_loading_count_ + 1 }

/-! ### Univariate mapping -/

/-- Checked linear access `m(k)` into the column-major storage. -/
def Mat.lin (m : Mat K) (k : Nat) : Option (Dbl K) :=
  if k < m.n_elem then m.elem (k % m.n_rows) (k / m.n_rows) else none

/-- The loop `for (j = a; j < a + n; ++j) if (test j) (hit = j; break;)`:
the first hit if there is one; `none` when a test reads outside the data. -/
def findUp (test : Nat → Option Bool) : Nat → Nat → Option (Option Nat)
  | 0, _ => some none
  | n + 1, j =>
    match test j with
    | none => none
    | some true => some (some j)
    | some false => findUp test n (j + 1)

/-- The loop `for (j = a; j > 0; --j) if (test j) (hit = j; break;)`. -/
def findDown (test : Nat → Option Bool) : Nat → Option (Option Nat)
  | 0 => some none
  | j + 1 =>
    match test (j + 1) with
    | none => none
    | some true => some (some (j + 1))
    | some false => findDown test j

/-- The local baseline of a row: `baselines(i, j) = j*slope + start_value`
for `j = 0 .. max - min`, with
`slope = (end_value - start_value) / (max - min)`. -/
def baselineRow (start_value end_value : Dbl K) (min max : Nat) : Vec K :=
  let slope := Dbl.div (Dbl.sub end_value start_value) (Dbl.ofNat (usub max min))
  (List.range (usub max min + 1)).map
    (fun j => Dbl.add (Dbl.mul (Dbl.ofNat j) slope) start_value)

/-- The half maximum of the bandwidth method, as the source computes it:
`(maximum - baseline / 2.0) + baseline`. -/
def half_maximum (maximum baseline : Dbl K) : Dbl K :=
  Dbl.add (Dbl.sub maximum (Dbl.div baseline (Dbl.fin 2))) baseline

/-- The test `spectra_(i, j) - half_maximum < 0` of the two edge searches. -/
def belowHalf (columns : Nat) (row : Vec K) (h : Dbl K) (j : Nat) : Option Bool :=
  (rowElem columns row j).map (fun a => Dbl.lt (Dbl.sub a h) (Dbl.fin 0))

/-- The correction of the left edge: `--left_index` when
`fabs(spectra_(i, left_index) - h) < fabs(spectra_(i, left_index - 1) - h)`. -/
def adjustLeft (columns : Nat) (row : Vec K) (h : Dbl K) (left_index : Nat) : Option Nat :=
  match rowElem columns row left_index, rowElem columns row (usub left_index 1) with
  | some a, some b =>
    if Dbl.lt (Dbl.fabs (Dbl.sub a h)) (Dbl.fabs (Dbl.sub b h)) then some (usub left_index 1)
    else some left_index
  | _, _ => none

/-- The correction of the right edge: `++right_index` when
`fabs(spectra_(i, right_index) - h) < fabs(spectra_(i, right_index + 1) - h)`. -/
def adjustRight (columns : Nat) (row : Vec K) (h : Dbl K) (right_index : Nat) : Option Nat :=
  match rowElem columns row right_index, rowElem columns row ((right_index + 1) % UWORD) with
  | some a, some b =>
    if Dbl.lt (Dbl.fabs (Dbl.sub a h)) (Dbl.fabs (Dbl.sub b h))
    then some ((right_index + 1) % UWORD)
    else some right_index
  | _, _ => none

/-- What the bandwidth loop carries from one row to the next (the three
indices are declared outside the loop) and what it has written so far. -/
structure BandwidthState (K : Type) where
  max_index : Nat := 0
  left_index : Nat := 0
  right_index : Nat := 0
  results : Vec K := []
  baselines : List (Vec K) := []
  mid_lines : List (Vec K) := []

/-- First part of the body of the bandwidth loop for row `i`: the baseline
row, the maximum of the region, its index (the index of the previous row when
the search does not hit) and the half maximum. -/
def bandwidthPeak (d : VespucciDataset K) (min max : Nat) (i : Nat) (st : BandwidthState K) :
    Option (Vec K × Vec K × Dbl K × Nat × Dbl K) :=
  let columns := d.spectra_.n_cols
  match d.spectra_.row i, d.spectra_.elem i min, d.spectra_.elem i max with
  | some row, some start_value, some end_value =>
    let base := baselineRow start_value end_value min max
    match (span row min max).bind vmax with
    | none => none
    | some maximum =>
      let isMax : Nat → Option Bool := fun j =>
        (rowElem columns row j).map
          (fun a => Dbl.eq maximum a && decide (j ≥ min) && decide (j ≤ max))
      match findUp isMax columns 0 with
      | none => none
      | some hit =>
        let max_index := hit.getD st.max_index
        let local_max_index : Int := (max_index : Int) - (min : Int)
        if local_max_index < 0 then none
        else
          match base[local_max_index.toNat]? with
          | none => none
          | some b => some (row, base, maximum, max_index, half_maximum maximum b)
  | _, _, _ => none

/-- Second part: the two edge searches from `max_index`, to the left down to
channel 1 and to the right up to the last channel; an edge that is not found
keeps the index of the previous row. -/
def bandwidthEdges (columns : Nat) (row : Vec K) (h : Dbl K) (max_index : Nat)
    (st : BandwidthState K) : Option (Nat × Nat) :=
  match findDown (belowHalf columns row h) max_index,
      findUp (belowHalf columns row h) (columns - max_index) max_index with
  | some hitl, some hitr => some (hitl.getD st.left_index, hitr.getD st.right_index)
  | _, _ => none

/-- The body of the row loop of the bandwidth method, for row `i`. -/
def bandwidthStep (d : VespucciDataset K) (min max : Nat) (i : Nat) (st : BandwidthState K) :
    Option (BandwidthState K) :=
  let columns := d.spectra_.n_cols
  match bandwidthPeak d min max i st with
  | none => none
  | some (row, base, _, max_index, h) =>
    match bandwidthEdges columns row h max_index st with
    | none => none
    | some (found_left, found_right) =>
      match adjustLeft columns row h found_left, adjustRight columns row h found_right with
      | some left_index, some right_index =>
        match vget d.wavelength_ left_index, vget d.wavelength_ right_index,
            d.spectra_.lin left_index, d.spectra_.lin right_index with
        | some wl, some wr, some sl, some sr =>
          some { max_index := max_index,
                 left_index := left_index,
                 right_index := right_index,
                 results := st.results ++ [Dbl.fabs (Dbl.sub (Dbl.fin wr) (Dbl.fin wl))],
                 baselines := st.baselines ++ [base],
                 mid_lines := st.mid_lines ++ [[Dbl.fin wl, sl, Dbl.fin wr, sr]] }
        | _, _, _, _ => none
      | _, _ => none

/-- The body of the row loop of the area method with a Riemann sum: the
baseline-corrected region of row `i` and its sum. -/
def areaRow (d : VespucciDataset K) (min max : Nat) (i : Nat) : Option (Dbl K × Vec K) :=
  match d.spectra_.row i, d.spectra_.elem i min, d.spectra_.elem i max with
  | some row, some start_value, some end_value =>
    let base := baselineRow start_value end_value min max
    match span row min max with
    | none => none
    | some region =>
      if region.length ≠ base.length then none
      else some (vsum (List.zipWith Dbl.sub region base), base)
  | _, _, _ => none

/-- The body of the row loop of the intensity method: the maximum of the
region of row `i`. -/
def intensityRow (d : VespucciDataset K) (min max : Nat) (i : Nat) : Option (Dbl K) :=
  ((d.spectra_.row i).bind (fun row => span row min max)).bind vmax

/-- The body of the row loop of the intensity method once z-scores were
calculated: the maximum, or minus the maximum of the absolute values when the
two differ. -/
def intensityRowZ (d : VespucciDataset K) (min max : Nat) (i : Nat) : Option (Dbl K) :=
  let spectra_temp := d.spectra_.map Dbl.fabs
  match ((d.spectra_.row i).bind (fun row => span row min max)).bind vmax,
      ((spectra_temp.row i).bind (fun row => span row min max)).bind vmax with
  | some peak_height, some peak_height_temp =>
    if !(Dbl.eq peak_height_temp peak_height) then
      some (Dbl.mul peak_height_temp (Dbl.fin (-1)))
    else some peak_height
  | _, _ => none

/-- `VespucciDataset::Univariate`. The colour gradient is presentation and
is not part of the model. -/
def VespucciDataset.Univariate (env : Env K) (d : VespucciDataset K) (min max : Nat)
    (name value_method integration_method : String) : Option (VespucciDataset K) :=
  if d.non_spatial_ then some d
  else
    let size := d.x_.length
    let fresh : Vec K := (List.range size).map (env.uninit 0)
    let finish : String → Vec K → Option (List K × Mat K) → Option (Mat K) →
        Option (VespucciDataset K) := fun map_type results baseline fwhm =>
      some (d.AddMap { name := name, map_type := map_type, x := d.x_, y := d.y_,
                       results := results, baseline := baseline, fwhm := fwhm })
    if value_method = "Bandwidth" then
      match span d.wavelength_ min max with
      | none => none
      | some abcissa =>
        match forLoop (bandwidthStep d min max) size 0 {} with
        | none => none
        | some st =>
          finish "1-Region Univariate (Bandwidth (FWHM))" st.results
            (if size ≠ 0 then some (abcissa, { n_cols := usub max min + 1, rows := st.baselines })
             else none)
            (if d.x_.length ≠ 0 then some { n_cols := 4, rows := st.mid_lines } else none)
    else if value_method = "Area" then
      match span d.wavelength_ min max with
      | none => none
      | some abcissa =>
        if integration_method = "Riemann Sum" then
          match (List.range size).mapM (areaRow d min max) with
          | none => none
          | some rs =>
            finish "1-Region Univariate (Area)" (rs.map (fun r => r.1))
              (if size ≠ 0 then
                some (abcissa, { n_cols := abcissa.length, rows := rs.map (fun r => r.2) })
               else none)
              none
        else finish "1-Region Univariate (Area)" fresh none none
    else if value_method = "Derivative" then
      finish "1-Region Univariate (Derivative)" fresh none none
    else if d.z_scores_calculated_ then
      match (List.range size).mapM (intensityRowZ d min max) with
      | none => none
      | some results => finish "1-Region Univariate (Intensity)" results none none
    else
      match (List.range size).mapM (intensityRow d min max) with
      | none => none
      | some results => finish "1-Region Univariate (Intensity)" results none none

/-- `VespucciDataset::BandRatio`. -/
def VespucciDataset.BandRatio (env : Env K) (d : VespucciDataset K)
    (first_min first_max second_min second_max : Nat)
    (name value_method integration_method : String) : Option (VespucciDataset K) :=
  if d.non_spatial_ then some d
  else
    let size := d.x_.length
    let fresh : Vec K := (List.range size).map (env.uninit 0)
    let finish : String → Vec K → Option (List K × List K × Mat K × Mat K) →
        Option (VespucciDataset K) := fun map_type results baselines =>
      some (d.AddMap { name := name, map_type := map_type, x := d.x_, y := d.y_,
                       results := results, baselines := baselines })
    if value_method = "Area" then
      if integration_method = "Riemann Sum" then
        match span d.wavelength_ first_min first_max, span d.wavelength_ second_min second_max with
        | some first_abcissa, some second_abcissa =>
          let ratioRow : Nat → Option (Dbl K × Vec K × Vec K) := fun i =>
            match areaRow d first_min first_max i, areaRow d second_min second_max i with
            | some (first_sum, b1), some (second_sum, b2) =>
              some (Dbl.div first_sum second_sum, b1, b2)
            | _, _ => none
          match (List.range size).mapM ratioRow with
          | none => none
          | some rs =>
            finish "2-Region Band Ratio Map (Area)" (rs.map (fun r => r.1))
              (if size ≠ 0 then
                some (first_abcissa, second_abcissa,
                  { n_cols := usub first_max first_min + 1, rows := rs.map (fun r => r.2.1) },
                  { n_cols := usub second_max second_min + 1, rows := rs.map (fun r => r.2.2) })
               else none)
        | _, _ => none
      else finish "2-Region Band Ratio Map (Area)" fresh none
    else if value_method = "Derivative" then
      finish "2-Region Band Ratio Map (Derivative)" fresh none
    else
      let ratioRow : Nat → Option (Dbl K) := fun i =>
        match intensityRow d first_min first_max i, intensityRow d second_min second_max i with
        | some a, some b => some (Dbl.div a b)
        | _, _ => none
      match (List.range size).mapM ratioRow with
      | none => none
      | some results => finish "2-Region Band Ratio Map (Intensity)" results none

/-! ### Multivariate mapping -/

/-- Modelled from the spec: `PrincipalComponentsData::Results` is not among
the sources; it returns the score column of the 0-based component. -/
def PrincipalComponentsData.Results (p : PrincipalComponentsData K) (component : Int) :
    Option (Vec K) :=
  if component < 0 then none else p.tscore.col component.toNat

/-- Modelled from the spec: `VCAData::Results` is not among the sources; it
returns the abundance column of the 0-based endmember. -/
def VCAData.Results (v : VCAData K) (endmember : Nat) : Option (Vec K) :=
  v.fractional_abundances.col endmember

/-- Modelled from the spec: `PLSData::NumberComponents` is not among the
sources; the number of computed components. -/
def PLSData.NumberComponents (p : PLSData K) : Nat := p.X_scores.n_cols

/-- Modelled from the spec: `PLSData::Results` is not among the sources. An
index beyond the computed components is clamped to the highest computed
component and reported through `valid = false`. -/
def PLSData.Results (p : PLSData K) (component : Nat) : Option (Vec K × Bool) :=
  if component ≥ p.NumberComponents then
    (p.X_scores.col (p.NumberComponents - 1)).map (fun c => (c, false))
  else (p.X_scores.col component).map (fun c => (c, true))

/-- `VespucciDataset::PrincipalComponents`; `ok` is the answer to the
question the function asks before it calculates (Ok or Cancel). -/
def VespucciDataset.PrincipalComponents (env : Env K) (d : VespucciDataset K) (component : Int)
    (name : String) (recalculate ok : Bool) : Option (VespucciDataset K) :=
  if d.non_spatial_ then some d
  else
    let finish : VespucciDataset K → Int → Option (VespucciDataset K) := fun d1 component =>
      let map_type := "(Principal Component " ++ toString (component + 1) ++ ")"
      match d1.principal_components_data_ with
      | none => none
      | some data =>
        match data.Results component with
        | none => none
        | some results =>
          some (d1.AddMap { name := name, map_type := map_type, x := d1.x_, y := d1.y_,
                            results := results })
    if recalculate || !d.principal_components_calculated_ then
      if !ok then some d
      else
        finish { d with
          principal_components_data_ := some (env.princomp d.spectra_),
          principal_components_calculated_ := true } (component - 1)
    else finish d component

/-- `VespucciDataset::VertexComponents`. -/
def VespucciDataset.VertexComponents (env : Env K) (d : VespucciDataset K)
    (endmembers image_component : Nat) (name : String) (recalculate : Bool) :
    Option (VespucciDataset K) :=
  if d.non_spatial_ then some d
  else
    let map_type := "(Vertex Component " ++ toString image_component ++ ")"
    let d1 :=
      if recalculate || !d.vertex_components_calculated_ then
        { d with
          vertex_components_data_ := some (env.vca d.spectra_ endmembers),
          vertex_components_calculated_ := true }
      else d
    match d1.vertex_components_data_ with
    | none => none
    | some data =>
      match data.Results (usub image_component 1) with
      | none => none
      | some results =>
        some (d1.AddMap { name := name, map_type := map_type, x := d1.x_, y := d1.y_,
                          results := results })

/-- `VespucciDataset::PartialLeastSquares`. -/
def VespucciDataset.PartialLeastSquares (env : Env K) (d : VespucciDataset K)
    (components image_component : Nat) (name : String) (recalculate : Bool) :
    Option (VespucciDataset K) :=
  if d.non_spatial_ then some d
  else
    let image_component := usub image_component 1
    let map_type := "Partial Least Squares Map number of components = "
    let run := recalculate || !d.partial_least_squares_calculated_
    let map_type := if run then map_type ++ toString components else map_type
    let d1 :=
      if run then
        let r := env.plsregress d.spectra_ d.wavelength_ components
        { d with
          partial_least_squares_data_ := some r.2,
          partial_least_squares_calculated_ := r.1 || d.partial_least_squares_calculated_ }
      else d
    match d1.partial_least_squares_data_ with
    | none => none
    | some data =>
      match data.Results image_component with
      | none => none
      | some (results, _) =>
        let map_type := map_type ++ toString data.NumberComponents
          ++ ". Component number " ++ toString image_component
        some (d1.AddMap { name := name, map_type := map_type, x := d1.x_, y := d1.y_,
                          results := results })

/-- Armadillo `trans`: the list of columns of a rectangular matrix. -/
def Mat.t (m : Mat K) : Mat K :=
  { n_cols := m.n_rows,
    rows := (List.range m.n_cols).map (fun j => m.rows.filterMap (fun r => r[j]?)) }

/-- `VespucciDataset::KMeans`: the labels are the assignments plus one, the
sum being taken in `size_t` before it is stored as a `double`. -/
def VespucciDataset.KMeans (env : Env K) (d : VespucciDataset K) (clusters : Nat)
    (name : String) : Option (VespucciDataset K) :=
  if d.non_spatial_ then some d
  else
    let map_type := "K-means clustering map. Number of clusters = " ++ toString clusters
    let assignments := env.kmeans d.spectra_.t clusters
    let labels : Vec K := assignments.map (fun a => Dbl.ofNat ((a + 1) % UWORD))
    let d1 := { d with
      k_means_data_ := { n_cols := 1, rows := labels.map (fun a => [a]) },
      k_means_calculated_ := true }
    some (d1.AddMap { name := name, map_type := map_type, x := d1.x_, y := d1.y_,
                      results := labels, crisp_clusters := true })

/-! ### The transforms that leave an undo snapshot -/

/-- The six transforms of the undo property, with their arguments. -/
inductive Transform (K : Type) where
  | MinMaxNormalize
  | UnitAreaNormalize
  | ZScoreNormalize
  | SubtractBackground (background : Mat K)
  | Baseline (method : String) (window_size : Int)
  | MedianFilter (window_size : Nat)

/-- Running a transform on a dataset. -/
def Transform.apply (env : Env K) : Transform K → VespucciDataset K → Option (VespucciDataset K)
  | .MinMaxNormalize, d => d.MinMaxNormalize
  | .UnitAreaNormalize, d => some d.UnitAreaNormalize
  | .ZScoreNormalize, d => d.ZScoreNormalize env
  | .SubtractBackground background, d => d.SubtractBackground background
  | .Baseline method window_size, d => d.Baseline env method window_size
  | .MedianFilter window_size, d => d.MedianFilter env window_size

/-- Arguments and data on which a transform is known to return: a matrix
with an entry for `MinMaxNormalize`; a rectangular matrix with a row for
`ZScoreNormalize`; a background with a row when its column count matches;
for the median methods a rectangular matrix as wide as the wavelength axis
and a window with `1 <= window_size <= n_cols`. -/
def Transform.valid : Transform K → VespucciDataset K → Prop
  | .MinMaxNormalize, d => d.spectra_.entries ≠ []
  | .UnitAreaNormalize, _ => True
  | .ZScoreNormalize, d => d.spectra_.wf ∧ d.spectra_.rows ≠ []
  | .SubtractBackground background, d =>
    background.n_cols = d.spectra_.n_cols → background.rows ≠ []
  | .Baseline method window_size, d =>
    method = "Median Filter" →
      d.spectra_.wf ∧ d.wavelength_.length = d.spectra_.n_cols ∧ d.spectra_.n_cols < UWORD
        ∧ 1 ≤ window_size ∧ window_size ≤ (d.spectra_.n_cols : Int)
  | .MedianFilter window_size, d =>
    d.spectra_.wf ∧ d.wavelength_.length = d.spectra_.n_cols ∧ d.spectra_.n_cols < UWORD
      ∧ 1 ≤ window_size ∧ window_size ≤ d.spectra_.n_cols ∧ window_size < 2 ^ 32

/-! ### The spec's words, for comparison -/

/-- The straight baseline of the spec at channel `j`: the line from the value
at channel `min` to the value at channel `max`. -/
def linearBaseline (row : List K) (min max : Nat) (j : Nat) : K :=
  row.getD min 0
    + ((j : K) - (min : K)) * ((row.getD max 0 - row.getD min 0) / ((max : K) - (min : K)))

/-- The area of the spec: the sum over the channels `j` of `[min, max]` of
the value at `j` minus the baseline at `j`. -/
def areaSpec (row : List K) (min max : Nat) : K :=
  ((List.range (max - min + 1)).map
    (fun k => row.getD (min + k) 0 - linearBaseline row min max (min + k))).sum

/-- The raw sum of the window `[min, max]` of a row. -/
def windowSum (row : List K) (min max : Nat) : K :=
  ((List.range (max - min + 1)).map (fun k => row.getD (min + k) 0)).sum

/-- The range property of the spec: every entry of the matrix is a finite
number of the closed interval `[0, 1]`. -/
def Mat.UnitRange (m : Mat K) : Prop :=
  ∀ e ∈ m.entries, ∃ v : K, e = Dbl.fin v ∧ 0 ≤ v ∧ v ≤ 1

/-- The z-score of a column in the spec's words: every entry minus the mean
of the column, over the standard deviation of the column. -/
def zscoreColumn (env : Env K) (c : Vec K) : Option (Vec K) :=
  match vmean c, vstddev env c with
  | some mean, some standard_deviation =>
    some (c.map (fun a => Dbl.div (Dbl.sub a mean) standard_deviation))
  | _, _ => none

/-- Every column can be read and is not empty. -/
def ColsReadable (m : Mat K) : Prop :=
  ∀ j, j < m.n_cols → ∃ c, m.col j = some c ∧ c ≠ []

/-- The rectangle of the spec, in the spec's words: `xMin <= x <= xMax` and
`yMin <= y <= yMax`. -/
def inRectangle (x_min x_max y_min y_max xi yi : K) : Bool :=
  decide (x_min ≤ xi ∧ xi ≤ x_max ∧ y_min ≤ yi ∧ yi ≤ y_max)

/-- The keep-mask of the spec: entry `i` tells whether point `i` of the
original `x`, `y` lies in the rectangle. -/
def keepMask (x_min x_max y_min y_max : K) (x y : List K) : List Bool :=
  List.zipWith (inRectangle x_min x_max y_min y_max) x y

/-- Compaction by a mask: the entries whose mask bit is set, in their order. -/
def applyMask {α : Type} : List Bool → List α → List α
  | true :: m, a :: l => a :: applyMask m l
  | false :: m, _ :: l => applyMask m l
  | _, _ => []

/-- A small dataset over `ℚ`: four points with three channels each, the
second and the fourth outside the unit square. -/
def cropExample : VespucciDataset ℚ :=
  { spectra_ := liftMat 3 [[1, 2, 3], [4, 5, 6], [7, 8, 9], [10, 11, 12]],
    wavelength_ := [100, 200, 300],
    x_ := [0, 5, 1, 1],
    y_ := [0, 0, 1, 2] }

/-- Library routines over `ℚ` for evaluation: the square root is exact on
squares of rationals, fresh memory holds 777, and the decompositions hand back
the data they were given. -/
def evalEnv : Env ℚ :=
  { sqrt := fun v => (Nat.sqrt v.num.toNat : ℚ) / (Nat.sqrt v.den : ℚ)
    uninit := fun _ _ => Dbl.fin 777
    princomp := fun m => { tscore := m }
    vca := fun m _ => { fractional_abundances := m }
    plsregress := fun m _ _ => (true, { X_scores := m })
    kmeans := fun m _ => List.replicate m.n_cols 0 }

/-- A spatial dataset over `ℚ` with two spectra of seven channels; the first
is the row of the area example of the spec. -/
def peakExample : VespucciDataset ℚ :=
  { spectra_ := liftMat 7 [[0, 1, 2, 3, 2, 1, 0], [0, 1, 4, 10, 4, 1, 0]],
    wavelength_ := [10, 20, 30, 40, 50, 60, 70],
    x_ := [0, 1],
    y_ := [0, 0] }

/-- The same data marked non-spatial, as an extracted dataset is. -/
def nonSpatialExample : VespucciDataset ℚ := { peakExample with non_spatial_ := true }

/-- A spatial dataset over `ℚ` with one spectrum: a peak of height 8 at
channel 2 on a flat background of 2. -/
def bandExample : VespucciDataset ℚ :=
  { spectra_ := liftMat 5 [[2, 3, 8, 3, 2]],
    wavelength_ := [10, 20, 30, 40, 50],
    x_ := [0],
    y_ := [0] }

/-- A dataset whose spectra matrix is the single entry 0. -/
def zeroExample : VespucciDataset ℚ :=
  { spectra_ := liftMat 1 [[0]], wavelength_ := [100], x_ := [0], y_ := [0] }

/-- A dataset whose spectra matrix is constant at -1. -/
def constantExample : VespucciDataset ℚ :=
  { spectra_ := liftMat 2 [[-1, -1]], wavelength_ := [100, 200], x_ := [0], y_ := [0] }

/-- A dataset of three spectra with two channels: the first column has
variance 4, the second is constant. -/
def zscoreExample : VespucciDataset ℚ :=
  { spectra_ := liftMat 2 [[0, 1], [4, 1], [2, 1]],
    wavelength_ := [100, 200],
    x_ := [0, 1, 2],
    y_ := [0, 0, 0] }

/-- What `MedianFilter(3)` leaves of `peakExample`. -/
def medianExample : VespucciDataset ℚ :=
  { peakExample with
    spectra_old_ := peakExample.spectra_,
    spectra_ := liftMat 7 [[0, 1, 2, 2, 2, 1, 0], [0, 1, 4, 4, 4, 1, 0]],
    last_operation_ := "median filter" }

/-- A background of three channels, for spectra of seven. -/
def shortBackground : Mat ℚ := liftMat 3 [[1, 1, 1]]

/-- A background of seven channels with two rows; only the first is used. -/
def flatBackground : Mat ℚ := liftMat 7 [[1, 1, 1, 1, 1, 1, 1], [5, 5, 5, 5, 5, 5, 5]]

/-! ### Sequences of calls -/

/-- The calls of the shape invariant: `CropSpectra`, the six transforms, and
`Undo`. -/
inductive Op (K : Type) where
  | crop (x_min x_max y_min y_max : K)
  | transform (T : Transform K)
  | undo

/-- Running one call. -/
def Op.apply (env : Env K) : Op K → VespucciDataset K → Option (VespucciDataset K)
  | .crop x_min x_max y_min y_max, d => d.CropSpectra x_min x_max y_min y_max
  | .transform T, d => T.apply env d
  | .undo, d => some d.Undo

/-- Running a finite sequence of calls, first call first. -/
def runOps (env : Env K) : List (Op K) → VespucciDataset K → Option (VespucciDataset K)
  | [], d => some d
  | op :: ops, d => (op.apply env d).bind (runOps env ops)

/-- The invariant of the data model: `spectra.rows = x.length = y.length` and
`spectra.cols = wavelength.length`. -/
def VespucciDataset.ShapeInvariant (d : VespucciDataset K) : Prop :=
  d.spectra_.n_rows = d.x_.length ∧ d.x_.length = d.y_.length
    ∧ d.spectra_.n_cols = d.wavelength_.length

instance (d : VespucciDataset K) : Decidable d.ShapeInvariant := by
  unfold VespucciDataset.ShapeInvariant; infer_instance

/-- The snapshot has the row and column counts of the spectra. -/
def VespucciDataset.SnapshotAligned (d : VespucciDataset K) : Prop :=
  d.spectra_old_.n_rows = d.spectra_.n_rows ∧ d.spectra_old_.n_cols = d.spectra_.n_cols

/-- Sequences in which every `Undo` comes after a transform with no
`CropSpectra` in between; the flag tells whether such a transform has already
run. -/
def undoAllowed : Bool → List (Op K) → Bool
  | _, [] => true
  | _, .transform _ :: ops => undoAllowed true ops
  | _, .crop _ _ _ _ :: ops => undoAllowed false ops
  | fresh, .undo :: ops => fresh && undoAllowed fresh ops

/-- What `MedianFilter(3); Undo; CropSpectra(0, 1, 0, 1)` leaves of
`cropExample`. -/
def croppedExample : VespucciDataset ℚ :=
  { cropExample with
    spectra_ := liftMat 3 [[1, 2, 3], [7, 8, 9]],
    spectra_old_ := cropExample.spectra_,
    x_ := [0, 1],
    y_ := [0, 1],
    last_operation_ := "crop" }

/-- The maximum of the values of a row at the channels `min .. max`, both
ends included (0 when the row has no such channel). -/
def windowMax (row : List K) (min max : Nat) : K :=
  match (row.drop min).take (max - min + 1) with
  | [] => 0
  | a :: l => l.foldl Max.max a

/-- The sign-corrected peak of the spec: the window maximum when it equals
the window maximum of the absolute values, minus the latter otherwise. -/
def signedPeak (row : List K) (min max : Nat) : K :=
  if windowMax (row.map (fun x => |x|)) min max = windowMax row min max then windowMax row min max
  else - windowMax (row.map (fun x => |x|)) min max

/-- A spatial dataset over `ℚ` on which z-scores were calculated, with one
spectrum whose largest excursion is negative in the first two channels and
positive in the last two. -/
def signedExample : VespucciDataset ℚ :=
  { spectra_ := liftMat 4 [[-3, 1, 2, 1]],
    wavelength_ := [10, 20, 30, 40],
    x_ := [0],
    y_ := [0],
    z_scores_calculated_ := true }

/-- A spatial dataset over `ℚ` with one spectrum of two channels whose
maximum is at channel 0. -/
def edgeExample : VespucciDataset ℚ :=
  { spectra_ := liftMat 2 [[5, 1]],
    wavelength_ := [10, 20],
    x_ := [0],
    y_ := [0] }

/-- The map type label `Univariate` gives for a value method. -/
def univariateLabel (value_method : String) : String :=
  if value_method = "Bandwidth" then "1-Region Univariate (Bandwidth (FWHM))"
  else if value_method = "Area" then "1-Region Univariate (Area)"
  else if value_method = "Derivative" then "1-Region Univariate (Derivative)"
  else "1-Region Univariate (Intensity)"

/-- Library stand-ins over `ℚ` whose output shows the parameters of the run:
the abundance matrix of `vca` and the score matrix of `plsregress` have one
column for each requested component, filled with values that name the
request, and `kmeans` deals the observations out to the clusters in turn. -/
def markEnv : Env ℚ :=
  { sqrt := evalEnv.sqrt
    uninit := evalEnv.uninit
    princomp := fun m => { tscore := m }
    vca := fun m k =>
      { fractional_abundances :=
          { n_cols := k, rows := m.rows.map (fun _ => List.replicate k (Dbl.ofNat k)) } }
    plsregress := fun m _ k =>
      (true, { X_scores :=
          { n_cols := k,
            rows := m.rows.map (fun _ => (List.range k).map (fun c => Dbl.ofNat (10 * k + c))) } })
    kmeans := fun m k => (List.range m.n_cols).map (fun i => i % k) }

/-! ### Removing maps, replacing the data, library filters -/

/-- `VespucciDataset::RemoveMapAt` (and `SpecMap::RemoveMapAt`, which has the
same body): `maps_.removeAt(i)`, which leaves the list as it is for an index
outside it. The entry of the list widget is presentation; `map_names_` is not
touched. -/
def VespucciDataset.RemoveMapAt (d : VespucciDataset K) (i : Nat) : VespucciDataset K :=
  { d with maps_ := d.maps_.eraseIdx i }

/-- The loop of `SpecMap::RemoveMap`:
`for (i = 0; i < map_names_.size(); ++i) if (map_names_.at(i) == name) RemoveMapAt(i);`. -/
def removeMapLoop (name : String) : Nat → Nat → VespucciDataset K → VespucciDataset K
  | 0, _, d => d
  | fuel + 1, i, d =>
    if i < d.map_names_.length then
      removeMapLoop name fuel (i + 1)
        (if d.map_names_.getD i "" = name then d.RemoveMapAt i else d)
    else d

/-- `SpecMap::RemoveMap` of `src/specmap.cpp`; `SpecMap` keeps the registry
in the same three members as `VespucciDataset`. The name list bounds the
number of turns of the loop. -/
def VespucciDataset.RemoveMap (d : VespucciDataset K) (name : String) : VespucciDataset K :=
  removeMapLoop name d.map_names_.length 0 d

/-- `VespucciDataset::SetData`. -/
def VespucciDataset.SetData (d : VespucciDataset K) (spectra : Mat K) (wavelength x y : List K) :
    VespucciDataset K :=
  { d with spectra_ := spectra, wavelength_ := wavelength, x_ := x, y_ := y }

/-- The shape shared by `LinearMovingAverage`, `SingularValue` and
`Derivatize`: the snapshot is taken, `spectra_` is replaced by a matrix that
`arma_ext` routines compute (they are not among the sources, so the matrix is
the parameter `computed`, `none` when the routine fails), and the label is
set. -/
def VespucciDataset.libraryTransform (d : VespucciDataset K) (computed : Option (Mat K))
    (label : String) : Option (VespucciDataset K) :=
  computed.map (fun s =>
    { d with
      spectra_old_ := d.spectra_,
      spectra_ := s,
      last_operation_ := label })

/-- `VespucciDataset::LinearMovingAverage`, with the filtered matrix as a
parameter. -/
def VespucciDataset.LinearMovingAverage (d : VespucciDataset K) (filtered : Option (Mat K)) :
    Option (VespucciDataset K) :=
  d.libraryTransform filtered "moving average filter"

/-- `VespucciDataset::SingularValue`, with the reconstructed matrix as a
parameter. -/
def VespucciDataset.SingularValue (d : VespucciDataset K) (reconstructed : Option (Mat K)) :
    Option (VespucciDataset K) :=
  d.libraryTransform reconstructed "truncated SVD de-noise"

/-- `VespucciDataset::Derivatize`, with the filtered matrix as a parameter. -/
def VespucciDataset.Derivatize (d : VespucciDataset K) (filtered : Option (Mat K)) :
    Option (VespucciDataset K) :=
  d.libraryTransform filtered "Savitzky-Golay filtering"

/-- The calls that change a dataset. -/
inductive Call (K : Type) where
  | op (o : Op K)
  | linearMovingAverage (filtered : Option (Mat K))
  | singularValue (reconstructed : Option (Mat K))
  | derivatize (filtered : Option (Mat K))
  | univariate (min max : Nat) (name value_method integration_method : String)
  | bandRatio (first_min first_max second_min second_max : Nat)
      (name value_method integration_method : String)
  | principalComponents (component : Int) (name : String) (recalculate ok : Bool)
  | vertexComponents (endmembers image_component : Nat) (name : String) (recalculate : Bool)
  | partialLeastSquares (components image_component : Nat) (name : String) (recalculate : Bool)
  | kMeans (clusters : Nat) (name : String)
  | setData (spectra : Mat K) (wavelength x y : List K)
  | addMap (m : MapData K)
  | removeMapAt (i : Nat)
  | removeMap (name : String)

/-- Running one call. -/
def Call.apply (env : Env K) : Call K → VespucciDataset K → Option (VespucciDataset K)
  | .op o, d => o.apply env d
  | .linearMovingAverage filtered, d => d.LinearMovingAverage filtered
  | .singularValue reconstructed, d => d.SingularValue reconstructed
  | .derivatize filtered, d => d.Derivatize filtered
  | .univariate min max name value_method integration_method, d =>
    d.Univariate env min max name value_method integration_method
  | .bandRatio first_min first_max second_min second_max name value_method integration_method,
      d =>
    d.BandRatio env first_min first_max second_min second_max name value_method
      integration_method
  | .principalComponents component name recalculate ok, d =>
    d.PrincipalComponents env component name recalculate ok
  | .vertexComponents endmembers image_component name recalculate, d =>
    d.VertexComponents env endmembers image_component name recalculate
  | .partialLeastSquares components image_component name recalculate, d =>
    d.PartialLeastSquares env components image_component name recalculate
  | .kMeans clusters name, d => d.KMeans env clusters name
  | .setData spectra wavelength x y, d => some (d.SetData spectra wavelength x y)
  | .addMap m, d => some (d.AddMap m)
  | .removeMapAt i, d => some (d.RemoveMapAt i)
  | .removeMap name, d => some (d.RemoveMap name)

/-- Running a finite sequence of calls, first call first. -/
def runCalls (env : Env K) : List (Call K) → VespucciDataset K → Option (VespucciDataset K)
  | [], d => some d
  | c :: cs, d => (c.apply env d).bind (runCalls env cs)

/-- Three maps for the registry examples: two with the name "a" and
different results, one with the name "b". -/
def mapA1 : MapData ℚ := { name := "a", results := liftVec [1, 1] }

/-- The second map named "a". -/
def mapA2 : MapData ℚ := { name := "a", results := liftVec [2, 2] }

/-- The map named "b". -/
def mapB : MapData ℚ := { name := "b", results := liftVec [3, 3] }

/-- What the transforms and `Undo` leave alone: the dataset without its
spectra, snapshot, label and z-score flag. -/
def VespucciDataset.frame (d : VespucciDataset K) : VespucciDataset K :=
  { d with
    spectra_ := {},
    spectra_old_ := {},
    last_operation_ := "",
    z_scores_calculated_ := false }

/-- The registry that `AddMap` builds from the maps "a" and "b". -/
def registryExample : VespucciDataset ℚ := (peakExample.AddMap mapA1).AddMap mapB

/-- The registry that `AddMap` builds from the maps "a", "a" and "b". -/
def duplicateExample : VespucciDataset ℚ :=
  ((peakExample.AddMap mapA1).AddMap mapA2).AddMap mapB

/-! ### Accessors, range lookup, extraction -/

/-- `VespucciDataset::PointSpectrum`: the bounds check compares the index
with the row count by `>`. -/
def VespucciDataset.PointSpectrum (d : VespucciDataset K) (index : Nat) : Option (Vec K) :=
  if index > d.spectra_.n_rows then d.spectra_.row (usub d.spectra_.n_rows 1)
  else d.spectra_.row index

/-- `VespucciDataset::x(uword index)`. -/
def VespucciDataset.x (d : VespucciDataset K) (index : Nat) : Option K :=
  if index ≥ d.x_.length then vget d.x_ (usub d.x_.length 1) else vget d.x_ index

/-- `VespucciDataset::y(uword index)`. -/
def VespucciDataset.y (d : VespucciDataset K) (index : Nat) : Option K :=
  if index ≥ d.y_.length then vget d.y_ (usub d.y_.length 1) else vget d.y_ index

/-- The test `wavelength_(j) >= bound` of the two searches of `FindRange`. -/
def atLeast (wavelength : List K) (bound : K) (j : Nat) : Option Bool :=
  (vget wavelength j).map (fun w => decide (w ≥ bound))

/-- The choice between an index and its left neighbour in `FindRange`:
`fabs(wavelength_(i) - start) > fabs(wavelength_(i - 1) - start)` picks
`i - 1`. Both reads are checked. -/
def closerIndex (wavelength : List K) (start : K) (i : Nat) : Option Nat :=
  match vget wavelength i, vget wavelength (usub i 1) with
  | some w, some v => some (if |w - start| > |v - start| then usub i 1 else i)
  | _, _ => none

/-- `VespucciDataset::FindRange`. `indices` is what `uvec indices(2)` holds
before anything is written to it (Armadillo does not initialise it); `i` is
the counter after each search, the hit or `length`. -/
def VespucciDataset.FindRange (d : VespucciDataset K) (indices : Nat × Nat) (start end_ : K) :
    Option (Nat × Nat) :=
  let length := d.wavelength_.length
  match findUp (atLeast d.wavelength_ start) length 0 with
  | none => none
  | some hit =>
    let i := hit.getD length
    if i = usub length 1 then some indices
    else
      match closerIndex d.wavelength_ start i with
      | none => none
      | some lower =>
        match findUp (atLeast d.wavelength_ end_) (length - i) i with
        | none => none
        | some hit2 =>
          let i2 := hit2.getD length
          if i2 = usub length 1 then some (lower, lower)
          else
            match closerIndex d.wavelength_ start i2 with
            | none => none
            | some upper => some (lower, upper)

/-- The extraction constructor
`VespucciDataset(name, main_window, directory, log_file, original, indices)`:
rows `indices` of the spectra and entries `indices` of `x` and `y` of the
original, each read checked. The constructor assigns no value to
`k_means_calculated_`; what the member holds is the parameter. Members it
does not mention are default-constructed. -/
def VespucciDataset.extract (original : VespucciDataset K) (indices : List Nat)
    (k_means_calculated : Bool) : Option (VespucciDataset K) :=
  match indices.mapM original.spectra_.row, indices.mapM (vget original.x_),
      indices.mapM (vget original.y_) with
  | some rows, some x, some y =>
    some { non_spatial_ := true,
           map_loading_count_ := 0,
           principal_components_calculated_ := false,
           partial_least_squares_calculated_ := false,
           vertex_components_calculated_ := false,
           z_scores_calculated_ := false,
           spectra_ := { n_cols := original.spectra_.n_cols, rows := rows },
           wavelength_ := original.wavelength_,
           x_ := x,
           y_ := y,
           k_means_calculated_ := k_means_calculated }
  | _, _, _ => none

/-- A spatial dataset over `ℚ` with three channels at the wavelengths 10, 20
and 30. -/
def rangeExample : VespucciDataset ℚ :=
  { spectra_ := liftMat 3 [[1, 2, 3]],
    wavelength_ := [10, 20, 30],
    x_ := [0],
    y_ := [0] }

/-- A spatial dataset over `ℚ` with five channels at the wavelengths 10 to
50. -/
def axisExample : VespucciDataset ℚ :=
  { spectra_ := liftMat 5 [[1, 2, 3, 2, 1]],
    wavelength_ := [10, 20, 30, 40, 50],
    x_ := [0],
    y_ := [0] }

/-- A spatial dataset over `ℚ` with one spectrum of two channels whose
maximum is at the last channel. -/
def rightEdgeExample : VespucciDataset ℚ :=
  { spectra_ := liftMat 2 [[1, 5]],
    wavelength_ := [10, 20],
    x_ := [0],
    y_ := [0] }

/-- Two spatial datasets over `ℚ` that differ in their first spectrum only;
the second spectrum has its peak at channel 1 and no channel below the
threshold to the left of it. -/
def carryExampleA : VespucciDataset ℚ :=
  { spectra_ := liftMat 5 [[0, 1, 2, 8, 2], [-4, 6, -4, -4, -4]],
    wavelength_ := [10, 20, 30, 40, 50],
    x_ := [0, 1],
    y_ := [0, 0] }

/-- The second of the two datasets. -/
def carryExampleB : VespucciDataset ℚ :=
  { carryExampleA with spectra_ := liftMat 5 [[1, 2, 8, 2, 1], [-4, 6, -4, -4, -4]] }

/-- The row with the affine ramp `a * j + c` added at every channel `j`. -/
def addRamp (a c : K) (row : List K) : List K :=
  (List.range row.length).map (fun (j : Nat) => row.getD j 0 + (a * (j : K) + c))

/-- The row with every value multiplied by `s`. -/
def scaleRow (s : K) (row : List K) : List K := row.map (fun v => s * v)

/-- A dataset with negative values and no z-scores yet; both columns have mean
and standard deviation that `evalEnv` computes exactly. -/
def flagExample : VespucciDataset ℚ :=
  { spectra_ := liftMat 2 [[-3, 2], [1, 6], [-1, 4]],
    wavelength_ := [100, 200],
    x_ := [0, 1, 2],
    y_ := [0, 0, 0] }

/-- What `ZScoreNormalize` makes of `flagExample`. -/
def flagNormalized : VespucciDataset ℚ :=
  { flagExample with
    spectra_ := liftMat 2 [[-1, -1], [1, 1], [0, 0]],
    spectra_old_ := liftMat 2 [[-3, 2], [1, 6], [-1, 4]],
    z_scores_calculated_ := true,
    last_operation_ := "Z-score normalize" }

/-- The median in the spec's words, for an odd number of values: `v` is one of
the values, fewer than half of them lie below it and fewer than half of them
lie above it. -/
def IsMedian (l : List K) (v : K) : Prop :=
  v ∈ l ∧ 2 * l.countP (fun x => decide (x < v)) < l.length
    ∧ 2 * l.countP (fun x => decide (v < x)) < l.length

instance (l : List K) (v : K) : Decidable (IsMedian l v) := by
  unfold IsMedian
  infer_instance

/-- A dataset that holds a cached vertex component analysis with 2
endmembers; no regression and no principal components were calculated. -/
def cachedExample : VespucciDataset ℚ :=
  { peakExample with
    vertex_components_calculated_ := true,
    vertex_components_data_ := some (markEnv.vca peakExample.spectra_ 2) }

end Model

/-! # Properties -/

section NumberLemmas

variable {K : Type} [LinearOrderedField K]

theorem foldl_add_liftVec (l : List K) (a : K) :
    List.foldl Dbl.add (Dbl.fin a) (liftVec l) = Dbl.fin (a + l.sum) := by
  induction l generalizing a with
  | nil => simp [liftVec]
  | cons b l ih =>
    simp only [liftVec, List.map_cons, List.foldl_cons, Dbl.add, List.sum_cons] at ih ⊢
    rw [ih, add_assoc]

theorem vsum_liftVec (l : List K) : vsum (liftVec l) = Dbl.fin l.sum := by
  simp [vsum, foldl_add_liftVec]

theorem foldl_add_nonfin (v : Vec K) : List.foldl Dbl.add Dbl.nonfin v = Dbl.nonfin := by
  induction v with
  | nil => rfl
  | cons b v ih => simpa [List.foldl_cons, Dbl.add] using ih

/-- A vector with a finite sum has finite entries only. -/
theorem finite_of_foldl_add (v : Vec K) (a s : K)
    (h : List.foldl Dbl.add (Dbl.fin a) v = Dbl.fin s) :
    ∃ l : List K, v = liftVec l ∧ a + l.sum = s := by
  induction v generalizing a with
  | nil =>
    refine ⟨[], rfl, ?_⟩
    simpa using h
  | cons b v ih =>
    cases b with
    | nonfin =>
      simp only [List.foldl_cons, Dbl.add, foldl_add_nonfin] at h
      cases h
    | fin b =>
      simp only [List.foldl_cons, Dbl.add] at h
      obtain ⟨l, hl, hs⟩ := ih (a + b) h
      refine ⟨b :: l, by simp [liftVec, hl], ?_⟩
      rw [List.sum_cons, ← add_assoc]
      exact hs

theorem finite_of_vsum (v : Vec K) (s : K) (h : vsum v = Dbl.fin s) :
    ∃ l : List K, v = liftVec l ∧ l.sum = s := by
  obtain ⟨l, hl, hs⟩ := finite_of_foldl_add v 0 s h
  exact ⟨l, hl, by simpa using hs⟩

theorem sum_map_div (l : List K) (c : K) : (l.map (fun a => a / c)).sum = l.sum / c := by
  induction l with
  | nil => simp
  | cons b l ih => simp [List.sum_cons, ih, add_div]

theorem usub_of_le (a b : Nat) (hb : b ≤ a) (ha : a < UWORD) : usub a b = a - b := by
  unfold usub
  have hb1 : b % UWORD = b := Nat.mod_eq_of_lt (lt_of_le_of_lt hb ha)
  rw [hb1]
  have e : a + UWORD - b = (a - b) + UWORD := by omega
  rw [e, Nat.add_mod_right]
  exact Nat.mod_eq_of_lt (lt_of_le_of_lt (Nat.sub_le a b) ha)

end NumberLemmas

section CropProps

variable {K : Type} [LinearOrderedField K]

theorem cropOutside_eq_not_inRectangle (x_min x_max y_min y_max xi yi : K) :
    cropOutside x_min x_max y_min y_max xi yi = !inRectangle x_min x_max y_min y_max xi yi := by
  unfold cropOutside inRectangle
  by_cases h1 : xi < x_min <;> by_cases h2 : xi > x_max <;> by_cases h3 : yi < y_min <;>
    by_cases h4 : yi > y_max <;> simp [h1, h2, h3, h4, not_lt.mp, le_of_lt]

theorem vget_append_length {α : Type} (p r : List α) (a : α) :
    vget (p ++ a :: r) p.length = some a := by
  unfold vget
  rw [List.getElem?_append_right (le_refl _)]
  simp

theorem shed_row_append_length {α : Type} (p r : List α) (a : α) :
    shed_row (p ++ a :: r) p.length = some (p ++ r) := by
  have h : (p ++ a :: r).eraseIdx p.length = p ++ r := by
    rw [List.eraseIdx_append_of_length_le (le_refl _)]
    simp
  simp [shed_row, h]

omit [LinearOrderedField K] in
theorem mat_shed_row_append_length (m : Nat) (p r : List (Vec K)) (a : Vec K) :
    Mat.shed_row { n_cols := m, rows := p ++ a :: r } p.length
      = some { n_cols := m, rows := p ++ r } := by
  have h : (p ++ a :: r).eraseIdx p.length = p ++ r := by
    rw [List.eraseIdx_append_of_length_le (le_refl _)]
    simp
  simp [Mat.shed_row, Mat.n_rows, h]

/-- The loop of `CropSpectra`, started behind a prefix of kept rows, compacts
the remaining rows by the keep-mask and never runs out of fuel. -/
theorem cropLoop_spec (x_min x_max y_min y_max : K) (m : Nat) :
    ∀ (rx ry : List K) (rs : List (Vec K)) (px py : List K) (ps : List (Vec K)) (fuel : Nat),
      rx.length = ry.length → rx.length = rs.length →
      px.length = py.length → px.length = ps.length → rx.length ≤ fuel →
      cropLoop x_min x_max y_min y_max fuel (px.length : Int) ((px ++ rx).length : Int)
          ({ n_cols := m, rows := ps ++ rs }, px ++ rx, py ++ ry)
        = some ({ n_cols := m, rows := ps ++ applyMask (keepMask x_min x_max y_min y_max rx ry) rs },
            px ++ applyMask (keepMask x_min x_max y_min y_max rx ry) rx,
            py ++ applyMask (keepMask x_min x_max y_min y_max rx ry) ry) := by
  intro rx
  induction rx with
  | nil =>
    intro ry rs px py ps fuel hy hs _ _ _
    have hy0 : ry = [] := List.length_eq_zero.mp hy.symm
    have hs0 : rs = [] := List.length_eq_zero.mp hs.symm
    subst hy0 hs0
    unfold cropLoop
    simp [keepMask, applyMask]
  | cons a rx ih =>
    intro ry rs px py ps fuel hy hs hpy hps hf
    obtain ⟨b, ry, rfl⟩ : ∃ b t, ry = b :: t := by
      cases ry with
      | nil => simp at hy
      | cons b t => exact ⟨b, t, rfl⟩
    obtain ⟨r, rs, rfl⟩ : ∃ r t, rs = r :: t := by
      cases rs with
      | nil => simp at hs
      | cons r t => exact ⟨r, t, rfl⟩
    obtain ⟨fuel, rfl⟩ : ∃ f, fuel = f + 1 := by
      cases fuel with
      | zero => simp at hf
      | succ f => exact ⟨f, rfl⟩
    simp only [List.length_cons, add_left_inj, add_le_add_iff_right] at hy hs hf
    have hlt : (px.length : Int) < ((px ++ a :: rx).length : Int) := by
      simp
    have hnn : ¬ ((px.length : Int) < 0) := by omega
    unfold cropLoop
    simp only [hlt, if_true, hnn, if_false, Int.toNat_ofNat, vget_append_length]
    rw [hpy, vget_append_length, ← hpy]
    by_cases hout : cropOutside x_min x_max y_min y_max a b = true
    · have hin : inRectangle x_min x_max y_min y_max a b = false := by
        rw [cropOutside_eq_not_inRectangle] at hout
        simpa using hout
      simp only [hout, if_true]
      rw [shed_row_append_length]
      rw [hpy, shed_row_append_length, ← hpy]
      rw [hps, mat_shed_row_append_length, ← hps]
      have e1 : (px.length : Int) - 1 + 1 = (px.length : Int) := by omega
      have e2 : ((px ++ a :: rx).length : Int) - 1 = ((px ++ rx).length : Int) := by
        simp; omega
      simp only [e1, e2]
      rw [ih ry rs px py ps fuel hy hs hpy hps hf]
      simp [keepMask, applyMask, hin]
    · have hin : inRectangle x_min x_max y_min y_max a b = true := by
        rw [cropOutside_eq_not_inRectangle] at hout
        simpa using hout
      simp only [hout]
      have e1 : (px.length : Int) + 1 = ((px ++ [a]).length : Int) := by simp
      have e2 : ((px ++ a :: rx).length : Int) = (((px ++ [a]) ++ rx).length : Int) := by simp
      have e3 : px ++ a :: rx = (px ++ [a]) ++ rx := by simp
      have e4 : py ++ b :: ry = (py ++ [b]) ++ ry := by simp
      have e5 : ps ++ r :: rs = (ps ++ [r]) ++ rs := by simp
      rw [e1, e2, e3, e4, e5]
      rw [ih ry rs (px ++ [a]) (py ++ [b]) (ps ++ [r]) fuel hy hs (by simp [hpy]) (by simp [hps]) hf]
      simp [keepMask, applyMask, hin]

theorem applyMask_keepMask_zip (x_min x_max y_min y_max : K) :
    ∀ (x y : List K), x.length = y.length →
      (applyMask (keepMask x_min x_max y_min y_max x y) x).zip
          (applyMask (keepMask x_min x_max y_min y_max x y) y)
        = (x.zip y).filter (fun p => inRectangle x_min x_max y_min y_max p.1 p.2) := by
  intro x
  induction x with
  | nil => intro y _; simp [keepMask, applyMask]
  | cons a x ih =>
    intro y hy
    cases y with
    | nil => simp at hy
    | cons b y =>
      simp only [List.length_cons, add_left_inj] at hy
      have h := ih y hy
      by_cases hin : inRectangle x_min x_max y_min y_max a b = true
      · simp only [keepMask, List.zipWith_cons_cons, hin, applyMask, List.zip_cons_cons,
          List.filter_cons_of_pos]
        simp only [keepMask] at h
        rw [h]
      · simp only [Bool.not_eq_true] at hin
        simp only [keepMask, List.zipWith_cons_cons, hin, applyMask, List.zip_cons_cons]
        simp only [keepMask] at h
        rw [h, List.filter_cons_of_neg (by simp [hin])]

/-- C1. When spectra, x and y have the same number of rows, `CropSpectra`
returns, and it leaves in spectra, x and y exactly the rows picked by one and
the same keep-mask (`xMin <= x[i] <= xMax` and `yMin <= y[i] <= yMax` on the
original coordinates), in their original order; the kept points are the
original points filtered by the rectangle. -/
theorem CropSpectra_keeps_rectangle (d : VespucciDataset K) (x_min x_max y_min y_max : K)
    (hx : d.x_.length = d.spectra_.n_rows) (hy : d.y_.length = d.spectra_.n_rows) :
    d.CropSpectra x_min x_max y_min y_max
        = some { d with
            spectra_ := { d.spectra_ with
              rows := applyMask (keepMask x_min x_max y_min y_max d.x_ d.y_) d.spectra_.rows },
            x_ := applyMask (keepMask x_min x_max y_min y_max d.x_ d.y_) d.x_,
            y_ := applyMask (keepMask x_min x_max y_min y_max d.x_ d.y_) d.y_,
            last_operation_ := "crop" }
      ∧ (applyMask (keepMask x_min x_max y_min y_max d.x_ d.y_) d.x_).zip
          (applyMask (keepMask x_min x_max y_min y_max d.x_ d.y_) d.y_)
        = (d.x_.zip d.y_).filter (fun p => inRectangle x_min x_max y_min y_max p.1 p.2) := by
  refine ⟨?_, applyMask_keepMask_zip x_min x_max y_min y_max d.x_ d.y_ (by rw [hx, hy])⟩
  have h := cropLoop_spec x_min x_max y_min y_max d.spectra_.n_cols d.x_ d.y_ d.spectra_.rows
    [] [] [] d.x_.length (by rw [hx, hy]) (by rw [hx]; rfl) rfl rfl (le_refl _)
  simp only [List.length_nil, Nat.cast_zero, List.nil_append] at h
  unfold VespucciDataset.CropSpectra
  rw [h]

theorem CropSpectra_keeps_rectangle_witness :
    cropExample.x_.length = cropExample.spectra_.n_rows
      ∧ cropExample.y_.length = cropExample.spectra_.n_rows
      ∧ (cropExample.CropSpectra 0 1 0 1
          = some { cropExample with
              spectra_ := { cropExample.spectra_ with
                rows := applyMask (keepMask 0 1 0 1 cropExample.x_ cropExample.y_)
                  cropExample.spectra_.rows },
              x_ := applyMask (keepMask 0 1 0 1 cropExample.x_ cropExample.y_) cropExample.x_,
              y_ := applyMask (keepMask 0 1 0 1 cropExample.x_ cropExample.y_) cropExample.y_,
              last_operation_ := "crop" }
        ∧ (applyMask (keepMask 0 1 0 1 cropExample.x_ cropExample.y_) cropExample.x_).zip
            (applyMask (keepMask 0 1 0 1 cropExample.x_ cropExample.y_) cropExample.y_)
          = (cropExample.x_.zip cropExample.y_).filter (fun p => inRectangle 0 1 0 1 p.1 p.2)) :=
  ⟨by decide, by decide, CropSpectra_keeps_rectangle cropExample 0 1 0 1 (by decide) (by decide)⟩

/-- Evaluation of `CropSpectra` on the example: the two points outside the
unit square go, the other two stay in order. -/
theorem CropSpectra_example : (cropExample.CropSpectra 0 1 0 1).map (fun d => (d.x_, d.y_, d.spectra_))
    = some ([0, 1], [0, 1], liftMat 3 [[1, 2, 3], [7, 8, 9]]) := by
  with_unfolding_all decide

end CropProps

section GuardProps

variable {K : Type} [LinearOrderedField K]

/-- C2. On a dataset marked non-spatial, `Univariate`, `BandRatio`,
`PrincipalComponents`, `VertexComponents`, `PartialLeastSquares` and `KMeans`
return with the whole dataset (maps, names, creation counter, spectra, cached
analysis objects and calculated flags) exactly as before, for all arguments. -/
theorem non_spatial_guard (env : Env K) (d : VespucciDataset K) (h : d.non_spatial_ = true) :
    (∀ (min max : Nat) (name value_method integration_method : String),
        d.Univariate env min max name value_method integration_method = some d)
      ∧ (∀ (first_min first_max second_min second_max : Nat)
          (name value_method integration_method : String),
        d.BandRatio env first_min first_max second_min second_max name value_method
          integration_method = some d)
      ∧ (∀ (component : Int) (name : String) (recalculate ok : Bool),
        d.PrincipalComponents env component name recalculate ok = some d)
      ∧ (∀ (endmembers image_component : Nat) (name : String) (recalculate : Bool),
        d.VertexComponents env endmembers image_component name recalculate = some d)
      ∧ (∀ (components image_component : Nat) (name : String) (recalculate : Bool),
        d.PartialLeastSquares env components image_component name recalculate = some d)
      ∧ (∀ (clusters : Nat) (name : String), d.KMeans env clusters name = some d) := by
  refine ⟨?_, ?_, ?_, ?_, ?_, ?_⟩
  · intros; simp [VespucciDataset.Univariate, h]
  · intros; simp [VespucciDataset.BandRatio, h]
  · intros; simp [VespucciDataset.PrincipalComponents, h]
  · intros; simp [VespucciDataset.VertexComponents, h]
  · intros; simp [VespucciDataset.PartialLeastSquares, h]
  · intros; simp [VespucciDataset.KMeans, h]

theorem non_spatial_guard_witness :
    nonSpatialExample.non_spatial_ = true
      ∧ ((∀ (min max : Nat) (name value_method integration_method : String),
          nonSpatialExample.Univariate evalEnv min max name value_method integration_method
            = some nonSpatialExample)
        ∧ (∀ (first_min first_max second_min second_max : Nat)
            (name value_method integration_method : String),
          nonSpatialExample.BandRatio evalEnv first_min first_max second_min second_max name
            value_method integration_method = some nonSpatialExample)
        ∧ (∀ (component : Int) (name : String) (recalculate ok : Bool),
          nonSpatialExample.PrincipalComponents evalEnv component name recalculate ok
            = some nonSpatialExample)
        ∧ (∀ (endmembers image_component : Nat) (name : String) (recalculate : Bool),
          nonSpatialExample.VertexComponents evalEnv endmembers image_component name recalculate
            = some nonSpatialExample)
        ∧ (∀ (components image_component : Nat) (name : String) (recalculate : Bool),
          nonSpatialExample.PartialLeastSquares evalEnv components image_component name
            recalculate = some nonSpatialExample)
        ∧ (∀ (clusters : Nat) (name : String),
          nonSpatialExample.KMeans evalEnv clusters name = some nonSpatialExample)) :=
  ⟨rfl, non_spatial_guard evalEnv nonSpatialExample rfl⟩

/-- The guard is what keeps the registry: on the same data marked spatial,
`Univariate` does append a map. -/
theorem spatial_Univariate_example :
    (peakExample.Univariate evalEnv 0 6 "area" "Area" "Riemann Sum").map
        (fun d => d.maps_.map (fun m => m.results)) = some [[Dbl.fin 9, Dbl.fin 20]]
      ∧ (peakExample.Univariate evalEnv 0 6 "area" "Area" "Riemann Sum").map
        (fun d => d.map_names_) = some ["area"] := by
  constructor <;> with_unfolding_all decide

end GuardProps

section ReturnLemmas

variable {K : Type} [LinearOrderedField K]

/-- A loop whose body returns and keeps an invariant returns and keeps it. -/
theorem forLoop_invariant {σ : Type} (body : Nat → σ → Option σ) (I : σ → Prop) :
    ∀ (n j0 : Nat),
      (∀ j st, j0 ≤ j → j < j0 + n → I st → ∃ st1, body j st = some st1 ∧ I st1) →
      ∀ st, I st → ∃ st1, forLoop body n j0 st = some st1 ∧ I st1 := by
  intro n
  induction n with
  | zero => intro j0 _ st hst; exact ⟨st, rfl, hst⟩
  | succ n ih =>
    intro j0 hbody st hst
    obtain ⟨st1, h1, hI1⟩ := hbody j0 st (le_refl _) (by omega) hst
    obtain ⟨st2, h2, hI2⟩ := ih (j0 + 1)
      (fun j st hj hlt hI => hbody j st (by omega) (by omega) hI) st1 hI1
    exact ⟨st2, by simp only [forLoop, h1, Option.some_bind, h2], hI2⟩

omit [LinearOrderedField K] in
theorem copyStep_returns (columns : Nat) (row processed : Vec K) (j : Nat) (hj : j < columns)
    (hrow : row.length = columns) (hp : processed.length = columns) :
    ∃ p1, copyStep columns row j processed = some p1 ∧ p1.length = columns := by
  have hj1 : j < row.length := by rw [hrow]; exact hj
  have hj2 : j < processed.length := by rw [hp]; exact hj
  refine ⟨processed.set j row[j], ?_, by rw [List.length_set, hp]⟩
  simp only [copyStep, rowElem, hj, if_true, List.getElem?_eq_getElem hj1, vset, hj2]

omit [LinearOrderedField K] in
theorem finiteValues_length (v : Vec K) (l : List K) (h : finiteValues v = some l) :
    l.length = v.length := by
  induction v generalizing l with
  | nil =>
    simp only [finiteValues, Option.some.injEq] at h
    rw [← h]
    rfl
  | cons a v ih =>
    cases a with
    | nonfin => simp [finiteValues] at h
    | fin a =>
      simp only [finiteValues, Option.map_eq_some'] at h
      obtain ⟨t, ht, rfl⟩ := h
      simp [ih t ht]

theorem vmedian_returns_of_odd (v : Vec K) (hodd : v.length % 2 = 1) :
    ∃ a, vmedian v = some a := by
  have hne : v.length ≠ 0 := by omega
  unfold vmedian
  simp only [hne, if_false]
  cases hf : finiteValues v with
  | none => exact ⟨_, rfl⟩
  | some l =>
    have hlen := finiteValues_length v l hf
    have hodd1 : l.length % 2 = 1 := by rw [hlen]; exact hodd
    have hmid : l.length / 2 < (l.insertionSort (fun a b => a ≤ b)).length := by
      rw [List.length_insertionSort]
      omega
    simp only [hodd1, if_true, List.getElem?_eq_getElem hmid, Option.map_some']
    exact ⟨_, rfl⟩

theorem medianStep_returns (starting_index columns : Nat) (row processed : Vec K) (j : Nat)
    (hs : starting_index ≤ j) (hj : j + starting_index < columns)
    (hrow : row.length = columns) (hp : processed.length = columns) :
    ∃ p1, medianStep starting_index row j processed = some p1 ∧ p1.length = columns := by
  have hspan : span row (j - starting_index) (j + starting_index)
      = some ((row.drop (j - starting_index)).take
          (j + starting_index - (j - starting_index) + 1)) := by
    have h1 : j - starting_index ≤ j + starting_index := by omega
    have h2 : j + starting_index < row.length := by rw [hrow]; exact hj
    simp only [span, h1, h2, and_self, if_true]
  have hlen : ((row.drop (j - starting_index)).take
      (j + starting_index - (j - starting_index) + 1)).length % 2 = 1 := by
    rw [List.length_take, List.length_drop, hrow]
    have : Min.min (j + starting_index - (j - starting_index) + 1) (columns - (j - starting_index))
        = 2 * starting_index + 1 := by
      rw [min_eq_left (by omega)]
      omega
    rw [this]
    omega
  obtain ⟨a, ha⟩ := vmedian_returns_of_odd _ hlen
  have hj2 : j < processed.length := by rw [hp]; omega
  refine ⟨processed.set j a, ?_, by rw [List.length_set, hp]⟩
  simp only [medianStep, hspan, ha, vset, hj2, if_true]

/-- The three loops on one row return when the window fits into the row. -/
theorem medianRow_returns (env : Env K) (starting_index columns i : Nat) (row : Vec K)
    (hrow : row.length = columns) (hfit : 2 * starting_index < columns) :
    ∃ p, medianRow env starting_index (columns - starting_index) columns i row = some p
      ∧ p.length = columns := by
  have h0 : ((List.range columns).map (env.uninit i)).length = columns := by simp
  obtain ⟨p1, h1, hl1⟩ := forLoop_invariant (copyStep columns row)
    (fun p => p.length = columns) starting_index 0
    (fun j st _ hlt hst => copyStep_returns columns row st j (by omega) hrow hst) _ h0
  obtain ⟨p2, h2, hl2⟩ := forLoop_invariant (copyStep columns row)
    (fun p => p.length = columns) (columns - (columns - starting_index))
    (columns - starting_index)
    (fun j st _ hlt hst => copyStep_returns columns row st j (by omega) hrow hst) p1 hl1
  obtain ⟨p3, h3, hl3⟩ := forLoop_invariant (medianStep starting_index row)
    (fun p => p.length = columns) (columns - starting_index - starting_index) starting_index
    (fun j st hge hlt hst =>
      medianStep_returns starting_index columns row st j hge (by omega) hrow hst) p2 hl2
  exact ⟨p3, by simp only [medianRow, h1, Option.some_bind, h2, h3], hl3⟩

omit [LinearOrderedField K] in
theorem mapRowsM_returns (f : Nat → Vec K → Option (Vec K)) :
    ∀ (rows : List (Vec K)) (i : Nat), (∀ k r, r ∈ rows → ∃ r1, f k r = some r1) →
      ∃ out, mapRowsM f i rows = some out := by
  intro rows
  induction rows with
  | nil => intro i _; exact ⟨[], rfl⟩
  | cons r rows ih =>
    intro i h
    obtain ⟨r1, hr1⟩ := h i r (List.mem_cons_self r rows)
    obtain ⟨out, hout⟩ := ih (i + 1) (fun k r hr => h k r (List.mem_cons_of_mem _ hr))
    exact ⟨r1 :: out, by simp only [mapRowsM, hr1, hout, Option.map_some']⟩

/-- The matrix `processed` is built whenever the matrix is rectangular, as
wide as the wavelength axis, and the window fits. -/
theorem medianProcessed_returns (env : Env K) (d : VespucciDataset K) (starting_index : Nat)
    (hwf : d.spectra_.wf) (hw : d.wavelength_.length = d.spectra_.n_cols)
    (hU : d.spectra_.n_cols < UWORD) (hfit : 2 * starting_index < d.spectra_.n_cols) :
    ∃ processed, medianProcessed env d starting_index = some processed := by
  have he : usub d.wavelength_.length starting_index = d.spectra_.n_cols - starting_index := by
    rw [hw]
    exact usub_of_le _ _ (by omega) hU
  obtain ⟨out, hout⟩ := mapRowsM_returns
    (medianRow env starting_index (d.spectra_.n_cols - starting_index) d.spectra_.n_cols)
    d.spectra_.rows 0
    (fun k r hr => by
      obtain ⟨p, hp, _⟩ := medianRow_returns env starting_index d.spectra_.n_cols k r
        (hwf r hr) hfit
      exact ⟨p, hp⟩)
  exact ⟨{ n_cols := d.spectra_.n_cols, rows := out },
    by simp only [medianProcessed, he, hout, Option.map_some']⟩

omit [LinearOrderedField K] in
theorem Mat.map_entries (f : Dbl K → Dbl K) (m : Mat K) :
    (m.map f).entries = m.entries.map f := by
  simp only [Mat.map, Mat.entries, List.map_flatten]

theorem vmin_returns (v : Vec K) (hne : v ≠ []) : ∃ a, vmin v = some a := by
  cases v with
  | nil => exact absurd rfl hne
  | cons a v => exact ⟨_, rfl⟩

theorem vmax_returns (v : Vec K) (hne : v ≠ []) : ∃ a, vmax v = some a := by
  cases v with
  | nil => exact absurd rfl hne
  | cons a v => exact ⟨_, rfl⟩

end ReturnLemmas

section UnitAreaProps

variable {K : Type} [LinearOrderedField K]

theorem unitAreaRow_of_sum (r : Vec K) (s : K) (hs : vsum r = Dbl.fin s) (h0 : s ≠ 0) :
    unitAreaRow r = r.map (fun a => Dbl.div a (Dbl.fin s))
      ∧ vsum (unitAreaRow r) = Dbl.fin 1
      ∧ ∀ (j : Nat) (a : K), r[j]? = some (Dbl.fin a) →
          (unitAreaRow r)[j]? = some (Dbl.fin (a / s)) := by
  have e : unitAreaRow r = r.map (fun a => Dbl.div a (Dbl.fin s)) := by
    simp [unitAreaRow, hs]
  obtain ⟨l, hl, hsum⟩ := finite_of_vsum r s hs
  refine ⟨e, ?_, ?_⟩
  · have e2 : unitAreaRow r = liftVec (l.map (fun a => a / s)) := by
      rw [e, hl]
      simp [liftVec, Dbl.div, h0]
    rw [e2, vsum_liftVec, sum_map_div, hsum, div_self h0]
  · intro j a hj
    rw [e, List.getElem?_map, hj]
    simp [Dbl.div, h0]

/-- C8. Whatever the other rows hold, a row of `spectra_` whose sum is a
non-zero number `s` becomes, by `UnitAreaNormalize`, the row of its entries
divided by `s`, and that row sums to exactly 1. -/
theorem UnitAreaNormalize_row (d : VespucciDataset K) (i : Nat) (r : Vec K) (s : K)
    (hr : d.spectra_.rows[i]? = some r) (hs : vsum r = Dbl.fin s) (h0 : s ≠ 0) :
    ∃ r1 : Vec K, d.UnitAreaNormalize.spectra_.rows[i]? = some r1
      ∧ r1 = r.map (fun a => Dbl.div a (Dbl.fin s))
      ∧ vsum r1 = Dbl.fin 1
      ∧ ∀ (j : Nat) (a : K), r[j]? = some (Dbl.fin a) → r1[j]? = some (Dbl.fin (a / s)) := by
  obtain ⟨e, h1, h2⟩ := unitAreaRow_of_sum r s hs h0
  refine ⟨unitAreaRow r, ?_, e, h1, h2⟩
  simp [VespucciDataset.UnitAreaNormalize, List.getElem?_map, hr]

theorem UnitAreaNormalize_row_witness :
    peakExample.spectra_.rows[0]? = some (liftVec [0, 1, 2, 3, 2, 1, 0])
      ∧ vsum (liftVec [(0 : ℚ), 1, 2, 3, 2, 1, 0]) = Dbl.fin 9
      ∧ (9 : ℚ) ≠ 0
      ∧ ∃ r1 : Vec ℚ, peakExample.UnitAreaNormalize.spectra_.rows[0]? = some r1
        ∧ r1 = (liftVec [0, 1, 2, 3, 2, 1, 0]).map (fun a => Dbl.div a (Dbl.fin 9))
        ∧ vsum r1 = Dbl.fin 1
        ∧ ∀ (j : Nat) (a : ℚ), (liftVec [0, 1, 2, 3, 2, 1, 0])[j]? = some (Dbl.fin a) →
            r1[j]? = some (Dbl.fin (a / 9)) :=
  ⟨by with_unfolding_all decide, by with_unfolding_all decide, by norm_num,
    UnitAreaNormalize_row peakExample 0 (liftVec [0, 1, 2, 3, 2, 1, 0]) 9
      (by with_unfolding_all decide) (by with_unfolding_all decide) (by norm_num)⟩

/-- A row that sums to zero is left without a finite entry: the division is
not guarded. -/
theorem unitAreaRow_zero_sum_example :
    unitAreaRow (liftVec [(1 : ℚ), -1]) = [Dbl.nonfin, Dbl.nonfin] := by
  with_unfolding_all decide

end UnitAreaProps

section BandwidthProps

variable {K : Type} [LinearOrderedField K]

/-- What the source computes as half maximum is `maximum + baseline / 2`:
the division binds to the baseline alone. -/
theorem half_maximum_fin (m b : K) :
    half_maximum (Dbl.fin m) (Dbl.fin b) = Dbl.fin (m + b / 2) := by
  have h2 : (2 : K) ≠ 0 := two_ne_zero
  simp only [half_maximum, Dbl.div, h2, if_false, Dbl.sub, Dbl.add]
  congr 1
  ring

/-- The value of the source differs from half of the peak height above the
baseline, `b + (m - b) / 2`, as soon as the maximum is not zero. -/
theorem half_maximum_ne_half_height (m b : K) (hm : m ≠ 0) :
    half_maximum (Dbl.fin m) (Dbl.fin b) ≠ Dbl.fin (b + (m - b) / 2) := by
  rw [half_maximum_fin]
  intro h
  injection h with h
  apply hm
  linarith

/-- C4 (defect of the code). On the spectrum `[2, 3, 8, 3, 2]` with the
window `[0, 4]` the maximum is 8 at channel 2 and the baseline there is 2, so
half of the peak height above the baseline is at `2 + (8 - 2) / 2 = 5`; the
bandwidth loop uses the threshold 9, above the peak itself. -/
theorem Bandwidth_half_maximum_example :
    (bandwidthPeak bandExample 0 4 0 {}).map (fun r => (r.2.2.1, r.2.2.2.1, r.2.2.2.2))
        = some (Dbl.fin 8, 2, Dbl.fin 9)
      ∧ (bandwidthPeak bandExample 0 4 0 {}).map (fun r => r.2.1[2]?) = some (some (Dbl.fin 2))
      ∧ (Dbl.fin 9 : Dbl ℚ) ≠ Dbl.fin (2 + (8 - 2) / 2) := by
  refine ⟨?_, ?_, ?_⟩ <;> with_unfolding_all decide

/-- The correction of the left edge moves the edge exactly when the found
edge is strictly closer to the half maximum than its outward neighbour. -/
theorem adjustLeft_rule (columns : Nat) (row : Vec K) (h a b : K) (left_index : Nat)
    (ha : rowElem columns row left_index = some (Dbl.fin a))
    (hb : rowElem columns row (usub left_index 1) = some (Dbl.fin b)) :
    adjustLeft columns row (Dbl.fin h) left_index
      = some (if |a - h| < |b - h| then usub left_index 1 else left_index) := by
  simp only [adjustLeft, ha, hb, Dbl.sub, Dbl.fabs, Dbl.lt]
  by_cases hlt : |a - h| < |b - h| <;> simp [hlt]

/-- The correction of the right edge moves the edge exactly when the found
edge is strictly closer to the half maximum than its outward neighbour. -/
theorem adjustRight_rule (columns : Nat) (row : Vec K) (h a b : K) (right_index : Nat)
    (ha : rowElem columns row right_index = some (Dbl.fin a))
    (hb : rowElem columns row ((right_index + 1) % UWORD) = some (Dbl.fin b)) :
    adjustRight columns row (Dbl.fin h) right_index
      = some (if |a - h| < |b - h| then (right_index + 1) % UWORD else right_index) := by
  simp only [adjustRight, ha, hb, Dbl.sub, Dbl.fabs, Dbl.lt]
  by_cases hlt : |a - h| < |b - h| <;> simp [hlt]

/-- C5 (defect of the code). On the spectrum `[0, 1, 2, 3, 2, 1, 0]` with the
threshold 3 of the source, the searches find the edges at channels 2 and 4.
Their outward neighbours, channels 1 and 5, are farther from the threshold
(distance 2 against 1), and still both edges are moved out, to 1 and 5: the
reported width is 40 where channels 2 and 4 are 20 apart. -/
theorem Bandwidth_edge_correction_example :
    bandwidthEdges 7 (liftVec [(0 : ℚ), 1, 2, 3, 2, 1, 0]) (Dbl.fin 3) 3 {} = some (2, 4)
      ∧ adjustLeft 7 (liftVec [(0 : ℚ), 1, 2, 3, 2, 1, 0]) (Dbl.fin 3) 2 = some 1
      ∧ adjustRight 7 (liftVec [(0 : ℚ), 1, 2, 3, 2, 1, 0]) (Dbl.fin 3) 4 = some 5
      ∧ ¬ (|(1 : ℚ) - 3| < |(2 : ℚ) - 3|)
      ∧ (peakExample.Univariate evalEnv 0 6 "width" "Bandwidth" "").map
          (fun d => d.maps_.map (fun m => m.results)) = some [[Dbl.fin 40, Dbl.fin 40]]
      ∧ vget peakExample.wavelength_ 2 = some 30 ∧ vget peakExample.wavelength_ 4 = some 50 := by
  refine ⟨?_, ?_, ?_, ?_, ?_, ?_, ?_⟩ <;> with_unfolding_all decide

end BandwidthProps

section AreaProps

variable {K : Type} [LinearOrderedField K]

theorem mapM_some_of_forall {α β : Type} (f : α → Option β) (g : α → β) (l : List α)
    (h : ∀ a ∈ l, f a = some (g a)) : l.mapM f = some (l.map g) := by
  induction l with
  | nil => rfl
  | cons a l ih =>
    rw [List.mapM_cons, h a (List.mem_cons_self a l), ih (fun b hb => h b (List.mem_cons_of_mem a hb))]
    rfl

theorem map_range_getD {α β : Type} (t : List α) (dflt : α) (F : α → β) :
    (List.range t.length).map (fun i => F (t.getD i dflt)) = t.map F := by
  apply List.ext_getElem?
  intro n
  by_cases hn : n < t.length
  · rw [List.getElem?_map, List.getElem?_range hn, List.getElem?_map,
      List.getElem?_eq_getElem hn]
    simp [List.getD_eq_getElem?_getD, List.getElem?_eq_getElem hn]
  · have hn1 : t.length ≤ n := not_lt.mp hn
    rw [List.getElem?_eq_none (by simpa using hn1), List.getElem?_eq_none (by simpa using hn1)]

omit [LinearOrderedField K] in
theorem liftVec_getElem? (l : List K) (j : Nat) : (liftVec l)[j]? = (l[j]?).map Dbl.fin := by
  simp [liftVec]

omit [LinearOrderedField K] in
theorem liftVec_length (l : List K) : (liftVec l).length = l.length := by
  simp [liftVec]

omit [LinearOrderedField K] in
theorem span_liftVec (l : List K) (a b : Nat) (hab : a ≤ b) (hb : b < l.length) :
    span (liftVec l) a b = some (liftVec ((l.drop a).take (b - a + 1))) := by
  simp [span, liftVec, hab, hb, List.map_take, List.map_drop]

omit [LinearOrderedField K] in
theorem liftMat_row (M : Nat) (t : List (List K)) (i : Nat) (hi : i < t.length) :
    (liftMat M t).row i = some (liftVec (t.getD i [])) := by
  simp [Mat.row, liftMat, List.getElem?_map, List.getElem?_eq_getElem hi,
    List.getD_eq_getElem?_getD]

theorem liftMat_elem (M : Nat) (t : List (List K)) (i j : Nat) (hi : i < t.length)
    (hj : j < M) (hlen : (t.getD i []).length = M) :
    (liftMat M t).elem i j = some (Dbl.fin ((t.getD i []).getD j 0)) := by
  have hj1 : j < (t.getD i []).length := by rw [hlen]; exact hj
  simp only [Mat.elem, liftMat, hj, if_true, List.getElem?_map, List.getElem?_eq_getElem hi,
    Option.map_some', Option.some_bind, liftVec, List.getD_eq_getElem?_getD, Option.getD_some]
  simp only [List.getD_eq_getElem?_getD, List.getElem?_eq_getElem hi, Option.getD_some] at hj1
  rw [List.getElem?_eq_getElem hj1]
  simp

/-- The baseline row of the source on finite end values is the spec's line. -/
theorem baselineRow_fin (row : List K) (min max : Nat) (hlt : min < max) (hmax : max < UWORD) :
    baselineRow (Dbl.fin (row.getD min 0)) (Dbl.fin (row.getD max 0)) min max
      = liftVec ((List.range (max - min + 1)).map
          (fun k => linearBaseline row min max (min + k))) := by
  have hne : ((max - min : Nat) : K) ≠ 0 := by
    have : max - min ≠ 0 := by omega
    exact_mod_cast this
  have hcast : ((max - min : Nat) : K) = (max : K) - (min : K) := by
    rw [Nat.cast_sub (le_of_lt hlt)]
  simp only [baselineRow, usub_of_le max min (le_of_lt hlt) hmax, Dbl.sub, Dbl.ofNat, Dbl.div,
    hne, if_false, Dbl.mul, Dbl.add, liftVec, List.map_map]
  apply List.map_congr_left
  intro k _
  simp only [Function.comp, linearBaseline, hcast]
  congr 1
  push_cast
  ring

theorem zipWith_sub_liftVec (a b : List K) :
    List.zipWith Dbl.sub (liftVec a) (liftVec b) = liftVec (List.zipWith (fun x y => x - y) a b) := by
  induction a generalizing b with
  | nil => simp [liftVec]
  | cons x a ih =>
    cases b with
    | nil => simp [liftVec]
    | cons y b =>
      simp only [liftVec, List.map_cons, List.zipWith_cons_cons, Dbl.sub] at ih ⊢
      rw [ih]

theorem window_eq_map_range (row : List K) (min max : Nat) (hmax : max < row.length)
    (hle : min ≤ max) :
    (row.drop min).take (max - min + 1)
      = (List.range (max - min + 1)).map (fun k => row.getD (min + k) 0) := by
  apply List.ext_getElem?
  intro n
  rw [List.getElem?_take, List.getElem?_drop, List.getElem?_map]
  by_cases hn : n < max - min + 1
  · have h1 : min + n < row.length := by omega
    simp [hn, List.getElem?_range hn, List.getD_eq_getElem?_getD, List.getElem?_eq_getElem h1]
  · have h2 : (List.range (max - min + 1)).length ≤ n := by simpa using not_lt.mp hn
    simp [hn, List.getElem?_eq_none h2]

theorem zipWith_map_range {β γ : Type} (f g : Nat → β) (op : β → β → γ) (n : Nat) :
    List.zipWith op ((List.range n).map f) ((List.range n).map g)
      = (List.range n).map (fun k => op (f k) (g k)) := by
  rw [List.zipWith_map_left, List.zipWith_map_right, List.zipWith_same]

/-- The body of the area loop on a row of finite values: the spec's area and
the spec's baseline. -/
theorem areaRow_liftMat (d : VespucciDataset K) (M : Nat) (t : List (List K)) (min max i : Nat)
    (hs : d.spectra_ = liftMat M t) (hi : i < t.length) (hlen : (t.getD i []).length = M)
    (hlt : min < max) (hmax : max < M) (hM : M ≤ UWORD) :
    areaRow d min max i
      = some (Dbl.fin (areaSpec (t.getD i []) min max),
          liftVec ((List.range (max - min + 1)).map
            (fun k => linearBaseline (t.getD i []) min max (min + k)))) := by
  have hmaxrow : max < (t.getD i []).length := by rw [hlen]; exact hmax
  unfold areaRow
  rw [hs, liftMat_row M t i hi, liftMat_elem M t i min hi (by omega) hlen,
    liftMat_elem M t i max hi hmax hlen]
  simp only []
  rw [baselineRow_fin (t.getD i []) min max hlt (by omega),
    span_liftVec _ min max (le_of_lt hlt) hmaxrow,
    window_eq_map_range _ min max hmaxrow (le_of_lt hlt)]
  simp only [liftVec_length, List.length_map, List.length_range, ne_eq, not_true_eq_false,
    if_false, zipWith_sub_liftVec, zipWith_map_range, vsum_liftVec]
  rfl

theorem sum_range_cast (n : Nat) :
    ((List.range n).map (fun (k : Nat) => (k : K))).sum = (n : K) * ((n : K) - 1) / 2 := by
  induction n with
  | zero => simp
  | succ n ih =>
    rw [List.sum_range_succ, ih]
    push_cast
    ring

theorem sum_map_sub {α : Type} (l : List α) (f g : α → K) :
    (l.map (fun a => f a - g a)).sum = (l.map f).sum - (l.map g).sum := by
  induction l with
  | nil => simp
  | cons a l ih => simp only [List.map_cons, List.sum_cons, ih]; ring

theorem sum_map_affine (n : Nat) (c s : K) :
    ((List.range n).map (fun (k : Nat) => s + (k : K) * c)).sum
      = (n : K) * s + c * ((n : K) * ((n : K) - 1) / 2) := by
  induction n with
  | zero => simp
  | succ n ih =>
    rw [List.sum_range_succ, ih]
    push_cast
    ring

/-- The spec's area in closed form: the raw sum of the window minus the
trapezoid under the baseline. -/
theorem areaSpec_closed_form (row : List K) (min max : Nat) (hlt : min < max) :
    areaSpec row min max
      = windowSum row min max
        - ((max : K) - (min : K) + 1) * (row.getD min 0 + row.getD max 0) / 2 := by
  have hne : (max : K) - (min : K) ≠ 0 := by
    have : (min : K) < (max : K) := by exact_mod_cast hlt
    linarith
  have hbase : ∀ k : Nat, linearBaseline row min max (min + k)
      = row.getD min 0 + (k : K) * ((row.getD max 0 - row.getD min 0) / ((max : K) - (min : K))) := by
    intro k
    simp only [linearBaseline]
    push_cast
    ring
  unfold areaSpec windowSum
  rw [sum_map_sub]
  simp only [hbase]
  rw [sum_map_affine]
  have hn : ((max - min + 1 : Nat) : K) = (max : K) - (min : K) + 1 := by
    rw [Nat.cast_add, Nat.cast_sub (le_of_lt hlt)]
    simp
  rw [hn]
  field_simp
  ring

theorem getD_mem_of_lt {α : Type} (t : List α) (i : Nat) (dflt : α) (hi : i < t.length) :
    t.getD i dflt ∈ t := by
  rw [List.getD_eq_getElem?_getD, List.getElem?_eq_getElem hi]
  exact List.getElem_mem hi

/-- C3. On a spatial dataset of finite spectra with `M` channels and a window
`0 <= min < max < M`, `Univariate` with "Area" and "Riemann Sum" returns and
appends a map whose result for each row is the sum over the window of the
value minus the straight baseline from the value at `min` to the value at
`max`; that sum equals the raw window sum minus
`(max - min + 1) * (s[min] + s[max]) / 2`. For the row `[0,1,2,3,2,1,0]` and
the window `[0, 6]` the baseline is zero everywhere and the area is 9. -/
theorem Univariate_area_riemann (env : Env K) (d : VespucciDataset K) (M : Nat)
    (t : List (List K)) (min max : Nat) (name : String)
    (hs : d.spectra_ = liftMat M t) (hwf : ∀ r ∈ t, r.length = M)
    (hx : d.x_.length = t.length) (hw : d.wavelength_.length = M)
    (hsp : d.non_spatial_ = false) (hlt : min < max) (hmax : max < M) (hM : M ≤ UWORD) :
    (∃ m : MapData K,
        d.Univariate env min max name "Area" "Riemann Sum" = some (d.AddMap m)
          ∧ m.results = t.map (fun row => Dbl.fin (areaSpec row min max)))
      ∧ (∀ row ∈ t, areaSpec row min max
          = windowSum row min max
            - ((max : K) - (min : K) + 1) * (row.getD min 0 + row.getD max 0) / 2)
      ∧ areaSpec ([0, 1, 2, 3, 2, 1, 0] : List K) 0 6 = 9
      ∧ ∀ j : Nat, linearBaseline ([0, 1, 2, 3, 2, 1, 0] : List K) 0 6 j = 0 := by
  refine ⟨?_, fun row _ => areaSpec_closed_form row min max hlt, ?_, ?_⟩
  · have hrows : ∀ i ∈ List.range d.x_.length, areaRow d min max i
        = some (Dbl.fin (areaSpec (t.getD i []) min max),
            liftVec ((List.range (max - min + 1)).map
              (fun k => linearBaseline (t.getD i []) min max (min + k)))) := by
      intro i hi
      have hi1 : i < t.length := by rw [← hx]; exact List.mem_range.mp hi
      exact areaRow_liftMat d M t min max i hs hi1 (hwf _ (getD_mem_of_lt t i [] hi1)) hlt hmax hM
    have hspan : span d.wavelength_ min max
        = some ((d.wavelength_.drop min).take (max - min + 1)) := by
      simp [span, le_of_lt hlt, hw, hmax]
    have hne1 : ¬ ("Area" = "Bandwidth") := by decide
    simp only [VespucciDataset.Univariate, hsp, Bool.false_eq_true, if_false, hne1, if_true,
      hspan, mapM_some_of_forall _ _ _ hrows]
    refine ⟨_, rfl, ?_⟩
    simp only [List.map_map, Function.comp]
    rw [hx]
    exact map_range_getD t [] (fun row => Dbl.fin (areaSpec row min max))
  · simp [areaSpec, linearBaseline, List.range_succ]
    norm_num
  · intro j
    simp [linearBaseline]

theorem Univariate_area_riemann_witness :
    peakExample.spectra_ = liftMat 7 [[0, 1, 2, 3, 2, 1, 0], [0, 1, 4, 10, 4, 1, 0]]
      ∧ (∀ r ∈ [[(0 : ℚ), 1, 2, 3, 2, 1, 0], [0, 1, 4, 10, 4, 1, 0]], r.length = 7)
      ∧ peakExample.x_.length = [[(0 : ℚ), 1, 2, 3, 2, 1, 0], [0, 1, 4, 10, 4, 1, 0]].length
      ∧ peakExample.wavelength_.length = 7
      ∧ peakExample.non_spatial_ = false
      ∧ 0 < 6 ∧ 6 < 7 ∧ 7 ≤ UWORD
      ∧ ((∃ m : MapData ℚ,
          peakExample.Univariate evalEnv 0 6 "area" "Area" "Riemann Sum"
              = some (peakExample.AddMap m)
            ∧ m.results = [[(0 : ℚ), 1, 2, 3, 2, 1, 0], [0, 1, 4, 10, 4, 1, 0]].map
                (fun row => Dbl.fin (areaSpec row 0 6)))
        ∧ (∀ row ∈ [[(0 : ℚ), 1, 2, 3, 2, 1, 0], [0, 1, 4, 10, 4, 1, 0]], areaSpec row 0 6
            = windowSum row 0 6
              - (((6 : Nat) : ℚ) - ((0 : Nat) : ℚ) + 1) * (row.getD 0 0 + row.getD 6 0) / 2)
        ∧ areaSpec ([0, 1, 2, 3, 2, 1, 0] : List ℚ) 0 6 = 9
        ∧ ∀ j : Nat, linearBaseline ([0, 1, 2, 3, 2, 1, 0] : List ℚ) 0 6 j = 0) :=
  ⟨rfl, by decide, by decide, by decide, rfl, by decide, by decide, by decide,
    Univariate_area_riemann evalEnv peakExample 7 [[0, 1, 2, 3, 2, 1, 0], [0, 1, 4, 10, 4, 1, 0]]
      0 6 "area" rfl (by decide) (by decide) (by decide) rfl (by decide) (by decide) (by decide)⟩

end AreaProps

section MinMaxLemmas

variable {K : Type} [LinearOrderedField K]

theorem foldl_max_liftVec (l : List K) (a : K) :
    List.foldl Dbl.max (Dbl.fin a) (liftVec l) = Dbl.fin (l.foldl Max.max a) := by
  induction l generalizing a with
  | nil => simp [liftVec]
  | cons b l ih =>
    simp only [liftVec, List.map_cons, List.foldl_cons, Dbl.max] at ih ⊢
    rw [ih]

theorem foldl_min_liftVec (l : List K) (a : K) :
    List.foldl Dbl.min (Dbl.fin a) (liftVec l) = Dbl.fin (l.foldl Min.min a) := by
  induction l generalizing a with
  | nil => simp [liftVec]
  | cons b l ih =>
    simp only [liftVec, List.map_cons, List.foldl_cons, Dbl.min] at ih ⊢
    rw [ih]

theorem vmax_liftVec_cons (l : List K) (a : K) :
    vmax (liftVec (a :: l)) = some (Dbl.fin (l.foldl Max.max a)) := by
  simp only [liftVec, List.map_cons, vmax]
  exact congrArg some (foldl_max_liftVec l a)

theorem vmin_liftVec_cons (l : List K) (a : K) :
    vmin (liftVec (a :: l)) = some (Dbl.fin (l.foldl Min.min a)) := by
  simp only [liftVec, List.map_cons, vmin]
  exact congrArg some (foldl_min_liftVec l a)

theorem le_foldl_max (l : List K) (a : K) :
    a ≤ l.foldl Max.max a ∧ ∀ x ∈ l, x ≤ l.foldl Max.max a := by
  induction l generalizing a with
  | nil => simp
  | cons b l ih =>
    obtain ⟨h1, h2⟩ := ih (Max.max a b)
    refine ⟨le_trans (le_max_left a b) h1, ?_⟩
    intro x hx
    rcases List.mem_cons.mp hx with rfl | hx
    · exact le_trans (le_max_right a x) h1
    · exact h2 x hx

theorem foldl_min_le (l : List K) (a : K) :
    l.foldl Min.min a ≤ a ∧ ∀ x ∈ l, l.foldl Min.min a ≤ x := by
  induction l generalizing a with
  | nil => simp
  | cons b l ih =>
    obtain ⟨h1, h2⟩ := ih (Min.min a b)
    refine ⟨le_trans h1 (min_le_left a b), ?_⟩
    intro x hx
    rcases List.mem_cons.mp hx with rfl | hx
    · exact le_trans h1 (min_le_right a x)
    · exact h2 x hx

theorem foldl_max_map (f : K → K) (hf : Monotone f) (l : List K) (a : K) :
    (l.map f).foldl Max.max (f a) = f (l.foldl Max.max a) := by
  induction l generalizing a with
  | nil => rfl
  | cons b l ih =>
    simp only [List.map_cons, List.foldl_cons]
    rw [← hf.map_max, ih]

theorem foldl_min_map (f : K → K) (hf : Monotone f) (l : List K) (a : K) :
    (l.map f).foldl Min.min (f a) = f (l.foldl Min.min a) := by
  induction l generalizing a with
  | nil => rfl
  | cons b l ih =>
    simp only [List.map_cons, List.foldl_cons]
    rw [← hf.map_min, ih]

omit [LinearOrderedField K] in
theorem liftMat_entries (M : Nat) (t : List (List K)) :
    (liftMat M t).entries = liftVec t.flatten := by
  show (List.map (fun v => List.map Dbl.fin v) t).flatten = List.map Dbl.fin t.flatten
  rw [List.map_flatten]

omit [LinearOrderedField K] in
theorem liftMat_map (M : Nat) (t : List (List K)) (f : Dbl K → Dbl K) (g : K → K)
    (hfg : ∀ x, f (Dbl.fin x) = Dbl.fin (g x)) :
    (liftMat M t).map f = liftMat M (t.map (fun r => r.map g)) := by
  simp only [Mat.map, liftMat, List.map_map, Mat.mk.injEq, true_and]
  apply List.map_congr_left
  intro r _
  simp only [Function.comp, liftVec, List.map_map]
  apply List.map_congr_left
  intro x _
  exact hfg x

/-- The shift of `MinMaxNormalize`: by the minimum when it is negative. -/
theorem minMax_shift_mono (mn : K) : Monotone (fun x : K => if mn < 0 then x - mn else x) := by
  intro x y hxy
  by_cases h : mn < 0
  · simp only [h, if_true]; linarith
  · simp only [h, if_false]; exact hxy

/-- `MinMaxNormalize` on a matrix of finite values with first entry `a` and
other entries `E`, as long as the maximum after the shift is not zero. -/
theorem MinMaxNormalize_liftMat (d : VespucciDataset K) (M : Nat) (t : List (List K)) (a : K)
    (E : List K) (hs : d.spectra_ = liftMat M t) (hE : t.flatten = a :: E)
    (hmx : (if E.foldl Min.min a < 0 then E.foldl Max.max a - E.foldl Min.min a
      else E.foldl Max.max a) ≠ 0) :
    d.MinMaxNormalize = some { d with
      spectra_old_ := d.spectra_,
      spectra_ := liftMat M (t.map (fun r => r.map (fun x =>
        (if E.foldl Min.min a < 0 then x - E.foldl Min.min a else x)
          / (if E.foldl Min.min a < 0 then E.foldl Max.max a - E.foldl Min.min a
              else E.foldl Max.max a)))),
      last_operation_ := "min/max normalize" } := by
  have hmin : d.spectra_.min = some (Dbl.fin (E.foldl Min.min a)) := by
    rw [hs, Mat.min, liftMat_entries, hE, vmin_liftVec_cons]
  have hshift : (if Dbl.lt (Dbl.fin (E.foldl Min.min a)) (Dbl.fin 0) = true
        then d.spectra_.map (fun v => Dbl.sub v (Dbl.fin (E.foldl Min.min a))) else d.spectra_)
      = liftMat M (t.map (fun r => r.map
          (fun x => if E.foldl Min.min a < 0 then x - E.foldl Min.min a else x))) := by
    by_cases h : E.foldl Min.min a < 0
    · simp only [Dbl.lt, h, decide_True, if_true]
      rw [hs]
      exact liftMat_map M t _ _ (fun x => rfl)
    · simp only [Dbl.lt, h, decide_False, if_false, Bool.false_eq_true]
      rw [hs]
      simp
  have hflat : (t.map (fun r => r.map
        (fun x => if E.foldl Min.min a < 0 then x - E.foldl Min.min a else x))).flatten
      = (if E.foldl Min.min a < 0 then a - E.foldl Min.min a else a)
        :: E.map (fun x => if E.foldl Min.min a < 0 then x - E.foldl Min.min a else x) := by
    rw [← List.map_flatten, hE, List.map_cons]
  have hmax : (liftMat M (t.map (fun r => r.map
        (fun x => if E.foldl Min.min a < 0 then x - E.foldl Min.min a else x)))).max
      = some (Dbl.fin (if E.foldl Min.min a < 0 then E.foldl Max.max a - E.foldl Min.min a
          else E.foldl Max.max a)) := by
    rw [Mat.max, liftMat_entries, hflat, vmax_liftVec_cons,
      foldl_max_map _ (minMax_shift_mono (E.foldl Min.min a))]
  unfold VespucciDataset.MinMaxNormalize
  simp only [hmin, hshift, hmax]
  rw [liftMat_map M _ _ (fun x => x / (if E.foldl Min.min a < 0
      then E.foldl Max.max a - E.foldl Min.min a else E.foldl Max.max a))
    (fun x => by simp only [Dbl.div, hmx, if_false])]
  simp only [List.map_map, Function.comp_def]

/-- The divisor of `MinMaxNormalize` is positive as soon as two entries
differ or one entry is positive. -/
theorem minMax_divisor_pos (a : K) (E : List K)
    (hne : (∃ x ∈ a :: E, ∃ y ∈ a :: E, x ≠ y) ∨ (∃ x ∈ a :: E, 0 < x)) :
    0 < (if E.foldl Min.min a < 0 then E.foldl Max.max a - E.foldl Min.min a
      else E.foldl Max.max a) := by
  have hlo : ∀ x ∈ a :: E, E.foldl Min.min a ≤ x := by
    intro x hx
    rcases List.mem_cons.mp hx with rfl | hx
    · exact (foldl_min_le E x).1
    · exact (foldl_min_le E a).2 x hx
  have hhi : ∀ x ∈ a :: E, x ≤ E.foldl Max.max a := by
    intro x hx
    rcases List.mem_cons.mp hx with rfl | hx
    · exact (le_foldl_max E x).1
    · exact (le_foldl_max E a).2 x hx
  rcases hne with ⟨x, hx, y, hy, hxy⟩ | ⟨x, hx, hpos⟩
  · have hlt : E.foldl Min.min a < E.foldl Max.max a := by
      by_contra hcon
      have hle : E.foldl Max.max a ≤ E.foldl Min.min a := not_lt.mp hcon
      apply hxy
      have h1 := hlo x hx
      have h2 := hhi x hx
      have h3 := hlo y hy
      have h4 := hhi y hy
      linarith
    by_cases h : E.foldl Min.min a < 0
    · simp only [h, if_true]; linarith
    · simp only [h, if_false]; linarith [not_lt.mp h]
  · have h2 := hhi x hx
    by_cases h : E.foldl Min.min a < 0
    · simp only [h, if_true]; linarith
    · simp only [h, if_false]; linarith

omit [LinearOrderedField K] in
theorem liftMat_UnitRange_iff_aux (M : Nat) (t : List (List K)) (e : Dbl K)
    (he : e ∈ (liftMat M t).entries) : ∃ x ∈ t.flatten, e = Dbl.fin x := by
  rw [liftMat_entries, liftVec, List.mem_map] at he
  obtain ⟨x, hx, rfl⟩ := he
  exact ⟨x, hx, rfl⟩

end MinMaxLemmas

section MinMaxProps

variable {K : Type} [LinearOrderedField K]

/-- C6 (amended). For a matrix of finite values in which two entries differ
or one entry is positive (so: not constant at a value `<= 0`),
`MinMaxNormalize` returns and every entry of the new spectra is a finite
number of `[0, 1]`. -/
theorem MinMaxNormalize_range (d : VespucciDataset K) (M : Nat) (t : List (List K))
    (hs : d.spectra_ = liftMat M t)
    (hne : (∃ x ∈ t.flatten, ∃ y ∈ t.flatten, x ≠ y) ∨ (∃ x ∈ t.flatten, 0 < x)) :
    ∃ d1 : VespucciDataset K, d.MinMaxNormalize = some d1 ∧ d1.spectra_.UnitRange := by
  obtain ⟨a, E, hE⟩ : ∃ a E, t.flatten = a :: E := by
    cases hflat : t.flatten with
    | nil => rw [hflat] at hne; simp at hne
    | cons a E => exact ⟨a, E, rfl⟩
  rw [hE] at hne
  have hpos := minMax_divisor_pos a E hne
  refine ⟨_, MinMaxNormalize_liftMat d M t a E hs hE (ne_of_gt hpos), ?_⟩
  intro e he
  obtain ⟨z, hz, rfl⟩ := liftMat_UnitRange_iff_aux M _ e he
  rw [← List.map_flatten, hE, List.mem_map] at hz
  obtain ⟨x, hx, rfl⟩ := hz
  have hlo : E.foldl Min.min a ≤ x := by
    rcases List.mem_cons.mp hx with rfl | hx
    · exact (foldl_min_le E x).1
    · exact (foldl_min_le E a).2 x hx
  have hhi : x ≤ E.foldl Max.max a := by
    rcases List.mem_cons.mp hx with rfl | hx
    · exact (le_foldl_max E x).1
    · exact (le_foldl_max E a).2 x hx
  refine ⟨_, rfl, ?_, ?_⟩
  · apply div_nonneg _ (le_of_lt hpos)
    by_cases h : E.foldl Min.min a < 0
    · simp only [h, if_true]; linarith
    · simp only [h, if_false]; linarith [not_lt.mp h]
  · rw [div_le_one hpos]
    by_cases h : E.foldl Min.min a < 0
    · simp only [h, if_true]; linarith
    · simp only [h, if_false]; exact hhi

theorem MinMaxNormalize_range_witness :
    peakExample.spectra_ = liftMat 7 [[0, 1, 2, 3, 2, 1, 0], [0, 1, 4, 10, 4, 1, 0]]
      ∧ ((∃ x ∈ [[(0 : ℚ), 1, 2, 3, 2, 1, 0], [0, 1, 4, 10, 4, 1, 0]].flatten,
            ∃ y ∈ [[(0 : ℚ), 1, 2, 3, 2, 1, 0], [0, 1, 4, 10, 4, 1, 0]].flatten, x ≠ y)
          ∨ (∃ x ∈ [[(0 : ℚ), 1, 2, 3, 2, 1, 0], [0, 1, 4, 10, 4, 1, 0]].flatten, 0 < x))
      ∧ ∃ d1 : VespucciDataset ℚ,
          peakExample.MinMaxNormalize = some d1 ∧ d1.spectra_.UnitRange :=
  ⟨rfl, Or.inr ⟨1, by simp, by norm_num⟩,
    MinMaxNormalize_range peakExample 7 [[0, 1, 2, 3, 2, 1, 0], [0, 1, 4, 10, 4, 1, 0]] rfl
      (Or.inr ⟨1, by simp, by norm_num⟩)⟩

/-- C6 as stated fails on the non-empty matrix with the single entry 0: the
minimum is not negative, the maximum is 0, and the division `0 / 0` leaves a
value that is not a number of `[0, 1]`. -/
theorem MinMaxNormalize_range_counterexample :
    zeroExample.spectra_ = liftMat 1 [[0]]
      ∧ zeroExample.spectra_.entries ≠ []
      ∧ zeroExample.MinMaxNormalize.map (fun d => d.spectra_.entries) = some [Dbl.nonfin]
      ∧ ¬ ∃ d1 : VespucciDataset ℚ,
          zeroExample.MinMaxNormalize = some d1 ∧ d1.spectra_.UnitRange := by
  have hrun : zeroExample.MinMaxNormalize.map (fun d => d.spectra_.entries)
      = some [Dbl.nonfin] := by
    with_unfolding_all decide
  refine ⟨rfl, by with_unfolding_all decide, hrun, ?_⟩
  rintro ⟨d1, h1, hrange⟩
  rw [h1] at hrun
  simp only [Option.map_some', Option.some.injEq] at hrun
  obtain ⟨v, hv, _⟩ := hrange Dbl.nonfin (by rw [hrun]; simp)
  cases hv

theorem liftMat_map_div_one (M : Nat) (t : List (List K)) :
    liftMat M (t.map (fun r => r.map (fun x => x / (1 : K)))) = liftMat M t := by
  simp

/-- C7 (amended). For a matrix of finite values in which two entries differ
or one entry is positive, with minimum `mn` and maximum `mx`:
`MinMaxNormalize` returns, a second `MinMaxNormalize` returns the same
spectra, and after the first one the global maximum is 1 and the global
minimum is 0 when `mn < 0` and `mn / mx` otherwise. -/
theorem MinMaxNormalize_idempotent (d : VespucciDataset K) (M : Nat) (t : List (List K))
    (hs : d.spectra_ = liftMat M t)
    (hne : (∃ x ∈ t.flatten, ∃ y ∈ t.flatten, x ≠ y) ∨ (∃ x ∈ t.flatten, 0 < x)) :
    ∃ (mn mx : K) (d1 d2 : VespucciDataset K),
      d.spectra_.min = some (Dbl.fin mn) ∧ d.spectra_.max = some (Dbl.fin mx)
        ∧ d.MinMaxNormalize = some d1 ∧ d1.MinMaxNormalize = some d2
        ∧ d2.spectra_ = d1.spectra_
        ∧ d1.spectra_.max = some (Dbl.fin 1)
        ∧ d1.spectra_.min = some (Dbl.fin (if mn < 0 then 0 else mn / mx)) := by
  obtain ⟨a, E, hE⟩ : ∃ a E, t.flatten = a :: E := by
    cases hflat : t.flatten with
    | nil => rw [hflat] at hne; simp at hne
    | cons a E => exact ⟨a, E, rfl⟩
  rw [hE] at hne
  have hpos := minMax_divisor_pos a E hne
  have hrun := MinMaxNormalize_liftMat d M t a E hs hE (ne_of_gt hpos)
  have hmnMX : E.foldl Min.min a ≤ E.foldl Max.max a :=
    le_trans (foldl_min_le E a).1 (le_foldl_max E a).1
  -- the map applied to every entry, and its monotonicity
  have hmono : Monotone (fun x : K =>
      (if E.foldl Min.min a < 0 then x - E.foldl Min.min a else x)
        / (if E.foldl Min.min a < 0 then E.foldl Max.max a - E.foldl Min.min a
            else E.foldl Max.max a)) := by
    intro x y hxy
    exact div_le_div_of_nonneg_right (minMax_shift_mono (E.foldl Min.min a) hxy) (le_of_lt hpos)
  have hflat1 : (t.map (fun r => r.map (fun x =>
        (if E.foldl Min.min a < 0 then x - E.foldl Min.min a else x)
          / (if E.foldl Min.min a < 0 then E.foldl Max.max a - E.foldl Min.min a
              else E.foldl Max.max a)))).flatten
      = ((if E.foldl Min.min a < 0 then a - E.foldl Min.min a else a)
          / (if E.foldl Min.min a < 0 then E.foldl Max.max a - E.foldl Min.min a
              else E.foldl Max.max a))
        :: E.map (fun x =>
          (if E.foldl Min.min a < 0 then x - E.foldl Min.min a else x)
            / (if E.foldl Min.min a < 0 then E.foldl Max.max a - E.foldl Min.min a
                else E.foldl Max.max a)) := by
    rw [← List.map_flatten, hE, List.map_cons]
  have hmax1 : (E.map (fun x =>
        (if E.foldl Min.min a < 0 then x - E.foldl Min.min a else x)
          / (if E.foldl Min.min a < 0 then E.foldl Max.max a - E.foldl Min.min a
              else E.foldl Max.max a))).foldl Max.max
        ((if E.foldl Min.min a < 0 then a - E.foldl Min.min a else a)
          / (if E.foldl Min.min a < 0 then E.foldl Max.max a - E.foldl Min.min a
              else E.foldl Max.max a)) = 1 := by
    rw [foldl_max_map _ hmono]
    exact div_self (ne_of_gt hpos)
  have hmin1 : (E.map (fun x =>
        (if E.foldl Min.min a < 0 then x - E.foldl Min.min a else x)
          / (if E.foldl Min.min a < 0 then E.foldl Max.max a - E.foldl Min.min a
              else E.foldl Max.max a))).foldl Min.min
        ((if E.foldl Min.min a < 0 then a - E.foldl Min.min a else a)
          / (if E.foldl Min.min a < 0 then E.foldl Max.max a - E.foldl Min.min a
              else E.foldl Max.max a))
      = (if E.foldl Min.min a < 0 then 0 else E.foldl Min.min a / E.foldl Max.max a) := by
    rw [foldl_min_map _ hmono]
    by_cases h : E.foldl Min.min a < 0
    · simp only [h, if_true, sub_self, zero_div]
    · simp only [h, if_false]
  have hmin1_nonneg : ¬ ((if E.foldl Min.min a < 0 then (0 : K)
      else E.foldl Min.min a / E.foldl Max.max a) < 0) := by
    by_cases h : E.foldl Min.min a < 0
    · simp only [h, if_true, lt_self_iff_false, not_false_eq_true]
    · simp only [h, if_false, not_lt]
      simp only [h, if_false] at hpos
      exact div_nonneg (not_lt.mp h) (le_of_lt hpos)
  obtain ⟨d1, hd1, hsp1⟩ : ∃ d1 : VespucciDataset K, d.MinMaxNormalize = some d1
      ∧ d1.spectra_ = liftMat M (t.map (fun r => r.map (fun x =>
        (if E.foldl Min.min a < 0 then x - E.foldl Min.min a else x)
          / (if E.foldl Min.min a < 0 then E.foldl Max.max a - E.foldl Min.min a
              else E.foldl Max.max a)))) := ⟨_, hrun, rfl⟩
  have hrun2 := MinMaxNormalize_liftMat d1 M _ _ _ hsp1 hflat1
    (by rw [hmin1, hmax1]; simp only [hmin1_nonneg, if_false]; exact one_ne_zero)
  refine ⟨E.foldl Min.min a, E.foldl Max.max a, d1, _, ?_, ?_, hd1, hrun2, ?_, ?_, ?_⟩
  · rw [hs, Mat.min, liftMat_entries, hE, vmin_liftVec_cons]
  · rw [hs, Mat.max, liftMat_entries, hE, vmax_liftVec_cons]
  · simp only [hmin1, hmax1, hmin1_nonneg, if_false]
    rw [hsp1]
    exact liftMat_map_div_one M _
  · rw [hsp1, Mat.max, liftMat_entries, hflat1, vmax_liftVec_cons, hmax1]
  · rw [hsp1, Mat.min, liftMat_entries, hflat1, vmin_liftVec_cons, hmin1]

theorem MinMaxNormalize_idempotent_witness :
    peakExample.spectra_ = liftMat 7 [[0, 1, 2, 3, 2, 1, 0], [0, 1, 4, 10, 4, 1, 0]]
      ∧ ((∃ x ∈ [[(0 : ℚ), 1, 2, 3, 2, 1, 0], [0, 1, 4, 10, 4, 1, 0]].flatten,
            ∃ y ∈ [[(0 : ℚ), 1, 2, 3, 2, 1, 0], [0, 1, 4, 10, 4, 1, 0]].flatten, x ≠ y)
          ∨ (∃ x ∈ [[(0 : ℚ), 1, 2, 3, 2, 1, 0], [0, 1, 4, 10, 4, 1, 0]].flatten, 0 < x))
      ∧ ∃ (mn mx : ℚ) (d1 d2 : VespucciDataset ℚ),
          peakExample.spectra_.min = some (Dbl.fin mn)
            ∧ peakExample.spectra_.max = some (Dbl.fin mx)
            ∧ peakExample.MinMaxNormalize = some d1 ∧ d1.MinMaxNormalize = some d2
            ∧ d2.spectra_ = d1.spectra_
            ∧ d1.spectra_.max = some (Dbl.fin 1)
            ∧ d1.spectra_.min = some (Dbl.fin (if mn < 0 then 0 else mn / mx)) :=
  ⟨rfl, Or.inr ⟨10, by simp, by norm_num⟩,
    MinMaxNormalize_idempotent peakExample 7 [[0, 1, 2, 3, 2, 1, 0], [0, 1, 4, 10, 4, 1, 0]] rfl
      (Or.inr ⟨10, by simp, by norm_num⟩)⟩

/-- C7 as stated fails on the non-empty matrix `[-1, -1]`: the shift by the
negative minimum leaves zeros, the maximum is 0, every entry becomes `0 / 0`,
and the global maximum after one application is not 1. -/
theorem MinMaxNormalize_idempotent_counterexample :
    constantExample.spectra_ = liftMat 2 [[-1, -1]]
      ∧ constantExample.spectra_.entries ≠ []
      ∧ constantExample.MinMaxNormalize.map (fun d => d.spectra_.max) = some (some Dbl.nonfin)
      ∧ ¬ ∃ d1 : VespucciDataset ℚ,
          constantExample.MinMaxNormalize = some d1 ∧ d1.spectra_.max = some (Dbl.fin 1) := by
  have hrun : constantExample.MinMaxNormalize.map (fun d => d.spectra_.max)
      = some (some Dbl.nonfin) := by
    with_unfolding_all decide
  refine ⟨rfl, by with_unfolding_all decide, hrun, ?_⟩
  rintro ⟨d1, h1, hmax⟩
  rw [h1] at hrun
  simp only [Option.map_some', Option.some.injEq] at hrun
  rw [hmax] at hrun
  cases hrun

/-- Evaluation of `MinMaxNormalize` with a negative minimum: `[-1, 0, 3]` is
shifted to `[0, 1, 4]` and divided by 4. -/
theorem MinMaxNormalize_example :
    (VespucciDataset.MinMaxNormalize
        ({ spectra_ := liftMat 3 [[-1, 0, 3]] } : VespucciDataset ℚ)).map (fun d => d.spectra_)
      = some (liftMat 3 [[0, 1 / 4, 1]]) := by
  with_unfolding_all decide

end MinMaxProps


section ZScoreLemmas

variable {K : Type} [LinearOrderedField K]

theorem mapM_map_comp {α β γ : Type} (h : α → β) (g : β → Option γ) (l : List α) :
    (l.map h).mapM g = l.mapM (fun a => g (h a)) := by
  induction l with
  | nil => rfl
  | cons a l ih => rw [List.map_cons, List.mapM_cons, List.mapM_cons, ih]

theorem mapM_option_map {α β γ : Type} (q : α → Option β) (f : β → γ) (l : List α) :
    l.mapM (fun a => (q a).map f) = (l.mapM q).map (List.map f) := by
  induction l with
  | nil => rfl
  | cons a l ih =>
    rw [List.mapM_cons, List.mapM_cons, ih]
    cases q a <;> cases l.mapM q <;> rfl

theorem mapM_length {α β : Type} (q : α → Option β) (l : List α) (r : List β)
    (h : l.mapM q = some r) : r.length = l.length := by
  induction l generalizing r with
  | nil =>
    have : r = [] := by
      have h0 : ([] : List α).mapM q = some [] := rfl
      rw [h0] at h
      exact (Option.some.inj h).symm
    rw [this]
    rfl
  | cons a l ih =>
    rw [List.mapM_cons] at h
    cases hq : q a with
    | none => rw [hq] at h; cases h
    | some b =>
      cases hl : l.mapM q with
      | none => rw [hq, hl] at h; cases h
      | some t =>
        rw [hq, hl] at h
        have : r = b :: t := (Option.some.inj h).symm
        rw [this, List.length_cons, List.length_cons, ih t hl]

/-- Rewriting column `k` leaves the other columns and maps column `k`. -/
theorem col_rescaleCol (m : Mat K) (k j : Nat) (mean standard_deviation : Dbl K) :
    (m.rescaleCol k mean standard_deviation).col j
      = if j = k then
          (m.col j).map (List.map (fun a => Dbl.div (Dbl.sub a mean) standard_deviation))
        else m.col j := by
  unfold Mat.col Mat.rescaleCol
  by_cases hj : j < m.n_cols
  · simp only [hj, if_true]
    rw [mapM_map_comp]
    by_cases hjk : j = k
    · subst hjk
      simp only [if_true, List.getElem?_modify, Option.map_eq_map]
      exact mapM_option_map _ _ _
    · have hkj : ¬ k = j := fun h => hjk h.symm
      simp only [hjk, if_false, List.getElem?_modify, hkj, Option.map_eq_map, Option.map_id']
  · simp [hj]

theorem vmean_some (c : Vec K) (hne : c ≠ []) :
    vmean c = some (Dbl.div (vsum c) (Dbl.ofNat c.length)) := by
  have h : c.length ≠ 0 := fun h0 => hne (List.length_eq_zero.mp h0)
  simp [vmean, h]

theorem vstddev_isSome (env : Env K) (c : Vec K) (hne : c ≠ []) :
    ∃ sd, vstddev env c = some sd := by
  have hv : ∃ v, vvar c = some v := by
    unfold vvar
    rw [vmean_some c hne]
    by_cases h2 : c.length < 2
    · simp only [h2, if_true]
      exact ⟨_, rfl⟩
    · simp only [h2, if_false]
      exact ⟨_, rfl⟩
  obtain ⟨v, hv⟩ := hv
  unfold vstddev
  rw [hv]
  cases v with
  | fin a => exact ⟨_, rfl⟩
  | nonfin => exact ⟨_, rfl⟩

theorem zscoreStep_of_col (env : Env K) (m : Mat K) (j : Nat) (c : Vec K)
    (hc : m.col j = some c) (hne : c ≠ []) :
    ∃ mean sd, zscoreStep env j m = some (m.rescaleCol j mean sd)
      ∧ zscoreColumn env c = some (c.map (fun a => Dbl.div (Dbl.sub a mean) sd)) := by
  obtain ⟨sd, hsd⟩ := vstddev_isSome env c hne
  refine ⟨Dbl.div (vsum c) (Dbl.ofNat c.length), sd, ?_, ?_⟩
  · simp only [zscoreStep, hc, vmean_some c hne, hsd]
  · simp only [zscoreColumn, vmean_some c hne, hsd]

theorem ColsReadable_rescaleCol (m : Mat K) (k : Nat) (mean sd : Dbl K) (h : ColsReadable m) :
    ColsReadable (m.rescaleCol k mean sd) := by
  intro j hj
  have hj1 : j < m.n_cols := hj
  obtain ⟨c, hc, hne⟩ := h j hj1
  rw [col_rescaleCol, hc]
  by_cases hjk : j = k
  · simp only [hjk, if_true, Option.map_some']
    exact ⟨_, rfl, by simpa using hne⟩
  · simp only [hjk, if_false]
    exact ⟨c, rfl, hne⟩

/-- The column loop of `ZScoreNormalize` returns, and it leaves in every
column it visits the z-score of the original column, the others untouched. -/
theorem zscoreLoop_spec (env : Env K) :
    ∀ (n j0 : Nat) (m : Mat K), ColsReadable m → j0 + n ≤ m.n_cols →
      ∃ m1, forLoop (zscoreStep env) n j0 m = some m1 ∧ m1.n_cols = m.n_cols
        ∧ ∀ j c, j < m.n_cols → m.col j = some c →
            m1.col j = if j0 ≤ j ∧ j < j0 + n then zscoreColumn env c else some c := by
  intro n
  induction n with
  | zero =>
    intro j0 m _ _
    refine ⟨m, rfl, rfl, ?_⟩
    intro j c _ hc
    have : ¬ (j0 ≤ j ∧ j < j0 + 0) := by omega
    simp only [this, if_false, hc]
  | succ n ih =>
    intro j0 m hread hle
    obtain ⟨c0, hc0, hne0⟩ := hread j0 (by omega)
    obtain ⟨mean, sd, hstep, hz⟩ := zscoreStep_of_col env m j0 c0 hc0 hne0
    obtain ⟨m1, hloop, hcols, hspec⟩ := ih (j0 + 1) (m.rescaleCol j0 mean sd)
      (ColsReadable_rescaleCol m j0 mean sd hread) (by show j0 + 1 + n ≤ m.n_cols; omega)
    refine ⟨m1, ?_, hcols, ?_⟩
    · simp only [forLoop, hstep, Option.some_bind, hloop]
    · intro j c hj hc
      have hcol1 := col_rescaleCol m j0 j mean sd
      by_cases hjk : j = j0
      · subst hjk
        rw [hc] at hcol1 hc0
        simp only [if_true, Option.map_some'] at hcol1
        have hc0' : c = c0 := Option.some.inj hc0
        subst hc0'
        rw [hspec j _ hj hcol1]
        have h1 : ¬ (j + 1 ≤ j ∧ j < j + 1 + n) := by omega
        have h2 : j ≤ j ∧ j < j + (n + 1) := by omega
        simp only [h1, if_false, h2, and_self, if_true, hz]
      · simp only [hjk, if_false] at hcol1
        rw [hc] at hcol1
        rw [hspec j c hj hcol1]
        by_cases hin : j0 ≤ j ∧ j < j0 + (n + 1)
        · have h1 : j0 + 1 ≤ j ∧ j < j0 + 1 + n := by omega
          simp only [h1, and_self, if_true, hin]
        · have h1 : ¬ (j0 + 1 ≤ j ∧ j < j0 + 1 + n) := by omega
          simp only [h1, if_false, hin]

omit [LinearOrderedField K] in
theorem colsReadable_of_wf (m : Mat K) (hwf : m.wf) (hrows : m.rows ≠ []) : ColsReadable m := by
  intro j hj
  have hall : ∀ r ∈ m.rows, (fun r : Vec K => r[j]?) r = some (r.getD j Dbl.nonfin) := by
    intro r hr
    have hlen : j < r.length := by rw [hwf r hr]; exact hj
    simp [List.getD_eq_getElem?_getD, List.getElem?_eq_getElem hlen]
  refine ⟨m.rows.map (fun r => r.getD j Dbl.nonfin), ?_, by simpa using hrows⟩
  simp only [Mat.col, hj, if_true]
  exact mapM_some_of_forall _ _ _ hall

theorem vmean_liftVec (l : List K) (hne : l ≠ []) :
    vmean (liftVec l) = some (Dbl.fin (l.sum / (l.length : K))) := by
  have hlen : ((l.length : Nat) : K) ≠ 0 := by
    have : l.length ≠ 0 := fun h0 => hne (List.length_eq_zero.mp h0)
    exact_mod_cast this
  have hne1 : liftVec l ≠ [] := by simpa [liftVec] using hne
  rw [vmean_some _ hne1, vsum_liftVec, liftVec_length]
  simp only [Dbl.ofNat, Dbl.div, hlen, if_false]

theorem map_sq_dev_liftVec (l : List K) (mu : K) :
    (liftVec l).map (fun a => Dbl.mul (Dbl.sub a (Dbl.fin mu)) (Dbl.sub a (Dbl.fin mu)))
      = liftVec (l.map (fun a => (a - mu) * (a - mu))) := by
  simp only [liftVec, List.map_map]
  apply List.map_congr_left
  intro a _
  rfl

/-- The variance of a column of at least two finite values, with the
normalisation `N - 1`. -/
theorem vvar_liftVec (l : List K) (h2 : 2 ≤ l.length) :
    vvar (liftVec l)
      = some (Dbl.fin ((l.map (fun a => (a - l.sum / (l.length : K))
            * (a - l.sum / (l.length : K)))).sum / ((l.length : K) - 1))) := by
  have hne : l ≠ [] := by
    intro h0
    rw [h0] at h2
    simp at h2
  have hcast : ((l.length - 1 : Nat) : K) = (l.length : K) - 1 := by
    rw [Nat.cast_sub (by omega)]
    simp
  have hne1 : (l.length : K) - 1 ≠ 0 := by
    rw [← hcast]
    have : l.length - 1 ≠ 0 := by omega
    exact_mod_cast this
  have hlt : ¬ l.length < 2 := by omega
  unfold vvar
  rw [vmean_liftVec l hne]
  simp only [liftVec_length, hlt, if_false, map_sq_dev_liftVec, vsum_liftVec, Dbl.ofNat, hcast,
    Dbl.div, hne1]

theorem sum_map_sub_const (l : List K) (mu : K) :
    (l.map (fun a => a - mu)).sum = l.sum - (l.length : K) * mu := by
  induction l with
  | nil => simp
  | cons b l ih =>
    simp only [List.map_cons, List.sum_cons, ih, List.length_cons]
    push_cast
    ring

theorem sum_map_div_sq (l : List K) (mu sd m1 : K) (hm1 : m1 = 0) :
    (l.map (fun a => ((a - mu) / sd - m1) * ((a - mu) / sd - m1))).sum
      = (l.map (fun a => (a - mu) * (a - mu))).sum / (sd * sd) := by
  subst hm1
  induction l with
  | nil => simp
  | cons b l ih =>
    rw [List.map_cons, List.sum_cons, ih, List.map_cons, List.sum_cons, sub_zero,
      div_mul_div_comm, add_div]

/-- The z-score of a column of at least two finite values whose variance `v`
is not zero, with an exact square root `sd` of `v`: the new column has
mean 0 and variance 1. -/
theorem zscore_finite_column (l : List K) (h2 : 2 ≤ l.length) (v sd : K)
    (hv : vvar (liftVec l) = some (Dbl.fin v)) (hv0 : v ≠ 0) (hsq : sd * sd = v) :
    (liftVec l).map (fun a => Dbl.div (Dbl.sub a (Dbl.fin (l.sum / (l.length : K))))
          (Dbl.fin sd))
        = liftVec (l.map (fun a => (a - l.sum / (l.length : K)) / sd))
      ∧ vmean (liftVec (l.map (fun a => (a - l.sum / (l.length : K)) / sd)))
          = some (Dbl.fin 0)
      ∧ vvar (liftVec (l.map (fun a => (a - l.sum / (l.length : K)) / sd)))
          = some (Dbl.fin 1) := by
  have hne : l ≠ [] := by
    intro h0
    rw [h0] at h2
    simp at h2
  have hsd : sd ≠ 0 := by
    intro h0
    apply hv0
    rw [← hsq, h0, mul_zero]
  have hlen : (l.length : K) ≠ 0 := by
    have : l.length ≠ 0 := fun h0 => hne (List.length_eq_zero.mp h0)
    exact_mod_cast this
  have hlen1 : (l.length : K) - 1 ≠ 0 := by
    have h1 : ((l.length - 1 : Nat) : K) = (l.length : K) - 1 := by
      rw [Nat.cast_sub (by omega)]
      simp
    rw [← h1]
    have : l.length - 1 ≠ 0 := by omega
    exact_mod_cast this
  rw [vvar_liftVec l h2] at hv
  have hv1 : (l.map (fun a => (a - l.sum / (l.length : K))
      * (a - l.sum / (l.length : K)))).sum / ((l.length : K) - 1) = v := by
    injection hv with hv
    injection hv
  have hsum0 : (l.map (fun a => (a - l.sum / (l.length : K)) / sd)).sum = 0 := by
    have e : (l.map (fun a => (a - l.sum / (l.length : K)) / sd))
        = (l.map (fun a => a - l.sum / (l.length : K))).map (fun a => a / sd) := by
      rw [List.map_map]
      rfl
    rw [e, sum_map_div, sum_map_sub_const, mul_div_cancel₀ _ hlen, sub_self, zero_div]
  have hlen2 : (l.map (fun a => (a - l.sum / (l.length : K)) / sd)).length = l.length := by
    simp
  refine ⟨?_, ?_, ?_⟩
  · simp only [liftVec, List.map_map]
    apply List.map_congr_left
    intro a _
    simp only [Function.comp, Dbl.sub, Dbl.div, hsd, if_false]
  · rw [vmean_liftVec _ (by simpa using hne), hsum0, zero_div]
  · rw [vvar_liftVec _ (by rw [hlen2]; exact h2), hlen2, List.map_map]
    have e : ((fun a => (a - (l.map (fun a => (a - l.sum / (l.length : K)) / sd)).sum
            / (l.length : K))
          * (a - (l.map (fun a => (a - l.sum / (l.length : K)) / sd)).sum / (l.length : K)))
          ∘ fun a => (a - l.sum / (l.length : K)) / sd)
        = fun a => ((a - l.sum / (l.length : K)) / sd - 0)
          * ((a - l.sum / (l.length : K)) / sd - 0) := by
      funext a
      simp only [Function.comp, hsum0, zero_div]
    rw [e, sum_map_div_sq l _ sd 0 rfl, hsq]
    congr 2
    rw [div_right_comm, hv1, div_self hv0]

end ZScoreLemmas

section ZScoreProps

variable {K : Type} [LinearOrderedField K]

/-- C9. In a rectangular spectra matrix with at least two rows, take a column
of finite values whose variance `v` (normalised by `N - 1`, as the `stddev`
the transform divides by) is not zero, the square root being exact at `v` and
at 1. Then `ZScoreNormalize` returns, and the column it leaves holds the
entries minus the column mean over the standard deviation; its mean is 0 and
its standard deviation, by the same `stddev`, is 1. -/
theorem ZScoreNormalize_column (env : Env K) (d : VespucciDataset K) (j : Nat) (l : List K)
    (v : K) (hwf : d.spectra_.wf) (h2 : 2 ≤ d.spectra_.n_rows)
    (hcol : d.spectra_.col j = some (liftVec l))
    (hv : vvar (liftVec l) = some (Dbl.fin v)) (hv0 : v ≠ 0)
    (hsq : env.sqrt v * env.sqrt v = v) (h1 : env.sqrt 1 = 1) :
    ∃ (d1 : VespucciDataset K) (c1 : Vec K),
      d.ZScoreNormalize env = some d1
        ∧ d1.spectra_.col j = some c1
        ∧ c1 = liftVec (l.map (fun a => (a - l.sum / (l.length : K)) / env.sqrt v))
        ∧ vmean c1 = some (Dbl.fin 0)
        ∧ vstddev env c1 = some (Dbl.fin 1) := by
  have hj : j < d.spectra_.n_cols := by
    by_contra hcon
    simp [Mat.col, hcon] at hcol
  have hlen : l.length = d.spectra_.n_rows := by
    have hm : d.spectra_.rows.mapM (fun r => r[j]?) = some (liftVec l) := by
      simpa [Mat.col, hj] using hcol
    have := mapM_length _ _ _ hm
    rw [liftVec_length] at this
    exact this
  have hl2 : 2 ≤ l.length := by rw [hlen]; exact h2
  have hrows : d.spectra_.rows ≠ [] := by
    intro h0
    have : d.spectra_.n_rows = 0 := by simp [Mat.n_rows, h0]
    omega
  have hne : l ≠ [] := by
    intro h0
    rw [h0] at hl2
    simp at hl2
  obtain ⟨m1, hloop, _, hspec⟩ := zscoreLoop_spec env d.spectra_.n_cols 0 d.spectra_
    (colsReadable_of_wf d.spectra_ hwf hrows) (by omega)
  have hcol1 := hspec j (liftVec l) hj hcol
  have hin : 0 ≤ j ∧ j < 0 + d.spectra_.n_cols := by omega
  have hsd : vstddev env (liftVec l) = some (Dbl.fin (env.sqrt v)) := by
    simp only [vstddev, hv]
  obtain ⟨hmap, hmean, hvar⟩ := zscore_finite_column l hl2 v (env.sqrt v) hv hv0 hsq
  have hz : zscoreColumn env (liftVec l)
      = some (liftVec (l.map (fun a => (a - l.sum / (l.length : K)) / env.sqrt v))) := by
    simp only [zscoreColumn, vmean_liftVec l hne, hsd, hmap]
  rw [if_pos hin, hz] at hcol1
  refine ⟨{ d with
      spectra_old_ := d.spectra_,
      spectra_ := m1,
      z_scores_calculated_ := true,
      last_operation_ := "Z-score normalize" }, _, ?_, hcol1, rfl, hmean, ?_⟩
  · simp only [VespucciDataset.ZScoreNormalize, hloop]
  · simp only [vstddev, hvar, h1]

theorem ZScoreNormalize_column_witness :
    zscoreExample.spectra_.wf
      ∧ 2 ≤ zscoreExample.spectra_.n_rows
      ∧ zscoreExample.spectra_.col 0 = some (liftVec [0, 4, 2])
      ∧ vvar (liftVec [(0 : ℚ), 4, 2]) = some (Dbl.fin 4)
      ∧ (4 : ℚ) ≠ 0
      ∧ evalEnv.sqrt 4 * evalEnv.sqrt 4 = 4
      ∧ evalEnv.sqrt 1 = 1
      ∧ ∃ (d1 : VespucciDataset ℚ) (c1 : Vec ℚ),
          zscoreExample.ZScoreNormalize evalEnv = some d1
            ∧ d1.spectra_.col 0 = some c1
            ∧ c1 = liftVec (([0, 4, 2] : List ℚ).map
                (fun a => (a - ([0, 4, 2] : List ℚ).sum
                  / ((([0, 4, 2] : List ℚ).length : Nat) : ℚ)) / evalEnv.sqrt 4))
            ∧ vmean c1 = some (Dbl.fin 0)
            ∧ vstddev evalEnv c1 = some (Dbl.fin 1) :=
  ⟨by with_unfolding_all decide, by with_unfolding_all decide, by with_unfolding_all decide,
    by with_unfolding_all decide, by norm_num, by with_unfolding_all decide,
    by with_unfolding_all decide,
    ZScoreNormalize_column evalEnv zscoreExample 0 [0, 4, 2] 4 (by with_unfolding_all decide)
      (by with_unfolding_all decide) (by with_unfolding_all decide)
      (by with_unfolding_all decide) (by norm_num) (by with_unfolding_all decide)
      (by with_unfolding_all decide)⟩

/-- Evaluation of `ZScoreNormalize` on the example: the first column, of mean
2 and standard deviation 2, becomes `-1, 1, 0`; the constant second column is
divided by a zero standard deviation and keeps no finite entry. -/
theorem ZScoreNormalize_example :
    (zscoreExample.ZScoreNormalize evalEnv).map (fun d => d.spectra_.rows)
      = some [[Dbl.fin (-1), Dbl.nonfin], [Dbl.fin 1, Dbl.nonfin], [Dbl.fin 0, Dbl.nonfin]] := by
  with_unfolding_all decide

end ZScoreProps

section UndoProps

variable {K : Type} [LinearOrderedField K]

/-- Each of the six transforms, whenever it returns, has stored the prior
matrix in `spectra_old_`. -/
theorem transform_snapshot (env : Env K) (T : Transform K) (d d1 : VespucciDataset K)
    (h : T.apply env d = some d1) : d1.spectra_old_ = d.spectra_ := by
  cases T with
  | MinMaxNormalize =>
    simp only [Transform.apply, VespucciDataset.MinMaxNormalize] at h
    split at h
    · simp at h
    · split at h
      · simp at h
      · simp only [Option.some.injEq] at h
        rw [← h]
  | UnitAreaNormalize =>
    simp only [Transform.apply, VespucciDataset.UnitAreaNormalize, Option.some.injEq] at h
    rw [← h]
  | ZScoreNormalize =>
    simp only [Transform.apply, VespucciDataset.ZScoreNormalize] at h
    split at h
    · simp at h
    · simp only [Option.some.injEq] at h
      rw [← h]
  | SubtractBackground background =>
    simp only [Transform.apply, VespucciDataset.SubtractBackground] at h
    split at h
    · simp only [Option.some.injEq] at h
      rw [← h]
    · split at h
      · simp at h
      · simp only [Option.some.injEq] at h
        rw [← h]
  | Baseline method window_size =>
    simp only [Transform.apply, VespucciDataset.Baseline] at h
    split at h
    · split at h
      · simp at h
      · split at h
        · simp at h
        · simp only [Option.some.injEq] at h
          rw [← h]
    · simp only [Option.some.injEq] at h
      rw [← h]
  | MedianFilter window_size =>
    simp only [Transform.apply, VespucciDataset.MedianFilter] at h
    split at h
    · simp at h
    · simp only [Option.some.injEq] at h
      rw [← h]

/-- The transforms return on the data and arguments of `Transform.valid`. -/
theorem transform_returns (env : Env K) (T : Transform K) (d : VespucciDataset K)
    (hv : T.valid d) : ∃ d1, T.apply env d = some d1 := by
  cases T with
  | MinMaxNormalize =>
    obtain ⟨mn, hmn⟩ := vmin_returns d.spectra_.entries hv
    have hmx : ∃ mx, (if Dbl.lt mn (Dbl.fin 0) = true
        then d.spectra_.map (fun a => Dbl.sub a mn) else d.spectra_).max = some mx := by
      by_cases h : Dbl.lt mn (Dbl.fin 0) = true
      · simp only [h, if_true, Mat.max, Mat.map_entries]
        exact vmax_returns _ (by simpa using hv)
      · simp only [h, if_false, Mat.max]
        exact vmax_returns _ hv
    obtain ⟨mx, hmx⟩ := hmx
    simp only [Transform.apply, VespucciDataset.MinMaxNormalize, Mat.min, hmn, hmx]
    exact ⟨_, rfl⟩
  | UnitAreaNormalize => exact ⟨_, rfl⟩
  | ZScoreNormalize =>
    obtain ⟨m1, hloop, _, _⟩ := zscoreLoop_spec env d.spectra_.n_cols 0 d.spectra_
      (colsReadable_of_wf d.spectra_ hv.1 hv.2) (by omega)
    simp only [Transform.apply, VespucciDataset.ZScoreNormalize, hloop]
    exact ⟨_, rfl⟩
  | SubtractBackground background =>
    by_cases hc : background.n_cols = d.spectra_.n_cols
    · obtain ⟨b, t, hb⟩ : ∃ b t, background.rows = b :: t := by
        cases hrows : background.rows with
        | nil => exact absurd hrows (hv hc)
        | cons b t => exact ⟨b, t, rfl⟩
      simp only [Transform.apply, VespucciDataset.SubtractBackground, hc, ne_eq,
        not_true_eq_false, if_false, Mat.row, hb, List.getElem?_cons_zero]
      exact ⟨_, rfl⟩
    · simp only [Transform.apply, VespucciDataset.SubtractBackground, ne_eq, hc,
        not_false_eq_true, if_true]
      exact ⟨_, rfl⟩
  | Baseline method window_size =>
    by_cases hm : method = "Median Filter"
    · obtain ⟨hwf, hw, hU, h1, hle⟩ := hv hm
      have hU1 : d.spectra_.n_cols < 2 ^ 64 := hU
      have hq : Int.tdiv (window_size - 1) 2 = (window_size - 1) / 2 := by
        rw [Int.tdiv_eq_ediv] <;> omega
      have hmod : (window_size - 1) / 2 % ((UWORD : Nat) : Int) = (window_size - 1) / 2 := by
        apply Int.emod_eq_of_lt
        · omega
        · simp only [UWORD]
          push_cast
          omega
      have hfit : 2 * (Int.tdiv (window_size - 1) 2 % ((UWORD : Nat) : Int)).toNat
          < d.spectra_.n_cols := by
        rw [hq, hmod]
        omega
      obtain ⟨processed, hp⟩ := medianProcessed_returns env
        { d with spectra_old_ := d.spectra_ } _ hwf hw hU hfit
      have hnn : ¬ window_size < 0 := by omega
      simp only [Transform.apply, VespucciDataset.Baseline, hm, if_true, hnn, if_false, hp]
      exact ⟨_, rfl⟩
    · simp only [Transform.apply, VespucciDataset.Baseline, hm, if_false]
      exact ⟨_, rfl⟩
  | MedianFilter window_size =>
    obtain ⟨hwf, hw, hU, h1, hle, h32⟩ := hv
    have hfit : 2 * (((window_size + 2 ^ 32 - 1) % 2 ^ 32) / 2) < d.spectra_.n_cols := by
      omega
    obtain ⟨processed, hp⟩ := medianProcessed_returns env
      { d with spectra_old_ := d.spectra_ } _ hwf hw hU hfit
    simp only [Transform.apply, VespucciDataset.MedianFilter, hp]
    exact ⟨_, rfl⟩

/-- C10. Each of `MinMaxNormalize`, `UnitAreaNormalize`, `ZScoreNormalize`,
`SubtractBackground`, `Baseline` and `MedianFilter` returns on valid data and
arguments, and whenever it returns it has stored the prior matrix in
`spectra_old_`; so a single `Undo` after it leaves `spectra_` equal to the
spectra before the transform and `spectra_old_` equal to the output of the
transform. -/
theorem transform_then_Undo (env : Env K) (T : Transform K) (d : VespucciDataset K) :
    (T.valid d → ∃ d1, T.apply env d = some d1)
      ∧ ∀ d1, T.apply env d = some d1 →
          d1.spectra_old_ = d.spectra_
            ∧ d1.Undo.spectra_ = d.spectra_
            ∧ d1.Undo.spectra_old_ = d1.spectra_ := by
  refine ⟨transform_returns env T d, ?_⟩
  intro d1 h
  have key := transform_snapshot env T d d1 h
  exact ⟨key, by simp [VespucciDataset.Undo, key], by simp [VespucciDataset.Undo]⟩

theorem transform_then_Undo_witness :
    (Transform.MedianFilter 3).valid peakExample
      ∧ (∃ d1, Transform.apply evalEnv (Transform.MedianFilter 3) peakExample = some d1)
      ∧ Transform.apply evalEnv (Transform.MedianFilter 3) peakExample = some medianExample
      ∧ (medianExample.spectra_old_ = peakExample.spectra_
        ∧ medianExample.Undo.spectra_ = peakExample.spectra_
        ∧ medianExample.Undo.spectra_old_ = medianExample.spectra_) :=
  have hvalid : (Transform.MedianFilter 3).valid peakExample := by
    show peakExample.spectra_.wf ∧ peakExample.wavelength_.length = peakExample.spectra_.n_cols
      ∧ peakExample.spectra_.n_cols < UWORD ∧ 1 ≤ 3 ∧ 3 ≤ peakExample.spectra_.n_cols
      ∧ 3 < 2 ^ 32
    with_unfolding_all decide
  have hrun : Transform.apply evalEnv (Transform.MedianFilter 3) peakExample
      = some medianExample := by
    with_unfolding_all decide
  ⟨hvalid, (transform_then_Undo evalEnv (Transform.MedianFilter 3) peakExample).1 hvalid, hrun,
    (transform_then_Undo evalEnv (Transform.MedianFilter 3) peakExample).2 medianExample hrun⟩

set_option maxRecDepth 8000 in
/-- All six transforms return on the example dataset (the background has the
seven columns of the spectra, the windows are odd and fit). -/
theorem transforms_return_example :
    (Transform.apply evalEnv Transform.MinMaxNormalize peakExample).isSome = true
      ∧ (Transform.apply evalEnv Transform.UnitAreaNormalize peakExample).isSome = true
      ∧ (Transform.apply evalEnv Transform.ZScoreNormalize peakExample).isSome = true
      ∧ (Transform.apply evalEnv
          (Transform.SubtractBackground (liftMat 7 [[1, 1, 1, 1, 1, 1, 1]])) peakExample).isSome
          = true
      ∧ (Transform.apply evalEnv (Transform.Baseline "Median Filter" 5) peakExample).isSome = true
      ∧ (Transform.apply evalEnv (Transform.MedianFilter 5) peakExample).isSome = true := by
  refine ⟨?_, ?_, ?_, ?_, ?_, ?_⟩ <;> with_unfolding_all decide

end UndoProps

section UndoToggleProps

variable {K : Type}

/-- C11. `Undo` is a toggle: from every dataset state, two consecutive `Undo`
calls leave `spectra_` and `spectra_old_` exactly as they were; hence for the
state `d1` left by any transform, `Undo; Undo` has the spectra of `d1` and
`Undo; Undo; Undo` the spectra of `Undo` alone. Nothing else but the
operation label is touched. -/
theorem Undo_toggle (d : VespucciDataset K) :
    d.Undo.Undo.spectra_ = d.spectra_
      ∧ d.Undo.Undo.spectra_old_ = d.spectra_old_
      ∧ d.Undo.Undo.Undo.spectra_ = d.Undo.spectra_
      ∧ d.Undo.Undo.Undo.spectra_old_ = d.Undo.spectra_old_
      ∧ d.Undo.Undo = { d with last_operation_ := "Undo" } := by
  refine ⟨rfl, rfl, rfl, rfl, rfl⟩

/-- Evaluation of the toggle after a transform: `MedianFilter; Undo; Undo`
has the filtered spectra, `MedianFilter; Undo` the original ones. -/
theorem Undo_toggle_example :
    (Transform.apply evalEnv (Transform.MedianFilter 3) peakExample).map
        (fun d => d.Undo.Undo.spectra_) = some medianExample.spectra_
      ∧ (Transform.apply evalEnv (Transform.MedianFilter 3) peakExample).map
        (fun d => d.Undo.spectra_) = some peakExample.spectra_
      ∧ (Transform.apply evalEnv (Transform.MedianFilter 3) peakExample).map
        (fun d => d.Undo.Undo.Undo.spectra_) = some peakExample.spectra_ := by
  refine ⟨?_, ?_, ?_⟩ <;> with_unfolding_all decide

end UndoToggleProps

section BackgroundProps

variable {K : Type} [LinearOrderedField K]

/-- With a background of another column count `SubtractBackground` returns
with `spectra_` and the operation label as before, and with `spectra_old_`
overwritten by `spectra_`: the snapshot precedes the comparison. -/
theorem SubtractBackground_mismatch (d : VespucciDataset K) (background : Mat K)
    (h : background.n_cols ≠ d.spectra_.n_cols) :
    d.SubtractBackground background = some { d with spectra_old_ := d.spectra_ } := by
  simp only [VespucciDataset.SubtractBackground, h, ne_eq, not_false_eq_true, if_true]

/-- C13 (defect of the code). After `MedianFilter(3)` the snapshot holds the
unfiltered spectra. A background of three channels does not fit the seven of
the spectra: `SubtractBackground` leaves `spectra_` and the label alone, but
`spectra_old_` is no longer what it was before the call, it now equals
`spectra_`, and an `Undo` no longer brings the unfiltered spectra back. -/
theorem SubtractBackground_mismatch_example :
    shortBackground.n_cols ≠ medianExample.spectra_.n_cols
      ∧ (medianExample.SubtractBackground shortBackground).map (fun d => d.spectra_)
          = some medianExample.spectra_
      ∧ (medianExample.SubtractBackground shortBackground).map (fun d => d.last_operation_)
          = some medianExample.last_operation_
      ∧ (medianExample.SubtractBackground shortBackground).map (fun d => d.spectra_old_)
          = some medianExample.spectra_
      ∧ medianExample.spectra_old_ ≠ medianExample.spectra_
      ∧ (medianExample.SubtractBackground shortBackground).map (fun d => d.Undo.spectra_)
          ≠ some medianExample.Undo.spectra_ := by
  refine ⟨?_, ?_, ?_, ?_, ?_, ?_⟩ <;> with_unfolding_all decide

omit [LinearOrderedField K] in
theorem zipWith_length_of_eq {α β γ : Type} (f : α → β → γ) (a : List α) (b : List β)
    (h : a.length = b.length) : (List.zipWith f a b).length = a.length := by
  rw [List.length_zipWith, h, min_self]

/-- C14. When the background has at least one row and as many columns as
the spectra, `SubtractBackground` returns; the row and column counts are as
before (and a rectangular matrix stays rectangular for a rectangular
background), and every entry is the former entry minus the entry of the
first background row in the same column. -/
theorem SubtractBackground_entries (d : VespucciDataset K) (background : Mat K)
    (hrow : background.rows ≠ []) (hcols : background.n_cols = d.spectra_.n_cols) :
    ∃ d1 : VespucciDataset K, d.SubtractBackground background = some d1
      ∧ d1.spectra_.n_rows = d.spectra_.n_rows
      ∧ d1.spectra_.n_cols = d.spectra_.n_cols
      ∧ (d.spectra_.wf → background.wf → d1.spectra_.wf)
      ∧ ∀ (i j : Nat) (a b : Dbl K), d.spectra_.elem i j = some a →
          background.elem 0 j = some b → d1.spectra_.elem i j = some (Dbl.sub a b) := by
  obtain ⟨b0, t, hb⟩ : ∃ b0 t, background.rows = b0 :: t := by
    cases hr : background.rows with
    | nil => exact absurd hr hrow
    | cons b0 t => exact ⟨b0, t, rfl⟩
  refine ⟨{ d with
      spectra_old_ := d.spectra_,
      spectra_ := { d.spectra_ with
        rows := d.spectra_.rows.map (fun r => List.zipWith Dbl.sub r b0) },
      last_operation_ := "background correction" }, ?_, ?_, rfl, ?_, ?_⟩
  · simp only [VespucciDataset.SubtractBackground, hcols, ne_eq, not_true_eq_false, if_false,
      Mat.row, hb, List.getElem?_cons_zero]
  · simp only [Mat.n_rows, List.length_map]
  · intro hwf hbwf r hr
    simp only [List.mem_map] at hr
    obtain ⟨r0, hr0, rfl⟩ := hr
    have hb0 : b0.length = background.n_cols := hbwf b0 (by rw [hb]; exact List.mem_cons_self _ _)
    rw [zipWith_length_of_eq _ _ _ (by rw [hwf r0 hr0, hb0, hcols])]
    exact hwf r0 hr0
  · intro i j a b ha hbj
    simp only [Mat.elem] at ha hbj ⊢
    by_cases hj : j < d.spectra_.n_cols
    · have hj2 : j < background.n_cols := by rw [hcols]; exact hj
      simp only [hj, if_true, hj2, hb, List.getElem?_cons_zero, Option.some_bind] at ha hbj ⊢
      rw [List.getElem?_map]
      cases hri : d.spectra_.rows[i]? with
      | none => rw [hri] at ha; simp at ha
      | some r =>
        rw [hri] at ha
        simp only [Option.some_bind] at ha
        simp only [Option.map_some', Option.some_bind, List.getElem?_zipWith, ha, hbj]
    · simp [hj] at ha

theorem SubtractBackground_entries_witness :
    flatBackground.rows ≠ []
      ∧ flatBackground.n_cols = peakExample.spectra_.n_cols
      ∧ ∃ d1 : VespucciDataset ℚ, peakExample.SubtractBackground flatBackground = some d1
        ∧ d1.spectra_.n_rows = peakExample.spectra_.n_rows
        ∧ d1.spectra_.n_cols = peakExample.spectra_.n_cols
        ∧ (peakExample.spectra_.wf → flatBackground.wf → d1.spectra_.wf)
        ∧ ∀ (i j : Nat) (a b : Dbl ℚ), peakExample.spectra_.elem i j = some a →
            flatBackground.elem 0 j = some b → d1.spectra_.elem i j = some (Dbl.sub a b) :=
  ⟨by with_unfolding_all decide, by with_unfolding_all decide,
    SubtractBackground_entries peakExample flatBackground (by with_unfolding_all decide)
      (by with_unfolding_all decide)⟩

/-- Evaluation of `SubtractBackground` on the example: one is taken off every
entry, the second background row plays no part. -/
theorem SubtractBackground_example :
    (peakExample.SubtractBackground flatBackground).map (fun d => d.spectra_)
      = some (liftMat 7 [[-1, 0, 1, 2, 1, 0, -1], [-1, 0, 3, 9, 3, 0, -1]]) := by
  with_unfolding_all decide

end BackgroundProps

section ShapeProps

variable {K : Type} [LinearOrderedField K]

/-- A loop whose body keeps a property whenever it returns keeps it. -/
theorem forLoop_preserves {σ : Type} (body : Nat → σ → Option σ) (P : σ → Prop)
    (hbody : ∀ j st st1, body j st = some st1 → P st → P st1) :
    ∀ (n j0 : Nat) (st st1 : σ), forLoop body n j0 st = some st1 → P st → P st1 := by
  intro n
  induction n with
  | zero =>
    intro j0 st st1 h hP
    simp only [forLoop, Option.some.injEq] at h
    rw [← h]
    exact hP
  | succ n ih =>
    intro j0 st st1 h hP
    simp only [forLoop] at h
    cases hb : body j0 st with
    | none => rw [hb] at h; simp at h
    | some st2 =>
      rw [hb] at h
      exact ih (j0 + 1) st2 st1 h (hbody j0 st st2 hb hP)

omit [LinearOrderedField K] in
theorem mapRowsM_length (f : Nat → Vec K → Option (Vec K)) :
    ∀ (rows : List (Vec K)) (i : Nat) (out : List (Vec K)),
      mapRowsM f i rows = some out → out.length = rows.length := by
  intro rows
  induction rows with
  | nil =>
    intro i out h
    simp only [mapRowsM, Option.some.injEq] at h
    rw [← h]
  | cons r rows ih =>
    intro i out h
    simp only [mapRowsM] at h
    cases hf : f i r with
    | none => rw [hf] at h; simp at h
    | some r1 =>
      rw [hf] at h
      simp only [Option.map_eq_some'] at h
      obtain ⟨t, ht, rfl⟩ := h
      simp [ih (i + 1) t ht]

theorem medianProcessed_shape (env : Env K) (d : VespucciDataset K) (starting_index : Nat)
    (processed : Mat K) (h : medianProcessed env d starting_index = some processed) :
    processed.n_rows = d.spectra_.n_rows ∧ processed.n_cols = d.spectra_.n_cols := by
  simp only [medianProcessed, Option.map_eq_some'] at h
  obtain ⟨rows, hrows, rfl⟩ := h
  exact ⟨mapRowsM_length _ _ _ _ hrows, rfl⟩

theorem zscoreLoop_shape (env : Env K) (n j0 : Nat) (m m1 : Mat K)
    (h : forLoop (zscoreStep env) n j0 m = some m1) :
    m1.n_rows = m.n_rows ∧ m1.n_cols = m.n_cols := by
  refine forLoop_preserves (zscoreStep env)
    (fun st => st.n_rows = m.n_rows ∧ st.n_cols = m.n_cols) ?_ n j0 m m1 h ⟨rfl, rfl⟩
  intro j st st1 hstep hP
  simp only [zscoreStep] at hstep
  split at hstep
  · simp at hstep
  · split at hstep
    · simp only [Option.some.injEq] at hstep
      rw [← hstep]
      simpa [Mat.rescaleCol, Mat.n_rows] using hP
    · simp at hstep

/-- Each of the six transforms, whenever it returns, leaves the coordinates
and the wavelength axis alone and keeps the row and column counts. -/
theorem transform_shape (env : Env K) (T : Transform K) (d d1 : VespucciDataset K)
    (h : T.apply env d = some d1) :
    d1.x_ = d.x_ ∧ d1.y_ = d.y_ ∧ d1.wavelength_ = d.wavelength_
      ∧ d1.spectra_.n_rows = d.spectra_.n_rows ∧ d1.spectra_.n_cols = d.spectra_.n_cols := by
  cases T with
  | MinMaxNormalize =>
    simp only [Transform.apply, VespucciDataset.MinMaxNormalize] at h
    split at h
    · simp at h
    · split at h
      · simp at h
      · simp only [Option.some.injEq] at h
        rw [← h]
        refine ⟨rfl, rfl, rfl, ?_, ?_⟩
        · split <;> simp [Mat.map, Mat.n_rows]
        · split <;> simp [Mat.map]
  | UnitAreaNormalize =>
    simp only [Transform.apply, VespucciDataset.UnitAreaNormalize, Option.some.injEq] at h
    rw [← h]
    exact ⟨rfl, rfl, rfl, by simp [Mat.n_rows], rfl⟩
  | ZScoreNormalize =>
    simp only [Transform.apply, VespucciDataset.ZScoreNormalize] at h
    split at h
    · simp at h
    · rename_i s hs
      simp only [Option.some.injEq] at h
      rw [← h]
      obtain ⟨h1, h2⟩ := zscoreLoop_shape env _ _ _ _ hs
      exact ⟨rfl, rfl, rfl, h1, h2⟩
  | SubtractBackground background =>
    simp only [Transform.apply, VespucciDataset.SubtractBackground] at h
    split at h
    · simp only [Option.some.injEq] at h
      rw [← h]
      exact ⟨rfl, rfl, rfl, rfl, rfl⟩
    · split at h
      · simp at h
      · simp only [Option.some.injEq] at h
        rw [← h]
        exact ⟨rfl, rfl, rfl, by simp [Mat.n_rows], rfl⟩
  | Baseline method window_size =>
    simp only [Transform.apply, VespucciDataset.Baseline] at h
    split at h
    · split at h
      · simp at h
      · split at h
        · simp at h
        · rename_i processed hp
          simp only [Option.some.injEq] at h
          rw [← h]
          obtain ⟨h1, _⟩ := medianProcessed_shape env _ _ _ hp
          refine ⟨rfl, rfl, rfl, ?_, rfl⟩
          simp only [Mat.n_rows] at h1
          simp only [Mat.sub, Mat.n_rows, List.length_zipWith, h1, min_self]
    · simp only [Option.some.injEq] at h
      rw [← h]
      exact ⟨rfl, rfl, rfl, rfl, rfl⟩
  | MedianFilter window_size =>
    simp only [Transform.apply, VespucciDataset.MedianFilter] at h
    split at h
    · simp at h
    · rename_i processed hp
      simp only [Option.some.injEq] at h
      rw [← h]
      obtain ⟨h1, h2⟩ := medianProcessed_shape env _ _ _ hp
      exact ⟨rfl, rfl, rfl, h1, h2⟩

theorem applyMask_length_eq {α β : Type} :
    ∀ (m : List Bool) (a : List α) (b : List β), a.length = b.length →
      (applyMask m a).length = (applyMask m b).length := by
  intro m
  induction m with
  | nil => intro a b _; cases a <;> cases b <;> simp [applyMask]
  | cons f m ih =>
    intro a b hab
    cases a with
    | nil =>
      cases b with
      | nil => cases f <;> simp [applyMask]
      | cons y b => simp at hab
    | cons x a =>
      cases b with
      | nil => simp at hab
      | cons y b =>
        simp only [List.length_cons, add_left_inj] at hab
        cases f
        · simpa [applyMask] using ih a b hab
        · simpa [applyMask] using ih a b hab

/-- `CropSpectra` on a dataset with as many coordinates as rows. -/
theorem CropSpectra_of_lengths (d : VespucciDataset K) (x_min x_max y_min y_max : K)
    (hx : d.x_.length = d.spectra_.n_rows) (hy : d.y_.length = d.spectra_.n_rows) :
    d.CropSpectra x_min x_max y_min y_max
      = some { d with
          spectra_ := { d.spectra_ with
            rows := applyMask (keepMask x_min x_max y_min y_max d.x_ d.y_) d.spectra_.rows },
          x_ := applyMask (keepMask x_min x_max y_min y_max d.x_ d.y_) d.x_,
          y_ := applyMask (keepMask x_min x_max y_min y_max d.x_ d.y_) d.y_,
          last_operation_ := "crop" } := by
  have h := cropLoop_spec x_min x_max y_min y_max d.spectra_.n_cols d.x_ d.y_ d.spectra_.rows
    [] [] [] d.x_.length (by rw [hx, hy]) (by rw [hx]; rfl) rfl rfl (le_refl _)
  simp only [List.length_nil, Nat.cast_zero, List.nil_append] at h
  unfold VespucciDataset.CropSpectra
  rw [h]

theorem CropSpectra_shape (d d1 : VespucciDataset K) (x_min x_max y_min y_max : K)
    (hinv : d.ShapeInvariant) (h : d.CropSpectra x_min x_max y_min y_max = some d1) :
    d1.ShapeInvariant := by
  obtain ⟨h1, h2, h3⟩ := hinv
  rw [CropSpectra_of_lengths d x_min x_max y_min y_max h1.symm (by rw [← h2, h1])] at h
  simp only [Option.some.injEq] at h
  rw [← h]
  refine ⟨?_, ?_, h3⟩
  · exact applyMask_length_eq _ _ _ (by simpa [Mat.n_rows] using h1)
  · exact applyMask_length_eq _ _ _ h2

/-- One call keeps the invariant, and leaves the snapshot aligned when the
rest of the sequence may still undo. -/
theorem Op_apply_shape (env : Env K) (op : Op K) (ops : List (Op K)) (fresh : Bool)
    (d d1 : VespucciDataset K) (hinv : d.ShapeInvariant)
    (hal : fresh = true → d.SnapshotAligned)
    (hallow : undoAllowed fresh (op :: ops) = true) (h : op.apply env d = some d1) :
    d1.ShapeInvariant ∧ ∃ fresh1 : Bool, (fresh1 = true → d1.SnapshotAligned)
      ∧ undoAllowed fresh1 ops = true := by
  cases op with
  | crop x_min x_max y_min y_max =>
    exact ⟨CropSpectra_shape d d1 x_min x_max y_min y_max hinv h,
      false, (fun hf => by cases hf), by simpa [undoAllowed] using hallow⟩
  | transform T =>
    have h' : T.apply env d = some d1 := h
    obtain ⟨hx, hy, hw, hr, hc⟩ := transform_shape env T d d1 h'
    have hold := transform_snapshot env T d d1 h'
    obtain ⟨h1, h2, h3⟩ := hinv
    refine ⟨⟨by rw [hr, hx]; exact h1, by rw [hx, hy]; exact h2, by rw [hc, hw]; exact h3⟩,
      true, fun _ => ⟨by rw [hold, hr], by rw [hold, hc]⟩, by simpa [undoAllowed] using hallow⟩
  | undo =>
    simp only [undoAllowed, Bool.and_eq_true] at hallow
    obtain ⟨hf, hrest⟩ := hallow
    obtain ⟨ha1, ha2⟩ := hal hf
    obtain ⟨h1, h2, h3⟩ := hinv
    simp only [Op.apply, Option.some.injEq] at h
    rw [← h]
    refine ⟨⟨?_, h2, ?_⟩, fresh, fun _ => ⟨?_, ?_⟩, hrest⟩
    · show d.spectra_old_.n_rows = d.x_.length
      rw [ha1]; exact h1
    · show d.spectra_old_.n_cols = d.wavelength_.length
      rw [ha2]; exact h3
    · show d.spectra_.n_rows = d.spectra_old_.n_rows
      exact ha1.symm
    · show d.spectra_.n_cols = d.spectra_old_.n_cols
      exact ha2.symm

theorem runOps_shape (env : Env K) :
    ∀ (ops : List (Op K)) (fresh : Bool) (d d1 : VespucciDataset K), d.ShapeInvariant →
      (fresh = true → d.SnapshotAligned) → undoAllowed fresh ops = true →
      runOps env ops d = some d1 → d1.ShapeInvariant := by
  intro ops
  induction ops with
  | nil =>
    intro fresh d d1 hinv _ _ h
    simp only [runOps, Option.some.injEq] at h
    rw [← h]
    exact hinv
  | cons op ops ih =>
    intro fresh d d1 hinv hal hallow h
    simp only [runOps] at h
    cases hop : op.apply env d with
    | none => rw [hop] at h; simp at h
    | some d2 =>
      rw [hop] at h
      obtain ⟨hinv2, fresh1, hal1, hallow1⟩ := Op_apply_shape env op ops fresh d d2 hinv hal hallow hop
      exact ih fresh1 d2 d1 hinv2 hal1 hallow1 h

/-- C12 (amended). From a dataset with `spectra.rows = x.length = y.length`
and `spectra.cols = wavelength.length`, every state reached by a finite
sequence of `CropSpectra`, the six transforms and `Undo` in which every
`Undo` comes after a transform with no `CropSpectra` in between satisfies the
invariant again. -/
theorem shape_invariant_reachable (env : Env K) (ops : List (Op K))
    (d d1 : VespucciDataset K) (hinv : d.ShapeInvariant)
    (hallow : undoAllowed false ops = true) (hrun : runOps env ops d = some d1) :
    d1.ShapeInvariant :=
  runOps_shape env ops false d d1 hinv (fun hf => by cases hf) hallow hrun

set_option maxRecDepth 8000 in
/-- Evaluation of `MedianFilter(3); Undo; CropSpectra(0, 1, 0, 1)` on the
four points of `cropExample`. -/
theorem runOps_example :
    runOps evalEnv [Op.transform (Transform.MedianFilter 3), Op.undo, Op.crop 0 1 0 1]
      cropExample = some croppedExample := by
  with_unfolding_all decide

theorem shape_invariant_reachable_witness :
    cropExample.ShapeInvariant
      ∧ undoAllowed false
          [Op.transform (Transform.MedianFilter 3), Op.undo, Op.crop (0 : ℚ) 1 0 1] = true
      ∧ runOps evalEnv [Op.transform (Transform.MedianFilter 3), Op.undo, Op.crop 0 1 0 1]
          cropExample = some croppedExample
      ∧ croppedExample.ShapeInvariant :=
  have hinv : cropExample.ShapeInvariant := by with_unfolding_all decide
  ⟨hinv, rfl, runOps_example,
    shape_invariant_reachable evalEnv
      [Op.transform (Transform.MedianFilter 3), Op.undo, Op.crop 0 1 0 1] cropExample
      croppedExample hinv rfl runOps_example⟩

set_option maxRecDepth 8000 in
/-- C12 as stated fails. `MinMaxNormalize; CropSpectra(0, 1, 0, 1); Undo` on
the four points of `cropExample`: the crop keeps two points and does not
renew the snapshot, so `Undo` brings back a matrix of four rows beside two
coordinates. An `Undo` as first call likewise swaps in the empty snapshot. -/
theorem shape_invariant_counterexample :
    cropExample.ShapeInvariant
      ∧ (runOps evalEnv
            [Op.transform Transform.MinMaxNormalize, Op.crop 0 1 0 1, Op.undo] cropExample).map
          (fun d => (d.spectra_.n_rows, d.x_.length)) = some (4, 2)
      ∧ (¬ ∀ d1, runOps evalEnv
            [Op.transform Transform.MinMaxNormalize, Op.crop 0 1 0 1, Op.undo] cropExample
              = some d1 → d1.ShapeInvariant)
      ∧ (runOps evalEnv [Op.undo] cropExample).map
          (fun d => (d.spectra_.n_rows, d.x_.length)) = some (0, 4) := by
  have hrun : (runOps evalEnv
        [Op.transform Transform.MinMaxNormalize, Op.crop 0 1 0 1, Op.undo] cropExample).map
      (fun d => (d.spectra_.n_rows, d.x_.length)) = some (4, 2) := by
    with_unfolding_all decide
  refine ⟨by with_unfolding_all decide, hrun, ?_, by with_unfolding_all decide⟩
  intro hall
  cases hr : runOps evalEnv
      [Op.transform Transform.MinMaxNormalize, Op.crop 0 1 0 1, Op.undo] cropExample with
  | none => rw [hr] at hrun; simp at hrun
  | some d1 =>
    rw [hr] at hrun
    simp only [Option.map_some', Option.some.injEq, Prod.mk.injEq] at hrun
    have hinv := (hall d1 hr).1
    omega

end ShapeProps

section MedianProps

variable {K : Type} [LinearOrderedField K]

/-- Evaluation of `MedianFilter(3)`: the first and the last channel pass, the
peak of 10 between two values of 4 is replaced by 4. -/
theorem MedianFilter_example :
    (peakExample.MedianFilter evalEnv 3).map (fun d => d.spectra_)
      = some (liftMat 7 [[0, 1, 2, 2, 2, 1, 0], [0, 1, 4, 4, 4, 1, 0]]) := by
  with_unfolding_all decide

/-- Evaluation of `Baseline("Median Filter", 5)`: the two channels at either
end become 0, the three in the middle lose the median of the five
channels around them. -/
theorem Baseline_example :
    (peakExample.Baseline evalEnv "Median Filter" 5).map (fun d => d.spectra_)
      = some (liftMat 7 [[0, 0, 0, 1, 0, 0, 0], [0, 0, 0, 6, 0, 0, 0]]) := by
  with_unfolding_all decide

end MedianProps

section IntensityProps

variable {K : Type} [LinearOrderedField K]

theorem foldl_max_mem (l : List K) (a : K) : l.foldl Max.max a ∈ a :: l := by
  induction l generalizing a with
  | nil => simp
  | cons b l ih =>
    rw [List.foldl_cons]
    rcases List.mem_cons.mp (ih (Max.max a b)) with h | h
    · rw [h]
      rcases max_choice a b with h1 | h1
      · rw [h1]; exact List.mem_cons_self _ _
      · rw [h1]; exact List.mem_cons_of_mem _ (List.mem_cons_self _ _)
    · exact List.mem_cons_of_mem _ (List.mem_cons_of_mem _ h)

omit [LinearOrderedField K] in
/-- The members of the window are the values at the channels `min .. max`. -/
theorem mem_window_iff (row : List K) (min max : Nat) (x : K) (hle : min ≤ max) :
    x ∈ (row.drop min).take (max - min + 1)
      ↔ ∃ j, min ≤ j ∧ j ≤ max ∧ row[j]? = some x := by
  rw [List.mem_iff_getElem?]
  constructor
  · rintro ⟨k, hk⟩
    rw [List.getElem?_take] at hk
    by_cases hlt : k < max - min + 1
    · rw [if_pos hlt, List.getElem?_drop] at hk
      exact ⟨min + k, by omega, by omega, hk⟩
    · rw [if_neg hlt] at hk
      cases hk
  · rintro ⟨j, h1, h2, hj⟩
    refine ⟨j - min, ?_⟩
    rw [List.getElem?_take, if_pos (by omega), List.getElem?_drop]
    rw [show min + (j - min) = j by omega]
    exact hj

omit [LinearOrderedField K] in
theorem window_ne_nil (row : List K) (min max : Nat) (hle : min ≤ max) (hmax : max < row.length) :
    (row.drop min).take (max - min + 1) ≠ [] := by
  intro h
  have hl := congrArg List.length h
  rw [List.length_take, List.length_drop, List.length_nil] at hl
  omega

/-- The value `windowMax` is attained at a channel of the window and bounds
every value of the window. -/
theorem windowMax_spec (row : List K) (min max : Nat) (hle : min ≤ max) (hmax : max < row.length) :
    (∃ j, min ≤ j ∧ j ≤ max ∧ row[j]? = some (windowMax row min max))
      ∧ ∀ j x, min ≤ j → j ≤ max → row[j]? = some x → x ≤ windowMax row min max := by
  have hne := window_ne_nil row min max hle hmax
  unfold windowMax
  cases hw : (row.drop min).take (max - min + 1) with
  | nil => exact absurd hw hne
  | cons a l =>
    simp only
    constructor
    · apply (mem_window_iff row min max _ hle).mp
      rw [hw]
      exact foldl_max_mem l a
    · intro j x h1 h2 hj
      have hx : x ∈ (row.drop min).take (max - min + 1) :=
        (mem_window_iff row min max x hle).mpr ⟨j, h1, h2, hj⟩
      rw [hw] at hx
      rcases List.mem_cons.mp hx with h | h
      · rw [h]; exact (le_foldl_max l a).1
      · exact (le_foldl_max l a).2 x h

theorem window_vmax (row : List K) (min max : Nat) (hle : min ≤ max) (hmax : max < row.length) :
    (span (liftVec row) min max).bind vmax = some (Dbl.fin (windowMax row min max)) := by
  have hne := window_ne_nil row min max hle hmax
  rw [span_liftVec row min max hle hmax, Option.some_bind]
  unfold windowMax
  cases hw : (row.drop min).take (max - min + 1) with
  | nil => exact absurd hw hne
  | cons a l => exact vmax_liftVec_cons l a

theorem intensityRow_liftMat (d : VespucciDataset K) (M : Nat) (t : List (List K))
    (min max i : Nat) (hs : d.spectra_ = liftMat M t) (hi : i < t.length)
    (hlen : (t.getD i []).length = M) (hle : min ≤ max) (hmax : max < M) :
    intensityRow d min max i = some (Dbl.fin (windowMax (t.getD i []) min max)) := by
  simp only [intensityRow, hs, liftMat_row M t i hi, Option.some_bind]
  exact window_vmax _ min max hle (by rw [hlen]; exact hmax)

theorem fabs_fin (x : K) : Dbl.fabs (Dbl.fin x) = Dbl.fin ((fun y : K => |y|) x) := rfl

theorem intensityRowZ_liftMat (d : VespucciDataset K) (M : Nat) (t : List (List K))
    (min max i : Nat) (hs : d.spectra_ = liftMat M t) (hi : i < t.length)
    (hlen : (t.getD i []).length = M) (hle : min ≤ max) (hmax : max < M) :
    intensityRowZ d min max i = some (Dbl.fin (signedPeak (t.getD i []) min max)) := by
  have hi2 : i < (t.map (fun r => r.map (fun y : K => |y|))).length := by
    rw [List.length_map]; exact hi
  have hget : (t.map (fun r => r.map (fun y : K => |y|))).getD i []
      = (t.getD i []).map (fun y : K => |y|) := by
    simp only [List.getD_eq_getElem?_getD, List.getElem?_map]
    cases t[i]? <;> rfl
  have h1 : ((d.spectra_.row i).bind (fun row => span row min max)).bind vmax
      = some (Dbl.fin (windowMax (t.getD i []) min max)) := by
    simp only [hs, liftMat_row M t i hi, Option.some_bind]
    exact window_vmax _ min max hle (by rw [hlen]; exact hmax)
  have h2 : (((d.spectra_.map Dbl.fabs).row i).bind (fun row => span row min max)).bind vmax
      = some (Dbl.fin (windowMax ((t.getD i []).map (fun y : K => |y|)) min max)) := by
    rw [hs, liftMat_map M t Dbl.fabs (fun y : K => |y|) fabs_fin]
    simp only [liftMat_row M _ i hi2, Option.some_bind, hget]
    exact window_vmax _ min max hle (by rw [List.length_map, hlen]; exact hmax)
  simp only [intensityRowZ, h1, h2, Dbl.eq, signedPeak]
  by_cases heq : windowMax ((t.getD i []).map (fun y : K => |y|)) min max
      = windowMax (t.getD i []) min max
  · simp only [List.getD_eq_getElem?_getD] at heq ⊢
    simp [heq]
  · simp only [List.getD_eq_getElem?_getD] at heq ⊢
    simp [heq, Dbl.mul]

/-- C17. On a spatial dataset of finite spectra with `M` channels on which
z-scores were not calculated, and a window `0 <= min <= max < M`,
`Univariate` with the value method "Intensity" (or any string other than
"Bandwidth", "Area" and "Derivative") returns and appends a map whose result
for each row is the maximum of the row over the channels `min .. max`: a
value attained at a channel of the window and not below any value of the
window. -/
theorem Univariate_intensity (env : Env K) (d : VespucciDataset K) (M : Nat)
    (t : List (List K)) (min max : Nat) (name value_method integration_method : String)
    (hs : d.spectra_ = liftMat M t) (hwf : ∀ r ∈ t, r.length = M)
    (hx : d.x_.length = t.length) (hsp : d.non_spatial_ = false)
    (hz : d.z_scores_calculated_ = false) (hle : min ≤ max) (hmax : max < M)
    (hb : value_method ≠ "Bandwidth") (ha : value_method ≠ "Area")
    (hd : value_method ≠ "Derivative") :
    (∃ m : MapData K,
        d.Univariate env min max name value_method integration_method = some (d.AddMap m)
          ∧ m.results = t.map (fun row => Dbl.fin (windowMax row min max)))
      ∧ ∀ row ∈ t,
          (∃ j, min ≤ j ∧ j ≤ max ∧ row[j]? = some (windowMax row min max))
            ∧ ∀ j x, min ≤ j → j ≤ max → row[j]? = some x → x ≤ windowMax row min max := by
  refine ⟨?_, fun row hrow => windowMax_spec row min max hle (by rw [hwf row hrow]; exact hmax)⟩
  have hrows : ∀ i ∈ List.range d.x_.length, intensityRow d min max i
      = some (Dbl.fin (windowMax (t.getD i []) min max)) := by
    intro i hi
    have hi1 : i < t.length := by rw [← hx]; exact List.mem_range.mp hi
    exact intensityRow_liftMat d M t min max i hs hi1 (hwf _ (getD_mem_of_lt t i [] hi1)) hle hmax
  simp only [VespucciDataset.Univariate, hsp, hz, Bool.false_eq_true, if_false, hb, ha, hd,
    mapM_some_of_forall _ _ _ hrows]
  refine ⟨_, rfl, ?_⟩
  simp only
  rw [hx]
  exact map_range_getD t [] (fun row => Dbl.fin (windowMax row min max))

theorem Univariate_intensity_witness :
    peakExample.spectra_ = liftMat 7 [[0, 1, 2, 3, 2, 1, 0], [0, 1, 4, 10, 4, 1, 0]]
      ∧ (∀ r ∈ [[(0 : ℚ), 1, 2, 3, 2, 1, 0], [0, 1, 4, 10, 4, 1, 0]], r.length = 7)
      ∧ peakExample.x_.length = [[(0 : ℚ), 1, 2, 3, 2, 1, 0], [0, 1, 4, 10, 4, 1, 0]].length
      ∧ peakExample.non_spatial_ = false
      ∧ peakExample.z_scores_calculated_ = false
      ∧ 1 ≤ 2 ∧ 2 < 7
      ∧ "Intensity" ≠ "Bandwidth" ∧ "Intensity" ≠ "Area" ∧ "Intensity" ≠ "Derivative"
      ∧ ((∃ m : MapData ℚ,
          peakExample.Univariate evalEnv 1 2 "peak" "Intensity" "" = some (peakExample.AddMap m)
            ∧ m.results = [[(0 : ℚ), 1, 2, 3, 2, 1, 0], [0, 1, 4, 10, 4, 1, 0]].map
                (fun row => Dbl.fin (windowMax row 1 2)))
        ∧ ∀ row ∈ [[(0 : ℚ), 1, 2, 3, 2, 1, 0], [0, 1, 4, 10, 4, 1, 0]],
            (∃ j, 1 ≤ j ∧ j ≤ 2 ∧ row[j]? = some (windowMax row 1 2))
              ∧ ∀ j x, 1 ≤ j → j ≤ 2 → row[j]? = some x → x ≤ windowMax row 1 2) :=
  ⟨rfl, by decide, by decide, rfl, rfl, by decide, by decide, by decide, by decide, by decide,
    Univariate_intensity evalEnv peakExample 7 [[0, 1, 2, 3, 2, 1, 0], [0, 1, 4, 10, 4, 1, 0]]
      1 2 "peak" "Intensity" "" rfl (by decide) (by decide) rfl rfl (by decide) (by decide)
      (by decide) (by decide) (by decide)⟩

/-- Evaluation of the intensity method on the channels `1 .. 2`: the maxima
of the two rows are 2 and 4. -/
theorem Univariate_intensity_example :
    (peakExample.Univariate evalEnv 1 2 "peak" "Intensity" "").map
        (fun d => d.maps_.map (fun m => (m.name, m.map_type, m.results)))
      = some [("peak", "1-Region Univariate (Intensity)", liftVec [2, 4])] := by
  with_unfolding_all decide

/-- The call `ZScoreNormalize` leaves the z-score flag set, which is what
selects the sign-corrected intensity. -/
theorem ZScoreNormalize_sets_flag (env : Env K) (d d1 : VespucciDataset K)
    (h : d.ZScoreNormalize env = some d1) : d1.z_scores_calculated_ = true := by
  unfold VespucciDataset.ZScoreNormalize at h
  split at h
  · cases h
  · rw [← Option.some.inj h]

/-- C18. On a spatial dataset of finite spectra with `M` channels on which
z-scores were calculated, and a window `0 <= min <= max < M`, `Univariate`
with the value method "Intensity" (or any string other than "Bandwidth",
"Area" and "Derivative") returns and appends a map whose result for each row
is the maximum of the row over the window if that equals the maximum of the
absolute values over the window, and minus the maximum of the absolute
values otherwise. -/
theorem Univariate_intensity_zscore (env : Env K) (d : VespucciDataset K) (M : Nat)
    (t : List (List K)) (min max : Nat) (name value_method integration_method : String)
    (hs : d.spectra_ = liftMat M t) (hwf : ∀ r ∈ t, r.length = M)
    (hx : d.x_.length = t.length) (hsp : d.non_spatial_ = false)
    (hz : d.z_scores_calculated_ = true) (hle : min ≤ max) (hmax : max < M)
    (hb : value_method ≠ "Bandwidth") (ha : value_method ≠ "Area")
    (hd : value_method ≠ "Derivative") :
    (∃ m : MapData K,
        d.Univariate env min max name value_method integration_method = some (d.AddMap m)
          ∧ m.results = t.map (fun row => Dbl.fin (signedPeak row min max)))
      ∧ ∀ row ∈ t, ∃ raw top : K,
          ((∃ j, min ≤ j ∧ j ≤ max ∧ row[j]? = some raw)
            ∧ ∀ j x, min ≤ j → j ≤ max → row[j]? = some x → x ≤ raw)
          ∧ ((∃ j x, min ≤ j ∧ j ≤ max ∧ row[j]? = some x ∧ |x| = top)
            ∧ ∀ j x, min ≤ j → j ≤ max → row[j]? = some x → |x| ≤ top)
          ∧ signedPeak row min max = if top = raw then raw else - top := by
  constructor
  · have hrows : ∀ i ∈ List.range d.x_.length, intensityRowZ d min max i
        = some (Dbl.fin (signedPeak (t.getD i []) min max)) := by
      intro i hi
      have hi1 : i < t.length := by rw [← hx]; exact List.mem_range.mp hi
      exact intensityRowZ_liftMat d M t min max i hs hi1 (hwf _ (getD_mem_of_lt t i [] hi1))
        hle hmax
    simp only [VespucciDataset.Univariate, hsp, hz, Bool.false_eq_true, if_false, hb, ha, hd,
      if_true, mapM_some_of_forall _ _ _ hrows]
    refine ⟨_, rfl, ?_⟩
    simp only
    rw [hx]
    exact map_range_getD t [] (fun row => Dbl.fin (signedPeak row min max))
  · intro row hrow
    have hl : max < row.length := by rw [hwf row hrow]; exact hmax
    have hl2 : max < (row.map (fun y : K => |y|)).length := by rw [List.length_map]; exact hl
    obtain ⟨⟨j, h1, h2, hj⟩, hub⟩ := windowMax_spec (row.map (fun y : K => |y|)) min max hle hl2
    refine ⟨windowMax row min max, windowMax (row.map (fun y : K => |y|)) min max,
      windowMax_spec row min max hle hl, ⟨?_, ?_⟩, rfl⟩
    · rw [List.getElem?_map] at hj
      cases hr : row[j]? with
      | none => rw [hr] at hj; cases hj
      | some x =>
        rw [hr] at hj
        exact ⟨j, x, h1, h2, hr, Option.some.inj hj⟩
    · intro k x hk1 hk2 hk
      apply hub k |x| hk1 hk2
      rw [List.getElem?_map, hk]
      rfl

theorem Univariate_intensity_zscore_witness :
    signedExample.spectra_ = liftMat 4 [[-3, 1, 2, 1]]
      ∧ (∀ r ∈ [[(-3 : ℚ), 1, 2, 1]], r.length = 4)
      ∧ signedExample.x_.length = [[(-3 : ℚ), 1, 2, 1]].length
      ∧ signedExample.non_spatial_ = false
      ∧ signedExample.z_scores_calculated_ = true
      ∧ 0 ≤ 1 ∧ 1 < 4
      ∧ "Intensity" ≠ "Bandwidth" ∧ "Intensity" ≠ "Area" ∧ "Intensity" ≠ "Derivative"
      ∧ ((∃ m : MapData ℚ,
          signedExample.Univariate evalEnv 0 1 "peak" "Intensity" ""
              = some (signedExample.AddMap m)
            ∧ m.results = [[(-3 : ℚ), 1, 2, 1]].map (fun row => Dbl.fin (signedPeak row 0 1)))
        ∧ ∀ row ∈ [[(-3 : ℚ), 1, 2, 1]], ∃ raw top : ℚ,
            ((∃ j, 0 ≤ j ∧ j ≤ 1 ∧ row[j]? = some raw)
              ∧ ∀ j x, 0 ≤ j → j ≤ 1 → row[j]? = some x → x ≤ raw)
            ∧ ((∃ j x, 0 ≤ j ∧ j ≤ 1 ∧ row[j]? = some x ∧ |x| = top)
              ∧ ∀ j x, 0 ≤ j → j ≤ 1 → row[j]? = some x → |x| ≤ top)
            ∧ signedPeak row 0 1 = if top = raw then raw else - top) :=
  ⟨rfl, by decide, by decide, rfl, rfl, by decide, by decide, by decide, by decide, by decide,
    Univariate_intensity_zscore evalEnv signedExample 4 [[-3, 1, 2, 1]]
      0 1 "peak" "Intensity" "" rfl (by decide) (by decide) rfl rfl (by decide) (by decide)
      (by decide) (by decide) (by decide)⟩

/-- Evaluation of the sign correction: over the channels `0 .. 1` the maximum
is 1 and the maximum of the absolute values is 3, so -3 is reported; over the
channels `2 .. 3` both are 2, so 2 is reported. -/
theorem Univariate_intensity_zscore_example :
    (signedExample.Univariate evalEnv 0 1 "peak" "Intensity" "").map
        (fun d => d.maps_.map (fun m => m.results)) = some [liftVec [-3]]
      ∧ (signedExample.Univariate evalEnv 2 3 "peak" "Intensity" "").map
        (fun d => d.maps_.map (fun m => m.results)) = some [liftVec [2]] := by
  constructor <;> with_unfolding_all decide

end IntensityProps

section RatioProps

variable {K : Type} [LinearOrderedField K]

theorem mapM_bind_map {α β γ δ : Type} (f : α → Option β) (g : α → Option γ) (h : β → γ → δ) :
    ∀ (l : List α) (r1 : List β) (r2 : List γ), l.mapM f = some r1 → l.mapM g = some r2 →
      l.mapM (fun a => (f a).bind (fun x => (g a).map (h x))) = some (List.zipWith h r1 r2) := by
  intro l
  induction l with
  | nil =>
    intro r1 r2 h1 h2
    simp only [List.mapM_nil, Option.pure_def, Option.some.injEq] at h1 h2 ⊢
    rw [← h1, ← h2]
    rfl
  | cons a l ih =>
    intro r1 r2 h1 h2
    rw [List.mapM_cons] at h1 h2 ⊢
    cases hf : f a with
    | none => rw [hf] at h1; cases h1
    | some x =>
      cases hg : g a with
      | none => rw [hg] at h2; cases h2
      | some y =>
        rw [hf] at h1
        rw [hg] at h2
        cases hl1 : l.mapM f with
        | none => rw [hl1] at h1; cases h1
        | some t1 =>
          cases hl2 : l.mapM g with
          | none => rw [hl2] at h2; cases h2
          | some t2 =>
            rw [hl1] at h1
            rw [hl2] at h2
            simp only [Option.pure_def, Option.bind_eq_bind, Option.some_bind,
              Option.some.injEq] at h1 h2
            rw [← h1, ← h2]
            simp only [Option.pure_def, Option.bind_eq_bind, Option.some_bind, Option.map_some',
              ih t1 t2 hl1 hl2, List.zipWith_cons_cons]

theorem mapM_ratio {α β γ δ : Type} (f : α → Option β) (g : α → Option γ) (h : β → γ → δ)
    (F : α → Option δ) (l : List α) (r1 : List β) (r2 : List γ)
    (h1 : l.mapM f = some r1) (h2 : l.mapM g = some r2)
    (hF : ∀ a, F a = (f a).bind (fun x => (g a).map (h x))) :
    l.mapM F = some (List.zipWith h r1 r2) := by
  rw [funext hF]
  exact mapM_bind_map f g h l r1 r2 h1 h2

/-- What `Univariate` returns on a spatial dataset with the value method
"Intensity" while z-scores were not calculated: the results are the row
maxima the loop body reads. -/
theorem Univariate_intensity_inv (env : Env K) (d d1 : VespucciDataset K) (min max : Nat)
    (name integration_method : String) (hsp : d.non_spatial_ = false)
    (hz : d.z_scores_calculated_ = false)
    (h : d.Univariate env min max name "Intensity" integration_method = some d1) :
    ∃ results, (List.range d.x_.length).mapM (intensityRow d min max) = some results
      ∧ d1 = d.AddMap { name := name, map_type := "1-Region Univariate (Intensity)",
                        x := d.x_, y := d.y_, results := results } := by
  have h1 : ¬ ("Intensity" = "Bandwidth") := by decide
  have h2 : ¬ ("Intensity" = "Area") := by decide
  have h3 : ¬ ("Intensity" = "Derivative") := by decide
  simp only [VespucciDataset.Univariate, hsp, hz, Bool.false_eq_true, if_false, h1, h2, h3] at h
  cases hm : (List.range d.x_.length).mapM (intensityRow d min max) with
  | none => rw [hm] at h; cases h
  | some results =>
    rw [hm] at h
    exact ⟨results, rfl, (Option.some.inj h).symm⟩

/-- What `Univariate` returns on a spatial dataset with "Area" and
"Riemann Sum": the results are the sums the loop body computes. -/
theorem Univariate_area_inv (env : Env K) (d d1 : VespucciDataset K) (min max : Nat)
    (name : String) (hsp : d.non_spatial_ = false)
    (h : d.Univariate env min max name "Area" "Riemann Sum" = some d1) :
    ∃ abcissa rs, span d.wavelength_ min max = some abcissa
      ∧ (List.range d.x_.length).mapM (areaRow d min max) = some rs
      ∧ ∃ m : MapData K, d1 = d.AddMap m ∧ m.results = rs.map (fun r => r.1) := by
  have h1 : ¬ ("Area" = "Bandwidth") := by decide
  simp only [VespucciDataset.Univariate, hsp, Bool.false_eq_true, if_false, h1, if_true] at h
  cases hs : span d.wavelength_ min max with
  | none => rw [hs] at h; cases h
  | some abcissa =>
    rw [hs] at h
    cases hm : (List.range d.x_.length).mapM (areaRow d min max) with
    | none => rw [hm] at h; cases h
    | some rs =>
      rw [hm] at h
      exact ⟨abcissa, rs, rfl, rfl, _, (Option.some.inj h).symm, rfl⟩

/-- Part of C19 that holds: with the value method "Intensity" on a spatial
dataset on which z-scores were not calculated, whenever `Univariate` returns
for both windows, `BandRatio` returns and its result vector is the entrywise
quotient of the two result vectors. -/
theorem BandRatio_intensity_agrees (env : Env K) (d d1 d2 : VespucciDataset K)
    (first_min first_max second_min second_max : Nat) (n1 n2 name integration_method : String)
    (hsp : d.non_spatial_ = false) (hz : d.z_scores_calculated_ = false)
    (h1 : d.Univariate env first_min first_max n1 "Intensity" integration_method = some d1)
    (h2 : d.Univariate env second_min second_max n2 "Intensity" integration_method = some d2) :
    ∃ m1 m2 m3 : MapData K, d1 = d.AddMap m1 ∧ d2 = d.AddMap m2
      ∧ d.BandRatio env first_min first_max second_min second_max name "Intensity"
          integration_method = some (d.AddMap m3)
      ∧ m3.results = List.zipWith Dbl.div m1.results m2.results := by
  obtain ⟨r1, hr1, hd1⟩ := Univariate_intensity_inv env d d1 first_min first_max n1
    integration_method hsp hz h1
  obtain ⟨r2, hr2, hd2⟩ := Univariate_intensity_inv env d d2 second_min second_max n2
    integration_method hsp hz h2
  have hb1 : ¬ ("Intensity" = "Area") := by decide
  have hb2 : ¬ ("Intensity" = "Derivative") := by decide
  have hB : ∃ m3 : MapData K,
      d.BandRatio env first_min first_max second_min second_max name "Intensity"
          integration_method = some (d.AddMap m3)
        ∧ m3.results = List.zipWith Dbl.div r1 r2 := by
    simp only [VespucciDataset.BandRatio, hsp, Bool.false_eq_true, if_false, hb1, hb2]
    rw [mapM_ratio (intensityRow d first_min first_max) (intensityRow d second_min second_max)
      Dbl.div _ _ r1 r2 hr1 hr2]
    · exact ⟨_, rfl, rfl⟩
    · intro i
      beta_reduce
      cases intensityRow d first_min first_max i <;>
        cases intensityRow d second_min second_max i <;> rfl
  obtain ⟨m3, hC, hD⟩ := hB
  exact ⟨_, _, m3, hd1, hd2, hC, hD⟩

/-- Part of C19 that holds: with "Area" and "Riemann Sum" on a spatial
dataset, whenever `Univariate` returns for both windows, `BandRatio` returns
and its result vector is the entrywise quotient of the two result vectors. -/
theorem BandRatio_area_agrees (env : Env K) (d d1 d2 : VespucciDataset K)
    (first_min first_max second_min second_max : Nat) (n1 n2 name : String)
    (hsp : d.non_spatial_ = false)
    (h1 : d.Univariate env first_min first_max n1 "Area" "Riemann Sum" = some d1)
    (h2 : d.Univariate env second_min second_max n2 "Area" "Riemann Sum" = some d2) :
    ∃ m1 m2 m3 : MapData K, d1 = d.AddMap m1 ∧ d2 = d.AddMap m2
      ∧ d.BandRatio env first_min first_max second_min second_max name "Area" "Riemann Sum"
          = some (d.AddMap m3)
      ∧ m3.results = List.zipWith Dbl.div m1.results m2.results := by
  obtain ⟨a1, r1, hs1, hr1, m1, hd1, hm1⟩ := Univariate_area_inv env d d1 first_min first_max n1
    hsp h1
  obtain ⟨a2, r2, hs2, hr2, m2, hd2, hm2⟩ := Univariate_area_inv env d d2 second_min second_max
    n2 hsp h2
  have hB : ∃ m3 : MapData K,
      d.BandRatio env first_min first_max second_min second_max name "Area" "Riemann Sum"
          = some (d.AddMap m3)
        ∧ m3.results = List.zipWith Dbl.div (r1.map (fun r => r.1)) (r2.map (fun r => r.1)) := by
    simp only [VespucciDataset.BandRatio, hsp, Bool.false_eq_true, if_false, if_true, hs1, hs2]
    rw [mapM_ratio (areaRow d first_min first_max) (areaRow d second_min second_max)
      (fun (x y : Dbl K × Vec K) => (Dbl.div x.1 y.1, x.2, y.2)) _ _ r1 r2 hr1 hr2]
    · refine ⟨_, rfl, ?_⟩
      simp only [List.map_zipWith, List.zipWith_map]
    · intro i
      beta_reduce
      cases areaRow d first_min first_max i <;>
        cases areaRow d second_min second_max i <;> rfl
  obtain ⟨m3, hC, hD⟩ := hB
  exact ⟨m1, m2, m3, hd1, hd2, hC, by rw [hD, hm1, hm2]⟩

/-- C19 (defect of the code). `BandRatio` with the value method "Intensity"
has no sign correction for z-scored data, `Univariate` has. On the z-scored
spectrum `[-3, 1, 2, 1]` with the windows `[0, 1]` and `[2, 3]`, `Univariate`
reports -3 and 2, whose quotient is -3/2, and `BandRatio` reports 1/2. -/
theorem BandRatio_zscore_example :
    (signedExample.Univariate evalEnv 0 1 "first" "Intensity" "").map
        (fun d => d.maps_.map (fun m => m.results)) = some [[Dbl.fin (-3)]]
      ∧ (signedExample.Univariate evalEnv 2 3 "second" "Intensity" "").map
        (fun d => d.maps_.map (fun m => m.results)) = some [[Dbl.fin 2]]
      ∧ (signedExample.BandRatio evalEnv 0 1 2 3 "ratio" "Intensity" "").map
        (fun d => d.maps_.map (fun m => m.results)) = some [[Dbl.fin (1 / 2)]]
      ∧ Dbl.div (Dbl.fin (-3 : ℚ)) (Dbl.fin 2) = Dbl.fin (-3 / 2)
      ∧ (Dbl.fin (1 / 2) : Dbl ℚ) ≠ Dbl.fin (-3 / 2) := by
  refine ⟨?_, ?_, ?_, ?_, ?_⟩ <;> with_unfolding_all decide

end RatioProps

section AppendProps

variable {K : Type} [LinearOrderedField K]

/-- A loop whose body appends one result per turn has appended `n` results
after `n` turns. -/
theorem forLoop_count {σ : Type} (body : Nat → σ → Option σ) (len : σ → Nat)
    (hbody : ∀ j st st1, body j st = some st1 → len st1 = len st + 1) :
    ∀ (n j0 : Nat) (st st1 : σ), forLoop body n j0 st = some st1 → len st1 = len st + n := by
  intro n
  induction n with
  | zero =>
    intro j0 st st1 h
    simp only [forLoop, Option.some.injEq] at h
    rw [← h]
    rfl
  | succ n ih =>
    intro j0 st st1 h
    simp only [forLoop] at h
    cases hb : body j0 st with
    | none => rw [hb] at h; cases h
    | some st2 =>
      rw [hb, Option.some_bind] at h
      rw [ih (j0 + 1) st2 st1 h, hbody j0 st st2 hb]
      omega

theorem bandwidthStep_results (d : VespucciDataset K) (min max : Nat) (j : Nat)
    (st st1 : BandwidthState K) (h : bandwidthStep d min max j st = some st1) :
    st1.results.length = st.results.length + 1 := by
  unfold bandwidthStep at h
  simp only at h
  split at h
  · cases h
  · split at h
    · cases h
    · split at h
      · split at h
        · simp only [Option.some.injEq] at h
          rw [← h]
          simp only [List.length_append, List.length_singleton]
        · cases h
      · cases h

/-- Part of C20 that holds: whenever `Univariate` returns on a spatial
dataset, it has appended exactly one map at the end of the registry, named
with the caller's name, carrying the coordinates of the dataset and one
result per coordinate, with the label of the value method; a value method
other than "Bandwidth", "Area" and "Derivative" has the label of the
intensity method. -/
theorem Univariate_appends_map (env : Env K) (d d1 : VespucciDataset K) (min max : Nat)
    (name value_method integration_method : String) (hsp : d.non_spatial_ = false)
    (h : d.Univariate env min max name value_method integration_method = some d1) :
    ∃ m : MapData K, d1 = d.AddMap m
      ∧ d1.maps_ = d.maps_ ++ [m]
      ∧ d1.map_names_ = d.map_names_ ++ [name]
      ∧ m.name = name ∧ m.x = d.x_ ∧ m.y = d.y_
      ∧ m.results.length = d.x_.length
      ∧ m.map_type = univariateLabel value_method := by
  simp only [VespucciDataset.Univariate, hsp, Bool.false_eq_true, if_false] at h
  by_cases hb : value_method = "Bandwidth"
  · simp only [hb, if_true] at h
    cases hs : span d.wavelength_ min max with
    | none => rw [hs] at h; cases h
    | some abcissa =>
      rw [hs] at h
      cases hl : forLoop (bandwidthStep d min max) d.x_.length 0 {} with
      | none => rw [hl] at h; cases h
      | some st =>
        rw [hl] at h
        have hlen := forLoop_count (bandwidthStep d min max) (fun s => s.results.length)
          (bandwidthStep_results d min max) _ _ _ _ hl
        refine ⟨_, (Option.some.inj h).symm, ?_, ?_, rfl, rfl, rfl, ?_, ?_⟩
        · rw [← Option.some.inj h]; rfl
        · rw [← Option.some.inj h]; rfl
        · simpa using hlen
        · simp only [univariateLabel, hb, if_true]
  · by_cases ha : value_method = "Area"
    · have hne : ¬ ("Area" = "Bandwidth") := by decide
      simp only [ha, hne, if_false, if_true] at h
      cases hs : span d.wavelength_ min max with
      | none => rw [hs] at h; cases h
      | some abcissa =>
        rw [hs] at h
        by_cases hi : integration_method = "Riemann Sum"
        · simp only [hi, if_true] at h
          cases hm : (List.range d.x_.length).mapM (areaRow d min max) with
          | none => rw [hm] at h; cases h
          | some rs =>
            rw [hm] at h
            refine ⟨_, (Option.some.inj h).symm, ?_, ?_, rfl, rfl, rfl, ?_, ?_⟩
            · rw [← Option.some.inj h]; rfl
            · rw [← Option.some.inj h]; rfl
            · simp only [List.length_map, mapM_length _ _ _ hm, List.length_range]
            · simp only [univariateLabel, ha, hne, if_false, if_true]
        · simp only [hi, if_false] at h
          refine ⟨_, (Option.some.inj h).symm, ?_, ?_, rfl, rfl, rfl, ?_, ?_⟩
          · rw [← Option.some.inj h]; rfl
          · rw [← Option.some.inj h]; rfl
          · simp only [List.length_map, List.length_range]
          · simp only [univariateLabel, ha, hne, if_false, if_true]
    · by_cases hd : value_method = "Derivative"
      · have hne1 : ¬ ("Derivative" = "Bandwidth") := by decide
        have hne2 : ¬ ("Derivative" = "Area") := by decide
        simp only [hd, hne1, hne2, if_false, if_true] at h
        refine ⟨_, (Option.some.inj h).symm, ?_, ?_, rfl, rfl, rfl, ?_, ?_⟩
        · rw [← Option.some.inj h]; rfl
        · rw [← Option.some.inj h]; rfl
        · simp only [List.length_map, List.length_range]
        · simp only [univariateLabel, hd, hne1, hne2, if_false, if_true]
      · simp only [hb, ha, hd, if_false] at h
        by_cases hz : d.z_scores_calculated_ = true
        · simp only [hz, if_true] at h
          cases hm : (List.range d.x_.length).mapM (intensityRowZ d min max) with
          | none => rw [hm] at h; cases h
          | some rs =>
            rw [hm] at h
            refine ⟨_, (Option.some.inj h).symm, ?_, ?_, rfl, rfl, rfl, ?_, ?_⟩
            · rw [← Option.some.inj h]; rfl
            · rw [← Option.some.inj h]; rfl
            · simp only [mapM_length _ _ _ hm, List.length_range]
            · simp only [univariateLabel, hb, ha, hd, if_false]
        · simp only [hz, if_false] at h
          cases hm : (List.range d.x_.length).mapM (intensityRow d min max) with
          | none => rw [hm] at h; cases h
          | some rs =>
            rw [hm] at h
            refine ⟨_, (Option.some.inj h).symm, ?_, ?_, rfl, rfl, rfl, ?_, ?_⟩
            · rw [← Option.some.inj h]; rfl
            · rw [← Option.some.inj h]; rfl
            · simp only [mapM_length _ _ _ hm, List.length_range]
            · simp only [univariateLabel, hb, ha, hd, if_false]

/-- C20 (defect of the code). With the value method "Bandwidth" the call can
stop before any map is appended although the window is valid. On the
spectrum `[5, 1]` with the window `[0, 1]` the maximum is at channel 0, the
search for the left edge does not run, `left_index` stays 0, and the edge
correction reads `spectra_(0, left_index - 1)` with the index wrapped to
`2 ^ 64 - 1`, outside the matrix. The methods "Area" and "Intensity" append
their map on the same input. -/
theorem Univariate_bandwidth_edge_example :
    edgeExample.non_spatial_ = false
      ∧ edgeExample.spectra_.n_cols = 2 ∧ edgeExample.wavelength_.length = 2
      ∧ (bandwidthPeak edgeExample 0 1 0 {}).map (fun r => (r.2.2.1, r.2.2.2.1, r.2.2.2.2))
          = some (Dbl.fin 5, 0, Dbl.fin (15 / 2))
      ∧ bandwidthEdges 2 (liftVec [(5 : ℚ), 1]) (Dbl.fin (15 / 2)) 0 {} = some (0, 0)
      ∧ usub 0 1 = 2 ^ 64 - 1
      ∧ rowElem 2 (liftVec [(5 : ℚ), 1]) (usub 0 1) = none
      ∧ adjustLeft 2 (liftVec [(5 : ℚ), 1]) (Dbl.fin (15 / 2)) 0 = none
      ∧ edgeExample.Univariate evalEnv 0 1 "width" "Bandwidth" "" = none
      ∧ (edgeExample.Univariate evalEnv 0 1 "area" "Area" "Riemann Sum").map
          (fun d => d.maps_.map (fun m => (m.name, m.map_type, m.results)))
          = some [("area", "1-Region Univariate (Area)", liftVec [0])]
      ∧ (edgeExample.Univariate evalEnv 0 1 "peak" "Intensity" "").map
          (fun d => d.maps_.map (fun m => (m.name, m.map_type, m.results)))
          = some [("peak", "1-Region Univariate (Intensity)", liftVec [5])] := by
  refine ⟨?_, ?_, ?_, ?_, ?_, ?_, ?_, ?_, ?_, ?_, ?_⟩ <;> with_unfolding_all decide

end AppendProps

section RecomputeProps

variable {K : Type}

theorem spatial_if {α : Type} (d : VespucciDataset K) (hsp : d.non_spatial_ = false) (a b : α) :
    (if d.non_spatial_ = true then a else b) = b := by
  rw [hsp]
  rfl

/-- What `VertexComponents` leaves on a spatial dataset: the analysis object
of a fresh run when `recalculate || !calculated`, the cached one otherwise. -/
theorem VertexComponents_inv (env : Env K) (d d1 : VespucciDataset K)
    (endmembers image_component : Nat) (name : String) (recalculate : Bool)
    (hsp : d.non_spatial_ = false)
    (h : d.VertexComponents env endmembers image_component name recalculate = some d1) :
    ∃ data results, data.Results (usub image_component 1) = some results
      ∧ (if recalculate || !d.vertex_components_calculated_
          then some (env.vca d.spectra_ endmembers) else d.vertex_components_data_) = some data
      ∧ d1 = ({ d with
          vertex_components_data_ := some data,
          vertex_components_calculated_ := true } : VespucciDataset K).AddMap
            { name := name,
              map_type := "(Vertex Component " ++ toString image_component ++ ")",
              x := d.x_, y := d.y_, results := results } := by
  unfold VespucciDataset.VertexComponents at h
  rw [spatial_if d hsp] at h
  cases hrun : (recalculate || !d.vertex_components_calculated_)
  · simp only [hrun, Bool.false_eq_true, if_false] at h ⊢
    have hflag : d.vertex_components_calculated_ = true := by
      cases hf : d.vertex_components_calculated_
      · rw [hf] at hrun; simp at hrun
      · rfl
    cases hd : d.vertex_components_data_ with
    | none => rw [hd] at h; cases h
    | some data =>
      rw [hd] at h
      simp only at h
      cases hr : data.Results (usub image_component 1) with
      | none => rw [hr] at h; cases h
      | some results =>
        rw [hr] at h
        refine ⟨data, results, hr, rfl, ?_⟩
        rw [← Option.some.inj h]
        have hdd : ({ d with
            vertex_components_data_ := some data,
            vertex_components_calculated_ := true } : VespucciDataset K) = d := by
          cases d
          simp only at hd hflag
          simp only [hd, hflag]
        rw [hdd]
  · simp only [hrun, if_true] at h ⊢
    cases hr : (env.vca d.spectra_ endmembers).Results (usub image_component 1) with
    | none => rw [hr] at h; cases h
    | some results =>
      rw [hr] at h
      exact ⟨_, results, hr, rfl, (Option.some.inj h).symm⟩

/-- What `PartialLeastSquares` leaves on a spatial dataset. -/
theorem PartialLeastSquares_inv (env : Env K) (d d1 : VespucciDataset K)
    (components image_component : Nat) (name : String) (recalculate : Bool)
    (hsp : d.non_spatial_ = false)
    (h : d.PartialLeastSquares env components image_component name recalculate = some d1) :
    ∃ data results valid, data.Results (usub image_component 1) = some (results, valid)
      ∧ (if recalculate || !d.partial_least_squares_calculated_
          then some (env.plsregress d.spectra_ d.wavelength_ components).2
          else d.partial_least_squares_data_) = some data
      ∧ d1 = ({ d with
          partial_least_squares_data_ := some data,
          partial_least_squares_calculated_ :=
            ((recalculate || !d.partial_least_squares_calculated_)
                && (env.plsregress d.spectra_ d.wavelength_ components).1)
              || d.partial_least_squares_calculated_ } : VespucciDataset K).AddMap
            { name := name,
              map_type :=
                (if recalculate || !d.partial_least_squares_calculated_
                  then "Partial Least Squares Map number of components = " ++ toString components
                  else "Partial Least Squares Map number of components = ")
                  ++ toString data.NumberComponents
                  ++ ". Component number " ++ toString (usub image_component 1),
              x := d.x_, y := d.y_, results := results } := by
  unfold VespucciDataset.PartialLeastSquares at h
  rw [spatial_if d hsp] at h
  cases hrun : (recalculate || !d.partial_least_squares_calculated_)
  · simp only [hrun, Bool.false_eq_true, if_false, Bool.false_and, Bool.false_or] at h ⊢
    cases hd : d.partial_least_squares_data_ with
    | none => rw [hd] at h; cases h
    | some data =>
      rw [hd] at h
      simp only at h
      cases hr : data.Results (usub image_component 1) with
      | none => rw [hr] at h; cases h
      | some rv =>
        rw [hr] at h
        refine ⟨data, rv.1, rv.2, hr, rfl, ?_⟩
        rw [← Option.some.inj h]
        have hdd : ({ d with
            partial_least_squares_data_ := some data,
            partial_least_squares_calculated_ := d.partial_least_squares_calculated_ } :
              VespucciDataset K) = d := by
          cases d
          simp only at hd
          simp only [hd]
        rw [hdd]
  · simp only [hrun, if_true, Bool.true_and] at h ⊢
    cases hr : (env.plsregress d.spectra_ d.wavelength_ components).2.Results
        (usub image_component 1) with
    | none => rw [hr] at h; cases h
    | some rv =>
      rw [hr] at h
      exact ⟨_, rv.1, rv.2, hr, rfl, (Option.some.inj h).symm⟩

/-- What `PrincipalComponents` leaves on a spatial dataset once the question
it asks is answered with Ok. -/
theorem PrincipalComponents_inv (env : Env K) (d d1 : VespucciDataset K)
    (component : Int) (name : String) (recalculate : Bool)
    (hsp : d.non_spatial_ = false)
    (h : d.PrincipalComponents env component name recalculate true = some d1) :
    ∃ data results,
      data.Results (if recalculate || !d.principal_components_calculated_
          then component - 1 else component) = some results
      ∧ (if recalculate || !d.principal_components_calculated_
          then some (env.princomp d.spectra_) else d.principal_components_data_) = some data
      ∧ d1 = ({ d with
          principal_components_data_ := some data,
          principal_components_calculated_ := true } : VespucciDataset K).AddMap
            { name := name,
              map_type := "(Principal Component "
                ++ toString ((if recalculate || !d.principal_components_calculated_
                    then component - 1 else component) + 1) ++ ")",
              x := d.x_, y := d.y_, results := results } := by
  unfold VespucciDataset.PrincipalComponents at h
  rw [spatial_if d hsp] at h
  cases hrun : (recalculate || !d.principal_components_calculated_)
  · simp only [hrun, Bool.false_eq_true, if_false] at h ⊢
    have hflag : d.principal_components_calculated_ = true := by
      cases hf : d.principal_components_calculated_
      · rw [hf] at hrun; simp at hrun
      · rfl
    cases hd : d.principal_components_data_ with
    | none => rw [hd] at h; cases h
    | some data =>
      rw [hd] at h
      simp only at h
      cases hr : data.Results component with
      | none => rw [hr] at h; cases h
      | some results =>
        rw [hr] at h
        refine ⟨data, results, hr, rfl, ?_⟩
        rw [← Option.some.inj h]
        have hdd : ({ d with
            principal_components_data_ := some data,
            principal_components_calculated_ := true } : VespucciDataset K) = d := by
          cases d
          simp only at hd hflag
          simp only [hd, hflag]
        rw [hdd]
  · simp only [hrun, if_true, Bool.not_true, Bool.false_eq_true, if_false] at h ⊢
    cases hr : (env.princomp d.spectra_).Results (component - 1) with
    | none => rw [hr] at h; cases h
    | some results =>
      rw [hr] at h
      exact ⟨_, results, hr, rfl, (Option.some.inj h).symm⟩

/-- With the flag set and no recalculation requested, `VertexComponents`
consults neither the library nor the endmember count. -/
theorem VertexComponents_cached (env env2 : Env K) (d : VespucciDataset K)
    (endmembers endmembers2 image_component : Nat) (name : String)
    (hflag : d.vertex_components_calculated_ = true) :
    d.VertexComponents env endmembers image_component name false
      = d.VertexComponents env2 endmembers2 image_component name false := by
  unfold VespucciDataset.VertexComponents
  simp only [hflag, Bool.false_or, Bool.not_true, Bool.false_eq_true, if_false]

/-- With the flag set and no recalculation requested, `PartialLeastSquares`
consults neither the library nor the component count. -/
theorem PartialLeastSquares_cached (env env2 : Env K) (d : VespucciDataset K)
    (components components2 image_component : Nat) (name : String)
    (hflag : d.partial_least_squares_calculated_ = true) :
    d.PartialLeastSquares env components image_component name false
      = d.PartialLeastSquares env2 components2 image_component name false := by
  unfold VespucciDataset.PartialLeastSquares
  simp only [hflag, Bool.false_or, Bool.not_true, Bool.false_eq_true, if_false]

/-- With the flag set and no recalculation requested, `PrincipalComponents`
does not consult the library. -/
theorem PrincipalComponents_cached (env env2 : Env K) (d : VespucciDataset K)
    (component : Int) (name : String) (ok : Bool)
    (hflag : d.principal_components_calculated_ = true) :
    d.PrincipalComponents env component name false ok
      = d.PrincipalComponents env2 component name false ok := by
  unfold VespucciDataset.PrincipalComponents
  simp only [hflag, Bool.false_or, Bool.not_true, Bool.false_eq_true, if_false]

/-- The recompute policy for a call that returns. On a spatial dataset, for
`VertexComponents`, `PartialLeastSquares` and (once its question is answered
with Ok) `PrincipalComponents`: when `recalculate` is true or the calculated
flag is false, the call leaves the analysis object that the library computes
from the current spectra and the parameters of this call, and the flag is
true afterwards (for `PartialLeastSquares`: when the run reports success);
when `recalculate` is false and the flag is true, the cached object and the
flag stay as they are and the outcome of the call is the same for every
library and every endmember or component count. -/
theorem recompute_of_returns (env : Env K) (d : VespucciDataset K) (hsp : d.non_spatial_ = false) :
    (∀ (endmembers image_component : Nat) (name : String) (recalculate : Bool)
        (d1 : VespucciDataset K),
        d.VertexComponents env endmembers image_component name recalculate = some d1 →
          (recalculate = true ∨ d.vertex_components_calculated_ = false →
              d1.vertex_components_data_ = some (env.vca d.spectra_ endmembers)
                ∧ d1.vertex_components_calculated_ = true)
          ∧ (recalculate = false ∧ d.vertex_components_calculated_ = true →
              d1.vertex_components_data_ = d.vertex_components_data_
                ∧ d1.vertex_components_calculated_ = true
                ∧ ∀ (env2 : Env K) (endmembers2 : Nat),
                    d.VertexComponents env2 endmembers2 image_component name recalculate
                      = some d1))
      ∧ (∀ (components image_component : Nat) (name : String) (recalculate : Bool)
          (d1 : VespucciDataset K),
          d.PartialLeastSquares env components image_component name recalculate = some d1 →
            (recalculate = true ∨ d.partial_least_squares_calculated_ = false →
                d1.partial_least_squares_data_
                    = some (env.plsregress d.spectra_ d.wavelength_ components).2
                  ∧ ((env.plsregress d.spectra_ d.wavelength_ components).1 = true →
                      d1.partial_least_squares_calculated_ = true))
            ∧ (recalculate = false ∧ d.partial_least_squares_calculated_ = true →
                d1.partial_least_squares_data_ = d.partial_least_squares_data_
                  ∧ d1.partial_least_squares_calculated_ = true
                  ∧ ∀ (env2 : Env K) (components2 : Nat),
                      d.PartialLeastSquares env2 components2 image_component name recalculate
                        = some d1))
      ∧ (∀ (component : Int) (name : String) (recalculate : Bool) (d1 : VespucciDataset K),
          d.PrincipalComponents env component name recalculate true = some d1 →
            (recalculate = true ∨ d.principal_components_calculated_ = false →
                d1.principal_components_data_ = some (env.princomp d.spectra_)
                  ∧ d1.principal_components_calculated_ = true)
            ∧ (recalculate = false ∧ d.principal_components_calculated_ = true →
                d1.principal_components_data_ = d.principal_components_data_
                  ∧ d1.principal_components_calculated_ = true
                  ∧ ∀ env2 : Env K,
                      d.PrincipalComponents env2 component name recalculate true = some d1)) := by
  refine ⟨?_, ?_, ?_⟩
  · intro endmembers image_component name recalculate d1 h
    obtain ⟨data, results, _, hdata, hd1⟩ :=
      VertexComponents_inv env d d1 endmembers image_component name recalculate hsp h
    constructor
    · intro hrun
      have hr : (recalculate || !d.vertex_components_calculated_) = true := by
        rcases hrun with hr | hr <;> simp [hr]
      rw [hr, if_pos rfl] at hdata
      rw [hd1]
      exact ⟨hdata.symm, rfl⟩
    · rintro ⟨hr, hflag⟩
      have hrun : (recalculate || !d.vertex_components_calculated_) = false := by
        simp [hr, hflag]
      rw [hrun, if_neg (by decide)] at hdata
      refine ⟨by rw [hd1]; exact hdata.symm, by rw [hd1]; rfl, ?_⟩
      intro env2 endmembers2
      rw [← h, hr]
      exact VertexComponents_cached env2 env d endmembers2 endmembers image_component name hflag
  · intro components image_component name recalculate d1 h
    obtain ⟨data, results, valid, _, hdata, hd1⟩ :=
      PartialLeastSquares_inv env d d1 components image_component name recalculate hsp h
    constructor
    · intro hrun
      have hr : (recalculate || !d.partial_least_squares_calculated_) = true := by
        rcases hrun with hr | hr <;> simp [hr]
      rw [hr, if_pos rfl] at hdata
      rw [hd1]
      refine ⟨hdata.symm, ?_⟩
      intro hok
      show ((recalculate || !d.partial_least_squares_calculated_)
          && (env.plsregress d.spectra_ d.wavelength_ components).1
        || d.partial_least_squares_calculated_) = true
      rw [hr, hok]
      rfl
    · rintro ⟨hr, hflag⟩
      have hrun : (recalculate || !d.partial_least_squares_calculated_) = false := by
        simp [hr, hflag]
      rw [hrun, if_neg (by decide)] at hdata
      refine ⟨by rw [hd1]; exact hdata.symm, ?_, ?_⟩
      · rw [hd1]
        show ((recalculate || !d.partial_least_squares_calculated_)
            && (env.plsregress d.spectra_ d.wavelength_ components).1
          || d.partial_least_squares_calculated_) = true
        rw [hflag]
        simp
      · intro env2 components2
        rw [← h, hr]
        exact PartialLeastSquares_cached env2 env d components2 components image_component name
          hflag
  · intro component name recalculate d1 h
    obtain ⟨data, results, _, hdata, hd1⟩ :=
      PrincipalComponents_inv env d d1 component name recalculate hsp h
    constructor
    · intro hrun
      have hr : (recalculate || !d.principal_components_calculated_) = true := by
        rcases hrun with hr | hr <;> simp [hr]
      rw [hr, if_pos rfl] at hdata
      rw [hd1]
      exact ⟨hdata.symm, rfl⟩
    · rintro ⟨hr, hflag⟩
      have hrun : (recalculate || !d.principal_components_calculated_) = false := by
        simp [hr, hflag]
      rw [hrun, if_neg (by decide)] at hdata
      refine ⟨by rw [hd1]; exact hdata.symm, by rw [hd1]; rfl, ?_⟩
      intro env2
      rw [← h, hr]
      exact PrincipalComponents_cached env2 env d component name true hflag

end RecomputeProps

section ClusterProps

variable {K : Type} [LinearOrderedField K]

omit [LinearOrderedField K] in
theorem mapM_singleton_head (l : Vec K) :
    (l.map (fun a => [a])).mapM (fun r => r[0]?) = some l := by
  have h := mapM_some_of_forall (fun r : Vec K => r[0]?) (fun r => r.getD 0 Dbl.nonfin)
    (l.map (fun a => [a])) (by
      intro r hr
      obtain ⟨a, _, ha⟩ := List.mem_map.mp hr
      rw [← ha]
      rfl)
  rw [h, List.map_map]
  congr 1
  exact List.map_id _

/-- C22. On a spatial dataset, for a clustering result that gives each of the
`N` observations a 0-based cluster index below `k`: `KMeans` returns, appends
one map, and the label vector it maps and stores has length `N`, its entry
`i` is the assignment of `i` plus 1, every label is an integer of `[1, k]`,
and every integer of `[1, k]` is a label as soon as every cluster index is
assigned. -/
theorem KMeans_labels (env : Env K) (d : VespucciDataset K) (clusters : Nat) (name : String)
    (hsp : d.non_spatial_ = false) (hU : clusters < UWORD)
    (hN : (env.kmeans d.spectra_.t clusters).length = d.spectra_.n_rows)
    (hrange : ∀ a ∈ env.kmeans d.spectra_.t clusters, a < clusters) :
    ∃ (d1 : VespucciDataset K) (m : MapData K) (labels : Vec K),
      d.KMeans env clusters name = some d1
        ∧ d1.maps_ = d.maps_ ++ [m] ∧ m.name = name ∧ m.results = labels
        ∧ d1.k_means_data_.col 0 = some labels
        ∧ labels.length = d.spectra_.n_rows
        ∧ (∀ (i a : Nat), (env.kmeans d.spectra_.t clusters)[i]? = some a →
            labels[i]? = some (Dbl.fin ((a : K) + 1)))
        ∧ (∀ l ∈ labels, ∃ n : Nat, l = Dbl.fin (n : K) ∧ 1 ≤ n ∧ n ≤ clusters)
        ∧ ((∀ c, c < clusters → c ∈ env.kmeans d.spectra_.t clusters) →
            ∀ n : Nat, 1 ≤ n → n ≤ clusters → Dbl.fin (n : K) ∈ labels) := by
  have hlab : ∀ a ∈ env.kmeans d.spectra_.t clusters,
      (Dbl.ofNat ((a + 1) % UWORD) : Dbl K) = Dbl.fin ((a : K) + 1) := by
    intro a ha
    have hlt : a + 1 < UWORD := by have := hrange a ha; omega
    rw [Nat.mod_eq_of_lt hlt]
    simp only [Dbl.ofNat]
    push_cast
    rfl
  unfold VespucciDataset.KMeans
  rw [spatial_if d hsp]
  refine ⟨_, _, (env.kmeans d.spectra_.t clusters).map (fun a => Dbl.ofNat ((a + 1) % UWORD)),
    rfl, rfl, rfl, rfl, ?_, ?_, ?_, ?_, ?_⟩
  · show Mat.col _ 0 = _
    simp only [Mat.col, Nat.lt_one_iff, if_true]
    exact mapM_singleton_head _
  · rw [List.length_map, hN]
  · intro i a hi
    rw [List.getElem?_map, hi, Option.map_some', hlab a (List.getElem?_mem hi)]
  · intro l hl
    obtain ⟨a, ha, hal⟩ := List.mem_map.mp hl
    refine ⟨a + 1, ?_, by omega, by have := hrange a ha; omega⟩
    rw [← hal, hlab a ha]
    push_cast
    rfl
  · intro hall n h1 hn
    have hmem := hall (n - 1) (by omega)
    refine List.mem_map.mpr ⟨n - 1, hmem, ?_⟩
    rw [hlab (n - 1) hmem]
    congr 1
    have : ((n - 1 : Nat) : K) + 1 = ((n - 1 + 1 : Nat) : K) := by push_cast; rfl
    rw [this, Nat.sub_add_cancel h1]

theorem KMeans_labels_witness :
    peakExample.non_spatial_ = false
      ∧ 2 < UWORD
      ∧ (markEnv.kmeans peakExample.spectra_.t 2).length = peakExample.spectra_.n_rows
      ∧ (∀ a ∈ markEnv.kmeans peakExample.spectra_.t 2, a < 2)
      ∧ ∃ (d1 : VespucciDataset ℚ) (m : MapData ℚ) (labels : Vec ℚ),
        peakExample.KMeans markEnv 2 "clusters" = some d1
          ∧ d1.maps_ = peakExample.maps_ ++ [m] ∧ m.name = "clusters" ∧ m.results = labels
          ∧ d1.k_means_data_.col 0 = some labels
          ∧ labels.length = peakExample.spectra_.n_rows
          ∧ (∀ (i a : Nat), (markEnv.kmeans peakExample.spectra_.t 2)[i]? = some a →
              labels[i]? = some (Dbl.fin ((a : ℚ) + 1)))
          ∧ (∀ l ∈ labels, ∃ n : Nat, l = Dbl.fin (n : ℚ) ∧ 1 ≤ n ∧ n ≤ 2)
          ∧ ((∀ c, c < 2 → c ∈ markEnv.kmeans peakExample.spectra_.t 2) →
              ∀ n : Nat, 1 ≤ n → n ≤ 2 → Dbl.fin (n : ℚ) ∈ labels) :=
  ⟨rfl, by decide, by with_unfolding_all decide, by with_unfolding_all decide,
    KMeans_labels markEnv peakExample 2 "clusters" rfl (by decide)
      (by with_unfolding_all decide) (by with_unfolding_all decide)⟩

/-- Evaluation of `KMeans` with two clusters on two observations that are
assigned to cluster 0 and cluster 1: the labels are 1 and 2. -/
theorem KMeans_example :
    markEnv.kmeans peakExample.spectra_.t 2 = [0, 1]
      ∧ (peakExample.KMeans markEnv 2 "clusters").map
          (fun d => d.maps_.map (fun m => (m.name, m.results, m.crisp_clusters)))
        = some [("clusters", liftVec [1, 2], true)]
      ∧ (peakExample.KMeans markEnv 2 "clusters").map (fun d => d.k_means_data_)
        = some (liftMat 1 [[1], [2]]) := by
  refine ⟨?_, ?_, ?_⟩ <;> with_unfolding_all decide

end ClusterProps

section RecomputeExamples

/-- Evaluation of the policy for `VertexComponents`. The first call computes
with 2 endmembers (every abundance of the stand-in is 2). A second call
without `recalculate` asks for 3 endmembers and still maps the cached
abundances of the run with 2; with `recalculate` it maps those of a run
with 3. -/
theorem recompute_example :
    (peakExample.VertexComponents markEnv 2 1 "first" false).map
        (fun d => (d.vertex_components_calculated_, d.maps_.map (fun m => m.results)))
      = some (true, [liftVec [2, 2]])
    ∧ ((peakExample.VertexComponents markEnv 2 1 "first" false).bind
        (fun d => d.VertexComponents markEnv 3 1 "second" false)).map
          (fun d => d.maps_.map (fun m => m.results))
      = some [liftVec [2, 2], liftVec [2, 2]]
    ∧ ((peakExample.VertexComponents markEnv 2 1 "first" false).bind
        (fun d => d.VertexComponents markEnv 3 1 "second" true)).map
          (fun d => d.maps_.map (fun m => m.results))
      = some [liftVec [2, 2], liftVec [3, 3]] := by
  refine ⟨?_, ?_, ?_⟩ <;> with_unfolding_all decide

end RecomputeExamples

section ClampProps

variable {K : Type}

/-- Every column of a rectangular matrix can be read and has one entry for
each row. -/
theorem col_of_wf (m : Mat K) (hwf : m.wf) (j : Nat) (hj : j < m.n_cols) :
    ∃ c, m.col j = some c ∧ c.length = m.n_rows := by
  have hall : ∀ r ∈ m.rows, (fun r : Vec K => r[j]?) r = some (r.getD j Dbl.nonfin) := by
    intro r hr
    have hlen : j < r.length := by rw [hwf r hr]; exact hj
    simp [List.getD_eq_getElem?_getD, List.getElem?_eq_getElem hlen]
  refine ⟨m.rows.map (fun r => r.getD j Dbl.nonfin), ?_, by rw [List.length_map]; rfl⟩
  simp only [Mat.col, hj, if_true]
  exact mapM_some_of_forall _ _ _ hall

/-- C23. On a spatial dataset, let `data` be the regression object the call
uses (a fresh run when `recalculate || !calculated`, the cached one
otherwise), with a rectangular score matrix of at least one column. When the
requested component, counted from 0 after the decrement, is not below the
number of computed components, `Results` hands out the last computed score
column with `valid = false`, and `PartialLeastSquares` still returns and
appends exactly one map, with the caller's name and that column as
results. -/
theorem PartialLeastSquares_clamp (env : Env K) (d : VespucciDataset K)
    (components image_component : Nat) (name : String) (recalculate : Bool) (data : PLSData K)
    (hsp : d.non_spatial_ = false)
    (hdata : (if recalculate || !d.partial_least_squares_calculated_
        then some (env.plsregress d.spectra_ d.wavelength_ components).2
        else d.partial_least_squares_data_) = some data)
    (hwf : data.X_scores.wf) (h1 : 1 ≤ data.NumberComponents)
    (hover : data.NumberComponents ≤ usub image_component 1) :
    ∃ (col : Vec K) (d1 : VespucciDataset K) (m : MapData K),
      data.X_scores.col (data.NumberComponents - 1) = some col
        ∧ data.Results (usub image_component 1) = some (col, false)
        ∧ d.PartialLeastSquares env components image_component name recalculate = some d1
        ∧ d1.maps_ = d.maps_ ++ [m]
        ∧ d1.map_names_ = d.map_names_ ++ [name]
        ∧ d1.map_loading_count_ = d.map_loading_count_ + 1
        ∧ m.name = name ∧ m.results = col
        ∧ d1.partial_least_squares_data_ = some data := by
  obtain ⟨col, hcol, _⟩ := col_of_wf data.X_scores hwf (data.NumberComponents - 1)
    (by unfold PLSData.NumberComponents at h1 ⊢; omega)
  have hres : data.Results (usub image_component 1) = some (col, false) := by
    unfold PLSData.Results
    rw [if_pos hover, hcol]
    rfl
  unfold VespucciDataset.PartialLeastSquares
  rw [spatial_if d hsp]
  cases hrun : (recalculate || !d.partial_least_squares_calculated_)
  · rw [hrun, if_neg (by decide)] at hdata
    simp only [Bool.false_eq_true, if_false, hdata, hres]
    exact ⟨col, _, _, hcol, rfl, rfl, rfl, rfl, rfl, rfl, rfl, hdata⟩
  · rw [hrun, if_pos rfl] at hdata
    have hd2 := Option.some.inj hdata
    simp only [if_true, hd2, hres]
    exact ⟨col, _, _, hcol, rfl, rfl, rfl, rfl, rfl, rfl, rfl, rfl⟩

end ClampProps

section ClampExamples

theorem PartialLeastSquares_clamp_witness :
    peakExample.non_spatial_ = false
      ∧ (if true || !peakExample.partial_least_squares_calculated_
          then some (markEnv.plsregress peakExample.spectra_ peakExample.wavelength_ 2).2
          else peakExample.partial_least_squares_data_)
        = some (markEnv.plsregress peakExample.spectra_ peakExample.wavelength_ 2).2
      ∧ (markEnv.plsregress peakExample.spectra_ peakExample.wavelength_ 2).2.X_scores.wf
      ∧ 1 ≤ (markEnv.plsregress peakExample.spectra_ peakExample.wavelength_ 2).2.NumberComponents
      ∧ (markEnv.plsregress peakExample.spectra_ peakExample.wavelength_ 2).2.NumberComponents
          ≤ usub 5 1
      ∧ ∃ (col : Vec ℚ) (d1 : VespucciDataset ℚ) (m : MapData ℚ),
        (markEnv.plsregress peakExample.spectra_ peakExample.wavelength_ 2).2.X_scores.col
            ((markEnv.plsregress peakExample.spectra_ peakExample.wavelength_ 2).2.NumberComponents
              - 1) = some col
          ∧ (markEnv.plsregress peakExample.spectra_ peakExample.wavelength_ 2).2.Results
              (usub 5 1) = some (col, false)
          ∧ peakExample.PartialLeastSquares markEnv 2 5 "scores" true = some d1
          ∧ d1.maps_ = peakExample.maps_ ++ [m]
          ∧ d1.map_names_ = peakExample.map_names_ ++ ["scores"]
          ∧ d1.map_loading_count_ = peakExample.map_loading_count_ + 1
          ∧ m.name = "scores" ∧ m.results = col
          ∧ d1.partial_least_squares_data_
            = some (markEnv.plsregress peakExample.spectra_ peakExample.wavelength_ 2).2 :=
  ⟨rfl, rfl, by with_unfolding_all decide, by with_unfolding_all decide,
    by with_unfolding_all decide,
    PartialLeastSquares_clamp markEnv peakExample 2 5 "scores" true _ rfl rfl
      (by with_unfolding_all decide) (by with_unfolding_all decide)
      (by with_unfolding_all decide)⟩

/-- Evaluation of the clamp: the regression has 2 components with the score
columns 20 and 21; component 5 is beyond them and the map carries the last
column, component 2 is within and the map carries that same column. -/
theorem PartialLeastSquares_clamp_example :
    (markEnv.plsregress peakExample.spectra_ peakExample.wavelength_ 2).2.Results 4
        = some (liftVec [21, 21], false)
      ∧ (markEnv.plsregress peakExample.spectra_ peakExample.wavelength_ 2).2.Results 1
        = some (liftVec [21, 21], true)
      ∧ (markEnv.plsregress peakExample.spectra_ peakExample.wavelength_ 2).2.Results 0
        = some (liftVec [20, 20], true)
      ∧ (peakExample.PartialLeastSquares markEnv 2 5 "scores" true).map
          (fun d => d.maps_.map (fun m => (m.name, m.results)))
        = some [("scores", liftVec [21, 21])] := by
  refine ⟨?_, ?_, ?_, ?_⟩ <;> with_unfolding_all decide

end ClampExamples

section RegistryProps

variable {K : Type} [LinearOrderedField K]

/-- The counter after a mapping function that returned: as before, or one
more. -/
theorem Univariate_count (env : Env K) (d d1 : VespucciDataset K) (min max : Nat)
    (name value_method integration_method : String)
    (h : d.Univariate env min max name value_method integration_method = some d1) :
    d.map_loading_count_ ≤ d1.map_loading_count_ := by
  cases hsp : d.non_spatial_
  · obtain ⟨m, hm, _⟩ := Univariate_appends_map env d d1 min max name value_method
      integration_method hsp h
    rw [hm]
    show d.map_loading_count_ ≤ d.map_loading_count_ + 1
    omega
  · unfold VespucciDataset.Univariate at h
    rw [hsp, if_pos rfl] at h
    rw [← Option.some.inj h]

theorem BandRatio_count (env : Env K) (d d1 : VespucciDataset K)
    (first_min first_max second_min second_max : Nat)
    (name value_method integration_method : String)
    (h : d.BandRatio env first_min first_max second_min second_max name value_method
      integration_method = some d1) :
    d.map_loading_count_ ≤ d1.map_loading_count_ := by
  unfold VespucciDataset.BandRatio at h
  simp only at h
  repeat' split at h
  all_goals first
    | (cases h; exact le_refl _)
    | (cases h; show d.map_loading_count_ ≤ d.map_loading_count_ + 1; omega)
    | cases h

omit [LinearOrderedField K] in
theorem PrincipalComponents_count (env : Env K) (d d1 : VespucciDataset K) (component : Int)
    (name : String) (recalculate ok : Bool)
    (h : d.PrincipalComponents env component name recalculate ok = some d1) :
    d.map_loading_count_ ≤ d1.map_loading_count_ := by
  unfold VespucciDataset.PrincipalComponents at h
  simp only at h
  repeat' split at h
  all_goals first
    | (cases h; exact le_refl _)
    | (cases h; show d.map_loading_count_ ≤ d.map_loading_count_ + 1; omega)
    | cases h

omit [LinearOrderedField K] in
theorem VertexComponents_count (env : Env K) (d d1 : VespucciDataset K)
    (endmembers image_component : Nat) (name : String) (recalculate : Bool)
    (h : d.VertexComponents env endmembers image_component name recalculate = some d1) :
    d.map_loading_count_ ≤ d1.map_loading_count_ := by
  unfold VespucciDataset.VertexComponents at h
  simp only at h
  repeat' split at h
  all_goals first
    | (cases h; exact le_refl _)
    | (cases h; show d.map_loading_count_ ≤ d.map_loading_count_ + 1; omega)
    | cases h

omit [LinearOrderedField K] in
theorem PartialLeastSquares_count (env : Env K) (d d1 : VespucciDataset K)
    (components image_component : Nat) (name : String) (recalculate : Bool)
    (h : d.PartialLeastSquares env components image_component name recalculate = some d1) :
    d.map_loading_count_ ≤ d1.map_loading_count_ := by
  unfold VespucciDataset.PartialLeastSquares at h
  simp only at h
  repeat' split at h
  all_goals first
    | (cases h; exact le_refl _)
    | (cases h; show d.map_loading_count_ ≤ d.map_loading_count_ + 1; omega)
    | cases h

theorem KMeans_count (env : Env K) (d d1 : VespucciDataset K) (clusters : Nat) (name : String)
    (h : d.KMeans env clusters name = some d1) :
    d.map_loading_count_ ≤ d1.map_loading_count_ := by
  unfold VespucciDataset.KMeans at h
  simp only at h
  repeat' split at h
  all_goals first
    | (cases h; exact le_refl _)
    | (cases h; show d.map_loading_count_ ≤ d.map_loading_count_ + 1; omega)

/-- Each of the six transforms, whenever it returns, has changed nothing but
the spectra, the snapshot, the label and the z-score flag. -/
theorem transform_frame (env : Env K) (T : Transform K) (d d1 : VespucciDataset K)
    (h : T.apply env d = some d1) : d1.frame = d.frame := by
  cases T with
  | MinMaxNormalize =>
    simp only [Transform.apply, VespucciDataset.MinMaxNormalize] at h
    split at h
    · simp at h
    · split at h
      · simp at h
      · simp only [Option.some.injEq] at h
        rw [← h]
        rfl
  | UnitAreaNormalize =>
    simp only [Transform.apply, VespucciDataset.UnitAreaNormalize, Option.some.injEq] at h
    rw [← h]
    rfl
  | ZScoreNormalize =>
    simp only [Transform.apply, VespucciDataset.ZScoreNormalize] at h
    split at h
    · simp at h
    · simp only [Option.some.injEq] at h
      rw [← h]
      rfl
  | SubtractBackground background =>
    simp only [Transform.apply, VespucciDataset.SubtractBackground] at h
    split at h
    · simp only [Option.some.injEq] at h
      rw [← h]
      rfl
    · split at h
      · simp at h
      · simp only [Option.some.injEq] at h
        rw [← h]
        rfl
  | Baseline method window_size =>
    simp only [Transform.apply, VespucciDataset.Baseline] at h
    split at h
    · split at h
      · simp at h
      · split at h
        · simp at h
        · simp only [Option.some.injEq] at h
          rw [← h]
          rfl
    · simp only [Option.some.injEq] at h
      rw [← h]
      rfl
  | MedianFilter window_size =>
    simp only [Transform.apply, VespucciDataset.MedianFilter] at h
    split at h
    · simp at h
    · simp only [Option.some.injEq] at h
      rw [← h]
      rfl

omit [LinearOrderedField K] in
theorem frame_count (d d1 : VespucciDataset K) (h : d1.frame = d.frame) :
    d1.map_loading_count_ = d.map_loading_count_ :=
  congrArg (fun x => x.map_loading_count_) h

theorem CropSpectra_count (d d1 : VespucciDataset K) (x_min x_max y_min y_max : K)
    (h : d.CropSpectra x_min x_max y_min y_max = some d1) :
    d1.map_loading_count_ = d.map_loading_count_ := by
  unfold VespucciDataset.CropSpectra at h
  split at h
  · cases h
    rfl
  · cases h

omit [LinearOrderedField K] in
theorem libraryTransform_count (d d1 : VespucciDataset K) (computed : Option (Mat K))
    (label : String) (h : d.libraryTransform computed label = some d1) :
    d1.map_loading_count_ = d.map_loading_count_ := by
  cases computed with
  | none => cases h
  | some s =>
    cases h
    rfl

omit [LinearOrderedField K] in
theorem removeMapLoop_count (name : String) :
    ∀ (fuel i : Nat) (d : VespucciDataset K),
      (removeMapLoop name fuel i d).map_loading_count_ = d.map_loading_count_
        ∧ (removeMapLoop name fuel i d).map_names_ = d.map_names_ := by
  intro fuel
  induction fuel with
  | zero => intro i d; exact ⟨rfl, rfl⟩
  | succ fuel ih =>
    intro i d
    unfold removeMapLoop
    by_cases hi : i < d.map_names_.length
    · rw [if_pos hi]
      by_cases hn : d.map_names_.getD i "" = name
      · rw [if_pos hn]
        exact ih (i + 1) (d.RemoveMapAt i)
      · rw [if_neg hn]
        exact ih (i + 1) d
    · rw [if_neg hi]
      exact ⟨rfl, rfl⟩

/-- No call lowers the creation counter. -/
theorem call_count (env : Env K) (c : Call K) (d d1 : VespucciDataset K)
    (h : c.apply env d = some d1) : d.map_loading_count_ ≤ d1.map_loading_count_ := by
  cases c with
  | op o =>
    cases o with
    | crop x_min x_max y_min y_max =>
      exact le_of_eq (CropSpectra_count d d1 x_min x_max y_min y_max h).symm
    | transform T => exact le_of_eq (frame_count d d1 (transform_frame env T d d1 h)).symm
    | undo =>
      simp only [Call.apply, Op.apply, Option.some.injEq] at h
      rw [← h]
      exact le_refl _
  | linearMovingAverage filtered => exact le_of_eq (libraryTransform_count d d1 _ _ h).symm
  | singularValue reconstructed => exact le_of_eq (libraryTransform_count d d1 _ _ h).symm
  | derivatize filtered => exact le_of_eq (libraryTransform_count d d1 _ _ h).symm
  | univariate min max name value_method integration_method =>
    exact Univariate_count env d d1 min max name value_method integration_method h
  | bandRatio first_min first_max second_min second_max name value_method integration_method =>
    exact BandRatio_count env d d1 first_min first_max second_min second_max name value_method
      integration_method h
  | principalComponents component name recalculate ok =>
    exact PrincipalComponents_count env d d1 component name recalculate ok h
  | vertexComponents endmembers image_component name recalculate =>
    exact VertexComponents_count env d d1 endmembers image_component name recalculate h
  | partialLeastSquares components image_component name recalculate =>
    exact PartialLeastSquares_count env d d1 components image_component name recalculate h
  | kMeans clusters name => exact KMeans_count env d d1 clusters name h
  | setData spectra wavelength x y =>
    simp only [Call.apply, Option.some.injEq] at h
    rw [← h]
    exact le_refl _
  | addMap m =>
    simp only [Call.apply, Option.some.injEq] at h
    rw [← h]
    show d.map_loading_count_ ≤ d.map_loading_count_ + 1
    omega
  | removeMapAt i =>
    simp only [Call.apply, Option.some.injEq] at h
    rw [← h]
    exact le_refl _
  | removeMap name =>
    simp only [Call.apply, Option.some.injEq] at h
    rw [← h]
    exact le_of_eq (removeMapLoop_count name _ _ d).1.symm

theorem runCalls_count (env : Env K) :
    ∀ (calls : List (Call K)) (d d1 : VespucciDataset K), runCalls env calls d = some d1 →
      d.map_loading_count_ ≤ d1.map_loading_count_ := by
  intro calls
  induction calls with
  | nil =>
    intro d d1 h
    simp only [runCalls, Option.some.injEq] at h
    rw [h]
  | cons c cs ih =>
    intro d d1 h
    simp only [runCalls] at h
    cases hc : c.apply env d with
    | none => rw [hc] at h; cases h
    | some d2 =>
      rw [hc, Option.some_bind] at h
      exact le_trans (call_count env c d d2 hc) (ih d2 d1 h)

omit [LinearOrderedField K] in
theorem foldl_AddMap (ms : List (MapData K)) :
    ∀ d : VespucciDataset K,
      (ms.foldl VespucciDataset.AddMap d).maps_ = d.maps_ ++ ms
        ∧ (ms.foldl VespucciDataset.AddMap d).map_names_ = d.map_names_ ++ ms.map (fun m => m.name)
        ∧ (ms.foldl VespucciDataset.AddMap d).map_loading_count_
            = d.map_loading_count_ + (ms.length : Int) := by
  induction ms with
  | nil => intro d; simp
  | cons m ms ih =>
    intro d
    obtain ⟨h1, h2, h3⟩ := ih (d.AddMap m)
    rw [List.foldl_cons, h1, h2, h3]
    refine ⟨?_, ?_, ?_⟩
    · show d.maps_ ++ [m] ++ ms = _
      simp
    · show d.map_names_ ++ [m.name] ++ _ = _
      simp
    · show d.map_loading_count_ + 1 + _ = _
      simp only [List.length_cons]
      push_cast
      ring

/-- C24. `AddMap` appends the map to the map list and its name to the name
list and raises the creation counter by 1. So after the maps `ms` are added
in turn to an empty registry the name list holds their names in that order,
duplicates kept, the map list is `ms`, and the counter is their number. No
sequence of calls lowers the counter. -/
theorem AddMap_registry (env : Env K) :
    (∀ (d : VespucciDataset K) (m : MapData K),
        (d.AddMap m).maps_ = d.maps_ ++ [m]
          ∧ (d.AddMap m).map_names_ = d.map_names_ ++ [m.name]
          ∧ (d.AddMap m).map_loading_count_ = d.map_loading_count_ + 1)
      ∧ (∀ (ms : List (MapData K)) (d : VespucciDataset K),
          d.maps_ = [] → d.map_names_ = [] → d.map_loading_count_ = 0 →
            (ms.foldl VespucciDataset.AddMap d).map_names_ = ms.map (fun m => m.name)
              ∧ (ms.foldl VespucciDataset.AddMap d).maps_ = ms
              ∧ (ms.foldl VespucciDataset.AddMap d).maps_.length = ms.length
              ∧ (ms.foldl VespucciDataset.AddMap d).map_loading_count_ = (ms.length : Int))
      ∧ (∀ (calls : List (Call K)) (d d1 : VespucciDataset K),
          runCalls env calls d = some d1 → d.map_loading_count_ ≤ d1.map_loading_count_) := by
  refine ⟨fun d m => ⟨rfl, rfl, rfl⟩, ?_, runCalls_count env⟩
  intro ms d h1 h2 h3
  obtain ⟨g1, g2, g3⟩ := foldl_AddMap ms d
  rw [g1, g2, g3, h1, h2, h3]
  simp

end RegistryProps

section RegistryExamples

theorem AddMap_registry_witness :
    peakExample.maps_ = [] ∧ peakExample.map_names_ = [] ∧ peakExample.map_loading_count_ = 0
      ∧ (([mapA1, mapA2, mapB].foldl VespucciDataset.AddMap peakExample).map_names_
            = [mapA1, mapA2, mapB].map (fun m => m.name)
          ∧ ([mapA1, mapA2, mapB].foldl VespucciDataset.AddMap peakExample).maps_
            = [mapA1, mapA2, mapB]
          ∧ ([mapA1, mapA2, mapB].foldl VespucciDataset.AddMap peakExample).maps_.length
            = [mapA1, mapA2, mapB].length
          ∧ ([mapA1, mapA2, mapB].foldl VespucciDataset.AddMap peakExample).map_loading_count_
            = ([mapA1, mapA2, mapB].length : Int))
      ∧ ∀ d1 : VespucciDataset ℚ,
          runCalls evalEnv [.addMap mapA1, .removeMapAt 0, .op .undo] peakExample = some d1 →
            peakExample.map_loading_count_ ≤ d1.map_loading_count_ :=
  ⟨rfl, rfl, rfl, (AddMap_registry evalEnv).2.1 [mapA1, mapA2, mapB] peakExample rfl rfl rfl,
    (AddMap_registry evalEnv).2.2 [.addMap mapA1, .removeMapAt 0, .op .undo] peakExample⟩

/-- Evaluation of the registry: three maps added in turn, two of them with
the same name; removing a map afterwards leaves the counter at 3. -/
theorem AddMap_example :
    duplicateExample.map_names_ = ["a", "a", "b"]
      ∧ duplicateExample.maps_ = [mapA1, mapA2, mapB]
      ∧ duplicateExample.map_loading_count_ = 3
      ∧ (duplicateExample.RemoveMapAt 1).map_loading_count_ = 3 := by
  refine ⟨?_, ?_, ?_, ?_⟩ <;> with_unfolding_all decide

end RegistryExamples

section RemoveProps

variable {K : Type}

/-- What `RemoveMapAt` writes: the map list loses position `i`, the name
list and the counter stay. -/
theorem RemoveMapAt_fields (d : VespucciDataset K) (i : Nat) :
    (d.RemoveMapAt i).maps_ = d.maps_.eraseIdx i
      ∧ (d.RemoveMapAt i).map_names_ = d.map_names_
      ∧ (d.RemoveMapAt i).map_loading_count_ = d.map_loading_count_ :=
  ⟨rfl, rfl, rfl⟩

/-- After `RemoveMapAt` at a valid index of an aligned registry the name
list is one longer than the map list. -/
theorem RemoveMapAt_misaligned (d : VespucciDataset K) (i : Nat)
    (halign : d.map_names_ = d.maps_.map (fun m => m.name)) (hi : i < d.maps_.length) :
    (d.RemoveMapAt i).map_names_.length = (d.RemoveMapAt i).maps_.length + 1 := by
  show d.map_names_.length = (d.maps_.eraseIdx i).length + 1
  rw [halign, List.length_map, List.length_eraseIdx, if_pos hi]
  omega

/-- The loop of `RemoveMap` changes nothing from an index on from which the
name does not occur. -/
theorem removeMapLoop_skip (name : String) :
    ∀ (fuel i : Nat) (d : VespucciDataset K),
      (∀ j, i ≤ j → j < d.map_names_.length → d.map_names_.getD j "" ≠ name) →
        removeMapLoop name fuel i d = d := by
  intro fuel
  induction fuel with
  | zero => intro i d _; rfl
  | succ fuel ih =>
    intro i d hno
    unfold removeMapLoop
    by_cases hi : i < d.map_names_.length
    · rw [if_pos hi, if_neg (hno i (le_refl _) hi)]
      exact ih (i + 1) d (fun j hj hlt => hno j (by omega) hlt)
    · rw [if_neg hi]

/-- When the name occurs once in the name list, at `k`, the loop of
`RemoveMap` does one `RemoveMapAt(k)`. -/
theorem removeMapLoop_once (name : String) (k : Nat) :
    ∀ (fuel i : Nat) (d : VespucciDataset K), i ≤ k → k < i + fuel →
      k < d.map_names_.length → d.map_names_.getD k "" = name →
      (∀ j, j < d.map_names_.length → j ≠ k → d.map_names_.getD j "" ≠ name) →
        removeMapLoop name fuel i d = d.RemoveMapAt k := by
  intro fuel
  induction fuel with
  | zero => intro i d h1 h2; omega
  | succ fuel ih =>
    intro i d h1 h2 hk hat huniq
    unfold removeMapLoop
    have hi : i < d.map_names_.length := by omega
    rw [if_pos hi]
    by_cases hik : i = k
    · rw [hik, if_pos hat]
      exact removeMapLoop_skip name fuel (k + 1) (d.RemoveMapAt k)
        (fun j hj hlt => huniq j hlt (by omega))
    · rw [if_neg (huniq i hi hik)]
      exact ih (i + 1) d (by omega) (by omega) hk hat huniq

/-- Part of C26 that holds: when the name occurs exactly once in the name
list, at position `k`, `RemoveMap` removes the map at position `k` and keeps
the others in their order; when it does not occur, nothing is removed. -/
theorem RemoveMap_once (d : VespucciDataset K) (name : String) :
    (∀ k, k < d.map_names_.length → d.map_names_.getD k "" = name →
        (∀ j, j < d.map_names_.length → j ≠ k → d.map_names_.getD j "" ≠ name) →
          (d.RemoveMap name).maps_ = d.maps_.eraseIdx k)
      ∧ ((∀ j, j < d.map_names_.length → d.map_names_.getD j "" ≠ name) →
          d.RemoveMap name = d) := by
  constructor
  · intro k hk hat huniq
    unfold VespucciDataset.RemoveMap
    rw [removeMapLoop_once name k d.map_names_.length 0 d (Nat.zero_le _) (by omega) hk hat huniq]
    rfl
  · intro hno
    exact removeMapLoop_skip name _ 0 d (fun j _ hlt => hno j hlt)

end RemoveProps

section RemoveExamples

/-- C25 (defect of the code). `RemoveMapAt` removes the map from `maps_`
and leaves `map_names_` as it is. On the registry that `AddMap` builds from
the maps "a" and "b", `RemoveMapAt(0)` leaves the map list `[b]` and the name
list `["a", "b"]`: the name of the removed map is still listed and the two
lists are no longer aligned. -/
theorem RemoveMapAt_names_example :
    registryExample.maps_ = [mapA1, mapB]
      ∧ registryExample.map_names_ = registryExample.maps_.map (fun m => m.name)
      ∧ (registryExample.RemoveMapAt 0).maps_ = [mapB]
      ∧ (registryExample.RemoveMapAt 0).map_names_ = ["a", "b"]
      ∧ registryExample.map_names_.eraseIdx 0 = ["b"]
      ∧ (registryExample.RemoveMapAt 0).map_names_
          ≠ (registryExample.RemoveMapAt 0).maps_.map (fun m => m.name) := by
  refine ⟨?_, ?_, ?_, ?_, ?_, ?_⟩ <;> with_unfolding_all decide

/-- C26 (defect of the code). `RemoveMap` walks the name list, which
`RemoveMapAt` never shortens, and removes from the map list at the index of
each name that matches, although the map list has moved up after the first
removal. On the registry that `AddMap` builds from the maps "a", "a" and "b",
`RemoveMap("a")` removes the first map "a" and then the map "b": the second
map "a" is what stays, where the maps with another name would be `[b]`. -/
theorem RemoveMap_example :
    duplicateExample.maps_ = [mapA1, mapA2, mapB]
      ∧ duplicateExample.map_names_ = ["a", "a", "b"]
      ∧ (duplicateExample.RemoveMap "a").maps_ = [mapA2]
      ∧ (duplicateExample.RemoveMap "a").map_names_ = ["a", "a", "b"]
      ∧ duplicateExample.maps_.filter (fun m => m.name ≠ "a") = [mapB]
      ∧ (duplicateExample.RemoveMapAt 0).RemoveMapAt 1 = duplicateExample.RemoveMap "a" := by
  refine ⟨?_, ?_, ?_, ?_, ?_, ?_⟩ <;> with_unfolding_all decide

end RemoveExamples

section AccessorProps

variable {K : Type}

/-- Part of C27 that holds: `x(index)` and `y(index)` hand out the entry at
`index` when there is one and the last entry otherwise. -/
theorem x_y_clamp (d : VespucciDataset K) (index : Nat) :
    (1 ≤ d.x_.length → d.x_.length < UWORD →
        d.x index = if index < d.x_.length then d.x_[index]? else d.x_[d.x_.length - 1]?)
      ∧ (1 ≤ d.y_.length → d.y_.length < UWORD →
        d.y index = if index < d.y_.length then d.y_[index]? else d.y_[d.y_.length - 1]?) := by
  constructor
  · intro h1 hU
    unfold VespucciDataset.x
    by_cases hi : index < d.x_.length
    · rw [if_neg (by omega), if_pos hi]
      rfl
    · rw [if_pos (by omega), if_neg hi, usub_of_le _ 1 h1 hU]
      rfl
  · intro h1 hU
    unfold VespucciDataset.y
    by_cases hi : index < d.y_.length
    · rw [if_neg (by omega), if_pos hi]
      rfl
    · rw [if_pos (by omega), if_neg hi, usub_of_le _ 1 h1 hU]
      rfl

/-- Part of C27 that holds: `PointSpectrum(index)` hands out the row at
`index` below the row count and the last row above it; at the row count
itself it reads the row after the last. -/
theorem PointSpectrum_cases (d : VespucciDataset K) (index : Nat)
    (h1 : 1 ≤ d.spectra_.n_rows) (hU : d.spectra_.n_rows < UWORD) :
    (index < d.spectra_.n_rows → d.PointSpectrum index = d.spectra_.rows[index]?)
      ∧ (d.spectra_.n_rows < index →
          d.PointSpectrum index = d.spectra_.rows[d.spectra_.n_rows - 1]?)
      ∧ (index = d.spectra_.n_rows → d.PointSpectrum index = none) := by
  unfold VespucciDataset.PointSpectrum
  refine ⟨?_, ?_, ?_⟩
  · intro hi
    rw [if_neg (by omega)]
    rfl
  · intro hi
    rw [if_pos hi, usub_of_le _ 1 h1 hU]
    rfl
  · intro hi
    rw [if_neg (by omega), hi]
    exact List.getElem?_eq_none (le_refl _)

end AccessorProps

section AccessorExamples

/-- C27 (defect of the code). `PointSpectrum` tests `index > n_rows` where
`x(index)` and `y(index)` test `index >= n_rows`: at `index = n_rows` it
reads the row after the last one. On a dataset with 2 rows,
`PointSpectrum(2)` is an access outside the matrix, while `PointSpectrum(3)`,
`x(2)` and `y(2)` hand out the last row and the last entries. -/
theorem PointSpectrum_example :
    peakExample.spectra_.n_rows = 2
      ∧ peakExample.PointSpectrum 2 = none
      ∧ peakExample.PointSpectrum 1 = some (liftVec [0, 1, 4, 10, 4, 1, 0])
      ∧ peakExample.PointSpectrum 3 = some (liftVec [0, 1, 4, 10, 4, 1, 0])
      ∧ peakExample.x 1 = some 1 ∧ peakExample.x 2 = some 1 ∧ peakExample.x 3 = some 1
      ∧ peakExample.y 2 = some 0 := by
  refine ⟨?_, ?_, ?_, ?_, ?_, ?_, ?_, ?_⟩ <;> with_unfolding_all decide

end AccessorExamples

section RangeProps

variable {K : Type} [LinearOrderedField K]

/-- A search whose test fails on every index it visits finds nothing. -/
theorem findUp_none (test : Nat → Option Bool) :
    ∀ (n j : Nat), (∀ k, j ≤ k → k < j + n → test k = some false) →
      findUp test n j = some none := by
  intro n
  induction n with
  | zero => intro j _; rfl
  | succ n ih =>
    intro j h
    unfold findUp
    rw [h j (le_refl _) (by omega)]
    exact ih (j + 1) (fun k hk hlt => h k (by omega) (by omega))

/-- A search stops at the first index on which its test holds. -/
theorem findUp_hit (test : Nat → Option Bool) (k : Nat) :
    ∀ (n j : Nat), j ≤ k → k < j + n → (∀ m, j ≤ m → m < k → test m = some false) →
      test k = some true → findUp test n j = some (some k) := by
  intro n
  induction n with
  | zero => intro j h1 h2; omega
  | succ n ih =>
    intro j h1 h2 hbefore hk
    unfold findUp
    by_cases hjk : j = k
    · rw [hjk, hk]
    · rw [hbefore j (le_refl _) (by omega)]
      exact ih (j + 1) (by omega) (by omega) (fun m hm hlt => hbefore m (by omega) hlt) hk

theorem atLeast_of_lt (wavelength : List K) (bound w : K) (j : Nat)
    (hj : wavelength[j]? = some w) (hlt : w < bound) :
    atLeast wavelength bound j = some false := by
  unfold atLeast vget
  rw [hj, Option.map_some']
  simp [not_le.mpr hlt]

theorem atLeast_of_ge (wavelength : List K) (bound w : K) (j : Nat)
    (hj : wavelength[j]? = some w) (hge : bound ≤ w) :
    atLeast wavelength bound j = some true := by
  unfold atLeast vget
  rw [hj, Option.map_some']
  simp [hge]

/-- What `FindRange` does when no wavelength from the lower index on reaches
`end`. Let `i` be the first index whose wavelength is at least `start`, and
not the last index, so that a lower index is looked for. Then the second
search runs off the end, its counter is `length`, the test
`i == length - 1` does not catch it, and `wavelength_(length)` is read: the
call ends in an access outside the vector. -/
theorem FindRange_upper_not_found (d : VespucciDataset K) (indices : Nat × Nat) (start end_ : K)
    (i : Nat) (hU : d.wavelength_.length < UWORD) (hlast : i + 1 < d.wavelength_.length)
    (hbefore : ∀ j w, j < i → d.wavelength_[j]? = some w → w < start)
    (hat : ∀ w, d.wavelength_[i]? = some w → start ≤ w)
    (hno : ∀ j w, i ≤ j → d.wavelength_[j]? = some w → w < end_) :
    d.FindRange indices start end_ = none := by
  have hi : i < d.wavelength_.length := by omega
  have hsearch1 : findUp (atLeast d.wavelength_ start) d.wavelength_.length 0 = some (some i) := by
    apply findUp_hit _ i _ 0 (Nat.zero_le _) (by omega)
    · intro m _ hm
      have hm1 : m < d.wavelength_.length := by omega
      exact atLeast_of_lt _ _ _ m (List.getElem?_eq_getElem hm1)
        (hbefore m _ hm (List.getElem?_eq_getElem hm1))
    · exact atLeast_of_ge _ _ _ i (List.getElem?_eq_getElem hi)
        (hat _ (List.getElem?_eq_getElem hi))
  have hsearch2 : findUp (atLeast d.wavelength_ end_) (d.wavelength_.length - i) i = some none := by
    apply findUp_none
    intro k hk hlt
    have hk1 : k < d.wavelength_.length := by omega
    exact atLeast_of_lt _ _ _ k (List.getElem?_eq_getElem hk1)
      (hno k _ hk (List.getElem?_eq_getElem hk1))
  have husub : usub d.wavelength_.length 1 = d.wavelength_.length - 1 :=
    usub_of_le _ 1 (by omega) hU
  have hne1 : ¬ (i = usub d.wavelength_.length 1) := by rw [husub]; omega
  have hne2 : ¬ (d.wavelength_.length = usub d.wavelength_.length 1) := by rw [husub]; omega
  have hread : closerIndex d.wavelength_ start d.wavelength_.length = none := by
    unfold closerIndex vget
    rw [List.getElem?_eq_none (le_refl _)]
  unfold VespucciDataset.FindRange
  simp only [hsearch1, Option.getD_some, hne1, if_false, hsearch2, Option.getD_none, hne2, hread]
  cases closerIndex d.wavelength_ start i <;> rfl

end RangeProps

section RangeExamples

/-- C28 (defect of the code). When the second search of `FindRange` finds no
wavelength at or above `end`, its counter is `length`, and the test that is
to catch this compares it with `length - 1`. On the wavelengths 10, 20, 30
with `start = 15` and `end = 40` the lower index 1 is found, the search for
the upper one runs off the end, and `wavelength_(3)` is read, outside the
vector: no region is returned. With `end = 30` the upper bound exists, at the
last index 2, and that is what the test takes for a search without a hit: the
region collapses to `(1, 1)`. -/
theorem FindRange_upper_example :
    rangeExample.wavelength_ = [10, 20, 30]
      ∧ findUp (atLeast rangeExample.wavelength_ 15) 3 0 = some (some 1)
      ∧ closerIndex rangeExample.wavelength_ 15 1 = some 1
      ∧ findUp (atLeast rangeExample.wavelength_ 40) 2 1 = some none
      ∧ closerIndex rangeExample.wavelength_ 15 3 = none
      ∧ rangeExample.FindRange (7, 7) 15 40 = none
      ∧ findUp (atLeast rangeExample.wavelength_ 30) 2 1 = some (some 2)
      ∧ rangeExample.FindRange (7, 7) 15 30 = some (1, 1)
      ∧ rangeExample.FindRange (7, 7) 15 25 = some (1, 1) := by
  refine ⟨?_, ?_, ?_, ?_, ?_, ?_, ?_, ?_, ?_⟩ <;> with_unfolding_all decide

end RangeExamples

section ExtractProps

variable {K : Type} [LinearOrderedField K]

omit [LinearOrderedField K] in
theorem mapM_getElem_valid {α : Type} (l : List α) (dflt : α) (indices : List Nat)
    (hvalid : ∀ i ∈ indices, i < l.length) :
    indices.mapM (fun i => l[i]?) = some (indices.map (fun i => l.getD i dflt)) := by
  apply mapM_some_of_forall
  intro i hi
  have hlt := hvalid i hi
  simp [List.getD_eq_getElem?_getD, List.getElem?_eq_getElem hlt]

/-- C29. For a source dataset of consistent shape and row indices that are
all below its row count, the extraction constructor returns a dataset marked
non-spatial, with the wavelength axis of the source, with one row for each
index, whose row `r`, `x[r]` and `y[r]` are row `idx[r]`, `x[idx[r]]` and
`y[idx[r]]` of the source, with the PCA, PLS, VCA and z-score flags false, an
empty map list, an empty name list and the counter at 0; and every one of the
six mapping functions returns on it with the dataset unchanged. -/
theorem extract_spec (env : Env K) (original : VespucciDataset K) (indices : List Nat)
    (k_means_calculated : Bool) (hshape : original.ShapeInvariant)
    (hvalid : ∀ i ∈ indices, i < original.spectra_.n_rows) :
    ∃ d : VespucciDataset K, original.extract indices k_means_calculated = some d
      ∧ d.non_spatial_ = true
      ∧ d.wavelength_ = original.wavelength_
      ∧ d.spectra_.n_cols = original.spectra_.n_cols
      ∧ d.spectra_.n_rows = indices.length ∧ d.x_.length = indices.length
      ∧ d.y_.length = indices.length
      ∧ (∀ (r i : Nat), indices[r]? = some i →
          d.spectra_.row r = original.spectra_.row i ∧ (d.spectra_.row r).isSome = true
            ∧ d.x_[r]? = original.x_[i]? ∧ d.y_[r]? = original.y_[i]?)
      ∧ d.principal_components_calculated_ = false
      ∧ d.partial_least_squares_calculated_ = false
      ∧ d.vertex_components_calculated_ = false
      ∧ d.z_scores_calculated_ = false
      ∧ d.maps_ = [] ∧ d.map_names_ = [] ∧ d.map_loading_count_ = 0
      ∧ (∀ (min max : Nat) (name value_method integration_method : String),
          d.Univariate env min max name value_method integration_method = some d)
      ∧ (∀ (first_min first_max second_min second_max : Nat)
            (name value_method integration_method : String),
          d.BandRatio env first_min first_max second_min second_max name value_method
            integration_method = some d)
      ∧ (∀ (component : Int) (name : String) (recalculate ok : Bool),
          d.PrincipalComponents env component name recalculate ok = some d)
      ∧ (∀ (endmembers image_component : Nat) (name : String) (recalculate : Bool),
          d.VertexComponents env endmembers image_component name recalculate = some d)
      ∧ (∀ (components image_component : Nat) (name : String) (recalculate : Bool),
          d.PartialLeastSquares env components image_component name recalculate = some d)
      ∧ (∀ (clusters : Nat) (name : String), d.KMeans env clusters name = some d) := by
  obtain ⟨hsx, hxy, _⟩ := hshape
  have hrows : indices.mapM original.spectra_.row
      = some (indices.map (fun i => original.spectra_.rows.getD i [])) :=
    mapM_getElem_valid original.spectra_.rows [] indices hvalid
  have hx : indices.mapM (vget original.x_) = some (indices.map (fun i => original.x_.getD i 0)) :=
    mapM_getElem_valid original.x_ 0 indices (fun i hi => by rw [← hsx]; exact hvalid i hi)
  have hy : indices.mapM (vget original.y_) = some (indices.map (fun i => original.y_.getD i 0)) :=
    mapM_getElem_valid original.y_ 0 indices
      (fun i hi => by rw [← hxy, ← hsx]; exact hvalid i hi)
  unfold VespucciDataset.extract
  rw [hrows, hx, hy]
  refine ⟨_, rfl, rfl, rfl, rfl, ?_, ?_, ?_, ?_,
    rfl, rfl, rfl, rfl, rfl, rfl, rfl, ?_, ?_, ?_, ?_, ?_, ?_⟩
  · show (indices.map _).length = _
    rw [List.length_map]
  · show (indices.map _).length = _
    rw [List.length_map]
  · show (indices.map _).length = _
    rw [List.length_map]
  · intro r i hri
    have hi : i < original.spectra_.n_rows := hvalid i (List.getElem?_mem hri)
    have hi1 : i < original.spectra_.rows.length := hi
    have hi2 : i < original.x_.length := by rw [← hsx]; exact hi
    have hi3 : i < original.y_.length := by rw [← hxy, ← hsx]; exact hi
    refine ⟨?_, ?_, ?_, ?_⟩
    · show (indices.map _)[r]? = original.spectra_.rows[i]?
      rw [List.getElem?_map, hri, Option.map_some']
      simp [List.getD_eq_getElem?_getD, List.getElem?_eq_getElem hi1]
    · show ((indices.map _)[r]?).isSome = true
      rw [List.getElem?_map, hri]
      rfl
    · show (indices.map _)[r]? = original.x_[i]?
      rw [List.getElem?_map, hri, Option.map_some']
      simp [List.getD_eq_getElem?_getD, List.getElem?_eq_getElem hi2]
    · show (indices.map _)[r]? = original.y_[i]?
      rw [List.getElem?_map, hri, Option.map_some']
      simp [List.getD_eq_getElem?_getD, List.getElem?_eq_getElem hi3]
  · intros; rfl
  · intros; rfl
  · intros; rfl
  · intros; rfl
  · intros; rfl
  · intros; rfl

theorem extract_spec_witness :
    peakExample.ShapeInvariant
      ∧ (∀ i ∈ [1, 0, 1], i < peakExample.spectra_.n_rows)
      ∧ ∃ d : VespucciDataset ℚ, peakExample.extract [1, 0, 1] true = some d
        ∧ d.non_spatial_ = true
        ∧ d.wavelength_ = peakExample.wavelength_
        ∧ d.spectra_.n_cols = peakExample.spectra_.n_cols
        ∧ d.spectra_.n_rows = [1, 0, 1].length ∧ d.x_.length = [1, 0, 1].length
        ∧ d.y_.length = [1, 0, 1].length
        ∧ (∀ (r i : Nat), [1, 0, 1][r]? = some i →
            d.spectra_.row r = peakExample.spectra_.row i ∧ (d.spectra_.row r).isSome = true
              ∧ d.x_[r]? = peakExample.x_[i]? ∧ d.y_[r]? = peakExample.y_[i]?)
        ∧ d.principal_components_calculated_ = false
        ∧ d.partial_least_squares_calculated_ = false
        ∧ d.vertex_components_calculated_ = false
        ∧ d.z_scores_calculated_ = false
        ∧ d.maps_ = [] ∧ d.map_names_ = [] ∧ d.map_loading_count_ = 0
        ∧ (∀ (min max : Nat) (name value_method integration_method : String),
            d.Univariate evalEnv min max name value_method integration_method = some d)
        ∧ (∀ (first_min first_max second_min second_max : Nat)
              (name value_method integration_method : String),
            d.BandRatio evalEnv first_min first_max second_min second_max name value_method
              integration_method = some d)
        ∧ (∀ (component : Int) (name : String) (recalculate ok : Bool),
            d.PrincipalComponents evalEnv component name recalculate ok = some d)
        ∧ (∀ (endmembers image_component : Nat) (name : String) (recalculate : Bool),
            d.VertexComponents evalEnv endmembers image_component name recalculate = some d)
        ∧ (∀ (components image_component : Nat) (name : String) (recalculate : Bool),
            d.PartialLeastSquares evalEnv components image_component name recalculate = some d)
        ∧ (∀ (clusters : Nat) (name : String), d.KMeans evalEnv clusters name = some d) :=
  ⟨by with_unfolding_all decide, by with_unfolding_all decide,
    extract_spec evalEnv peakExample [1, 0, 1] true (by with_unfolding_all decide)
      (by with_unfolding_all decide)⟩

/-- Evaluation of the extraction of the rows 1, 0, 1 of the two-row example:
the rows and coordinates are copied in the order of the indices, and an index
outside the source makes the construction fail. -/
theorem extract_example :
    (peakExample.extract [1, 0, 1] false).map
        (fun d => (d.spectra_, d.x_, d.y_, d.wavelength_, d.non_spatial_))
      = some (liftMat 7 [[0, 1, 4, 10, 4, 1, 0], [0, 1, 2, 3, 2, 1, 0], [0, 1, 4, 10, 4, 1, 0]],
          [1, 0, 1], [0, 0, 0], [10, 20, 30, 40, 50, 60, 70], true)
      ∧ peakExample.extract [0, 2] false = none := by
  constructor <;> with_unfolding_all decide

end ExtractProps

section ZScoreCopyProps

variable {K : Type} [LinearOrderedField K]

omit [LinearOrderedField K] in
/-- The columns of a rectangular matrix, written out. -/
theorem col_eq_of_wf (m : Mat K) (hwf : m.wf) (j : Nat) (hj : j < m.n_cols) :
    m.col j = some (m.rows.map (fun r => r.getD j Dbl.nonfin)) := by
  have hall : ∀ r ∈ m.rows, (fun r : Vec K => r[j]?) r = some (r.getD j Dbl.nonfin) := by
    intro r hr
    have hlen : j < r.length := by rw [hwf r hr]; exact hj
    simp [List.getD_eq_getElem?_getD, List.getElem?_eq_getElem hlen]
  simp only [Mat.col, hj, if_true]
  exact mapM_some_of_forall _ _ _ hall

omit [LinearOrderedField K] in
/-- Two rectangular matrices with the same shape and the same columns are
equal. -/
theorem Mat.ext_cols (a b : Mat K) (ha : a.wf) (hb : b.wf) (hc : a.n_cols = b.n_cols)
    (hr : a.rows.length = b.rows.length) (hcol : ∀ j, j < a.n_cols → a.col j = b.col j) :
    a = b := by
  have hrows : a.rows = b.rows := by
    apply List.ext_getElem hr
    intro i h1 h2
    have hla : a.rows[i].length = a.n_cols := ha _ (List.getElem_mem h1)
    have hlb : b.rows[i].length = a.n_cols := by rw [hc]; exact hb _ (List.getElem_mem h2)
    apply List.ext_getElem (by rw [hla, hlb])
    intro j g1 g2
    have hj : j < a.n_cols := by rw [← hla]; exact g1
    have hcj := hcol j hj
    rw [col_eq_of_wf a ha j hj, col_eq_of_wf b hb j (by rw [← hc]; exact hj)] at hcj
    have hget := congrArg (fun l => l[i]?) (Option.some.inj hcj)
    simp only [List.getElem?_map, List.getElem?_eq_getElem h1, List.getElem?_eq_getElem h2,
      Option.map_some', Option.some.injEq, List.getD_eq_getElem?_getD,
      List.getElem?_eq_getElem g1, List.getElem?_eq_getElem g2, Option.getD_some] at hget
    exact hget
  cases a
  cases b
  simp only at hc hrows
  rw [hc, hrows]

omit [LinearOrderedField K] in
theorem zipWith_eq_map_left {α β γ : Type} (g : α → β → γ) (g1 : α → γ) :
    ∀ (l1 : List α) (l2 : List β), l1.length = l2.length →
      (∀ a ∈ l1, ∀ b ∈ l2, g a b = g1 a) → List.zipWith g l1 l2 = l1.map g1 := by
  intro l1
  induction l1 with
  | nil => intro l2 _ _; rfl
  | cons a l1 ih =>
    intro l2 hlen h
    cases l2 with
    | nil => simp at hlen
    | cons b l2 =>
      rw [List.zipWith_cons_cons, List.map_cons,
        h a (List.mem_cons_self _ _) b (List.mem_cons_self _ _),
        ih l2 (by simpa using hlen)
          (fun x hx y hy => h x (List.mem_cons_of_mem _ hx) y (List.mem_cons_of_mem _ hy))]

omit [LinearOrderedField K] in
theorem zipWith_eq_map_right {α β γ : Type} (g : α → β → γ) (g2 : β → γ) :
    ∀ (l1 : List α) (l2 : List β), l1.length = l2.length →
      (∀ a ∈ l1, ∀ b ∈ l2, g a b = g2 b) → List.zipWith g l1 l2 = l2.map g2 := by
  intro l1
  induction l1 with
  | nil =>
    intro l2 hlen _
    cases l2 with
    | nil => rfl
    | cons b l2 => simp at hlen
  | cons a l1 ih =>
    intro l2 hlen h
    cases l2 with
    | nil => simp at hlen
    | cons b l2 =>
      rw [List.zipWith_cons_cons, List.map_cons,
        h a (List.mem_cons_self _ _) b (List.mem_cons_self _ _),
        ih l2 (by simpa using hlen)
          (fun x hx y hy => h x (List.mem_cons_of_mem _ hx) y (List.mem_cons_of_mem _ hy))]

omit [LinearOrderedField K] in
theorem zipWith_forall {α β γ : Type} (g : α → β → γ) (P : γ → Prop) :
    ∀ (l1 : List α) (l2 : List β), (∀ a ∈ l1, ∀ b ∈ l2, P (g a b)) →
      ∀ r ∈ List.zipWith g l1 l2, P r := by
  intro l1
  induction l1 with
  | nil => intro l2 _ r hr; simp at hr
  | cons a l1 ih =>
    intro l2 h r hr
    cases l2 with
    | nil => simp at hr
    | cons b l2 =>
      rw [List.zipWith_cons_cons] at hr
      rcases List.mem_cons.mp hr with h1 | h1
      · rw [h1]
        exact h a (List.mem_cons_self _ _) b (List.mem_cons_self _ _)
      · exact ih l2
          (fun x hx y hy => h x (List.mem_cons_of_mem _ hx) y (List.mem_cons_of_mem _ hy)) r h1

/-- One turn of the column loop of `ZScoreNormCopy`: column `j` of the copy
becomes the z-score of column `j` of the spectra, the other columns of the
copy stay. -/
theorem zscoreCopyStep_spec (env : Env K) (src copy : Mat K) (j : Nat) (hsrc : src.wf)
    (hne : src.rows ≠ []) (hj : j < src.n_cols) (hc : copy.n_cols = src.n_cols)
    (hr : copy.rows.length = src.rows.length) (hwf : copy.wf) :
    ∃ copy1 cj, src.col j = some cj ∧ zscoreCopyStep env src j copy = some copy1
      ∧ copy1.n_cols = src.n_cols ∧ copy1.rows.length = src.rows.length ∧ copy1.wf
      ∧ ∀ k, k < src.n_cols →
          copy1.col k = if k = j then zscoreColumn env cj else copy.col k := by
  have hcj := col_eq_of_wf src hsrc j hj
  have hcne : src.rows.map (fun r => r.getD j Dbl.nonfin) ≠ [] := by simpa using hne
  obtain ⟨sd, hsd⟩ := vstddev_isSome env _ hcne
  obtain ⟨mean, hmean⟩ : ∃ mean, vmean (src.rows.map (fun r => r.getD j Dbl.nonfin))
      = some mean := ⟨_, vmean_some _ hcne⟩
  have hstep : ∃ write : Vec K → Vec K → Vec K,
      zscoreCopyStep env src j copy
          = some { copy with rows := List.zipWith write src.rows copy.rows }
        ∧ ∀ rs ∈ src.rows, ∀ rc : Vec K,
            write rs rc = rc.set j (Dbl.div (Dbl.sub (rs.getD j Dbl.nonfin) mean) sd) := by
    simp only [zscoreCopyStep, hcj, hmean, hsd]
    refine ⟨_, rfl, ?_⟩
    intro rs hrs rc
    have hlen : j < rs.length := by rw [hsrc rs hrs]; exact hj
    simp [List.getD_eq_getElem?_getD, List.getElem?_eq_getElem hlen]
  obtain ⟨write, hstep, hwrite⟩ := hstep
  have hwf1 : ({ copy with rows := List.zipWith write src.rows copy.rows } : Mat K).wf := by
    apply zipWith_forall write (fun (r : Vec K) => r.length = copy.n_cols)
    intro rs hrs rc hrc
    rw [hwrite rs hrs rc, List.length_set]
    exact hwf rc hrc
  refine ⟨_, _, hcj, hstep, hc, ?_, hwf1, ?_⟩
  · show (List.zipWith _ src.rows copy.rows).length = _
    rw [List.length_zipWith, hr, Nat.min_self]
  · intro k hk
    rw [col_eq_of_wf _ hwf1 k (by show k < copy.n_cols; rw [hc]; exact hk)]
    show some ((List.zipWith _ src.rows copy.rows).map _) = _
    rw [List.map_zipWith]
    by_cases hkj : k = j
    · rw [if_pos hkj, hkj]
      simp only [zscoreColumn, hmean, hsd, List.map_map]
      congr 1
      apply zipWith_eq_map_left _ _ _ _ hr.symm
      intro rs hrs rc hrc
      have hlen : j < rc.length := by rw [hwf rc hrc, hc]; exact hj
      rw [hwrite rs hrs rc]
      simp [List.getD_eq_getElem?_getD, List.getElem?_set, hlen]
    · rw [if_neg hkj, col_eq_of_wf copy hwf k (by rw [hc]; exact hk)]
      congr 1
      apply zipWith_eq_map_right _ _ _ _ hr.symm
      intro rs hrs rc hrc
      rw [hwrite rs hrs rc]
      have hjk : ¬ j = k := fun h => hkj h.symm
      simp [List.getD_eq_getElem?_getD, List.getElem?_set, hjk]

/-- The column loop of `ZScoreNormCopy` returns, and it leaves in every
column it visits the z-score of that column of the spectra, the other
columns of the copy untouched. -/
theorem zscoreCopyLoop_spec (env : Env K) (src : Mat K) (hsrc : src.wf) (hne : src.rows ≠ []) :
    ∀ (n j0 : Nat) (copy : Mat K), copy.n_cols = src.n_cols →
      copy.rows.length = src.rows.length → copy.wf → j0 + n ≤ src.n_cols →
      ∃ copy1, forLoop (zscoreCopyStep env src) n j0 copy = some copy1
        ∧ copy1.n_cols = src.n_cols ∧ copy1.rows.length = src.rows.length ∧ copy1.wf
        ∧ ∀ j cj, j < src.n_cols → src.col j = some cj →
            copy1.col j = if j0 ≤ j ∧ j < j0 + n then zscoreColumn env cj else copy.col j := by
  intro n
  induction n with
  | zero =>
    intro j0 copy hc hr hwf _
    refine ⟨copy, rfl, hc, hr, hwf, ?_⟩
    intro j cj _ _
    have : ¬ (j0 ≤ j ∧ j < j0 + 0) := by omega
    rw [if_neg this]
  | succ n ih =>
    intro j0 copy hc hr hwf hle
    obtain ⟨copy1, c0, hc0, hstep, hc1, hr1, hwf1, hcol1⟩ :=
      zscoreCopyStep_spec env src copy j0 hsrc hne (by omega) hc hr hwf
    obtain ⟨copy2, hloop, hc2, hr2, hwf2, hcol2⟩ := ih (j0 + 1) copy1 hc1 hr1 hwf1 (by omega)
    refine ⟨copy2, by simp only [forLoop, hstep, Option.some_bind, hloop], hc2, hr2, hwf2, ?_⟩
    intro j cj hj hcj
    rw [hcol2 j cj hj hcj, hcol1 j hj]
    by_cases h1 : j0 + 1 ≤ j ∧ j < j0 + 1 + n
    · rw [if_pos h1, if_pos (by omega)]
    · rw [if_neg h1]
      by_cases h2 : j = j0
      · rw [if_pos h2, if_pos (by omega)]
        rw [h2] at hcj
        rw [hc0] at hcj
        rw [Option.some.inj hcj]
      · rw [if_neg h2, if_neg (by omega)]

/-- The column loop of `ZScoreNormalize` keeps a rectangular matrix
rectangular. -/
theorem zscoreLoop_wf (env : Env K) (n j0 : Nat) (m m1 : Mat K)
    (h : forLoop (zscoreStep env) n j0 m = some m1) (hwf : m.wf) : m1.wf := by
  have hP := forLoop_preserves (zscoreStep env)
    (fun st => st.wf ∧ st.n_cols = m.n_cols) ?_ n j0 m m1 h ⟨hwf, rfl⟩
  · exact hP.1
  · intro j st st1 hstep hst
    simp only [zscoreStep] at hstep
    split at hstep
    · simp at hstep
    · split at hstep
      · simp only [Option.some.injEq] at hstep
        rw [← hstep]
        refine ⟨?_, hst.2⟩
        intro r hr
        obtain ⟨r0, hr0, hr1⟩ := List.mem_map.mp hr
        rw [← hr1, List.length_modify]
        exact hst.1 r0 hr0
      · simp at hstep

/-- C30. For a rectangular spectra matrix, `ZScoreNormCopy` returns the
matrix that `ZScoreNormalize` leaves in `spectra_` (and fails exactly when
`ZScoreNormalize` fails). When the matrix has a row, both return, and every
column of the result is the column of the spectra with the column mean
subtracted and divided by the column standard deviation. `ZScoreNormCopy`
hands out a matrix and writes no member of the dataset; `ZScoreNormalize`
writes the spectra, the snapshot, the z-score flag and the label. -/
theorem ZScoreNormCopy_eq (env : Env K) (d : VespucciDataset K) (hwf : d.spectra_.wf) :
    d.ZScoreNormCopy env = (d.ZScoreNormalize env).map (fun d1 => d1.spectra_)
      ∧ (d.spectra_.rows ≠ [] →
          ∃ (m : Mat K) (d1 : VespucciDataset K),
            d.ZScoreNormCopy env = some m ∧ d.ZScoreNormalize env = some d1
              ∧ d1.spectra_ = m ∧ d1.spectra_old_ = d.spectra_
              ∧ d1.z_scores_calculated_ = true ∧ d1.last_operation_ = "Z-score normalize"
              ∧ m.n_cols = d.spectra_.n_cols ∧ m.n_rows = d.spectra_.n_rows
              ∧ ∀ j cj, j < d.spectra_.n_cols → d.spectra_.col j = some cj →
                  m.col j = zscoreColumn env cj) := by
  obtain ⟨init, hinit, hinit_c, hinit_r, hinit_wf⟩ : ∃ init : Mat K,
      d.ZScoreNormCopy env = forLoop (zscoreCopyStep env d.spectra_) d.spectra_.n_cols 0 init
        ∧ init.n_cols = d.spectra_.n_cols ∧ init.rows.length = d.spectra_.rows.length
        ∧ init.wf := by
    refine ⟨_, rfl, rfl, by simp [Mat.n_rows], ?_⟩
    intro r hr
    obtain ⟨i, _, hi⟩ := List.mem_map.mp hr
    rw [← hi, List.length_map, List.length_range]
  have hmain : d.spectra_.rows ≠ [] →
      ∃ (m : Mat K) (d1 : VespucciDataset K),
        d.ZScoreNormCopy env = some m ∧ d.ZScoreNormalize env = some d1
          ∧ d1.spectra_ = m ∧ d1.spectra_old_ = d.spectra_
          ∧ d1.z_scores_calculated_ = true ∧ d1.last_operation_ = "Z-score normalize"
          ∧ m.n_cols = d.spectra_.n_cols ∧ m.n_rows = d.spectra_.n_rows
          ∧ ∀ j cj, j < d.spectra_.n_cols → d.spectra_.col j = some cj →
              m.col j = zscoreColumn env cj := by
    intro hne
    obtain ⟨m1, hloop, hcols1, hspec1⟩ := zscoreLoop_spec env d.spectra_.n_cols 0 d.spectra_
      (colsReadable_of_wf d.spectra_ hwf hne) (by omega)
    obtain ⟨hrows1, _⟩ := zscoreLoop_shape env _ _ _ _ hloop
    have hwf1 := zscoreLoop_wf env _ _ _ _ hloop hwf
    obtain ⟨m2, hloop2, hcols2, hrows2, hwf2, hspec2⟩ := zscoreCopyLoop_spec env d.spectra_ hwf hne
      d.spectra_.n_cols 0 init hinit_c hinit_r hinit_wf (by omega)
    have heq : m1 = m2 := by
      apply Mat.ext_cols m1 m2 hwf1 hwf2 (by rw [hcols1, hcols2])
        (by rw [hrows2]; exact hrows1)
      intro j hj
      rw [hcols1] at hj
      obtain ⟨cj, hcj, _⟩ := colsReadable_of_wf d.spectra_ hwf hne j hj
      rw [hspec1 j cj hj hcj, hspec2 j cj hj hcj, if_pos ⟨Nat.zero_le _, by omega⟩,
        if_pos ⟨Nat.zero_le _, by omega⟩]
    refine ⟨m2, { d with
        spectra_old_ := d.spectra_,
        spectra_ := m1,
        z_scores_calculated_ := true,
        last_operation_ := "Z-score normalize" }, by rw [hinit]; exact hloop2, ?_, heq, rfl, rfl,
      rfl, hcols2, hrows2, ?_⟩
    · simp only [VespucciDataset.ZScoreNormalize, hloop]
    · intro j cj hj hcj
      rw [hspec2 j cj hj hcj, if_pos ⟨Nat.zero_le _, by omega⟩]
  refine ⟨?_, hmain⟩
  by_cases hne : d.spectra_.rows = []
  · cases hcols : d.spectra_.n_cols with
    | zero =>
      have hr0 : init.rows = [] :=
        List.length_eq_zero.mp (by rw [hinit_r, hne]; rfl)
      have hi0 : init = d.spectra_ := by
        cases hi : init with
        | mk c1 r1 =>
          cases hs : d.spectra_ with
          | mk c2 r2 =>
            rw [hi] at hr0 hinit_c
            rw [hs] at hne hcols hinit_c
            simp only at hr0 hinit_c hne hcols
            rw [hr0, hne, hinit_c]
      rw [hinit, hi0]
      simp only [VespucciDataset.ZScoreNormalize, hcols, forLoop, Option.map_some']
    | succ n =>
      have hcol0 : d.spectra_.col 0 = some [] := by
        unfold Mat.col
        rw [if_pos (by omega), hne]
        rfl
      have h1 : zscoreStep env 0 d.spectra_ = none := by
        simp [zscoreStep, hcol0, vmean]
      have h2 : ∀ copy, zscoreCopyStep env d.spectra_ 0 copy = none := by
        intro copy
        simp [zscoreCopyStep, hcol0, vmean]
      rw [hinit]
      simp only [VespucciDataset.ZScoreNormalize, hcols, forLoop, h1, h2, Option.none_bind,
        Option.map_none']
  · obtain ⟨m, d1, hcopy, hnorm, hs, _⟩ := hmain hne
    rw [hcopy, hnorm, Option.map_some', hs]

theorem ZScoreNormCopy_eq_witness :
    zscoreExample.spectra_.wf
      ∧ (zscoreExample.ZScoreNormCopy evalEnv
          = (zscoreExample.ZScoreNormalize evalEnv).map (fun d1 => d1.spectra_)
        ∧ (zscoreExample.spectra_.rows ≠ [] →
            ∃ (m : Mat ℚ) (d1 : VespucciDataset ℚ),
              zscoreExample.ZScoreNormCopy evalEnv = some m
                ∧ zscoreExample.ZScoreNormalize evalEnv = some d1
                ∧ d1.spectra_ = m ∧ d1.spectra_old_ = zscoreExample.spectra_
                ∧ d1.z_scores_calculated_ = true ∧ d1.last_operation_ = "Z-score normalize"
                ∧ m.n_cols = zscoreExample.spectra_.n_cols
                ∧ m.n_rows = zscoreExample.spectra_.n_rows
                ∧ ∀ j cj, j < zscoreExample.spectra_.n_cols →
                    zscoreExample.spectra_.col j = some cj → m.col j = zscoreColumn evalEnv cj)) :=
  ⟨by with_unfolding_all decide,
    ZScoreNormCopy_eq evalEnv zscoreExample (by with_unfolding_all decide)⟩

/-- Evaluation of `ZScoreNormCopy` on the example of `ZScoreNormalize`: the
same matrix, although the copy starts from uninitialised memory. -/
theorem ZScoreNormCopy_example :
    (zscoreExample.ZScoreNormCopy evalEnv).map (fun m => m.rows)
      = some [[Dbl.fin (-1), Dbl.nonfin], [Dbl.fin 1, Dbl.nonfin], [Dbl.fin 0, Dbl.nonfin]] := by
  with_unfolding_all decide

end ZScoreCopyProps

section ComponentProps

variable {K : Type}

/-- Part of C31 that holds, and what the code does otherwise. When the
analysis is computed during the call (question answered with Ok), component
`c` maps `Results(c - 1)` of the fresh analysis with the label of
`c - 1 + 1`; when the cached analysis is used, the component is not
decremented: the call maps `Results(c)` of the cached analysis with the label
of `c + 1`. -/
theorem PrincipalComponents_branches (env : Env K) (d d1 : VespucciDataset K)
    (component : Int) (name : String) (recalculate : Bool) (hsp : d.non_spatial_ = false)
    (h : d.PrincipalComponents env component name recalculate true = some d1) :
    ∃ m : MapData K, d1.maps_ = d.maps_ ++ [m] ∧ m.name = name
      ∧ (recalculate = true ∨ d.principal_components_calculated_ = false →
          (env.princomp d.spectra_).Results (component - 1) = some m.results
            ∧ m.map_type = "(Principal Component " ++ toString (component - 1 + 1) ++ ")")
      ∧ (recalculate = false ∧ d.principal_components_calculated_ = true →
          ∃ data, d.principal_components_data_ = some data
            ∧ data.Results component = some m.results
            ∧ m.map_type = "(Principal Component " ++ toString (component + 1) ++ ")") := by
  obtain ⟨data, results, hres, hdata, hd1⟩ :=
    PrincipalComponents_inv env d d1 component name recalculate hsp h
  refine ⟨_, by rw [hd1]; rfl, rfl, ?_, ?_⟩
  · intro hrun
    have hr : (recalculate || !d.principal_components_calculated_) = true := by
      rcases hrun with hr | hr <;> simp [hr]
    rw [hr, if_pos rfl] at hdata hres
    simp only [hr, if_true]
    rw [Option.some.inj hdata]
    constructor
    · exact hres
    · trivial
  · rintro ⟨hr, hflag⟩
    have hrun : (recalculate || !d.principal_components_calculated_) = false := by
      simp [hr, hflag]
    rw [hrun, if_neg (by decide)] at hdata hres
    simp only [hrun, Bool.false_eq_true, if_false]
    refine ⟨data, hdata, hres, ?_⟩
    trivial

end ComponentProps

section ComponentExamples

/-- C31 (defect of the code). `component--` stands inside the branch that
computes the analysis, so a call that reuses the cached analysis keeps the
1-based number. With a score matrix whose columns are `[0, 0]`, `[1, 1]`,
`[2, 4]`, `[3, 10]`, ..., the first `PrincipalComponents(3)` computes and
maps column 2 under the label "(Principal Component 3)"; the second
`PrincipalComponents(3)`, without `recalculate`, maps column 3 under the
label "(Principal Component 4)". -/
theorem PrincipalComponents_cached_example :
    (peakExample.PrincipalComponents evalEnv 3 "first" false true).map
        (fun d => d.principal_components_calculated_) = some true
    ∧ (peakExample.PrincipalComponents evalEnv 3 "first" false true).map
        (fun d => d.maps_.map (fun m => (m.name, m.map_type, m.results)))
      = some [("first", "(Principal Component 3)", liftVec [2, 4])]
    ∧ ((peakExample.PrincipalComponents evalEnv 3 "first" false true).bind
        (fun d => d.PrincipalComponents evalEnv 3 "second" false true)).map
          (fun d => d.maps_.map (fun m => (m.name, m.map_type, m.results)))
      = some [("first", "(Principal Component 3)", liftVec [2, 4]),
          ("second", "(Principal Component 4)", liftVec [3, 10])]
    ∧ ((peakExample.PrincipalComponents evalEnv 3 "first" false true).bind
        (fun d => d.PrincipalComponents evalEnv 3 "second" true true)).map
          (fun d => d.maps_.map (fun m => (m.name, m.map_type, m.results)))
      = some [("first", "(Principal Component 3)", liftVec [2, 4]),
          ("second", "(Principal Component 3)", liftVec [2, 4])] := by
  refine ⟨?_, ?_, ?_, ?_⟩ <;> with_unfolding_all decide

end ComponentExamples

section DerivativeProps

variable {K : Type} [LinearOrderedField K]

/-- C32, as amended. On a spatial dataset, `Univariate` and `BandRatio` with
the value method "Derivative" read neither the spectra nor the window, and
still return with exactly one map appended: it has the caller's name, the
label of the derivative method, the coordinates of the dataset, and a result
vector with one entry for each coordinate that holds what the allocation
left there. -/
theorem Derivative_appends_map (env : Env K) (d : VespucciDataset K)
    (hsp : d.non_spatial_ = false) :
    (∀ (min max : Nat) (name integration_method : String),
        d.Univariate env min max name "Derivative" integration_method
          = some (d.AddMap
              { name := name,
                map_type := "1-Region Univariate (Derivative)",
                x := d.x_,
                y := d.y_,
                results := (List.range d.x_.length).map (env.uninit 0) }))
      ∧ (∀ (first_min first_max second_min second_max : Nat) (name integration_method : String),
        d.BandRatio env first_min first_max second_min second_max name "Derivative"
            integration_method
          = some (d.AddMap
              { name := name,
                map_type := "2-Region Band Ratio Map (Derivative)",
                x := d.x_,
                y := d.y_,
                results := (List.range d.x_.length).map (env.uninit 0) })) := by
  have h1 : ¬ ("Derivative" = "Bandwidth") := by decide
  have h2 : ¬ ("Derivative" = "Area") := by decide
  constructor
  · intro min max name integration_method
    unfold VespucciDataset.Univariate
    rw [spatial_if d hsp]
    simp only [h1, h2, if_false, if_true]
  · intro first_min first_max second_min second_max name integration_method
    unfold VespucciDataset.BandRatio
    rw [spatial_if d hsp]
    simp only [h2, if_false, if_true]

end DerivativeProps

section DerivativeExamples

theorem Derivative_appends_map_witness :
    peakExample.non_spatial_ = false
      ∧ ((∀ (min max : Nat) (name integration_method : String),
          peakExample.Univariate evalEnv min max name "Derivative" integration_method
            = some (peakExample.AddMap
                { name := name,
                  map_type := "1-Region Univariate (Derivative)",
                  x := peakExample.x_,
                  y := peakExample.y_,
                  results := (List.range peakExample.x_.length).map (evalEnv.uninit 0) }))
        ∧ (∀ (first_min first_max second_min second_max : Nat)
            (name integration_method : String),
          peakExample.BandRatio evalEnv first_min first_max second_min second_max name
              "Derivative" integration_method
            = some (peakExample.AddMap
                { name := name,
                  map_type := "2-Region Band Ratio Map (Derivative)",
                  x := peakExample.x_,
                  y := peakExample.y_,
                  results := (List.range peakExample.x_.length).map (evalEnv.uninit 0) }))) :=
  ⟨rfl, Derivative_appends_map evalEnv peakExample rfl⟩

set_option maxRecDepth 8000 in
/-- The claim that the derivative method makes no output fails on the
example: both calls return with one map more than before, whose results are
the two uninitialised entries (777 stands for them). -/
theorem Derivative_no_output_counterexample :
    peakExample.maps_ = []
      ∧ (peakExample.Univariate evalEnv 0 6 "d" "Derivative" "").map
          (fun d => d.maps_.map (fun m => (m.name, m.map_type, m.results)))
        = some [("d", "1-Region Univariate (Derivative)", liftVec [777, 777])]
      ∧ (peakExample.BandRatio evalEnv 0 1 2 3 "r" "Derivative" "").map
          (fun d => d.maps_.map (fun m => (m.name, m.map_type, m.results)))
        = some [("r", "2-Region Band Ratio Map (Derivative)", liftVec [777, 777])]
      ∧ ¬ ((peakExample.Univariate evalEnv 0 6 "d" "Derivative" "").map (fun d => d.maps_)
          = some peakExample.maps_)
      ∧ ¬ ((peakExample.BandRatio evalEnv 0 1 2 3 "r" "Derivative" "").map (fun d => d.maps_)
          = some peakExample.maps_) := by
  refine ⟨?_, ?_, ?_, ?_, ?_⟩ <;> with_unfolding_all decide

end DerivativeExamples

section ClosestProps

variable {K : Type} [LinearOrderedField K]

/-- On an ascending stretch at or above `start`, the choice between an index
and its left neighbour always falls on the left neighbour. -/
theorem closerIndex_ascending (wavelength : List K) (start w v : K) (i : Nat)
    (hi : 1 ≤ i) (hU : i < UWORD) (hw : wavelength[i]? = some w)
    (hv : wavelength[i - 1]? = some v) (hsv : start ≤ v) (hvw : v < w) :
    closerIndex wavelength start i = some (i - 1) := by
  unfold closerIndex vget
  rw [usub_of_le i 1 hi hU, hw, hv]
  have h1 : |w - start| = w - start := abs_of_nonneg (by linarith)
  have h2 : |v - start| = v - start := abs_of_nonneg (by linarith)
  have h3 : |w - start| > |v - start| := by rw [h1, h2]; linarith
  simp only [h3, if_true]

/-- What `FindRange` returns when both searches stop inside the axis: the
first at `i`, the second at `i2`, neither at index 0 nor at the last index.
The upper index is chosen between `i2` and `i2 - 1` by their distance to
`start`; `end` has no part in the choice. -/
theorem FindRange_interior (d : VespucciDataset K) (indices : Nat × Nat) (start end_ : K)
    (i i2 : Nat) (hU : d.wavelength_.length < UWORD) (hi1 : 1 ≤ i) (hii : i ≤ i2)
    (hlast : i2 + 1 < d.wavelength_.length)
    (hbefore : ∀ j w, j < i → d.wavelength_[j]? = some w → w < start)
    (hat : ∀ w, d.wavelength_[i]? = some w → start ≤ w)
    (hbefore2 : ∀ j w, i ≤ j → j < i2 → d.wavelength_[j]? = some w → w < end_)
    (hat2 : ∀ w, d.wavelength_[i2]? = some w → end_ ≤ w) :
    ∃ lower upper, closerIndex d.wavelength_ start i = some lower
      ∧ closerIndex d.wavelength_ start i2 = some upper
      ∧ d.FindRange indices start end_ = some (lower, upper) := by
  have hi : i < d.wavelength_.length := by omega
  have hi2 : i2 < d.wavelength_.length := by omega
  have hsearch1 : findUp (atLeast d.wavelength_ start) d.wavelength_.length 0 = some (some i) := by
    apply findUp_hit _ i _ 0 (Nat.zero_le _) (by omega)
    · intro m _ hm
      have hm1 : m < d.wavelength_.length := by omega
      exact atLeast_of_lt _ _ _ m (List.getElem?_eq_getElem hm1)
        (hbefore m _ hm (List.getElem?_eq_getElem hm1))
    · exact atLeast_of_ge _ _ _ i (List.getElem?_eq_getElem hi)
        (hat _ (List.getElem?_eq_getElem hi))
  have hsearch2 : findUp (atLeast d.wavelength_ end_) (d.wavelength_.length - i) i
      = some (some i2) := by
    apply findUp_hit _ i2 _ i hii (by omega)
    · intro m hm hlt
      have hm1 : m < d.wavelength_.length := by omega
      exact atLeast_of_lt _ _ _ m (List.getElem?_eq_getElem hm1)
        (hbefore2 m _ hm hlt (List.getElem?_eq_getElem hm1))
    · exact atLeast_of_ge _ _ _ i2 (List.getElem?_eq_getElem hi2)
        (hat2 _ (List.getElem?_eq_getElem hi2))
  have husub : usub d.wavelength_.length 1 = d.wavelength_.length - 1 :=
    usub_of_le _ 1 (by omega) hU
  have hne1 : ¬ (i = usub d.wavelength_.length 1) := by rw [husub]; omega
  have hne2 : ¬ (i2 = usub d.wavelength_.length 1) := by rw [husub]; omega
  have hc : ∀ k, 1 ≤ k → k < d.wavelength_.length →
      ∃ r, closerIndex d.wavelength_ start k = some r := by
    intro k hk1 hk
    have hk2 : k - 1 < d.wavelength_.length := by omega
    unfold closerIndex vget
    rw [usub_of_le k 1 hk1 (by omega), List.getElem?_eq_getElem hk,
      List.getElem?_eq_getElem hk2]
    exact ⟨_, rfl⟩
  obtain ⟨lower, hlower⟩ := hc i hi1 hi
  obtain ⟨upper, hupper⟩ := hc i2 (by omega) hi2
  refine ⟨lower, upper, hlower, hupper, ?_⟩
  unfold VespucciDataset.FindRange
  simp only [hsearch1, Option.getD_some, hne1, if_false, hlower, hsearch2, hne2, hupper]

end ClosestProps

section ClosestExamples

/-- C33 (defect of the code). The upper index is chosen by the distance to
`start`, not to `end`. On the wavelengths 10, 20, 30, 40, 50 with
`start = 19` and `end = 39`, the second search stops at channel 3
(wavelength 40), which is the closest to 39, and the comparison with `start`
moves the index to channel 2 (wavelength 30): `(1, 2)` is returned where the
closest indices are `(1, 3)`. Besides, a bound that is met at the last index
is taken for a search without a hit: `end = 46` collapses the range to
`(1, 1)`, and `start = 45` returns the vector as allocated. -/
theorem FindRange_closest_example :
    axisExample.wavelength_ = [10, 20, 30, 40, 50]
      ∧ axisExample.FindRange (7, 7) 19 39 = some (1, 2)
      ∧ |(40 : ℚ) - 39| < |(30 : ℚ) - 39|
      ∧ |(40 : ℚ) - 19| > |(30 : ℚ) - 19|
      ∧ closerIndex axisExample.wavelength_ 19 3 = some 2
      ∧ closerIndex axisExample.wavelength_ 39 3 = some 3
      ∧ axisExample.FindRange (7, 7) 19 46 = some (1, 1)
      ∧ axisExample.FindRange (7, 7) 45 46 = some (7, 7) := by
  refine ⟨?_, ?_, ?_, ?_, ?_, ?_, ?_, ?_⟩ <;> with_unfolding_all decide

end ClosestExamples

section MidLineProps

variable {K : Type} [LinearOrderedField K]

/-- What one turn of the bandwidth loop records as mid line: the two
wavelengths at the final edge indices, and the entries of `spectra_` at those
two numbers taken as linear indices into the matrix. -/
theorem bandwidthStep_mid_line (d : VespucciDataset K) (min max : Nat) (i : Nat)
    (st st1 : BandwidthState K) (h : bandwidthStep d min max i st = some st1) :
    ∃ wl wr sl sr, vget d.wavelength_ st1.left_index = some wl
      ∧ vget d.wavelength_ st1.right_index = some wr
      ∧ d.spectra_.lin st1.left_index = some sl
      ∧ d.spectra_.lin st1.right_index = some sr
      ∧ st1.mid_lines = st.mid_lines ++ [[Dbl.fin wl, sl, Dbl.fin wr, sr]] := by
  unfold bandwidthStep at h
  simp only at h
  split at h
  · cases h
  · split at h
    · cases h
    · split at h
      · split at h
        · rename_i wl wr sl sr hwl hwr hsl hsr
          simp only [Option.some.injEq] at h
          rw [← h]
          exact ⟨wl, wr, sl, sr, hwl, hwr, hsl, hsr, rfl⟩
        · cases h
      · cases h

/-- The correction of the right edge at the last column reads the column
after it. -/
theorem adjustRight_last_column (columns : Nat) (row : Vec K) (h : Dbl K) (h1 : 1 ≤ columns)
    (hU : columns < UWORD) : adjustRight columns row h (columns - 1) = none := by
  have hnext : (columns - 1 + 1) % UWORD = columns := by
    rw [Nat.sub_add_cancel h1, Nat.mod_eq_of_lt hU]
  have hread : rowElem columns row columns = none := by
    unfold rowElem
    rw [if_neg (lt_irrefl _)]
  unfold adjustRight
  rw [hnext, hread]
  cases rowElem columns row (columns - 1) <;> rfl

/-- The correction of the left edge at column 0 reads the column before
it. -/
theorem adjustLeft_first_column (columns : Nat) (row : Vec K) (h : Dbl K)
    (hU : columns < UWORD) : adjustLeft columns row h 0 = none := by
  have hread : rowElem columns row (usub 0 1) = none := by
    unfold rowElem
    have hw : usub 0 1 = UWORD - 1 := by decide
    rw [hw, if_neg (by omega)]
  unfold adjustLeft
  rw [hread]
  cases rowElem columns row 0 <;> rfl

/-- An edge search that finds nothing hands on the index the state carries
from the row before. -/
theorem bandwidthEdges_carry (columns : Nat) (row : Vec K) (h : Dbl K) (max_index : Nat)
    (st : BandwidthState K) (l r : Nat)
    (hedges : bandwidthEdges columns row h max_index st = some (l, r)) :
    (findDown (belowHalf columns row h) max_index = some none → l = st.left_index)
      ∧ (findUp (belowHalf columns row h) (columns - max_index) max_index = some none →
          r = st.right_index) := by
  unfold bandwidthEdges at hedges
  constructor
  · intro hnone
    rw [hnone] at hedges
    cases hr : findUp (belowHalf columns row h) (columns - max_index) max_index with
    | none => rw [hr] at hedges; cases hedges
    | some hitr =>
      rw [hr] at hedges
      simp only [Option.getD_none, Option.some.injEq, Prod.mk.injEq] at hedges
      exact hedges.1.symm
  · intro hnone
    rw [hnone] at hedges
    cases hl : findDown (belowHalf columns row h) max_index with
    | none => rw [hl] at hedges; cases hedges
    | some hitl =>
      rw [hl] at hedges
      simp only [Option.getD_none, Option.some.injEq, Prod.mk.injEq] at hedges
      exact hedges.2.symm

end MidLineProps

section MidLineExamples

/-- C34 (defect of the code). The ordinates of the mid line are read as
`spectra_(left_index)` and `spectra_(right_index)`, with one index, which
Armadillo takes column by column through the whole matrix. On the two spectra
`[0, 1, 2, 3, 2, 1, 0]` and `[0, 1, 4, 10, 4, 1, 0]` with the window
`[0, 6]` both rows end with the edges 1 and 5, and both mid lines are
`(20, 0, 60, 4)`: 0 is `spectra_(1, 0)` and 4 is `spectra_(1, 2)`, where the
values of either row at the channels 1 and 5 are 1 and 1. -/
theorem Bandwidth_mid_lines_example :
    (forLoop (bandwidthStep peakExample 0 6) 1 0 {}).map
        (fun st => (st.left_index, st.right_index, st.mid_lines))
      = some (1, 5, [[Dbl.fin 20, Dbl.fin 0, Dbl.fin 60, Dbl.fin 4]])
    ∧ (forLoop (bandwidthStep peakExample 0 6) 2 0 {}).map
        (fun st => (st.left_index, st.right_index, st.mid_lines))
      = some (1, 5, [[Dbl.fin 20, Dbl.fin 0, Dbl.fin 60, Dbl.fin 4],
          [Dbl.fin 20, Dbl.fin 0, Dbl.fin 60, Dbl.fin 4]])
    ∧ (peakExample.Univariate evalEnv 0 6 "width" "Bandwidth" "").map
        (fun d => d.maps_.map (fun m => m.fwhm))
      = some [some (liftMat 4 [[20, 0, 60, 4], [20, 0, 60, 4]])]
    ∧ peakExample.spectra_.elem 0 1 = some (Dbl.fin 1)
    ∧ peakExample.spectra_.elem 0 5 = some (Dbl.fin 1)
    ∧ peakExample.spectra_.elem 1 1 = some (Dbl.fin 1)
    ∧ peakExample.spectra_.elem 1 5 = some (Dbl.fin 1)
    ∧ peakExample.spectra_.lin 1 = some (Dbl.fin 0)
    ∧ peakExample.spectra_.elem 1 0 = some (Dbl.fin 0)
    ∧ peakExample.spectra_.lin 5 = some (Dbl.fin 4)
    ∧ peakExample.spectra_.elem 1 2 = some (Dbl.fin 4) := by
  refine ⟨?_, ?_, ?_, ?_, ?_, ?_, ?_, ?_, ?_, ?_, ?_⟩ <;> with_unfolding_all decide

/-- C35 (defect of the code). The neighbour correction reads
`spectra_(i, right_index + 1)` and `spectra_(i, left_index - 1)` without a
check. On the spectrum `[1, 5]` with the window `[0, 1]` the maximum is at the
last channel, both edges are found there, and the correction of the right
edge reads channel 2 of a matrix with 2 columns: the call stops in an access
outside the matrix. -/
theorem Bandwidth_right_edge_example :
    rightEdgeExample.non_spatial_ = false
      ∧ rightEdgeExample.spectra_.n_cols = 2 ∧ rightEdgeExample.spectra_.n_rows = 1
      ∧ (bandwidthPeak rightEdgeExample 0 1 0 {}).map (fun r => (r.2.2.2.1, r.2.2.2.2))
          = some (1, Dbl.fin (15 / 2))
      ∧ bandwidthEdges 2 (liftVec [(1 : ℚ), 5]) (Dbl.fin (15 / 2)) 1 {} = some (1, 1)
      ∧ adjustLeft 2 (liftVec [(1 : ℚ), 5]) (Dbl.fin (15 / 2)) 1 = some 0
      ∧ rowElem 2 (liftVec [(1 : ℚ), 5]) 2 = none
      ∧ adjustRight 2 (liftVec [(1 : ℚ), 5]) (Dbl.fin (15 / 2)) 1 = none
      ∧ rightEdgeExample.Univariate evalEnv 0 1 "width" "Bandwidth" "" = none := by
  refine ⟨?_, ?_, ?_, ?_, ?_, ?_, ?_, ?_, ?_⟩ <;> with_unfolding_all decide

/-- C36 (defect of the code). `max_index`, `left_index` and `right_index` are
declared before the row loop, so an edge search that finds nothing leaves the
index of the row before. The two datasets have the same second spectrum
`[-4, 6, -4, -4, -4]`, the same wavelengths and the same window `[0, 4]`. Its
peak at channel 1 has no channel below the threshold 4 to its left, the left
edge is the one the first spectrum left (2 in one dataset, 1 in the other),
and the width reported for the second spectrum is 0 in one dataset and 20 in
the other. -/
theorem Bandwidth_carry_over_example :
    carryExampleA.spectra_.row 1 = carryExampleB.spectra_.row 1
      ∧ carryExampleA.wavelength_ = carryExampleB.wavelength_
      ∧ (forLoop (bandwidthStep carryExampleA 0 4) 1 0 {}).map
          (fun st => (st.left_index, st.right_index)) = some (2, 4)
      ∧ (forLoop (bandwidthStep carryExampleB 0 4) 1 0 {}).map
          (fun st => (st.left_index, st.right_index)) = some (1, 3)
      ∧ (bandwidthPeak carryExampleA 0 4 1 {}).map (fun r => (r.2.2.2.1, r.2.2.2.2))
          = some (1, Dbl.fin 4)
      ∧ findDown (belowHalf 5 (liftVec [(-4 : ℚ), 6, -4, -4, -4]) (Dbl.fin 4)) 1 = some none
      ∧ (carryExampleA.Univariate evalEnv 0 4 "width" "Bandwidth" "").map
          (fun d => d.maps_.map (fun m => m.results)) = some [liftVec [20, 0]]
      ∧ (carryExampleB.Univariate evalEnv 0 4 "width" "Bandwidth" "").map
          (fun d => d.maps_.map (fun m => m.results)) = some [liftVec [20, 20]] := by
  refine ⟨?_, ?_, ?_, ?_, ?_, ?_, ?_, ?_⟩ <;> with_unfolding_all decide

end MidLineExamples

section AffineProps

variable {K : Type} [LinearOrderedField K]

theorem addRamp_length (a c : K) (row : List K) : (addRamp a c row).length = row.length := by
  simp [addRamp]

theorem addRamp_getD (a c : K) (row : List K) (j : Nat) (hj : j < row.length) :
    (addRamp a c row).getD j 0 = row.getD j 0 + (a * (j : K) + c) := by
  simp [addRamp, List.getD_eq_getElem?_getD, List.getElem?_range hj, hj]

theorem scaleRow_length (s : K) (row : List K) : (scaleRow s row).length = row.length := by
  simp [scaleRow]

theorem scaleRow_getD (s : K) (row : List K) (j : Nat) :
    (scaleRow s row).getD j 0 = s * row.getD j 0 := by
  simp only [scaleRow, List.getD_eq_getElem?_getD, List.getElem?_map]
  cases row[j]? <;> simp

theorem sum_map_add {α : Type} (l : List α) (f g : α → K) :
    (l.map (fun a => f a + g a)).sum = (l.map f).sum + (l.map g).sum := by
  induction l with
  | nil => simp
  | cons a l ih => simp only [List.map_cons, List.sum_cons, ih]; ring

theorem sum_map_mul_left {α : Type} (l : List α) (s : K) (f : α → K) :
    (l.map (fun a => s * f a)).sum = s * (l.map f).sum := by
  induction l with
  | nil => simp
  | cons a l ih => simp only [List.map_cons, List.sum_cons, ih]; ring

/-- The area of the spec does not see an affine ramp. -/
theorem areaSpec_addRamp (a c : K) (row : List K) (min max : Nat) (hlt : min < max)
    (hmax : max < row.length) :
    areaSpec (addRamp a c row) min max = areaSpec row min max := by
  have hwin : windowSum (addRamp a c row) min max
      = windowSum row min max
        + ((List.range (max - min + 1)).map
            (fun (k : Nat) => (a * (min : K) + c) + (k : K) * a)).sum := by
    unfold windowSum
    rw [← sum_map_add]
    congr 1
    apply List.map_congr_left
    intro k hk
    have hk1 : k < max - min + 1 := List.mem_range.mp hk
    rw [addRamp_getD a c row (min + k) (by omega)]
    push_cast
    ring
  have hn : ((max - min + 1 : Nat) : K) = (max : K) - (min : K) + 1 := by
    rw [Nat.cast_add, Nat.cast_sub (le_of_lt hlt)]
    simp
  rw [areaSpec_closed_form _ min max hlt, areaSpec_closed_form row min max hlt, hwin,
    sum_map_affine, addRamp_getD a c row min (by omega), addRamp_getD a c row max hmax, hn]
  ring

/-- The area of the spec is homogeneous. -/
theorem areaSpec_scaleRow (s : K) (row : List K) (min max : Nat) (hlt : min < max) :
    areaSpec (scaleRow s row) min max = s * areaSpec row min max := by
  have hwin : windowSum (scaleRow s row) min max = s * windowSum row min max := by
    unfold windowSum
    rw [← sum_map_mul_left]
    congr 1
    apply List.map_congr_left
    intro k _
    exact scaleRow_getD s row (min + k)
  rw [areaSpec_closed_form _ min max hlt, areaSpec_closed_form row min max hlt, hwin,
    scaleRow_getD, scaleRow_getD]
  ring

/-- What the area method with a Riemann sum reports on finite spectra. -/
theorem Univariate_area_results (env : Env K) (d : VespucciDataset K) (M : Nat)
    (t : List (List K)) (min max : Nat) (name : String)
    (hs : d.spectra_ = liftMat M t) (hwf : ∀ r ∈ t, r.length = M)
    (hx : d.x_.length = t.length) (hw : d.wavelength_.length = M)
    (hsp : d.non_spatial_ = false) (hlt : min < max) (hmax : max < M) (hM : M ≤ UWORD) :
    ∃ m : MapData K,
      d.Univariate env min max name "Area" "Riemann Sum" = some (d.AddMap m)
        ∧ m.results = t.map (fun row => Dbl.fin (areaSpec row min max)) := by
  have hrows : ∀ i ∈ List.range d.x_.length, areaRow d min max i
      = some (Dbl.fin (areaSpec (t.getD i []) min max),
          liftVec ((List.range (max - min + 1)).map
            (fun k => linearBaseline (t.getD i []) min max (min + k)))) := by
    intro i hi
    have hi1 : i < t.length := by rw [← hx]; exact List.mem_range.mp hi
    exact areaRow_liftMat d M t min max i hs hi1 (hwf _ (getD_mem_of_lt t i [] hi1)) hlt hmax hM
  have hspan : span d.wavelength_ min max
      = some ((d.wavelength_.drop min).take (max - min + 1)) := by
    simp [span, le_of_lt hlt, hw, hmax]
  have hne1 : ¬ ("Area" = "Bandwidth") := by decide
  unfold VespucciDataset.Univariate
  rw [spatial_if d hsp]
  simp only [hne1, if_false, if_true, hspan, mapM_some_of_forall _ _ _ hrows]
  refine ⟨_, rfl, ?_⟩
  simp only [List.map_map, Function.comp]
  rw [hx]
  exact map_range_getD t [] (fun row => Dbl.fin (areaSpec row min max))

/-- C37. In exact arithmetic, on a spatial dataset of finite spectra with `M`
channels and a window `0 <= min < max < M`: the area method with a Riemann
sum reports for every row the area of the spec; adding the ramp `a * j + c`
to every row leaves the reported vector as it is, and multiplying every row
by `s` multiplies every reported value by `s`. -/
theorem Univariate_area_affine (env : Env K) (d : VespucciDataset K) (M : Nat)
    (t : List (List K)) (min max : Nat) (name : String) (a c s : K)
    (hs : d.spectra_ = liftMat M t) (hwf : ∀ r ∈ t, r.length = M)
    (hx : d.x_.length = t.length) (hw : d.wavelength_.length = M)
    (hsp : d.non_spatial_ = false) (hlt : min < max) (hmax : max < M) (hM : M ≤ UWORD) :
    (∀ row ∈ t, areaSpec (addRamp a c row) min max = areaSpec row min max
        ∧ areaSpec (scaleRow s row) min max = s * areaSpec row min max)
      ∧ ∃ m m1 m2 : MapData K,
        d.Univariate env min max name "Area" "Riemann Sum" = some (d.AddMap m)
          ∧ ({ d with spectra_ := liftMat M (t.map (addRamp a c)) } : VespucciDataset K).Univariate
              env min max name "Area" "Riemann Sum"
            = some (({ d with spectra_ := liftMat M (t.map (addRamp a c)) } :
                VespucciDataset K).AddMap m1)
          ∧ ({ d with spectra_ := liftMat M (t.map (scaleRow s)) } : VespucciDataset K).Univariate
              env min max name "Area" "Riemann Sum"
            = some (({ d with spectra_ := liftMat M (t.map (scaleRow s)) } :
                VespucciDataset K).AddMap m2)
          ∧ m.results = t.map (fun row => Dbl.fin (areaSpec row min max))
          ∧ m1.results = m.results
          ∧ m2.results = t.map (fun row => Dbl.fin (s * areaSpec row min max)) := by
  have hrow : ∀ row ∈ t, areaSpec (addRamp a c row) min max = areaSpec row min max
      ∧ areaSpec (scaleRow s row) min max = s * areaSpec row min max := by
    intro row hr
    exact ⟨areaSpec_addRamp a c row min max hlt (by rw [hwf row hr]; exact hmax),
      areaSpec_scaleRow s row min max hlt⟩
  obtain ⟨m, hm, hmr⟩ := Univariate_area_results env d M t min max name hs hwf hx hw hsp hlt hmax
    hM
  obtain ⟨m1, hm1, hmr1⟩ := Univariate_area_results env
    ({ d with spectra_ := liftMat M (t.map (addRamp a c)) } : VespucciDataset K) M
    (t.map (addRamp a c)) min max name rfl
    (by
      intro r hr
      obtain ⟨r0, hr0, hr1⟩ := List.mem_map.mp hr
      rw [← hr1, addRamp_length]
      exact hwf r0 hr0)
    (by rw [List.length_map]; exact hx) hw hsp hlt hmax hM
  obtain ⟨m2, hm2, hmr2⟩ := Univariate_area_results env
    ({ d with spectra_ := liftMat M (t.map (scaleRow s)) } : VespucciDataset K) M
    (t.map (scaleRow s)) min max name rfl
    (by
      intro r hr
      obtain ⟨r0, hr0, hr1⟩ := List.mem_map.mp hr
      rw [← hr1, scaleRow_length]
      exact hwf r0 hr0)
    (by rw [List.length_map]; exact hx) hw hsp hlt hmax hM
  refine ⟨hrow, m, m1, m2, hm, hm1, hm2, hmr, ?_, ?_⟩
  · rw [hmr1, hmr, List.map_map]
    apply List.map_congr_left
    intro row hr
    simp only [Function.comp, (hrow row hr).1]
  · rw [hmr2, List.map_map]
    apply List.map_congr_left
    intro row hr
    simp only [Function.comp, (hrow row hr).2]

end AffineProps

section AffineExamples

theorem Univariate_area_affine_witness :
    peakExample.spectra_ = liftMat 7 [[0, 1, 2, 3, 2, 1, 0], [0, 1, 4, 10, 4, 1, 0]]
      ∧ (∀ r ∈ [[(0 : ℚ), 1, 2, 3, 2, 1, 0], [0, 1, 4, 10, 4, 1, 0]], r.length = 7)
      ∧ peakExample.x_.length = [[(0 : ℚ), 1, 2, 3, 2, 1, 0], [0, 1, 4, 10, 4, 1, 0]].length
      ∧ peakExample.wavelength_.length = 7
      ∧ peakExample.non_spatial_ = false
      ∧ 1 < 5 ∧ 5 < 7 ∧ 7 ≤ UWORD
      ∧ ((∀ row ∈ [[(0 : ℚ), 1, 2, 3, 2, 1, 0], [0, 1, 4, 10, 4, 1, 0]],
            areaSpec (addRamp 2 3 row) 1 5 = areaSpec row 1 5
              ∧ areaSpec (scaleRow 4 row) 1 5 = 4 * areaSpec row 1 5)
        ∧ ∃ m m1 m2 : MapData ℚ,
          peakExample.Univariate evalEnv 1 5 "area" "Area" "Riemann Sum"
              = some (peakExample.AddMap m)
            ∧ ({ peakExample with
                  spectra_ := liftMat 7 ([[(0 : ℚ), 1, 2, 3, 2, 1, 0],
                    [0, 1, 4, 10, 4, 1, 0]].map (addRamp 2 3)) } : VespucciDataset ℚ).Univariate
                evalEnv 1 5 "area" "Area" "Riemann Sum"
              = some (({ peakExample with
                  spectra_ := liftMat 7 ([[(0 : ℚ), 1, 2, 3, 2, 1, 0],
                    [0, 1, 4, 10, 4, 1, 0]].map (addRamp 2 3)) } : VespucciDataset ℚ).AddMap m1)
            ∧ ({ peakExample with
                  spectra_ := liftMat 7 ([[(0 : ℚ), 1, 2, 3, 2, 1, 0],
                    [0, 1, 4, 10, 4, 1, 0]].map (scaleRow 4)) } : VespucciDataset ℚ).Univariate
                evalEnv 1 5 "area" "Area" "Riemann Sum"
              = some (({ peakExample with
                  spectra_ := liftMat 7 ([[(0 : ℚ), 1, 2, 3, 2, 1, 0],
                    [0, 1, 4, 10, 4, 1, 0]].map (scaleRow 4)) } : VespucciDataset ℚ).AddMap m2)
            ∧ m.results = [[(0 : ℚ), 1, 2, 3, 2, 1, 0], [0, 1, 4, 10, 4, 1, 0]].map
                (fun row => Dbl.fin (areaSpec row 1 5))
            ∧ m1.results = m.results
            ∧ m2.results = [[(0 : ℚ), 1, 2, 3, 2, 1, 0], [0, 1, 4, 10, 4, 1, 0]].map
                (fun row => Dbl.fin (4 * areaSpec row 1 5))) :=
  ⟨rfl, by decide, by decide, by decide, rfl, by decide, by decide, by decide,
    Univariate_area_affine evalEnv peakExample 7
      [[0, 1, 2, 3, 2, 1, 0], [0, 1, 4, 10, 4, 1, 0]] 1 5 "area" 2 3 4 rfl (by decide)
      (by decide) (by decide) rfl (by decide) (by decide) (by decide)⟩

/-- Evaluation on the window `[1, 5]`: the areas of the two spectra are 4 and
15; with the ramp `2 * j + 3` added they are 4 and 15 again; with the spectra
multiplied by 4 they are 16 and 60. -/
theorem Univariate_area_affine_example :
    (peakExample.Univariate evalEnv 1 5 "area" "Area" "Riemann Sum").map
        (fun d => d.maps_.map (fun m => m.results)) = some [liftVec [4, 15]]
      ∧ [[(0 : ℚ), 1, 2, 3, 2, 1, 0], [0, 1, 4, 10, 4, 1, 0]].map (addRamp 2 3)
        = [[3, 6, 9, 12, 13, 14, 15], [3, 6, 11, 19, 15, 14, 15]]
      ∧ (({ peakExample with
            spectra_ := liftMat 7 [[3, 6, 9, 12, 13, 14, 15], [3, 6, 11, 19, 15, 14, 15]] } :
          VespucciDataset ℚ).Univariate evalEnv 1 5 "area" "Area" "Riemann Sum").map
        (fun d => d.maps_.map (fun m => m.results)) = some [liftVec [4, 15]]
      ∧ (({ peakExample with
            spectra_ := liftMat 7 [[0, 4, 8, 12, 8, 4, 0], [0, 4, 16, 40, 16, 4, 0]] } :
          VespucciDataset ℚ).Univariate evalEnv 1 5 "area" "Area" "Riemann Sum").map
        (fun d => d.maps_.map (fun m => m.results)) = some [liftVec [16, 60]] := by
  refine ⟨?_, ?_, ?_, ?_⟩ <;> with_unfolding_all decide

end AffineExamples

section FlagProps

variable {K : Type} [LinearOrderedField K]

/-- A transform that returns on a dataset with the z-score flag set leaves the
flag set. -/
theorem transform_zflag (env : Env K) (T : Transform K) (d d1 : VespucciDataset K)
    (h : T.apply env d = some d1) (hz : d.z_scores_calculated_ = true) :
    d1.z_scores_calculated_ = true := by
  cases T with
  | MinMaxNormalize =>
    simp only [Transform.apply, VespucciDataset.MinMaxNormalize] at h
    split at h
    · simp at h
    · split at h
      · simp at h
      · simp only [Option.some.injEq] at h
        rw [← h]
        exact hz
  | UnitAreaNormalize =>
    simp only [Transform.apply, VespucciDataset.UnitAreaNormalize, Option.some.injEq] at h
    rw [← h]
    exact hz
  | ZScoreNormalize =>
    simp only [Transform.apply, VespucciDataset.ZScoreNormalize] at h
    split at h
    · simp at h
    · simp only [Option.some.injEq] at h
      rw [← h]
  | SubtractBackground background =>
    simp only [Transform.apply, VespucciDataset.SubtractBackground] at h
    split at h
    · simp only [Option.some.injEq] at h
      rw [← h]
      exact hz
    · split at h
      · simp at h
      · simp only [Option.some.injEq] at h
        rw [← h]
        exact hz
  | Baseline method window_size =>
    simp only [Transform.apply, VespucciDataset.Baseline] at h
    split at h
    · split at h
      · simp at h
      · split at h
        · simp at h
        · simp only [Option.some.injEq] at h
          rw [← h]
          exact hz
    · simp only [Option.some.injEq] at h
      rw [← h]
      exact hz
  | MedianFilter window_size =>
    simp only [Transform.apply, VespucciDataset.MedianFilter] at h
    split at h
    · simp at h
    · simp only [Option.some.injEq] at h
      rw [← h]
      exact hz

theorem Univariate_zflag (env : Env K) (d d1 : VespucciDataset K) (min max : Nat)
    (name value_method integration_method : String)
    (h : d.Univariate env min max name value_method integration_method = some d1) :
    d1.z_scores_calculated_ = d.z_scores_calculated_ := by
  cases hsp : d.non_spatial_
  · obtain ⟨m, hm, _⟩ := Univariate_appends_map env d d1 min max name value_method
      integration_method hsp h
    rw [hm]
    rfl
  · unfold VespucciDataset.Univariate at h
    rw [hsp, if_pos rfl] at h
    rw [← Option.some.inj h]

theorem BandRatio_zflag (env : Env K) (d d1 : VespucciDataset K)
    (first_min first_max second_min second_max : Nat)
    (name value_method integration_method : String)
    (h : d.BandRatio env first_min first_max second_min second_max name value_method
      integration_method = some d1) :
    d1.z_scores_calculated_ = d.z_scores_calculated_ := by
  unfold VespucciDataset.BandRatio at h
  simp only at h
  repeat' split at h
  all_goals first
    | (cases h; rfl)
    | cases h

omit [LinearOrderedField K] in
theorem PrincipalComponents_zflag (env : Env K) (d d1 : VespucciDataset K) (component : Int)
    (name : String) (recalculate ok : Bool)
    (h : d.PrincipalComponents env component name recalculate ok = some d1) :
    d1.z_scores_calculated_ = d.z_scores_calculated_ := by
  unfold VespucciDataset.PrincipalComponents at h
  simp only at h
  repeat' split at h
  all_goals first
    | (cases h; rfl)
    | cases h

omit [LinearOrderedField K] in
theorem VertexComponents_zflag (env : Env K) (d d1 : VespucciDataset K)
    (endmembers image_component : Nat) (name : String) (recalculate : Bool)
    (h : d.VertexComponents env endmembers image_component name recalculate = some d1) :
    d1.z_scores_calculated_ = d.z_scores_calculated_ := by
  unfold VespucciDataset.VertexComponents at h
  simp only at h
  repeat' split at h
  all_goals first
    | (cases h; rfl)
    | cases h

omit [LinearOrderedField K] in
theorem PartialLeastSquares_zflag (env : Env K) (d d1 : VespucciDataset K)
    (components image_component : Nat) (name : String) (recalculate : Bool)
    (h : d.PartialLeastSquares env components image_component name recalculate = some d1) :
    d1.z_scores_calculated_ = d.z_scores_calculated_ := by
  unfold VespucciDataset.PartialLeastSquares at h
  simp only at h
  repeat' split at h
  all_goals first
    | (cases h; rfl)
    | cases h

theorem KMeans_zflag (env : Env K) (d d1 : VespucciDataset K) (clusters : Nat) (name : String)
    (h : d.KMeans env clusters name = some d1) :
    d1.z_scores_calculated_ = d.z_scores_calculated_ := by
  unfold VespucciDataset.KMeans at h
  simp only at h
  repeat' split at h
  all_goals (cases h; rfl)

omit [LinearOrderedField K] in
theorem removeMapLoop_zflag (name : String) :
    ∀ (fuel i : Nat) (d : VespucciDataset K),
      (removeMapLoop name fuel i d).z_scores_calculated_ = d.z_scores_calculated_ := by
  intro fuel
  induction fuel with
  | zero => intro i d; rfl
  | succ fuel ih =>
    intro i d
    unfold removeMapLoop
    by_cases hi : i < d.map_names_.length
    · rw [if_pos hi]
      by_cases hn : d.map_names_.getD i "" = name
      · rw [if_pos hn]
        exact ih (i + 1) (d.RemoveMapAt i)
      · rw [if_neg hn]
        exact ih (i + 1) d
    · rw [if_neg hi]

/-- No call clears the z-score flag. -/
theorem call_zflag (env : Env K) (c : Call K) (d d1 : VespucciDataset K)
    (h : c.apply env d = some d1) (hz : d.z_scores_calculated_ = true) :
    d1.z_scores_calculated_ = true := by
  cases c with
  | op o =>
    cases o with
    | crop x_min x_max y_min y_max =>
      simp only [Call.apply, Op.apply] at h
      unfold VespucciDataset.CropSpectra at h
      split at h
      · cases h
        exact hz
      · cases h
    | transform T => exact transform_zflag env T d d1 h hz
    | undo =>
      simp only [Call.apply, Op.apply, Option.some.injEq] at h
      rw [← h]
      exact hz
  | linearMovingAverage filtered =>
    cases filtered with
    | none => cases h
    | some s =>
      cases h
      exact hz
  | singularValue reconstructed =>
    cases reconstructed with
    | none => cases h
    | some s =>
      cases h
      exact hz
  | derivatize filtered =>
    cases filtered with
    | none => cases h
    | some s =>
      cases h
      exact hz
  | univariate min max name value_method integration_method =>
    rw [Univariate_zflag env d d1 min max name value_method integration_method h]
    exact hz
  | bandRatio first_min first_max second_min second_max name value_method integration_method =>
    rw [BandRatio_zflag env d d1 first_min first_max second_min second_max name value_method
      integration_method h]
    exact hz
  | principalComponents component name recalculate ok =>
    rw [PrincipalComponents_zflag env d d1 component name recalculate ok h]
    exact hz
  | vertexComponents endmembers image_component name recalculate =>
    rw [VertexComponents_zflag env d d1 endmembers image_component name recalculate h]
    exact hz
  | partialLeastSquares components image_component name recalculate =>
    rw [PartialLeastSquares_zflag env d d1 components image_component name recalculate h]
    exact hz
  | kMeans clusters name =>
    rw [KMeans_zflag env d d1 clusters name h]
    exact hz
  | setData spectra wavelength x y =>
    simp only [Call.apply, Option.some.injEq] at h
    rw [← h]
    exact hz
  | addMap m =>
    simp only [Call.apply, Option.some.injEq] at h
    rw [← h]
    exact hz
  | removeMapAt i =>
    simp only [Call.apply, Option.some.injEq] at h
    rw [← h]
    exact hz
  | removeMap name =>
    simp only [Call.apply, Option.some.injEq] at h
    rw [← h]
    exact (removeMapLoop_zflag name _ _ d).trans hz

theorem runCalls_zflag (env : Env K) :
    ∀ (calls : List (Call K)) (d d1 : VespucciDataset K), runCalls env calls d = some d1 →
      d.z_scores_calculated_ = true → d1.z_scores_calculated_ = true := by
  intro calls
  induction calls with
  | nil =>
    intro d d1 h hz
    simp only [runCalls, Option.some.injEq] at h
    rw [← h]
    exact hz
  | cons c cs ih =>
    intro d d1 h hz
    simp only [runCalls] at h
    cases hc : c.apply env d with
    | none => rw [hc] at h; cases h
    | some d2 =>
      rw [hc, Option.some_bind] at h
      exact ih d2 d1 h (call_zflag env c d d2 hc hz)

/-- C38. Once `ZScoreNormalize` has returned, the z-score flag is set and
stays set through every finite sequence of later calls that returns (`Undo`,
the transforms, `CropSpectra`, the library filters, the six mapping
functions, `SetData` and the registry calls). In particular `Undo` right
after `ZScoreNormalize` gives the original spectra back with the flag still
set, and on a spatial dataset `Univariate` with "Intensity" then runs the
sign-correcting row loop. -/
theorem zscore_flag_persists (env : Env K) (d d1 d2 : VespucciDataset K)
    (calls : List (Call K)) (min max : Nat) (name integration_method : String)
    (hz : d.ZScoreNormalize env = some d1) (hrun : runCalls env calls d1 = some d2) :
    d1.z_scores_calculated_ = true
      ∧ d2.z_scores_calculated_ = true
      ∧ d1.Undo.spectra_ = d.spectra_
      ∧ d1.Undo.z_scores_calculated_ = true
      ∧ (d.non_spatial_ = false →
          d1.Undo.Univariate env min max name "Intensity" integration_method
            = ((List.range d.x_.length).mapM (intensityRowZ d1.Undo min max)).map
                (fun results => d1.Undo.AddMap
                  { name := name,
                    map_type := "1-Region Univariate (Intensity)",
                    x := d.x_,
                    y := d.y_,
                    results := results })) := by
  have h1 : d1 = { d with
      spectra_old_ := d.spectra_,
      spectra_ := d1.spectra_,
      z_scores_calculated_ := true,
      last_operation_ := "Z-score normalize" } := by
    unfold VespucciDataset.ZScoreNormalize at hz
    split at hz
    · cases hz
    · cases hz
      rfl
  have hflag : d1.z_scores_calculated_ = true := by rw [h1]
  have hold : d1.spectra_old_ = d.spectra_ := by rw [h1]
  have hx : d1.x_ = d.x_ := by rw [h1]
  have hy : d1.y_ = d.y_ := by rw [h1]
  have hsp : d1.non_spatial_ = d.non_spatial_ := by rw [h1]
  refine ⟨hflag, runCalls_zflag env calls d1 d2 hrun hflag, hold, hflag, ?_⟩
  intro hspatial
  have hsp1 : d1.Undo.non_spatial_ = false := by
    show d1.non_spatial_ = false
    rw [hsp]
    exact hspatial
  have hz1 : d1.Undo.z_scores_calculated_ = true := hflag
  have hx1 : d1.Undo.x_ = d.x_ := hx
  have hy1 : d1.Undo.y_ = d.y_ := hy
  have hne1 : ¬ ("Intensity" = "Bandwidth") := by decide
  have hne2 : ¬ ("Intensity" = "Area") := by decide
  have hne3 : ¬ ("Intensity" = "Derivative") := by decide
  unfold VespucciDataset.Univariate
  rw [spatial_if d1.Undo hsp1]
  simp only [hne1, hne2, hne3, if_false, hz1, if_true, hx1, hy1]
  cases (List.range d.x_.length).mapM (intensityRowZ d1.Undo min max) <;> rfl

end FlagProps

section FlagExamples

theorem zscore_flag_persists_witness :
    flagExample.ZScoreNormalize evalEnv = some flagNormalized
      ∧ runCalls evalEnv
          [Call.op Op.undo, Call.op (Op.transform Transform.UnitAreaNormalize),
            Call.op (Op.crop 0 1 0 0), Call.univariate 0 1 "peak" "Intensity" "",
            Call.op Op.undo]
          flagNormalized
        = some (((flagNormalized.Undo.UnitAreaNormalize.CropSpectra 0 1 0 0).bind
            (fun d => d.Univariate evalEnv 0 1 "peak" "Intensity" "")).getD flagNormalized).Undo
      ∧ flagNormalized.z_scores_calculated_ = true
      ∧ (((flagNormalized.Undo.UnitAreaNormalize.CropSpectra 0 1 0 0).bind
            (fun d => d.Univariate evalEnv 0 1 "peak" "Intensity" "")).getD
              flagNormalized).Undo.z_scores_calculated_ = true
      ∧ flagNormalized.Undo.spectra_ = flagExample.spectra_
      ∧ flagNormalized.Undo.z_scores_calculated_ = true
      ∧ (flagExample.non_spatial_ = false →
          flagNormalized.Undo.Univariate evalEnv 0 1 "peak" "Intensity" ""
            = ((List.range flagExample.x_.length).mapM (intensityRowZ flagNormalized.Undo 0 1)).map
                (fun results => flagNormalized.Undo.AddMap
                  { name := "peak",
                    map_type := "1-Region Univariate (Intensity)",
                    x := flagExample.x_,
                    y := flagExample.y_,
                    results := results })) :=
  ⟨by with_unfolding_all decide, by with_unfolding_all decide,
    zscore_flag_persists evalEnv flagExample flagNormalized _
      [Call.op Op.undo, Call.op (Op.transform Transform.UnitAreaNormalize),
        Call.op (Op.crop 0 1 0 0), Call.univariate 0 1 "peak" "Intensity" "", Call.op Op.undo]
      0 1 "peak" "" (by with_unfolding_all decide) (by with_unfolding_all decide)⟩

/-- Evaluation: `ZScoreNormalize` then `Undo` on `flagExample` gives the
original spectra back; `Univariate` "Intensity" over the window `[0, 1]` then
reports -3 for the first row, where the dataset that was never normalised
reports 2. -/
theorem zscore_flag_persists_example :
    (flagExample.ZScoreNormalize evalEnv).map (fun d => d.Undo.spectra_)
        = some flagExample.spectra_
      ∧ ((flagExample.ZScoreNormalize evalEnv).bind
          (fun d => d.Undo.Univariate evalEnv 0 1 "peak" "Intensity" "")).map
            (fun d => d.maps_.map (fun m => m.results))
        = some [liftVec [-3, 6, 4]]
      ∧ (flagExample.Univariate evalEnv 0 1 "peak" "Intensity" "").map
            (fun d => d.maps_.map (fun m => m.results))
        = some [liftVec [2, 6, 4]] := by
  refine ⟨?_, ?_, ?_⟩ <;> with_unfolding_all decide

end FlagExamples

section FrameProps

variable {K : Type} [LinearOrderedField K]

/-- C39. Each of `MinMaxNormalize`, `UnitAreaNormalize`, `ZScoreNormalize`,
`SubtractBackground`, `Baseline` and `MedianFilter`, whenever it returns,
leaves `x`, `y`, the wavelength axis, the non-spatial flag, the cached
PCA/VCA/PLS/k-means objects with their calculated-flags and the map registry
(maps, names, counter) as they were, and keeps the row and column counts of
the spectra; `Undo`, before or after it, leaves the same members as they
were. -/
theorem transform_frame_effect (env : Env K) (T : Transform K) (d d1 : VespucciDataset K)
    (h : T.apply env d = some d1) :
    (d1.x_ = d.x_ ∧ d1.y_ = d.y_ ∧ d1.wavelength_ = d.wavelength_
        ∧ d1.non_spatial_ = d.non_spatial_
        ∧ d1.principal_components_calculated_ = d.principal_components_calculated_
        ∧ d1.principal_components_data_ = d.principal_components_data_
        ∧ d1.vertex_components_calculated_ = d.vertex_components_calculated_
        ∧ d1.vertex_components_data_ = d.vertex_components_data_
        ∧ d1.partial_least_squares_calculated_ = d.partial_least_squares_calculated_
        ∧ d1.partial_least_squares_data_ = d.partial_least_squares_data_
        ∧ d1.k_means_calculated_ = d.k_means_calculated_
        ∧ d1.k_means_data_ = d.k_means_data_
        ∧ d1.maps_ = d.maps_ ∧ d1.map_names_ = d.map_names_
        ∧ d1.map_loading_count_ = d.map_loading_count_)
      ∧ d1.spectra_.n_rows = d.spectra_.n_rows ∧ d1.spectra_.n_cols = d.spectra_.n_cols
      ∧ d.Undo.frame = d.frame ∧ d1.Undo.frame = d.frame := by
  have hf := transform_frame env T d d1 h
  obtain ⟨_, _, _, hr, hc⟩ := transform_shape env T d d1 h
  refine ⟨⟨?_, ?_, ?_, ?_, ?_, ?_, ?_, ?_, ?_, ?_, ?_, ?_, ?_, ?_, ?_⟩, hr, hc, rfl, hf⟩
  · exact congrArg (fun e => e.x_) hf
  · exact congrArg (fun e => e.y_) hf
  · exact congrArg (fun e => e.wavelength_) hf
  · exact congrArg (fun e => e.non_spatial_) hf
  · exact congrArg (fun e => e.principal_components_calculated_) hf
  · exact congrArg (fun e => e.principal_components_data_) hf
  · exact congrArg (fun e => e.vertex_components_calculated_) hf
  · exact congrArg (fun e => e.vertex_components_data_) hf
  · exact congrArg (fun e => e.partial_least_squares_calculated_) hf
  · exact congrArg (fun e => e.partial_least_squares_data_) hf
  · exact congrArg (fun e => e.k_means_calculated_) hf
  · exact congrArg (fun e => e.k_means_data_) hf
  · exact congrArg (fun e => e.maps_) hf
  · exact congrArg (fun e => e.map_names_) hf
  · exact congrArg (fun e => e.map_loading_count_) hf

omit [LinearOrderedField K] in
/-- The members that `frame` keeps are the ones `Undo` does not touch, field
by field. -/
theorem Undo_frame_fields (d : VespucciDataset K) :
    d.Undo.x_ = d.x_ ∧ d.Undo.y_ = d.y_ ∧ d.Undo.wavelength_ = d.wavelength_
      ∧ d.Undo.non_spatial_ = d.non_spatial_
      ∧ d.Undo.principal_components_calculated_ = d.principal_components_calculated_
      ∧ d.Undo.principal_components_data_ = d.principal_components_data_
      ∧ d.Undo.vertex_components_calculated_ = d.vertex_components_calculated_
      ∧ d.Undo.vertex_components_data_ = d.vertex_components_data_
      ∧ d.Undo.partial_least_squares_calculated_ = d.partial_least_squares_calculated_
      ∧ d.Undo.partial_least_squares_data_ = d.partial_least_squares_data_
      ∧ d.Undo.maps_ = d.maps_ ∧ d.Undo.map_names_ = d.map_names_
      ∧ d.Undo.map_loading_count_ = d.map_loading_count_ :=
  ⟨rfl, rfl, rfl, rfl, rfl, rfl, rfl, rfl, rfl, rfl, rfl, rfl, rfl⟩

end FrameProps

section FrameExamples

theorem transform_frame_effect_witness :
    Transform.ZScoreNormalize.apply evalEnv flagExample = some flagNormalized
      ∧ ((flagNormalized.x_ = flagExample.x_ ∧ flagNormalized.y_ = flagExample.y_
          ∧ flagNormalized.wavelength_ = flagExample.wavelength_
          ∧ flagNormalized.non_spatial_ = flagExample.non_spatial_
          ∧ flagNormalized.principal_components_calculated_
            = flagExample.principal_components_calculated_
          ∧ flagNormalized.principal_components_data_ = flagExample.principal_components_data_
          ∧ flagNormalized.vertex_components_calculated_
            = flagExample.vertex_components_calculated_
          ∧ flagNormalized.vertex_components_data_ = flagExample.vertex_components_data_
          ∧ flagNormalized.partial_least_squares_calculated_
            = flagExample.partial_least_squares_calculated_
          ∧ flagNormalized.partial_least_squares_data_
            = flagExample.partial_least_squares_data_
          ∧ flagNormalized.k_means_calculated_ = flagExample.k_means_calculated_
          ∧ flagNormalized.k_means_data_ = flagExample.k_means_data_
          ∧ flagNormalized.maps_ = flagExample.maps_
          ∧ flagNormalized.map_names_ = flagExample.map_names_
          ∧ flagNormalized.map_loading_count_ = flagExample.map_loading_count_)
        ∧ flagNormalized.spectra_.n_rows = flagExample.spectra_.n_rows
        ∧ flagNormalized.spectra_.n_cols = flagExample.spectra_.n_cols
        ∧ flagExample.Undo.frame = flagExample.frame
        ∧ flagNormalized.Undo.frame = flagExample.frame) :=
  ⟨by with_unfolding_all decide,
    transform_frame_effect evalEnv Transform.ZScoreNormalize flagExample flagNormalized
      (by with_unfolding_all decide)⟩

set_option maxRecDepth 16000 in
/-- Evaluation on a dataset with two maps in its registry: the six
transforms and `Undo` return with everything but the spectra, the snapshot,
the label and the z-score flag as it was; `Undo` on the cropped dataset of
`croppedExample` changes the row count, which is why the counts are stated
for the six transforms only. -/
theorem transform_frame_effect_example :
    ([Transform.MinMaxNormalize, Transform.UnitAreaNormalize, Transform.ZScoreNormalize,
        Transform.SubtractBackground (liftMat 7 [[1, 1, 1, 1, 1, 1, 1]]),
        Transform.Baseline "Median Filter" 3, Transform.MedianFilter 3].map
        (fun T => (T.apply evalEnv registryExample).map (fun d => d.frame)))
        = List.replicate 6 (some registryExample.frame)
      ∧ registryExample.Undo.frame = registryExample.frame
      ∧ croppedExample.Undo.spectra_.n_rows ≠ croppedExample.spectra_.n_rows := by
  refine ⟨?_, ?_, ?_⟩ <;> with_unfolding_all decide

end FrameExamples

section LoopProps

variable {K : Type} [LinearOrderedField K]

/-- The loop of `CropSpectra` started behind a prefix of kept rows takes more
than `fuel` iterations when fewer than the remaining rows are paid for. -/
theorem cropLoop_short (x_min x_max y_min y_max : K) (m : Nat) :
    ∀ (rx ry : List K) (rs : List (Vec K)) (px py : List K) (ps : List (Vec K)) (fuel : Nat),
      rx.length = ry.length → rx.length = rs.length →
      px.length = py.length → px.length = ps.length → fuel < rx.length →
      cropLoop x_min x_max y_min y_max fuel (px.length : Int) ((px ++ rx).length : Int)
          ({ n_cols := m, rows := ps ++ rs }, px ++ rx, py ++ ry) = none := by
  intro rx
  induction rx with
  | nil =>
    intro ry rs px py ps fuel _ _ _ _ hf
    simp at hf
  | cons a rx ih =>
    intro ry rs px py ps fuel hy hs hpy hps hf
    obtain ⟨b, ry, rfl⟩ : ∃ b t, ry = b :: t := by
      cases ry with
      | nil => simp at hy
      | cons b t => exact ⟨b, t, rfl⟩
    obtain ⟨r, rs, rfl⟩ : ∃ r t, rs = r :: t := by
      cases rs with
      | nil => simp at hs
      | cons r t => exact ⟨r, t, rfl⟩
    have hlt : (px.length : Int) < ((px ++ a :: rx).length : Int) := by
      simp
    cases fuel with
    | zero =>
      unfold cropLoop
      simp only [hlt, if_true]
    | succ fuel =>
      simp only [List.length_cons, add_left_inj, add_lt_add_iff_right] at hy hs hf
      have hnn : ¬ ((px.length : Int) < 0) := by omega
      unfold cropLoop
      simp only [hlt, if_true, hnn, if_false, Int.toNat_ofNat, vget_append_length]
      rw [hpy, vget_append_length, ← hpy]
      by_cases hout : cropOutside x_min x_max y_min y_max a b = true
      · simp only [hout, if_true]
        rw [shed_row_append_length]
        rw [hpy, shed_row_append_length, ← hpy]
        rw [hps, mat_shed_row_append_length, ← hps]
        have e1 : (px.length : Int) - 1 + 1 = (px.length : Int) := by omega
        have e2 : ((px ++ a :: rx).length : Int) - 1 = ((px ++ rx).length : Int) := by
          simp; omega
        simp only [e1, e2]
        exact ih ry rs px py ps fuel hy hs hpy hps hf
      · simp only [hout]
        have e1 : (px.length : Int) + 1 = ((px ++ [a]).length : Int) := by simp
        have e2 : ((px ++ a :: rx).length : Int) = (((px ++ [a]) ++ rx).length : Int) := by
          simp
        have e3 : px ++ a :: rx = (px ++ [a]) ++ rx := by simp
        have e4 : py ++ b :: ry = (py ++ [b]) ++ ry := by simp
        have e5 : ps ++ r :: rs = (ps ++ [r]) ++ rs := by simp
        rw [e1, e2, e3, e4, e5]
        exact ih ry rs (px ++ [a]) (py ++ [b]) (ps ++ [r]) fuel hy hs (by simp [hpy])
          (by simp [hps]) hf

/-- One iteration of the loop of `CropSpectra` in a run that returns: the
index read lies within `x` and `y`, and the run goes on from a state whose
`max - i` is one less. -/
theorem cropLoop_iteration (x_min x_max y_min y_max : K) (fuel : Nat) (i max : Int)
    (s : Mat K) (x y : List K) (r : Mat K × List K × List K) (hlt : i < max)
    (h : cropLoop x_min x_max y_min y_max (fuel + 1) i max (s, x, y) = some r) :
    0 ≤ i ∧ i.toNat < x.length ∧ i.toNat < y.length
      ∧ ∃ (i1 max1 : Int) (st1 : Mat K × List K × List K),
          cropLoop x_min x_max y_min y_max fuel i1 max1 st1 = some r
            ∧ max1 - i1 = max - i - 1 := by
  unfold cropLoop at h
  simp only [hlt, if_true] at h
  by_cases hneg : i < 0
  · simp [hneg] at h
  · simp only [hneg, if_false] at h
    cases hx : vget x i.toNat with
    | none => simp [hx] at h
    | some xi =>
      cases hy : vget y i.toNat with
      | none => simp [hx, hy] at h
      | some yi =>
        have hxl : i.toNat < x.length := by
          by_contra hge
          have hnone : vget x i.toNat = none := by
            unfold vget
            exact List.getElem?_eq_none (by omega)
          rw [hnone] at hx
          cases hx
        have hyl : i.toNat < y.length := by
          by_contra hge
          have hnone : vget y i.toNat = none := by
            unfold vget
            exact List.getElem?_eq_none (by omega)
          rw [hnone] at hy
          cases hy
        refine ⟨by omega, hxl, hyl, ?_⟩
        simp only [hx, hy] at h
        by_cases hout : cropOutside x_min x_max y_min y_max xi yi = true
        · simp only [hout, if_true] at h
          cases hs1 : s.shed_row i.toNat with
          | none => simp [hs1] at h
          | some s1 =>
            cases hx1 : shed_row x i.toNat with
            | none => simp [hs1, hx1] at h
            | some x1 =>
              cases hy1 : shed_row y i.toNat with
              | none => simp [hs1, hx1, hy1] at h
              | some y1 =>
                simp only [hs1, hx1, hy1] at h
                exact ⟨_, _, _, h, by omega⟩
        · simp only [hout] at h
          exact ⟨_, _, _, h, by omega⟩

/-- C40. On a dataset whose `x`, `y` and spectra have the same number `N` of
rows, and for every rectangle: the loop of `CropSpectra` returns when `N`
iterations (or more) are paid for and does not when fewer are, so it takes
exactly `N` iterations, and `CropSpectra` returns; in any run of the loop
that returns, each iteration reads `x` and `y` at an index within their
current length and goes on with `max - i` one less, whether or not it deleted
a row. -/
theorem CropSpectra_loop_iterations (d : VespucciDataset K) (x_min x_max y_min y_max : K)
    (hx : d.x_.length = d.spectra_.n_rows) (hy : d.y_.length = d.spectra_.n_rows) :
    (∀ fuel : Nat, d.x_.length ≤ fuel →
        cropLoop x_min x_max y_min y_max fuel 0 d.x_.length (d.spectra_, d.x_, d.y_)
          = some ({ d.spectra_ with
                rows := applyMask (keepMask x_min x_max y_min y_max d.x_ d.y_) d.spectra_.rows },
              applyMask (keepMask x_min x_max y_min y_max d.x_ d.y_) d.x_,
              applyMask (keepMask x_min x_max y_min y_max d.x_ d.y_) d.y_))
      ∧ (∀ fuel : Nat, fuel < d.x_.length →
        cropLoop x_min x_max y_min y_max fuel 0 d.x_.length (d.spectra_, d.x_, d.y_) = none)
      ∧ (∃ d1, d.CropSpectra x_min x_max y_min y_max = some d1)
      ∧ (∀ (fuel : Nat) (i max : Int) (s : Mat K) (x y : List K) (r : Mat K × List K × List K),
          i < max → cropLoop x_min x_max y_min y_max (fuel + 1) i max (s, x, y) = some r →
          0 ≤ i ∧ i.toNat < x.length ∧ i.toNat < y.length
            ∧ ∃ (i1 max1 : Int) (st1 : Mat K × List K × List K),
                cropLoop x_min x_max y_min y_max fuel i1 max1 st1 = some r
                  ∧ max1 - i1 = max - i - 1) := by
  have hxy : d.x_.length = d.y_.length := by rw [hx, hy]
  have hxs : d.x_.length = d.spectra_.rows.length := by rw [hx]; rfl
  refine ⟨?_, ?_, ?_, ?_⟩
  · intro fuel hf
    have h := cropLoop_spec x_min x_max y_min y_max d.spectra_.n_cols d.x_ d.y_ d.spectra_.rows
      [] [] [] fuel hxy hxs rfl rfl hf
    simp only [List.length_nil, Nat.cast_zero, List.nil_append] at h
    exact h
  · intro fuel hf
    have h := cropLoop_short x_min x_max y_min y_max d.spectra_.n_cols d.x_ d.y_ d.spectra_.rows
      [] [] [] fuel hxy hxs rfl rfl hf
    simp only [List.length_nil, Nat.cast_zero, List.nil_append] at h
    exact h
  · exact ⟨_, CropSpectra_of_lengths d x_min x_max y_min y_max hx hy⟩
  · intro fuel i max s x y r hlt h
    exact cropLoop_iteration x_min x_max y_min y_max fuel i max s x y r hlt h

end LoopProps

section LoopExamples

theorem CropSpectra_loop_iterations_witness :
    cropExample.x_.length = cropExample.spectra_.n_rows
      ∧ cropExample.y_.length = cropExample.spectra_.n_rows
      ∧ ((∀ fuel : Nat, cropExample.x_.length ≤ fuel →
          cropLoop 0 1 0 1 fuel 0 cropExample.x_.length
              (cropExample.spectra_, cropExample.x_, cropExample.y_)
            = some ({ cropExample.spectra_ with
                  rows := applyMask (keepMask 0 1 0 1 cropExample.x_ cropExample.y_)
                    cropExample.spectra_.rows },
                applyMask (keepMask 0 1 0 1 cropExample.x_ cropExample.y_) cropExample.x_,
                applyMask (keepMask 0 1 0 1 cropExample.x_ cropExample.y_) cropExample.y_))
        ∧ (∀ fuel : Nat, fuel < cropExample.x_.length →
          cropLoop 0 1 0 1 fuel 0 cropExample.x_.length
              (cropExample.spectra_, cropExample.x_, cropExample.y_) = none)
        ∧ (∃ d1, cropExample.CropSpectra 0 1 0 1 = some d1)
        ∧ (∀ (fuel : Nat) (i max : Int) (s : Mat ℚ) (x y : List ℚ)
            (r : Mat ℚ × List ℚ × List ℚ),
            i < max → cropLoop 0 1 0 1 (fuel + 1) i max (s, x, y) = some r →
            0 ≤ i ∧ i.toNat < x.length ∧ i.toNat < y.length
              ∧ ∃ (i1 max1 : Int) (st1 : Mat ℚ × List ℚ × List ℚ),
                  cropLoop 0 1 0 1 fuel i1 max1 st1 = some r
                    ∧ max1 - i1 = max - i - 1)) :=
  ⟨by decide, by decide, CropSpectra_loop_iterations cropExample 0 1 0 1 (by decide) (by decide)⟩

/-- Evaluation on the four rows of `cropExample` and the rectangle
`[0, 1] x [0, 1]`, which deletes the second and the fourth row: three paid
iterations are not enough, four are, and the loop leaves the first and the
third row. -/
theorem CropSpectra_loop_iterations_example :
    cropLoop 0 1 0 1 3 0 4 (cropExample.spectra_, cropExample.x_, cropExample.y_) = none
      ∧ cropLoop 0 1 0 1 4 0 4 (cropExample.spectra_, cropExample.x_, cropExample.y_)
        = some (liftMat 3 [[1, 2, 3], [7, 8, 9]], [0, 1], [0, 1])
      ∧ (cropExample.CropSpectra 0 1 0 1).map (fun d => (d.x_, d.y_))
        = some ([0, 1], [0, 1]) := by
  refine ⟨?_, ?_, ?_⟩ <;> with_unfolding_all decide

end LoopExamples

section MedianSpecProps

variable {K : Type} [LinearOrderedField K]

/-- The specification of the median pins one value. -/
theorem IsMedian_unique (l : List K) (u v : K) (hu : IsMedian l u) (hv : IsMedian l v) :
    u = v := by
  have key : ∀ a b : K, IsMedian l a → IsMedian l b → ¬ (a < b) := by
    intro a b ha hb hab
    have hsplit := List.length_eq_countP_add_countP (fun x => decide (a < x)) l
    have hle : l.countP (fun x => decide ¬ (decide (a < x)) = true)
        ≤ l.countP (fun x => decide (x < b)) := by
      apply List.countP_mono_left
      intro x _ hx
      simp only [decide_eq_true_eq, not_lt] at hx
      simp only [decide_eq_true_eq]
      exact lt_of_le_of_lt hx hab
    have h1 := ha.2.2
    have h2 := hb.2.1
    omega
  rcases lt_trichotomy u v with h | h | h
  · exact absurd h (key u v hu hv)
  · exact h
  · exact absurd h (key v u hv hu)

/-- A window with a non-finite value has a non-finite median. -/
theorem vmedian_nonfin (w : Vec K) (hne : w ≠ []) (hf : finiteValues w = none) :
    vmedian w = some Dbl.nonfin := by
  have hl : w.length ≠ 0 := by
    intro h
    exact hne (List.length_eq_zero.mp h)
  unfold vmedian
  simp only [hl, if_false, hf]

end MedianSpecProps

section MedianFilterProps

variable {K : Type} [LinearOrderedField K]

end MedianFilterProps

section MedianFilterExamples

/-- Evaluation of the median in the spec's words: 4 is the median of 1, 4, 10
and of 4, 10, 4, while 10, which stands in the middle of the second window,
is not; 2 is the median of 3, 1, 2, while 1, which stands in the middle, is
not. Armadillo `median` gives 2 and 4 there, and the filter writes 4 where
the peak of 10 stood. -/
theorem median_spec_example :
    IsMedian [(1 : ℚ), 4, 10] 4 ∧ ¬ IsMedian [(1 : ℚ), 4, 10] 10 ∧ ¬ IsMedian [(1 : ℚ), 4, 10] 1
      ∧ IsMedian [(4 : ℚ), 10, 4] 4 ∧ ¬ IsMedian [(4 : ℚ), 10, 4] 10
      ∧ IsMedian [(3 : ℚ), 1, 2] 2 ∧ ¬ IsMedian [(3 : ℚ), 1, 2] 1 ∧ ¬ IsMedian [(3 : ℚ), 1, 2] 3
      ∧ vmedian (liftVec [(3 : ℚ), 1, 2]) = some (Dbl.fin 2)
      ∧ vmedian (liftVec [(4 : ℚ), 10, 4]) = some (Dbl.fin 4)
      ∧ (peakExample.MedianFilter evalEnv 3).bind (fun d => d.spectra_.elem 1 3)
        = some (Dbl.fin 4) := by
  refine ⟨?_, ?_, ?_, ?_, ?_, ?_, ?_, ?_, ?_, ?_, ?_⟩ <;> with_unfolding_all decide

end MedianFilterExamples

section ReturnProps

variable {K : Type}

/-- `VertexComponents` returns on a spatial dataset when the analysis object
it uses has a rectangular abundance matrix with the requested column. -/
theorem VertexComponents_returns (env : Env K) (d : VespucciDataset K)
    (endmembers image_component : Nat) (name : String) (recalculate : Bool) (data : VCAData K)
    (hsp : d.non_spatial_ = false)
    (hdata : (if recalculate || !d.vertex_components_calculated_
        then some (env.vca d.spectra_ endmembers) else d.vertex_components_data_) = some data)
    (hwf : data.fractional_abundances.wf)
    (hin : usub image_component 1 < data.fractional_abundances.n_cols) :
    ∃ d1, d.VertexComponents env endmembers image_component name recalculate = some d1 := by
  obtain ⟨col, hcol, _⟩ := col_of_wf data.fractional_abundances hwf _ hin
  have hres : data.Results (usub image_component 1) = some col := hcol
  unfold VespucciDataset.VertexComponents
  rw [spatial_if d hsp]
  cases hrun : (recalculate || !d.vertex_components_calculated_)
  · rw [hrun, if_neg (by decide)] at hdata
    simp only [Bool.false_eq_true, if_false, hdata, hres]
    exact ⟨_, rfl⟩
  · rw [hrun, if_pos rfl] at hdata
    have hd2 := Option.some.inj hdata
    simp only [if_true, hd2, hres]
    exact ⟨_, rfl⟩

/-- `PartialLeastSquares` returns on a spatial dataset when the regression
object it uses has a rectangular score matrix with at least one column. -/
theorem PartialLeastSquares_returns (env : Env K) (d : VespucciDataset K)
    (components image_component : Nat) (name : String) (recalculate : Bool) (data : PLSData K)
    (hsp : d.non_spatial_ = false)
    (hdata : (if recalculate || !d.partial_least_squares_calculated_
        then some (env.plsregress d.spectra_ d.wavelength_ components).2
        else d.partial_least_squares_data_) = some data)
    (hwf : data.X_scores.wf) (h1 : 1 ≤ data.NumberComponents) :
    ∃ d1, d.PartialLeastSquares env components image_component name recalculate = some d1 := by
  have hres : ∃ r, data.Results (usub image_component 1) = some r := by
    unfold PLSData.Results
    by_cases hover : usub image_component 1 ≥ data.NumberComponents
    · obtain ⟨col, hcol, _⟩ := col_of_wf data.X_scores hwf (data.NumberComponents - 1)
        (by unfold PLSData.NumberComponents at h1 ⊢; omega)
      rw [if_pos hover, hcol]
      exact ⟨_, rfl⟩
    · obtain ⟨col, hcol, _⟩ := col_of_wf data.X_scores hwf (usub image_component 1)
        (by unfold PLSData.NumberComponents at hover; omega)
      rw [if_neg hover, hcol]
      exact ⟨_, rfl⟩
  obtain ⟨⟨results, valid⟩, hres⟩ := hres
  unfold VespucciDataset.PartialLeastSquares
  rw [spatial_if d hsp]
  cases hrun : (recalculate || !d.partial_least_squares_calculated_)
  · rw [hrun, if_neg (by decide)] at hdata
    simp only [Bool.false_eq_true, if_false, hdata, hres]
    exact ⟨_, rfl⟩
  · rw [hrun, if_pos rfl] at hdata
    have hd2 := Option.some.inj hdata
    simp only [if_true, hd2, hres]
    exact ⟨_, rfl⟩

/-- `PrincipalComponents`, its question answered with Ok, returns on a spatial
dataset when the analysis object it uses has a rectangular score matrix with
the column it reads. -/
theorem PrincipalComponents_returns (env : Env K) (d : VespucciDataset K)
    (component : Int) (name : String) (recalculate : Bool) (data : PrincipalComponentsData K)
    (hsp : d.non_spatial_ = false)
    (hdata : (if recalculate || !d.principal_components_calculated_
        then some (env.princomp d.spectra_) else d.principal_components_data_) = some data)
    (hwf : data.tscore.wf)
    (h0 : 0 ≤ (if recalculate || !d.principal_components_calculated_
        then component - 1 else component))
    (hin : (if recalculate || !d.principal_components_calculated_
        then component - 1 else component).toNat < data.tscore.n_cols) :
    ∃ d1, d.PrincipalComponents env component name recalculate true = some d1 := by
  obtain ⟨col, hcol, _⟩ := col_of_wf data.tscore hwf _ hin
  have hres : data.Results (if recalculate || !d.principal_components_calculated_
      then component - 1 else component) = some col := by
    unfold PrincipalComponentsData.Results
    rw [if_neg (by omega)]
    exact hcol
  unfold VespucciDataset.PrincipalComponents
  rw [spatial_if d hsp]
  cases hrun : (recalculate || !d.principal_components_calculated_)
  · rw [hrun, if_neg (by decide)] at hdata hres
    simp only [Bool.false_eq_true, if_false, hdata, hres]
    exact ⟨_, rfl⟩
  · rw [hrun, if_pos rfl] at hdata hres
    have hd2 := Option.some.inj hdata
    simp only [if_true, Bool.not_true, Bool.false_eq_true, if_false, hd2, hres]
    exact ⟨_, rfl⟩

/-- C21. On a spatial dataset whose analysis objects (the one a call computes
when `recalculate` is true or the calculated flag is false, the cached one
otherwise) have rectangular result matrices with the requested column:
`VertexComponents`, `PartialLeastSquares` and (its question answered with
Ok) `PrincipalComponents` return. When `recalculate` is true or the flag is
false, the call leaves the analysis object that the library computes from
the current spectra and the parameters of this call, and the flag is true
afterwards (for `PartialLeastSquares`: when the run reports success). When
`recalculate` is false and the flag is true, the cached object and the flag
stay as they are and the outcome of the call is the same for every library
and every endmember or component count, so nothing is computed. -/
theorem recompute_policy (env : Env K) (d : VespucciDataset K)
    (endmembers components image_component : Nat) (component : Int) (name : String)
    (recalculate : Bool) (vdata : VCAData K) (pdata : PLSData K)
    (cdata : PrincipalComponentsData K)
    (hsp : d.non_spatial_ = false)
    (hv : (if recalculate || !d.vertex_components_calculated_
        then some (env.vca d.spectra_ endmembers) else d.vertex_components_data_) = some vdata)
    (hvwf : vdata.fractional_abundances.wf)
    (hvin : usub image_component 1 < vdata.fractional_abundances.n_cols)
    (hp : (if recalculate || !d.partial_least_squares_calculated_
        then some (env.plsregress d.spectra_ d.wavelength_ components).2
        else d.partial_least_squares_data_) = some pdata)
    (hpwf : pdata.X_scores.wf) (hp1 : 1 ≤ pdata.NumberComponents)
    (hc : (if recalculate || !d.principal_components_calculated_
        then some (env.princomp d.spectra_) else d.principal_components_data_) = some cdata)
    (hcwf : cdata.tscore.wf)
    (hc0 : 0 ≤ (if recalculate || !d.principal_components_calculated_
        then component - 1 else component))
    (hcin : (if recalculate || !d.principal_components_calculated_
        then component - 1 else component).toNat < cdata.tscore.n_cols) :
    ∃ dv dp dc : VespucciDataset K,
      (d.VertexComponents env endmembers image_component name recalculate = some dv
        ∧ dv.vertex_components_data_ = some vdata
        ∧ (recalculate = true ∨ d.vertex_components_calculated_ = false →
            dv.vertex_components_data_ = some (env.vca d.spectra_ endmembers)
              ∧ dv.vertex_components_calculated_ = true)
        ∧ (recalculate = false ∧ d.vertex_components_calculated_ = true →
            dv.vertex_components_data_ = d.vertex_components_data_
              ∧ dv.vertex_components_calculated_ = true
              ∧ ∀ (env2 : Env K) (endmembers2 : Nat),
                  d.VertexComponents env2 endmembers2 image_component name recalculate
                    = some dv))
      ∧ (d.PartialLeastSquares env components image_component name recalculate = some dp
        ∧ dp.partial_least_squares_data_ = some pdata
        ∧ (recalculate = true ∨ d.partial_least_squares_calculated_ = false →
            dp.partial_least_squares_data_
                = some (env.plsregress d.spectra_ d.wavelength_ components).2
              ∧ ((env.plsregress d.spectra_ d.wavelength_ components).1 = true →
                  dp.partial_least_squares_calculated_ = true))
        ∧ (recalculate = false ∧ d.partial_least_squares_calculated_ = true →
            dp.partial_least_squares_data_ = d.partial_least_squares_data_
              ∧ dp.partial_least_squares_calculated_ = true
              ∧ ∀ (env2 : Env K) (components2 : Nat),
                  d.PartialLeastSquares env2 components2 image_component name recalculate
                    = some dp))
      ∧ (d.PrincipalComponents env component name recalculate true = some dc
        ∧ dc.principal_components_data_ = some cdata
        ∧ (recalculate = true ∨ d.principal_components_calculated_ = false →
            dc.principal_components_data_ = some (env.princomp d.spectra_)
              ∧ dc.principal_components_calculated_ = true)
        ∧ (recalculate = false ∧ d.principal_components_calculated_ = true →
            dc.principal_components_data_ = d.principal_components_data_
              ∧ dc.principal_components_calculated_ = true
              ∧ ∀ env2 : Env K,
                  d.PrincipalComponents env2 component name recalculate true = some dc)) := by
  obtain ⟨dv, hdv⟩ := VertexComponents_returns env d endmembers image_component name recalculate
    vdata hsp hv hvwf hvin
  obtain ⟨dp, hdp⟩ := PartialLeastSquares_returns env d components image_component name
    recalculate pdata hsp hp hpwf hp1
  obtain ⟨dc, hdc⟩ := PrincipalComponents_returns env d component name recalculate cdata hsp hc
    hcwf hc0 hcin
  obtain ⟨hV, hP, hC⟩ := recompute_of_returns env d hsp
  obtain ⟨hV1, hV2⟩ := hV endmembers image_component name recalculate dv hdv
  obtain ⟨hP1, hP2⟩ := hP components image_component name recalculate dp hdp
  obtain ⟨hC1, hC2⟩ := hC component name recalculate dc hdc
  refine ⟨dv, dp, dc, ⟨hdv, ?_, hV1, hV2⟩, ⟨hdp, ?_, hP1, hP2⟩, ⟨hdc, ?_, hC1, hC2⟩⟩
  · obtain ⟨data, _, _, hdata, hd1⟩ :=
      VertexComponents_inv env d dv endmembers image_component name recalculate hsp hdv
    rw [hd1, ← hv, hdata]
    rfl
  · obtain ⟨data, _, _, _, hdata, hd1⟩ :=
      PartialLeastSquares_inv env d dp components image_component name recalculate hsp hdp
    rw [hd1, ← hp, hdata]
    rfl
  · obtain ⟨data, _, _, hdata, hd1⟩ :=
      PrincipalComponents_inv env d dc component name recalculate hsp hdc
    rw [hd1, ← hc, hdata]
    rfl

end ReturnProps

section ReturnExamples

theorem recompute_policy_witness :
    cachedExample.non_spatial_ = false
      ∧ (if false || !cachedExample.vertex_components_calculated_
          then some (markEnv.vca cachedExample.spectra_ 3)
          else cachedExample.vertex_components_data_)
        = some (markEnv.vca peakExample.spectra_ 2)
      ∧ (markEnv.vca peakExample.spectra_ 2).fractional_abundances.wf
      ∧ usub 1 1 < (markEnv.vca peakExample.spectra_ 2).fractional_abundances.n_cols
      ∧ (if false || !cachedExample.partial_least_squares_calculated_
          then some (markEnv.plsregress cachedExample.spectra_ cachedExample.wavelength_ 2).2
          else cachedExample.partial_least_squares_data_)
        = some (markEnv.plsregress cachedExample.spectra_ cachedExample.wavelength_ 2).2
      ∧ (markEnv.plsregress cachedExample.spectra_ cachedExample.wavelength_ 2).2.X_scores.wf
      ∧ 1 ≤ (markEnv.plsregress cachedExample.spectra_
          cachedExample.wavelength_ 2).2.NumberComponents
      ∧ (if false || !cachedExample.principal_components_calculated_
          then some (markEnv.princomp cachedExample.spectra_)
          else cachedExample.principal_components_data_)
        = some (markEnv.princomp cachedExample.spectra_)
      ∧ (markEnv.princomp cachedExample.spectra_).tscore.wf
      ∧ 0 ≤ (if false || !cachedExample.principal_components_calculated_
          then (1 : Int) - 1 else 1)
      ∧ (if false || !cachedExample.principal_components_calculated_
          then (1 : Int) - 1 else 1).toNat < (markEnv.princomp cachedExample.spectra_).tscore.n_cols
      ∧ ∃ dv dp dc : VespucciDataset ℚ,
        (cachedExample.VertexComponents markEnv 3 1 "m" false = some dv
          ∧ dv.vertex_components_data_ = some (markEnv.vca peakExample.spectra_ 2)
          ∧ (false = true ∨ cachedExample.vertex_components_calculated_ = false →
              dv.vertex_components_data_ = some (markEnv.vca cachedExample.spectra_ 3)
                ∧ dv.vertex_components_calculated_ = true)
          ∧ (false = false ∧ cachedExample.vertex_components_calculated_ = true →
              dv.vertex_components_data_ = cachedExample.vertex_components_data_
                ∧ dv.vertex_components_calculated_ = true
                ∧ ∀ (env2 : Env ℚ) (endmembers2 : Nat),
                    cachedExample.VertexComponents env2 endmembers2 1 "m" false = some dv))
        ∧ (cachedExample.PartialLeastSquares markEnv 2 1 "m" false = some dp
          ∧ dp.partial_least_squares_data_
            = some (markEnv.plsregress cachedExample.spectra_ cachedExample.wavelength_ 2).2
          ∧ (false = true ∨ cachedExample.partial_least_squares_calculated_ = false →
              dp.partial_least_squares_data_
                  = some (markEnv.plsregress cachedExample.spectra_
                      cachedExample.wavelength_ 2).2
                ∧ ((markEnv.plsregress cachedExample.spectra_
                      cachedExample.wavelength_ 2).1 = true →
                    dp.partial_least_squares_calculated_ = true))
          ∧ (false = false ∧ cachedExample.partial_least_squares_calculated_ = true →
              dp.partial_least_squares_data_ = cachedExample.partial_least_squares_data_
                ∧ dp.partial_least_squares_calculated_ = true
                ∧ ∀ (env2 : Env ℚ) (components2 : Nat),
                    cachedExample.PartialLeastSquares env2 components2 1 "m" false = some dp))
        ∧ (cachedExample.PrincipalComponents markEnv 1 "m" false true = some dc
          ∧ dc.principal_components_data_ = some (markEnv.princomp cachedExample.spectra_)
          ∧ (false = true ∨ cachedExample.principal_components_calculated_ = false →
              dc.principal_components_data_ = some (markEnv.princomp cachedExample.spectra_)
                ∧ dc.principal_components_calculated_ = true)
          ∧ (false = false ∧ cachedExample.principal_components_calculated_ = true →
              dc.principal_components_data_ = cachedExample.principal_components_data_
                ∧ dc.principal_components_calculated_ = true
                ∧ ∀ env2 : Env ℚ,
                    cachedExample.PrincipalComponents env2 1 "m" false true = some dc)) :=
  ⟨rfl, by with_unfolding_all decide, by with_unfolding_all decide,
    by with_unfolding_all decide, by with_unfolding_all decide, by with_unfolding_all decide,
    by with_unfolding_all decide, by with_unfolding_all decide, by with_unfolding_all decide,
    by with_unfolding_all decide, by with_unfolding_all decide,
    recompute_policy markEnv cachedExample 3 2 1 1 "m" false _ _ _ rfl
      (by with_unfolding_all decide) (by with_unfolding_all decide)
      (by with_unfolding_all decide) (by with_unfolding_all decide)
      (by with_unfolding_all decide) (by with_unfolding_all decide)
      (by with_unfolding_all decide) (by with_unfolding_all decide)
      (by with_unfolding_all decide) (by with_unfolding_all decide)⟩

/-- Evaluation on the dataset with a cached vertex component analysis of 2
endmembers: a call without `recalculate` that asks for 3 endmembers returns
and maps the cached abundances (all 2), the flag stays set; with
`recalculate` it maps the abundances of a run with 3. The regression and the
principal components were never calculated, so the same calls compute them
and set their flags. -/
theorem recompute_returns_example :
    (cachedExample.VertexComponents markEnv 3 1 "m" false).map
        (fun d => (d.vertex_components_calculated_, d.maps_.map (fun m => m.results)))
      = some (true, [liftVec [2, 2]])
    ∧ (cachedExample.VertexComponents markEnv 3 1 "m" true).map
        (fun d => (d.vertex_components_calculated_, d.maps_.map (fun m => m.results)))
      = some (true, [liftVec [3, 3]])
    ∧ (cachedExample.PartialLeastSquares markEnv 2 1 "m" false).map
        (fun d => (d.partial_least_squares_calculated_, d.maps_.map (fun m => m.results)))
      = some (true, [liftVec [20, 20]])
    ∧ (cachedExample.PrincipalComponents markEnv 1 "m" false true).map
        (fun d => (d.principal_components_calculated_, d.maps_.map (fun m => m.results)))
      = some (true, [liftVec [0, 0]]) := by
  refine ⟨?_, ?_, ?_, ?_⟩ <;> with_unfolding_all decide

end ReturnExamples

end Vespucci
